import Mathlib

/-!
# A shallow embedding of the c-lexer tokenizer

Source files embedded: `src/tokenizer/tokenizer.h`, `src/tokenizer/tokenizer.c`
and the driver loop of `src/lexer.c`.

Modelling conventions.
* A source byte (`char`) is a `Nat`.  Every test the tokenizer performs on a byte is a
  comparison against an ASCII constant, so bytes `>= 0x80` (negative as `signed char`)
  fail the same tests in the model as in the C code.
* `int` fields (`offset`, `line`, `column`) are `Nat`; inputs are files far below `2^31`
  bytes, so no arithmetic wraps.
* `context->content_length` is the number of bytes read, i.e. the length of `content`.
* The global `TokenizerError error` is threaded explicitly: a `State` is the pair of the
  scan context and the error slot.  `error.message == NULL` is `message = none`.
* `while`/`for (;;)` loops are structural recursions on a fuel argument, started with
  `content_length + 1`; each iteration consumes at least one in-range byte, so the fuel
  never runs out: every loop is left by its own test or by the `return` inside it
  (`scan_while_eq` and `scan_while_exit` for the byte-class loops, `skip_exit`,
  `skip_single_comment_loop_exit`, `skip_multi_comment_loop_true`,
  `skip_multi_comment_loop_false`, `tokenize_identifier_loop_exit`,
  `tokenize_dec_part_loop_exit`, `tokenize_string_loop_facts`,
  `tokenize_string_loop_false`), and the result of every loop is the same for any larger
  fuel (`skip_loop_stable`, `skip_multi_comment_loop_fuel`, `tokenize_dec_part_loop_fuel`,
  `tokenize_string_loop_fuel`).
* The decoder `token_content_to_value` returns a `Value`: the C string it builds, `null`
  for the `default` case, or `undefined` when it reads or writes outside of its buffers.
  Its buffer `res` is the interior of the lexeme followed by two NUL bytes (`res_at`);
  `unsigned int` arithmetic is taken modulo `2 ^ 32`.
* `malloc` never fails.
-/

namespace CLexer

/-- The enumeration `TokenType` of `tokenizer.h`, in declaration order. -/
inductive TokenType where
  | LEFT_PARENT | RIGHT_PARENT | LEFT_BRACE | RIGHT_BRACE | LEFT_SQUARE | RIGHT_SQUARE
  | COMMA | DOT | SEMI | COLON | IMPLICATION
  | PLUS | MINUS | MULTIPLY | DIVIDE | MODULO
  | AND | OR | NOT
  | EQUALS | NOT_EQUALS | GREATER | LESS | GREATER_OR_EQUAL | LESS_OR_EQUAL
  | ASSIGN | PLUS_ASSIGN | MINUS_ASSIGN | MULTIPLY_ASSIGN | DIVIDE_ASSIGN | MODULO_ASSIGN
  | BIT_AND | BIT_OR | BIT_NOT | BIT_XOR | BIT_SHIFT_LEFT | BIT_SHIFT_RIGHT
  | BIT_AND_ASSIGN | BIT_OR_ASSIGN | BIT_XOR_ASSIGN | BIT_SHIFT_LEFT_ASSIGN
  | BIT_SHIFT_RIGHT_ASSIGN
  | UNARY_MINUS | INCREMENT | DECREMENT
  | AT_SYMBOL | QUESTION_MARK | IS | AS
  | PACKAGE | IMPORT | STRUCT
  | FN | RETURN | VAL | VAR | IF | ELSE | FOR | DO | WHILE | CONTINUE | BREAK | THIS
  | TRUE | FALSE
  | IDENTIFIER
  | HEX_LONG_NUMBER | BIN_LONG_NUMBER | DEC_LONG_NUMBER | HEX_NUMBER | BIN_NUMBER
  | DEC_NUMBER | FLOAT_NUMBER | DOUBLE_NUMBER | CHAR_LITERAL | STRING_LITERAL
  | ERROR
  deriving DecidableEq, Repr

/-- The integer value of an enumerator (its position in the declaration). -/
def TokenType.ord (t : TokenType) : Nat := t.toCtorIdx

/-- The struct `TokenizerFrame`. -/
structure TokenizerFrame where
  offset : Nat
  line : Nat
  column : Nat
  deriving DecidableEq, Repr

/-- The struct `TokenizerContext`; `content_length` is `content.length`. -/
structure TokenizerContext where
  content : List Nat
  frame : TokenizerFrame
  type : TokenType
  offset : Nat
  line : Nat
  column : Nat
  deriving DecidableEq, Repr

/-- The field `content_length` of the context. -/
def TokenizerContext.content_length (c : TokenizerContext) : Nat := c.content.length

/-- The struct `TokenizerError`; a `NULL` message is `none`. -/
structure TokenizerError where
  message : Option String
  frame : TokenizerFrame
  deriving DecidableEq, Repr

/-- The struct `Token`; `content` is the C string held by the token. -/
structure Token where
  type : TokenType
  content : List Nat
  offset : Nat
  length : Nat
  line : Nat
  column : Nat
  deriving DecidableEq, Repr

/-- The scan context together with the global error slot. -/
structure State where
  context : TokenizerContext
  error : TokenizerError
  deriving DecidableEq, Repr

/-- The ASCII bytes of a string constant. -/
def bytes (s : String) : List Nat := s.toList.map Char.toNat

/-- Macro `is_number`. -/
def is_number (c : Nat) : Bool := decide (48 ≤ c) && decide (c ≤ 57)

/-- Macro `is_identifier_start`: a letter, `_` (95) or `$` (36). -/
def is_identifier_start (c : Nat) : Bool :=
  (decide (97 ≤ c) && decide (c ≤ 122)) || (decide (65 ≤ c) && decide (c ≤ 90))
    || decide (c = 95) || decide (c = 36)

/-- Macro `is_identifier`. -/
def is_identifier (c : Nat) : Bool := is_identifier_start c || is_number c

/-- Macro `is_number_hex`. -/
def is_number_hex (c : Nat) : Bool :=
  is_number c || (decide (97 ≤ c) && decide (c ≤ 102)) || (decide (65 ≤ c) && decide (c ≤ 70))

/-- Function `collect_frame`. -/
def collect_frame (c : TokenizerContext) : TokenizerFrame :=
  { offset := c.offset, line := c.line, column := c.column }

/-- Function `peek_n`: the byte at `offset + n`, or `0` past the end. -/
def peek_n (c : TokenizerContext) (n : Nat) : Nat :=
  if c.offset + n ≥ c.content_length then 0 else c.content.getD (c.offset + n) 0

/-- Function `peek`. -/
def peek (c : TokenizerContext) : Nat := peek_n c 0

/-- Function `next`, as the context it leaves; the byte it returns is `peek` of the
context it is called on.  The `if (result == '\n')` of the source is written field by
field: on a line feed `line` is incremented and `column` becomes 1, otherwise `column` is
incremented; `offset` is incremented in both branches. -/
def next (c : TokenizerContext) : TokenizerContext :=
  { c with
    line := if peek c = 10 then c.line + 1 else c.line
    column := if peek c = 10 then 1 else c.column + 1
    offset := c.offset + 1 }

/-- Function `next_2`. -/
def next_2 (c : TokenizerContext) : TokenizerContext := next (next c)

/-- The `while` loop of `skip_single_comment`. -/
def skip_single_comment_loop : Nat → TokenizerContext → TokenizerContext
  | 0, c => c
  | fuel + 1, c =>
    if peek c ≠ 13 ∧ peek c ≠ 10 ∧ peek c ≠ 0 then
      skip_single_comment_loop fuel (next c)
    else c

/-- Function `skip_single_comment`. -/
def skip_single_comment (c : TokenizerContext) : TokenizerContext :=
  next (skip_single_comment_loop (c.content_length + 1) (next_2 c))

/-- The `while` loop of `skip_multi_comment`; `frame` is the position of the `/*`.
The result is the state at the `return` inside the loop or at the loop exit, the second
component telling which: `true` for the loop exit. -/
def skip_multi_comment_loop (frame : TokenizerFrame) : Nat → State → State × Bool
  | 0, s => (s, false)
  | fuel + 1, s =>
    if peek_n s.context 0 ≠ 42 ∨ peek_n s.context 1 ≠ 47 then
      if s.context.offset ≥ s.context.content_length then
        ({ s with error := { message := some "unterminated comment", frame := frame } }, false)
      else
        skip_multi_comment_loop frame fuel { s with context := next s.context }
    else (s, true)

/-- Function `skip_multi_comment`. -/
def skip_multi_comment (s : State) : State :=
  let frame := collect_frame s.context
  let r := skip_multi_comment_loop frame (s.context.content_length + 1)
    { s with context := next_2 s.context }
  if r.2 then { r.1 with context := next_2 r.1.context } else r.1

/-- The `for (;;)` loop of `skip`. -/
def skip_loop : Nat → State → State
  | 0, s => s
  | fuel + 1, s =>
    if peek_n s.context 0 = 47 ∧ peek_n s.context 1 = 42 then
      skip_loop fuel (skip_multi_comment s)
    else if peek_n s.context 0 = 47 ∧ peek_n s.context 1 = 47 then
      skip_loop fuel { s with context := skip_single_comment s.context }
    else if peek s.context = 32 ∨ peek s.context = 9 ∨ peek s.context = 10
        ∨ peek s.context = 13 then
      skip_loop fuel { s with context := next s.context }
    else s

/-- Function `skip`. -/
def skip (s : State) : State := skip_loop (s.context.content_length + 1) s

/-- Function `slice`: `strncpy` of the bytes from the frame to the cursor, read back as
a C string (it ends at the first NUL byte). -/
def slice (c : TokenizerContext) : List Nat :=
  (((c.content.drop c.frame.offset).take (c.offset - c.frame.offset)).takeWhile
    (fun b => decide (b ≠ 0)))

/-- The `strcmp` chain of `tokenize_identifier`, applied to the sliced lexeme. -/
def identifier_type (content : List Nat) : TokenType :=
  if content = bytes "is" then TokenType.IS
  else if content = bytes "as" then TokenType.AS
  else if content = bytes "package" then TokenType.PACKAGE
  else if content = bytes "import" then TokenType.IMPORT
  else if content = bytes "struct" then TokenType.STRUCT
  else if content = bytes "fn" then TokenType.FN
  else if content = bytes "return" then TokenType.RETURN
  else if content = bytes "var" then TokenType.VAR
  else if content = bytes "val" then TokenType.VAL
  else if content = bytes "if" then TokenType.IF
  else if content = bytes "else" then TokenType.ELSE
  else if content = bytes "for" then TokenType.FOR
  else if content = bytes "do" then TokenType.DO
  else if content = bytes "while" then TokenType.WHILE
  else if content = bytes "continue" then TokenType.CONTINUE
  else if content = bytes "break" then TokenType.BREAK
  else if content = bytes "this" then TokenType.THIS
  else if content = bytes "true" then TokenType.TRUE
  else if content = bytes "false" then TokenType.FALSE
  else TokenType.IDENTIFIER

/-- The `do ... while` loop of `tokenize_identifier`. -/
def tokenize_identifier_loop : Nat → TokenizerContext → TokenizerContext
  | 0, c => c
  | fuel + 1, c =>
    if is_identifier (peek (next c)) then tokenize_identifier_loop fuel (next c)
    else next c

/-- Function `tokenize_identifier`. -/
def tokenize_identifier (c : TokenizerContext) : TokenType × TokenizerContext :=
  let c1 := tokenize_identifier_loop (c.content_length + 1) c
  (identifier_type (slice c1), c1)

/-- The `for (;;)` loop of `tokenize_dec_part`; the result is the context with the
final values of `last_underscore` and `has_number`. -/
def tokenize_dec_part_loop :
    Nat → TokenizerContext → Bool → Bool → TokenizerContext × Bool × Bool
  | 0, c, last_underscore, has_number => (c, last_underscore, has_number)
  | fuel + 1, c, last_underscore, has_number =>
    if is_number (peek c) then tokenize_dec_part_loop fuel (next c) false true
    else if peek c = 95 then tokenize_dec_part_loop fuel (next c) true has_number
    else (c, last_underscore, has_number)

/-- Function `tokenize_dec_part`. -/
def tokenize_dec_part (s : State) (req : Bool) : Bool × State :=
  if peek s.context = 95 then
    (false, { s with error :=
      { message := some
          "numeric literal cannot have an underscore as it's first or last character",
        frame := s.context.frame } })
  else
    let r := tokenize_dec_part_loop (s.context.content_length + 1) s.context false false
    if !r.2.2 && req then
      (false, { context := r.1, error :=
        { message := some "numeric literal cannot terminate with a dot",
          frame := r.1.frame } })
    else if r.2.1 then
      (false, { context := r.1, error :=
        { message := some "numeric literal cannot have an underscore as it's last character",
          frame := r.1.frame } })
    else (true, { s with context := r.1 })

/-- The suffix tests closing `tokenize_floating_point_number` (`f`/`F`, then `d`/`D`). -/
def floating_point_suffix (s : State) : TokenType × State :=
  if peek s.context = 102 ∨ peek s.context = 70 then
    (TokenType.FLOAT_NUMBER, { s with context := next s.context })
  else if peek s.context = 100 ∨ peek s.context = 68 then
    (TokenType.DOUBLE_NUMBER, { s with context := next s.context })
  else (TokenType.DOUBLE_NUMBER, s)

/-- The first three assignments of `tokenize_floating_point_number`: the cursor is put
back on the frame. -/
def rewind (c : TokenizerContext) : TokenizerContext :=
  { c with offset := c.frame.offset, line := c.frame.line, column := c.frame.column }

/-- Function `tokenize_floating_point_number`: rewinds the cursor to the frame and scans
the literal again. -/
def tokenize_floating_point_number (s : State) : TokenType × State :=
  let r1 := tokenize_dec_part { s with context := rewind s.context } false
  if !r1.1 then (TokenType.ERROR, r1.2)
  else if peek r1.2.context = 46 then
    let r2 := tokenize_dec_part { r1.2 with context := next r1.2.context } true
    if !r2.1 then (TokenType.ERROR, r2.2)
    else floating_point_suffix r2.2
  else floating_point_suffix r1.2

/-- Function `tokenize_dec_number`. -/
def tokenize_dec_number (s : State) : TokenType × State :=
  let r := tokenize_dec_part s true
  if !r.1 then (TokenType.ERROR, r.2)
  else if peek r.2.context = 46 then tokenize_floating_point_number r.2
  else if peek r.2.context = 102 ∨ peek r.2.context = 70 then
    (TokenType.FLOAT_NUMBER, { r.2 with context := next r.2.context })
  else if peek r.2.context = 100 ∨ peek r.2.context = 68 then
    (TokenType.DOUBLE_NUMBER, { r.2 with context := next r.2.context })
  else if peek r.2.context = 108 ∨ peek r.2.context = 76 then
    (TokenType.DEC_LONG_NUMBER, { r.2 with context := next r.2.context })
  else (TokenType.DEC_NUMBER, r.2)

/-- Function `tokenize_number`. -/
def tokenize_number (s : State) : TokenType × State :=
  if peek_n s.context 0 = 46 then
    if is_number (peek_n s.context 1) then tokenize_floating_point_number s
    else (TokenType.DOT, { s with context := next s.context })
  else tokenize_dec_number s

/-- The `for` loop of the `u` case of `tokenize_escape`, with the number of hex digits
still to read; the flag is `false` when a byte is not a hex digit, and the context is the
one reached at that point. -/
def tokenize_escape_hex : Nat → TokenizerContext → Bool × TokenizerContext
  | 0, c => (true, c)
  | k + 1, c => if is_number_hex (peek c) then tokenize_escape_hex k (next c) else (false, c)

/-- Function `tokenize_escape`; `allowed_char` is the quote of the enclosing literal. -/
def tokenize_escape (s : State) (allowed_char : Nat) : Bool × State :=
  let frame := collect_frame s.context
  let c1 := next s.context
  let current := peek c1
  let invalid : Bool × State :=
    (false, { context := c1,
              error := { message := some "invalid escape sequence", frame := frame } })
  if current = 39 ∨ current = 34 then
    if current ≠ allowed_char then invalid
    else (true, { s with context := next c1 })
  else if current = 110 ∨ current = 116 ∨ current = 114 ∨ current = 48 ∨ current = 92 then
    (true, { s with context := next c1 })
  else if current = 117 then
    let r := tokenize_escape_hex 4 (next c1)
    if r.1 then (true, { s with context := r.2 })
    else (false, { context := r.2,
                   error := { message := some "invalid unicode", frame := frame } })
  else invalid

/-- The `while` loop of `tokenize_string`.  The flag is `true` at the loop exit (the
cursor is on the closing quote) and `false` at the `return ERROR` inside the loop.  The
result of `tokenize_escape` is discarded, as in the source. -/
def tokenize_string_loop : Nat → State → Bool × State
  | 0, s => (false, s)
  | fuel + 1, s =>
    if peek s.context ≠ 34 then
      if s.context.offset ≥ s.context.content_length then
        (false, { s with error :=
          { message := some "string literal is not completed", frame := s.context.frame } })
      else if peek s.context = 92 then
        tokenize_string_loop fuel (tokenize_escape s 34).2
      else
        tokenize_string_loop fuel { s with context := next s.context }
    else (true, s)

/-- Function `tokenize_string`. -/
def tokenize_string (s : State) : TokenType × State :=
  let r := tokenize_string_loop (s.context.content_length + 1)
    { s with context := next s.context }
  if r.1 then (TokenType.STRING_LITERAL, { r.2 with context := next r.2.context })
  else (TokenType.ERROR, r.2)

/-- The closing-quote test of `tokenize_char`: `next(context) != '\''`. -/
def tokenize_char_close (s : State) : TokenType × State :=
  if peek s.context ≠ 39 then
    (TokenType.ERROR, { context := next s.context, error :=
      { message := some "symbol literal is not completed", frame := s.context.frame } })
  else (TokenType.CHAR_LITERAL, { s with context := next s.context })

/-- Function `tokenize_char`. -/
def tokenize_char (s : State) : TokenType × State :=
  let s1 : State := { s with context := next s.context }
  if peek s1.context = 92 then
    let r := tokenize_escape s1 39
    if !r.1 then (TokenType.ERROR, r.2)
    else tokenize_char_close r.2
  else tokenize_char_close { s1 with context := next s1.context }

/-- Function `tokenize_operator`. -/
def tokenize_operator (s : State) : TokenType × State :=
  let first := peek s.context
  let c1 := next s.context
  let s1 : State := { s with context := c1 }
  let adv : State := { s with context := next c1 }
  if first = 40 then (TokenType.LEFT_PARENT, s1)
  else if first = 41 then (TokenType.RIGHT_PARENT, s1)
  else if first = 123 then (TokenType.LEFT_BRACE, s1)
  else if first = 125 then (TokenType.RIGHT_BRACE, s1)
  else if first = 91 then (TokenType.LEFT_SQUARE, s1)
  else if first = 93 then (TokenType.RIGHT_SQUARE, s1)
  else if first = 44 then (TokenType.COMMA, s1)
  else if first = 59 then (TokenType.SEMI, s1)
  else if first = 58 then (TokenType.COLON, s1)
  else if first = 63 then (TokenType.QUESTION_MARK, s1)
  else if first = 64 then (TokenType.AT_SYMBOL, s1)
  else if first = 126 then (TokenType.BIT_NOT, s1)
  else if first = 61 then
    if peek c1 = 61 then (TokenType.EQUALS, adv) else (TokenType.ASSIGN, s1)
  else if first = 33 then
    if peek c1 = 61 then (TokenType.NOT_EQUALS, adv) else (TokenType.NOT, s1)
  else if first = 62 then
    if peek c1 = 61 then (TokenType.GREATER_OR_EQUAL, adv)
    else if peek c1 = 62 then
      if peek (next c1) = 61 then
        (TokenType.BIT_SHIFT_RIGHT_ASSIGN, { s with context := next (next c1) })
      else (TokenType.BIT_SHIFT_RIGHT, adv)
    else (TokenType.GREATER, s1)
  else if first = 60 then
    if peek c1 = 61 then (TokenType.LESS_OR_EQUAL, adv)
    else if peek c1 = 60 then
      if peek (next c1) = 61 then
        (TokenType.BIT_SHIFT_LEFT_ASSIGN, { s with context := next (next c1) })
      else (TokenType.BIT_SHIFT_LEFT, adv)
    else (TokenType.LESS, s1)
  else if first = 38 then
    if peek c1 = 38 then (TokenType.AND, adv)
    else if peek c1 = 61 then (TokenType.BIT_AND_ASSIGN, adv)
    else (TokenType.BIT_AND, s1)
  else if first = 124 then
    if peek c1 = 124 then (TokenType.OR, adv)
    else if peek c1 = 61 then (TokenType.BIT_OR_ASSIGN, adv)
    else (TokenType.BIT_OR, s1)
  else if first = 94 then
    if peek c1 = 61 then (TokenType.BIT_XOR_ASSIGN, adv) else (TokenType.BIT_XOR, s1)
  else if first = 43 then
    if peek c1 = 43 then (TokenType.INCREMENT, adv)
    else if peek c1 = 61 then (TokenType.PLUS_ASSIGN, adv)
    else (TokenType.PLUS, s1)
  else if first = 45 then
    if peek c1 = 45 then (TokenType.DECREMENT, adv)
    else if peek c1 = 61 then (TokenType.MINUS_ASSIGN, adv)
    else if peek c1 = 62 then (TokenType.IMPLICATION, adv)
    else if (TokenType.PLUS.ord ≤ c1.type.ord ∧ c1.type.ord ≤ TokenType.AS.ord)
        ∨ c1.type = TokenType.LEFT_PARENT
        ∨ c1.type = TokenType.LEFT_SQUARE
        ∨ c1.type = TokenType.RETURN
        ∨ c1.type = TokenType.THIS then
      (TokenType.UNARY_MINUS, s1)
    else (TokenType.MINUS, s1)
  else if first = 42 then
    if peek c1 = 61 then (TokenType.MULTIPLY_ASSIGN, adv) else (TokenType.MULTIPLY, s1)
  else if first = 47 then
    if peek c1 = 61 then (TokenType.DIVIDE_ASSIGN, adv) else (TokenType.DIVIDE, s1)
  else if first = 37 then
    if peek c1 = 61 then (TokenType.MODULO_ASSIGN, adv) else (TokenType.MODULO, s1)
  else if first = 46 then
    if is_number (peek c1) then tokenize_floating_point_number s1
    else (TokenType.DOT, s1)
  else
    (TokenType.ERROR, { context := c1, error :=
      { message := some "unknown operator", frame := c1.frame } })

/-- The classifier dispatch of `tokenizer_next` on the first byte of the token. -/
def tokenizer_dispatch (s : State) : TokenType × State :=
  let first := peek s.context
  if is_identifier_start first then
    let r := tokenize_identifier s.context
    (r.1, { s with context := r.2 })
  else if is_number first || decide (first = 46) then tokenize_number s
  else if first = 34 then tokenize_string s
  else if first = 39 then tokenize_char s
  else tokenize_operator s

/-- Function `tokenizer_next`: the token, or `none` for the `NULL` result, with the state
the call leaves. -/
def tokenizer_next (s : State) : Option Token × State :=
  let s1 := skip s
  if s1.context.offset ≥ s1.context.content_length ∨ s1.error.message.isSome then (none, s1)
  else
    let r := tokenizer_dispatch
      { s1 with context := { s1.context with frame := collect_frame s1.context } }
    if r.1 = TokenType.ERROR then (none, r.2)
    else
      let c : TokenizerContext := { r.2.context with type := r.1 }
      (some { type := r.1, content := slice c, offset := c.frame.offset,
              length := c.offset - c.frame.offset, line := c.frame.line,
              column := c.frame.column },
       { r.2 with context := c })

/-- Function `tokenizer_init` on the bytes read from the file.  The context is
allocated with `malloc` and its `frame` and `type` fields are not assigned, so their
initial values are arbitrary: they are parameters here. -/
def tokenizer_init (content : List Nat) (frame : TokenizerFrame) (type : TokenType) :
    TokenizerContext :=
  { content := content, frame := frame, type := type, offset := 0, line := 1, column := 1 }

/-- The state in which `main` starts scanning: a fresh context and the zero-initialised
global error slot. -/
def initial_state (content : List Nat) (frame : TokenizerFrame) (type : TokenType) : State :=
  { context := tokenizer_init content frame type,
    error := { message := none, frame := { offset := 0, line := 0, column := 0 } } }

/-- The driver loop of `main` in `lexer.c`, cut off after `n` calls: the tokens returned
by successive calls of `tokenizer_next` up to the first `NULL`, and the state reached. -/
def token_stream : Nat → State → List Token × State
  | 0, s => ([], s)
  | n + 1, s =>
    match tokenizer_next s with
    | (none, s1) => ([], s1)
    | (some t, s1) => (t :: (token_stream n s1).1, (token_stream n s1).2)


/-! ## Specification-side definitions -/

/-- The bytes of `S` from index `a` up to (not including) index `b`. -/
def seg (S : List Nat) (a b : Nat) : List Nat := (S.drop a).take (b - a)

/-- The line of the byte at `off`, in the words of the specification: one more than the
number of line feeds before it. -/
def line_of (S : List Nat) (off : Nat) : Nat := 1 + (S.take off).count 10

/-- The column of the byte at `off`, in the words of the specification: one more than the
number of bytes between the last line feed before `off` (or the start of the input) and
`off`. -/
def column_of (S : List Nat) (off : Nat) : Nat :=
  1 + ((S.take off).reverse.takeWhile (fun b => decide (b ≠ 10))).length

/-- The cursor position `(off, line, col)` agrees with the line/column specification
whenever it lies inside the input. -/
def PosOK (S : List Nat) (off line col : Nat) : Prop :=
  off ≤ S.length → line = line_of S off ∧ col = column_of S off

/-- The cursor of a context carries the right line and column. -/
def PosInv (c : TokenizerContext) : Prop := PosOK c.content c.offset c.line c.column

/-- Both the cursor and the frame of a context carry the right line and column. -/
def Inv (c : TokenizerContext) : Prop :=
  PosInv c ∧ PosOK c.content c.frame.offset c.frame.line c.frame.column

/-- What a forward move of the cursor preserves: the buffer, the frame, the previous token
kind and the position invariant of the cursor. -/
def Adv (c c1 : TokenizerContext) : Prop :=
  c1.content = c.content ∧ c1.frame = c.frame ∧ c1.type = c.type ∧ (PosInv c → PosInv c1)

/-- What every scanning step preserves, a rewind to the frame included: the buffer, the
frame, the previous token kind and the position invariant of cursor and frame. -/
def Pres (c c1 : TokenizerContext) : Prop :=
  c1.content = c.content ∧ c1.frame = c.frame ∧ c1.type = c.type ∧ (Inv c → Inv c1)

/-- The generic scanning loop `while (p(peek(context))) next(context);`, to which the
byte-class loops of the tokenizer are compared. -/
def scan_while (p : Nat → Bool) : Nat → TokenizerContext → TokenizerContext
  | 0, c => c
  | fuel + 1, c => if p (peek c) then scan_while p fuel (next c) else c

/-- The byte class scanned by `tokenize_dec_part`: a digit or `_`. -/
def dec_part_byte (b : Nat) : Bool := is_number b || decide (b = 95)

/-- The length of the longest run of bytes satisfying `p` at the cursor. -/
def run_length (p : Nat → Bool) (c : TokenizerContext) : Nat :=
  ((c.content.drop c.offset).takeWhile p).length

/-- The byte class of the body of a `//` comment: not CR, not LF, not NUL. -/
def line_comment_byte (b : Nat) : Bool := decide (b ≠ 13) && decide (b ≠ 10) && decide (b ≠ 0)

/-- Trivia, in the words of the specification: a sequence of whitespace bytes (space,
tab, LF, CR), `//` comments running through their terminator (CR, LF, a NUL byte, or the
end of the input) and `/* ... */` comments. -/
inductive Trivia : List Nat → Prop
  | nil : Trivia []
  | space (b : Nat) (rest : List Nat) :
      (b = 32 ∨ b = 9 ∨ b = 10 ∨ b = 13) → Trivia rest → Trivia (b :: rest)
  | line (body term rest : List Nat) :
      (∀ b ∈ body, b ≠ 13 ∧ b ≠ 10 ∧ b ≠ 0) →
      ((term = [] ∧ rest = []) ∨ term = [13] ∨ term = [10] ∨ term = [0]) →
      Trivia rest → Trivia (47 :: 47 :: (body ++ term ++ rest))
  | block (body rest : List Nat) :
      Trivia rest → Trivia (47 :: 42 :: (body ++ 42 :: 47 :: rest))

/-- The delimiters of a lexeme that starts at index `b` and ends before index `e` of `S`:
a string literal starts and ends with `"` (34) and a character literal with `'` (39), the
two quotes being different bytes; a float literal ends with `f`/`F` and a long literal
with `l`/`L`. -/
def Delimited (S : List Nat) (b e : Nat) : TokenType → Prop
  | TokenType.STRING_LITERAL => b + 2 ≤ e ∧ S.getD b 0 = 34 ∧ S.getD (e - 1) 0 = 34
  | TokenType.CHAR_LITERAL => b + 2 ≤ e ∧ S.getD b 0 = 39 ∧ S.getD (e - 1) 0 = 39
  | TokenType.FLOAT_NUMBER => S.getD (e - 1) 0 = 102 ∨ S.getD (e - 1) 0 = 70
  | TokenType.DEC_LONG_NUMBER => S.getD (e - 1) 0 = 108 ∨ S.getD (e - 1) 0 = 76
  | _ => True

/-- The keyword table in the words of the specification: the 19 keyword spellings, each
with its kind. -/
def keyword_table : List (String × TokenType) :=
  [("package", TokenType.PACKAGE), ("import", TokenType.IMPORT), ("struct", TokenType.STRUCT),
   ("fn", TokenType.FN), ("return", TokenType.RETURN), ("var", TokenType.VAR),
   ("val", TokenType.VAL), ("if", TokenType.IF), ("else", TokenType.ELSE),
   ("for", TokenType.FOR), ("do", TokenType.DO), ("while", TokenType.WHILE),
   ("continue", TokenType.CONTINUE), ("break", TokenType.BREAK), ("this", TokenType.THIS),
   ("true", TokenType.TRUE), ("false", TokenType.FALSE), ("is", TokenType.IS),
   ("as", TokenType.AS)]

/-- The kind the specification gives to an identifier-shaped lexeme: the kind of the
keyword whose spelling equals the whole lexeme byte for byte, `IDENTIFIER` when there is
none. -/
def keyword_kind (w : List Nat) : TokenType :=
  match keyword_table.find? (fun e => decide (w = bytes e.1)) with
  | some e => e.2
  | none => TokenType.IDENTIFIER

/-- The kinds after which a bare `-` is unary, as an explicit set: every enumerator of the
`TokenType` declaration from `PLUS` to `AS` (the arithmetic, logical, comparison,
assignment and bitwise operators, the compound assignments, `UNARY_MINUS`, `INCREMENT`,
`DECREMENT`, `AT_SYMBOL`, `QUESTION_MARK`, `IS`, `AS`), and `LEFT_PARENT`, `LEFT_SQUARE`,
`RETURN`, `THIS`.  It is the set of the range test of `tokenize_operator`
(`operand_expected_iff`); the set in the words of the specification, which leaves out five
of these kinds, is `claimed_operand_expected`. -/
def operand_expected (k : TokenType) : Bool :=
  decide (k ∈ [TokenType.PLUS, TokenType.MINUS, TokenType.MULTIPLY, TokenType.DIVIDE,
    TokenType.MODULO, TokenType.AND, TokenType.OR, TokenType.NOT, TokenType.EQUALS,
    TokenType.NOT_EQUALS, TokenType.GREATER, TokenType.LESS, TokenType.GREATER_OR_EQUAL,
    TokenType.LESS_OR_EQUAL, TokenType.ASSIGN, TokenType.BIT_AND, TokenType.BIT_OR,
    TokenType.BIT_NOT, TokenType.BIT_XOR, TokenType.BIT_SHIFT_LEFT, TokenType.BIT_SHIFT_RIGHT,
    TokenType.UNARY_MINUS, TokenType.INCREMENT, TokenType.DECREMENT, TokenType.AT_SYMBOL,
    TokenType.QUESTION_MARK,
    TokenType.PLUS_ASSIGN, TokenType.MINUS_ASSIGN, TokenType.MULTIPLY_ASSIGN,
    TokenType.DIVIDE_ASSIGN, TokenType.MODULO_ASSIGN, TokenType.BIT_AND_ASSIGN,
    TokenType.BIT_OR_ASSIGN, TokenType.BIT_XOR_ASSIGN, TokenType.BIT_SHIFT_LEFT_ASSIGN,
    TokenType.BIT_SHIFT_RIGHT_ASSIGN,
    TokenType.IS, TokenType.AS, TokenType.LEFT_PARENT, TokenType.LEFT_SQUARE,
    TokenType.RETURN, TokenType.THIS])

/-! ## Relations used to state what the scanning functions do -/

/-- The skipper, run from `s` to `t`, met a block comment that never closes: the error
slot holds "unterminated comment" at the position of a `/*` at or after the cursor of `s`,
and the input is exhausted. -/
def Unterminated (s t : State) : Prop :=
  t.error.message = some "unterminated comment" ∧
  s.context.offset ≤ t.error.frame.offset ∧
  t.error.frame.offset + 1 < s.context.content.length ∧
  s.context.content.getD t.error.frame.offset 0 = 47 ∧
  s.context.content.getD (t.error.frame.offset + 1) 0 = 42 ∧
  s.context.content.length ≤ t.context.offset ∧
  (PosInv s.context →
    PosOK s.context.content t.error.frame.offset t.error.frame.line t.error.frame.column)

/-- The properties of a run of the skip loop from `s` to `t`. -/
def SkipRel (s t : State) : Prop :=
  Adv s.context t.context ∧ s.context.offset ≤ t.context.offset ∧
  (t.error = s.error ∨ Unterminated s t) ∧
  (t.error.message = none →
    Trivia (seg s.context.content s.context.offset t.context.offset))

/-- The facts about one call of `tokenize_dec_part`. -/
def DecPart (s : State) (req : Bool) (r : Bool × State) : Prop :=
  Pres s.context r.2.context ∧ s.context.offset ≤ r.2.context.offset ∧
  (s.context.offset ≤ s.context.content.length → r.2.context.offset ≤ s.context.content.length) ∧
  (r.1 = false → r.2.error.message ≠ none) ∧
  (r.1 = true → r.2.error = s.error) ∧
  (r.1 = true → is_number (peek s.context) = true → s.context.offset < r.2.context.offset) ∧
  (r.1 = true → req = true → is_number (peek s.context) = true) ∧
  (r.1 = true → dec_part_byte (peek s.context) = false → r.2.context = s.context)

/-- The facts about a classifier run that hold whatever byte it started on. -/
def Classified (s : State) (r : TokenType × State) : Prop :=
  Pres s.context r.2.context ∧ (r.1 = TokenType.ERROR → r.2.error.message ≠ none)

/-- The facts about a run of `tokenize_floating_point_number`. -/
def FloatScan (s : State) (r : TokenType × State) : Prop :=
  Classified s r ∧
  (r.1 ≠ TokenType.ERROR → s.context.frame.offset ≤ s.context.content.length →
    s.context.frame.offset ≤ r.2.context.offset ∧
    r.2.context.offset ≤ s.context.content.length) ∧
  (r.1 ≠ TokenType.ERROR →
    (is_number (peek (rewind s.context)) = true ∨ peek (rewind s.context) = 46) →
    s.context.frame.offset < r.2.context.offset)

/-- The facts about a classifier started by `tokenizer_next` on an in-range byte. -/
def TokenScan (s : State) (r : TokenType × State) : Prop :=
  Classified s r ∧
  (r.1 ≠ TokenType.ERROR →
    s.context.offset < r.2.context.offset ∧ r.2.context.offset ≤ s.context.content.length)

/-- The facts about one call of `tokenize_escape` on an in-range backslash. -/
def EscapeScan (s : State) (r : Bool × State) : Prop :=
  Pres s.context r.2.context ∧ s.context.offset < r.2.context.offset ∧
  r.2.context.offset ≤ s.context.content.length ∧
  (r.1 = false → r.2.error.message ≠ none) ∧ (r.1 = true → r.2.error = s.error)

/-- The context on which `tokenizer_next` runs the classifier: the skipped state with the
frame set to the cursor. -/
def framed (s : State) : State :=
  { s with context := { s.context with frame := collect_frame s.context } }

/-- The facts about the token `t` returned by a call started in `s` and ending in `s1`. -/
def Emitted (s s1 : State) (t : Token) : Prop :=
  (skip s).error.message = none ∧
  t.offset = (skip s).context.offset ∧ t.line = (skip s).context.line ∧
  t.column = (skip s).context.column ∧
  t.offset < s.context.content.length ∧ 1 ≤ t.length ∧
  t.offset + t.length = s1.context.offset ∧
  s1.context.offset ≤ s.context.content.length ∧
  t.content = (seg s.context.content t.offset (t.offset + t.length)).takeWhile
    (fun b => decide (b ≠ 0)) ∧
  s1.context.type = t.type ∧ t.type ≠ TokenType.ERROR ∧
  t.type = (tokenizer_dispatch (framed (skip s))).1 ∧
  s1.context.offset = (tokenizer_dispatch (framed (skip s))).2.context.offset ∧
  s1.error = (tokenizer_dispatch (framed (skip s))).2.error

/-- The facts about one call of `tokenizer_next`. -/
def NextRel (s : State) (r : Option Token × State) : Prop :=
  r.2.context.content = s.context.content ∧ (PosInv s.context → PosInv r.2.context) ∧
  (r.1 = none → r.2.error.message ≠ none ∨ s.context.content.length ≤ r.2.context.offset) ∧
  (r.1 = none → r.2.error.message = none → r.2 = skip s) ∧
  (∀ t, r.1 = some t → Emitted s r.2 t)


/-! ## The decoder `token_content_to_value` and the numeric conversion of `main` -/

/-- A byte buffer read as a C string: the bytes before the first NUL. -/
def cstring (l : List Nat) : List Nat := l.takeWhile (fun b => decide (b ≠ 0))

/-- The result of `token_content_to_value`: a C string, the `NULL` of the `default` case,
or `undefined` when the call reads or writes outside of its buffers. -/
inductive Value where
  | text (s : List Nat)
  | null
  | undefined
  deriving DecidableEq, Repr

/-- The statement `cleaned[strcspn(cleaned, reject)] = 0`: the string is cut at the first
byte that occurs in `reject`. -/
def strcspn_cut (reject : List Nat) (l : List Nat) : List Nat :=
  l.takeWhile (fun b => decide (b ∉ reject))

/-- Library function `isspace` in the C locale. -/
def isspace (b : Nat) : Bool := decide (b = 32) || (decide (9 ≤ b) && decide (b ≤ 13))

/-- The value of a hexadecimal digit. -/
def hex_value (b : Nat) : Nat :=
  if is_number b then b - 48 else if 97 ≤ b ∧ b ≤ 102 then b - 87 else b - 55

/-- The library call `sscanf(str, "%4x", &v)` on a variable `v` that holds 0, as the
value of `v` after the call.  White space is skipped; then at most four bytes are read: an
optional sign, an optional `0x` or `0X`, hexadecimal digits.  When no digit is read `v`
keeps the value 0; a `-` negates the value as an `unsigned int`. -/
def sscanf_hex4 (str : List Nat) : Nat :=
  let w := ((cstring str).dropWhile isspace).take 4
  let w1 := if w.head? = some 45 ∨ w.head? = some 43 then w.drop 1 else w
  let w2 := match w1 with
    | 48 :: x :: r => if x = 120 ∨ x = 88 then r else w1
    | _ => w1
  let v := (w2.takeWhile is_number_hex).foldl (fun acc d => 16 * acc + hex_value d) 0
  if w.head? = some 45 then (2 ^ 32 - v) % 2 ^ 32 else v

/-- The inner `switch` of the decoder: the byte written for the escaped byte `c`. -/
def unescape (c : Nat) : Nat :=
  if c = 110 then 10
  else if c = 114 then 13
  else if c = 116 then 9
  else if c = 98 then 8
  else if c = 102 then 12
  else if c = 92 then 92
  else if c = 39 then 39
  else if c = 34 then 34
  else c

/-- The four-way UTF-8 branch of the decoder: the bytes written for `code_point`. -/
def utf8_encode (code_point : Nat) : List Nat :=
  if code_point ≤ 0x7F then [code_point % 256]
  else if code_point ≤ 0x7FF then
    [0xC0 ||| ((code_point >>> 6) &&& 0x1F), 0x80 ||| (code_point &&& 0x3F)]
  else if code_point ≤ 0xFFFF then
    [0xE0 ||| ((code_point >>> 12) &&& 0x0F), 0x80 ||| ((code_point >>> 6) &&& 0x3F),
     0x80 ||| (code_point &&& 0x3F)]
  else
    [0xF0 ||| ((code_point >>> 18) &&& 0x07), 0x80 ||| ((code_point >>> 12) &&& 0x3F),
     0x80 ||| ((code_point >>> 6) &&& 0x3F), 0x80 ||| (code_point &&& 0x3F)]

/-- The byte `res[j]` of the decoder: the buffer `res` holds the interior of the literal
followed by two NUL bytes (the overwritten closing quote and the terminator of the copy);
`none` outside of the buffer. -/
def res_at (res : List Nat) (j : Nat) : Option Nat :=
  if j < res.length then some (res.getD j 0)
  else if j ≤ res.length + 1 then some 0
  else none

/-- The `for` loop of the `CHAR_LITERAL`/`STRING_LITERAL` case of
`token_content_to_value`, with the index `i` and the bytes written to `builder` so far.
Unsigned arithmetic is taken modulo `2 ^ 32`. -/
def decode_loop (res : List Nat) : Nat → Nat → List Nat → Value
  | 0, _, _ => Value.undefined
  | fuel + 1, i, builder =>
    match res_at res i with
    | none => Value.undefined
    | some c =>
      if c = 0 then Value.text (cstring builder)
      else if c = 92 ∧ res_at res (i + 1) = some 117 then
        let code_point := sscanf_hex4 (res.drop (i + 2))
        let i1 := i + 5
        if 0xD800 ≤ code_point ∧ code_point ≤ 0xDBFF then
          match res_at res (i1 + 1) with
          | none => Value.undefined
          | some a =>
            if a = 92 then
              match res_at res (i1 + 2) with
              | none => Value.undefined
              | some b =>
                if b = 117 then
                  let low_surrogate := sscanf_hex4 (res.drop (i1 + 3))
                  let pair := (0x10000 + ((code_point - 0xD800) <<< 10)
                    + (low_surrogate + 2 ^ 32 - 0xDC00)) % 2 ^ 32
                  decode_loop res fuel (i1 + 6 + 1) (builder ++ utf8_encode pair)
                else decode_loop res fuel (i1 + 1) (builder ++ utf8_encode code_point)
            else decode_loop res fuel (i1 + 1) (builder ++ utf8_encode code_point)
        else decode_loop res fuel (i1 + 1) (builder ++ utf8_encode code_point)
      else if c = 92 then
        match res_at res (i + 1) with
        | none => Value.undefined
        | some d => decode_loop res fuel (i + 2) (builder ++ [unescape d])
      else decode_loop res fuel (i + 1) (builder ++ [c])

/-- Function `token_content_to_value`.  The `content + 2`, `strlen(content) - 1` and
`res[strlen(res) - 1]` of the source leave the buffer when the lexeme is too short: the
result is then `undefined`. -/
def token_content_to_value (token : Token) : Value :=
  let content := cstring token.content
  match token.type with
  | TokenType.IDENTIFIER => Value.text content
  | TokenType.HEX_LONG_NUMBER | TokenType.BIN_LONG_NUMBER =>
    if content.length < 2 then Value.undefined
    else Value.text (strcspn_cut (bytes "lL") (content.drop 2))
  | TokenType.DEC_LONG_NUMBER =>
    if content.length < 1 then Value.undefined
    else Value.text (content.take (content.length - 1))
  | TokenType.HEX_NUMBER | TokenType.BIN_NUMBER =>
    if content.length < 2 then Value.undefined else Value.text (content.drop 2)
  | TokenType.DEC_NUMBER => Value.text content
  | TokenType.FLOAT_NUMBER | TokenType.DOUBLE_NUMBER =>
    Value.text (strcspn_cut (bytes "fFdD") content)
  | TokenType.CHAR_LITERAL | TokenType.STRING_LITERAL =>
    if content.length < 2 then Value.undefined
    else
      let res := (content.drop 1).take (content.length - 2)
      decode_loop res (res.length + 1) 0 []
  | _ => Value.null

/-- The library call `strtol(text, &ptr, 10)`: white space is skipped, then an optional
sign and the decimal digits are read.  The result is the value, clamped to the range of
`long`, and the number of bytes before `ptr` (0 when no digit is read). -/
def strtol (text : List Nat) : Int × Nat :=
  let t := cstring text
  let ws := (t.takeWhile isspace).length
  let t1 := t.drop ws
  let sign := if t1.head? = some 45 ∨ t1.head? = some 43 then 1 else 0
  let digits := (t1.drop sign).takeWhile is_number
  let v : Int := ((digits.foldl (fun acc d => 10 * acc + (d - 48)) 0 : Nat) : Int)
  let signed : Int := if t1.head? = some 45 then -v else v
  if digits = [] then (0, 0)
  else (max (-(2 ^ 63)) (min (2 ^ 63 - 1) signed), ws + sign + digits.length)

/-- The `DEC_NUMBER` case of the driver loop of `main` in `lexer.c`: the decoded text is
converted with `strtol`; the result is the `int` written to the output, or `none` when the
test `*ptr != 0 || ptr == content` makes `main` print "Failed to parse decimal number" and
return 1. -/
def main_dec_number (token : Token) : Option Int :=
  match token_content_to_value token with
  | Value.text content =>
    let r := strtol content
    if content.getD r.2 0 ≠ 0 ∨ r.2 = 0 then none
    else some ((r.1 + 2 ^ 31) % 2 ^ 32 - 2 ^ 31)
  | _ => none

/-! ## Specification-side definitions for operators, numbers and escapes -/

/-- The operator table in the words of the specification: every operator and punctuation
lexeme with its kind.  The lexeme `-` has two kinds, `MINUS` and `UNARY_MINUS`. -/
def operator_table : List (String × TokenType) :=
  [("(", TokenType.LEFT_PARENT), (")", TokenType.RIGHT_PARENT), ("\x7b", TokenType.LEFT_BRACE),
   ("\x7d", TokenType.RIGHT_BRACE), ("[", TokenType.LEFT_SQUARE), ("]", TokenType.RIGHT_SQUARE),
   (",", TokenType.COMMA), (".", TokenType.DOT), (";", TokenType.SEMI),
   (":", TokenType.COLON), ("->", TokenType.IMPLICATION),
   ("+", TokenType.PLUS), ("-", TokenType.MINUS), ("*", TokenType.MULTIPLY),
   ("/", TokenType.DIVIDE), ("%", TokenType.MODULO),
   ("&&", TokenType.AND), ("||", TokenType.OR), ("!", TokenType.NOT),
   ("==", TokenType.EQUALS), ("!=", TokenType.NOT_EQUALS), (">", TokenType.GREATER),
   ("<", TokenType.LESS), (">=", TokenType.GREATER_OR_EQUAL), ("<=", TokenType.LESS_OR_EQUAL),
   ("=", TokenType.ASSIGN), ("+=", TokenType.PLUS_ASSIGN), ("-=", TokenType.MINUS_ASSIGN),
   ("*=", TokenType.MULTIPLY_ASSIGN), ("/=", TokenType.DIVIDE_ASSIGN),
   ("%=", TokenType.MODULO_ASSIGN),
   ("&", TokenType.BIT_AND), ("|", TokenType.BIT_OR), ("~", TokenType.BIT_NOT),
   ("^", TokenType.BIT_XOR), ("<<", TokenType.BIT_SHIFT_LEFT), (">>", TokenType.BIT_SHIFT_RIGHT),
   ("&=", TokenType.BIT_AND_ASSIGN), ("|=", TokenType.BIT_OR_ASSIGN),
   ("^=", TokenType.BIT_XOR_ASSIGN), ("<<=", TokenType.BIT_SHIFT_LEFT_ASSIGN),
   (">>=", TokenType.BIT_SHIFT_RIGHT_ASSIGN),
   ("-", TokenType.UNARY_MINUS), ("++", TokenType.INCREMENT), ("--", TokenType.DECREMENT),
   ("@", TokenType.AT_SYMBOL), ("?", TokenType.QUESTION_MARK)]

/-- The lexeme `w` is the longest lexeme of the operator table that is a prefix of
`rest`. -/
def longest_operator (rest : List Nat) (w : List Nat) : Prop :=
  (∃ e ∈ operator_table, bytes e.1 = w) ∧ w <+: rest ∧
  ∀ e ∈ operator_table, bytes e.1 <+: rest → (bytes e.1).length ≤ w.length

/-- The operator table with each lexeme written as its bytes. -/
def operator_bytes : List (List Nat × TokenType) :=
  [([40], TokenType.LEFT_PARENT), ([41], TokenType.RIGHT_PARENT),
   ([123], TokenType.LEFT_BRACE), ([125], TokenType.RIGHT_BRACE),
   ([91], TokenType.LEFT_SQUARE), ([93], TokenType.RIGHT_SQUARE), ([44], TokenType.COMMA),
   ([46], TokenType.DOT), ([59], TokenType.SEMI), ([58], TokenType.COLON),
   ([45, 62], TokenType.IMPLICATION), ([43], TokenType.PLUS), ([45], TokenType.MINUS),
   ([42], TokenType.MULTIPLY), ([47], TokenType.DIVIDE), ([37], TokenType.MODULO),
   ([38, 38], TokenType.AND), ([124, 124], TokenType.OR), ([33], TokenType.NOT),
   ([61, 61], TokenType.EQUALS), ([33, 61], TokenType.NOT_EQUALS), ([62], TokenType.GREATER),
   ([60], TokenType.LESS), ([62, 61], TokenType.GREATER_OR_EQUAL),
   ([60, 61], TokenType.LESS_OR_EQUAL), ([61], TokenType.ASSIGN),
   ([43, 61], TokenType.PLUS_ASSIGN), ([45, 61], TokenType.MINUS_ASSIGN),
   ([42, 61], TokenType.MULTIPLY_ASSIGN), ([47, 61], TokenType.DIVIDE_ASSIGN),
   ([37, 61], TokenType.MODULO_ASSIGN), ([38], TokenType.BIT_AND), ([124], TokenType.BIT_OR),
   ([126], TokenType.BIT_NOT), ([94], TokenType.BIT_XOR), ([60, 60], TokenType.BIT_SHIFT_LEFT),
   ([62, 62], TokenType.BIT_SHIFT_RIGHT), ([38, 61], TokenType.BIT_AND_ASSIGN),
   ([124, 61], TokenType.BIT_OR_ASSIGN), ([94, 61], TokenType.BIT_XOR_ASSIGN),
   ([60, 60, 61], TokenType.BIT_SHIFT_LEFT_ASSIGN),
   ([62, 62, 61], TokenType.BIT_SHIFT_RIGHT_ASSIGN), ([45], TokenType.UNARY_MINUS),
   ([43, 43], TokenType.INCREMENT), ([45, 45], TokenType.DECREMENT),
   ([64], TokenType.AT_SYMBOL), ([63], TokenType.QUESTION_MARK)]

/-- The facts about a run of `tokenize_operator`: either it fails and no lexeme of the
operator table is a prefix of the bytes at the cursor, or it returns the kind of an entry
whose lexeme is the longest one there, moves the cursor over it and leaves the error slot
as it was. -/
def OperatorScan (s : State) (r : TokenType × State) : Prop :=
  (r.1 = TokenType.ERROR ∧
    ∀ e ∈ operator_table, ¬ bytes e.1 <+: s.context.content.drop s.context.offset) ∨
  (∃ e ∈ operator_table, r.1 = e.2 ∧
    r.2.context.offset = s.context.offset + (bytes e.1).length ∧ r.2.error = s.error ∧
    longest_operator (s.context.content.drop s.context.offset) (bytes e.1))

/-- A digit run, in the words of the specification: the longest run of digits and `_` at
the head of `rest`. -/
def digit_run (rest : List Nat) : List Nat := rest.takeWhile dec_part_byte

/-- A digit run is well formed when it is not empty and neither starts nor ends
with `_`. -/
def well_formed_run (r : List Nat) : Bool :=
  decide (r ≠ []) && decide (r.head? ≠ some 95) && decide (r.getLast? ≠ some 95)

/-- The kind and the length of the numeric literal at the head of `rest`, in the words of
the specification: a well-formed digit run, optionally `.` and a second well-formed digit
run, optionally one suffix letter.  `none` when `rest` does not start with such a
literal. -/
def numeric_kind (rest : List Nat) : Option (TokenType × Nat) :=
  let i := digit_run rest
  let r1 := rest.drop i.length
  if well_formed_run i = false then none
  else if r1.head? = some 46 then
    let f := digit_run (r1.drop 1)
    let r3 := r1.drop (1 + f.length)
    let n := i.length + 1 + f.length
    if well_formed_run f = false then none
    else if r3.head? = some 102 ∨ r3.head? = some 70 then some (TokenType.FLOAT_NUMBER, n + 1)
    else if r3.head? = some 100 ∨ r3.head? = some 68 then some (TokenType.DOUBLE_NUMBER, n + 1)
    else some (TokenType.DOUBLE_NUMBER, n)
  else if r1.head? = some 102 ∨ r1.head? = some 70 then
    some (TokenType.FLOAT_NUMBER, i.length + 1)
  else if r1.head? = some 100 ∨ r1.head? = some 68 then
    some (TokenType.DOUBLE_NUMBER, i.length + 1)
  else if r1.head? = some 108 ∨ r1.head? = some 76 then
    some (TokenType.DEC_LONG_NUMBER, i.length + 1)
  else some (TokenType.DEC_NUMBER, i.length)

/-- The shape of a numeric lexeme `w` of kind `k`: digits, `_` and `.`, followed by one
suffix letter for `FLOAT_NUMBER` (`f`/`F`) and `DEC_LONG_NUMBER` (`l`/`L`), by `d`/`D` or
nothing for `DOUBLE_NUMBER`, and by nothing for `DEC_NUMBER`. -/
def NumericLexeme (k : TokenType) (w : List Nat) : Prop :=
  ∃ body : List Nat, (∀ b ∈ body, dec_part_byte b = true ∨ b = 46) ∧
    ((w = body ∧ (k = TokenType.DOUBLE_NUMBER ∨ k = TokenType.DEC_NUMBER)) ∨
     (∃ c, w = body ++ [c] ∧
        ((k = TokenType.FLOAT_NUMBER ∧ (c = 102 ∨ c = 70)) ∨
         (k = TokenType.DOUBLE_NUMBER ∧ (c = 100 ∨ c = 68)) ∨
         (k = TokenType.DEC_LONG_NUMBER ∧ (c = 108 ∨ c = 76)))))

/-- The raw lexeme without its trailing suffix letter (`f`, `F`, `d`, `D`, `l`, `L`), in
the words of the specification: the last byte is removed when it is one of these letters,
and the lexeme is unchanged otherwise. -/
def strip_suffix (w : List Nat) : List Nat :=
  match w.getLast? with
  | some b => if b ∈ bytes "fFdDlL" then w.dropLast else w
  | none => w

/-- The integer denoted by a lexeme of digits and separators, in the words of the
specification: the separators `_` are removed and the digits are read in base 10. -/
def separated_value (w : List Nat) : Int :=
  (((w.filter (fun b => decide (b ≠ 95))).foldl (fun acc d => 10 * acc + (d - 48)) 0 : Nat) : Int)

/-- The escapes the specification accepts inside a literal delimited by `quote`, as a
test on the bytes that follow the backslash: one of `n`, `t`, `r`, `0`, a backslash, the
quote of the literal, or `u` and four hexadecimal digits. -/
def valid_escape (quote : Nat) (follow : List Nat) : Bool :=
  match follow with
  | [] => false
  | b :: r =>
    decide (b ∈ [110, 116, 114, 48, 92, quote])
      || (decide (b = 117) && decide ((r.take 4).length = 4) && (r.take 4).all is_number_hex)

/-- The byte the specification gives for the second byte of a two-byte escape: the
control bytes for `n`, `t`, `r`, `b`, `f`, and the byte itself otherwise. -/
def escape_byte (b : Nat) : Nat :=
  match b with
  | 110 => 10
  | 116 => 9
  | 114 => 13
  | 98 => 8
  | 102 => 12
  | _ => b

/-- The decoding of an interior without `\u`, in the words of the specification: each
two-byte escape becomes one byte, every other byte is copied. -/
def simple_unescape : List Nat → List Nat
  | [] => []
  | [b] => [b]
  | a :: b :: rest =>
    if a = 92 then escape_byte b :: simple_unescape rest
    else a :: simple_unescape (b :: rest)

/-- An interior reads as a sequence of two-byte escapes and single bytes that are not a
backslash: read from the left, no backslash is its last byte. -/
def well_escaped : List Nat → Bool
  | [] => true
  | [b] => decide (b ≠ 92)
  | a :: b :: rest => if a = 92 then well_escaped rest else well_escaped (b :: rest)

/-- The interior of a lexeme: the lexeme without its first and its last byte. -/
def interior (w : List Nat) : List Nat := (w.drop 1).dropLast


/-! ## Specification-side definitions for the Unicode escapes -/

/-- The code point written by a run of hexadecimal digits, read in base 16. -/
def code_point (digits : List Nat) : Nat :=
  digits.foldl (fun acc d => 16 * acc + hex_value d) 0

/-- The standard UTF-8 encoding of a code point, in the words of the specification: one
byte up to `0x7F`, two bytes up to `0x7FF`, three bytes up to `0xFFFF` and four bytes
above; the lead byte carries the length marker and the top bits, every continuation byte
`0x80` and the next six bits. -/
def utf8 (c : Nat) : List Nat :=
  if c ≤ 0x7F then [c]
  else if c ≤ 0x7FF then [0xC0 + c / 64, 0x80 + c % 64]
  else if c ≤ 0xFFFF then [0xE0 + c / 4096, 0x80 + c / 64 % 64, 0x80 + c % 64]
  else [0xF0 + c / 262144, 0x80 + c / 4096 % 64, 0x80 + c / 64 % 64, 0x80 + c % 64]

/-- The bytes of the escape `\u` followed by the given digits. -/
def unicode_escape (digits : List Nat) : List Nat := 92 :: 117 :: digits

/-- The code point of a surrogate pair, in the words of the specification:
`0x10000 + ((high - 0xD800) << 10) + (low - 0xDC00)`. -/
def surrogate_pair (high low : Nat) : Nat := 0x10000 + (high - 0xD800) * 1024 + (low - 0xDC00)

/-- The expression `0x10000 + ((code_point - 0xD800) << 10) + (low_surrogate - 0xDC00)` of
the decoder, in `unsigned int` arithmetic: the subtraction of `0xDC00` wraps modulo
`2 ^ 32` when `low_surrogate` is smaller. -/
def combine_surrogates (code_point low_surrogate : Nat) : Nat :=
  (0x10000 + ((code_point - 0xD800) <<< 10) + (low_surrogate + 2 ^ 32 - 0xDC00)) % 2 ^ 32


/-! ## Specification-side definitions for the unary-minus rule and the escapes of a string -/

/-- The kinds after which the claim classifies a bare `-` as unary, in its words: an
operator kind (the arithmetic, logical, comparison, assignment and bitwise operators of
the data model), a compound-assignment kind, `IS`, `AS`, `LEFT_PARENT`, `LEFT_SQUARE`,
`RETURN` or `THIS`.  The data model lists increment, decrement and `UnaryMinus` apart from
the operators, and the operator classifier counts `@` and `?` as punctuation: these five
kinds are not in the set. -/
def claimed_operand_expected (k : TokenType) : Bool :=
  decide (k ∈ [TokenType.PLUS, TokenType.MINUS, TokenType.MULTIPLY, TokenType.DIVIDE,
    TokenType.MODULO, TokenType.AND, TokenType.OR, TokenType.NOT, TokenType.EQUALS,
    TokenType.NOT_EQUALS, TokenType.GREATER, TokenType.LESS, TokenType.GREATER_OR_EQUAL,
    TokenType.LESS_OR_EQUAL, TokenType.ASSIGN, TokenType.BIT_AND, TokenType.BIT_OR,
    TokenType.BIT_NOT, TokenType.BIT_XOR, TokenType.BIT_SHIFT_LEFT, TokenType.BIT_SHIFT_RIGHT,
    TokenType.PLUS_ASSIGN, TokenType.MINUS_ASSIGN, TokenType.MULTIPLY_ASSIGN,
    TokenType.DIVIDE_ASSIGN, TokenType.MODULO_ASSIGN, TokenType.BIT_AND_ASSIGN,
    TokenType.BIT_OR_ASSIGN, TokenType.BIT_XOR_ASSIGN, TokenType.BIT_SHIFT_LEFT_ASSIGN,
    TokenType.BIT_SHIFT_RIGHT_ASSIGN,
    TokenType.IS, TokenType.AS, TokenType.LEFT_PARENT, TokenType.LEFT_SQUARE,
    TokenType.RETURN, TokenType.THIS])

/-- The number of bytes the scanner passes over when it reads a backslash followed by
`follow` inside a literal delimited by `quote`: the whole escape when it is accepted (two
bytes, six for `\u` and four hexadecimal digits); the backslash alone when it is rejected
and no `u` follows; the backslash, the `u` and the hexadecimal digits after it (fewer than
four) when a short `\u` is rejected. -/
def escape_step (quote : Nat) (follow : List Nat) : Nat :=
  if valid_escape quote follow then (if follow.head? = some 117 then 6 else 2)
  else if follow.head? = some 117 then 2 + ((follow.drop 1).takeWhile is_number_hex).length
  else 1

/-- The positions of the backslashes that are rejected when the interior of a string
literal is read from left to right up to the closing quote: a backslash is rejected when
it is not followed by one of `n`, `t`, `r`, `0`, a backslash, `"`, or `u` and four
hexadecimal digits.  `p` is the position of the head of the list and `k` the number of
bytes still to pass over as part of the escape read last. -/
def rejected_escapes : Nat → Nat → List Nat → List Nat
  | _, _, [] => []
  | k + 1, p, _ :: r => rejected_escapes k (p + 1) r
  | 0, p, b :: r =>
    if b = 34 then []
    else if b = 92 then
      if valid_escape 34 r then rejected_escapes (escape_step 34 r - 1) (p + 1) r
      else p :: rejected_escapes (escape_step 34 r - 1) (p + 1) r
    else rejected_escapes 0 (p + 1) r

/-- The error the claim gives for a rejected backslash at position `p` of the input `S`:
"invalid unicode" when `u` follows, "invalid escape sequence" otherwise, with the given
position. -/
def escape_error (S : List Nat) (p : Nat) (frame : TokenizerFrame) : TokenizerError :=
  { message := some (if S.getD (p + 1) 0 = 117 then "invalid unicode"
                      else "invalid escape sequence"),
    frame := frame }


/-! ## Cursor lemmas -/


theorem peek_n_of_lt (c : TokenizerContext) (n : Nat) (h : c.offset + n < c.content.length) :
    peek_n c n = c.content.getD (c.offset + n) 0 := by
  unfold peek_n TokenizerContext.content_length
  rw [if_neg (by omega)]

theorem peek_n_of_ge (c : TokenizerContext) (n : Nat) (h : c.content.length ≤ c.offset + n) :
    peek_n c n = 0 := by
  unfold peek_n TokenizerContext.content_length
  rw [if_pos (by omega)]

theorem lt_of_peek_n_ne_zero (c : TokenizerContext) (n : Nat) (h : peek_n c n ≠ 0) :
    c.offset + n < c.content.length := by
  by_contra hc
  exact h (peek_n_of_ge c n (by omega))

theorem lt_of_peek_ne_zero (c : TokenizerContext) (h : peek c ≠ 0) :
    c.offset < c.content.length := by
  have := lt_of_peek_n_ne_zero c 0 h
  simpa using this

@[simp] theorem next_content (c : TokenizerContext) : (next c).content = c.content := rfl

@[simp] theorem next_frame (c : TokenizerContext) : (next c).frame = c.frame := rfl

@[simp] theorem next_type (c : TokenizerContext) : (next c).type = c.type := rfl

@[simp] theorem next_offset (c : TokenizerContext) : (next c).offset = c.offset + 1 := rfl

theorem seg_self (S : List Nat) (a : Nat) : seg S a a = [] := by simp [seg]

theorem seg_cons (S : List Nat) (a b : Nat) (h : a < S.length) (hab : a < b) :
    seg S a b = S.getD a 0 :: seg S (a + 1) b := by
  unfold seg
  rw [List.drop_eq_getElem_cons h, List.getD_eq_getElem _ _ h]
  obtain ⟨k, rfl⟩ : ∃ k, b = a + 1 + k := ⟨b - a - 1, by omega⟩
  have h1 : a + 1 + k - a = k + 1 := by omega
  have h2 : a + 1 + k - (a + 1) = k := by omega
  rw [h1, h2, List.take_succ_cons]

theorem seg_append (S : List Nat) (a b c : Nat) (hab : a ≤ b) (hbc : b ≤ c) :
    seg S a c = seg S a b ++ seg S b c := by
  unfold seg
  have h1 : c - a = (b - a) + (c - b) := by omega
  rw [h1, List.take_add, List.drop_drop]
  congr 3
  omega

theorem seg_length_le (S : List Nat) (a b : Nat) : (seg S a b).length ≤ b - a := by
  unfold seg; simp [List.length_take]

theorem seg_of_ge (S : List Nat) (a b : Nat) (h : S.length ≤ a) : seg S a b = [] := by
  unfold seg; rw [List.drop_eq_nil_of_le h]; simp

theorem peek_eq_getD (c : TokenizerContext) (h : c.offset < c.content.length) :
    peek c = c.content.getD c.offset 0 := by
  unfold peek; rw [peek_n_of_lt c 0 (by simpa using h)]; simp

theorem run_length_of_false (p : Nat → Bool) (c : TokenizerContext)
    (h : p (peek c) = false) : run_length p c = 0 := by
  unfold run_length
  by_cases hlt : c.offset < c.content.length
  · rw [List.drop_eq_getElem_cons hlt]
    rw [peek_eq_getD c hlt, List.getD_eq_getElem _ _ hlt] at h
    rw [List.takeWhile_cons, if_neg (by simp [h])]; rfl
  · rw [List.drop_eq_nil_of_le (by omega)]; simp

theorem run_length_of_true (p : Nat → Bool) (hp : p 0 = false) (c : TokenizerContext)
    (h : p (peek c) = true) : run_length p c = run_length p (next c) + 1 := by
  have hne : peek c ≠ 0 := by intro h0; rw [h0, hp] at h; cases h
  have hlt := lt_of_peek_ne_zero c hne
  have h1 : run_length p (next c) = ((c.content.drop (c.offset + 1)).takeWhile p).length := by
    simp [run_length]
  rw [h1]
  unfold run_length
  rw [List.drop_eq_getElem_cons hlt]
  rw [peek_eq_getD c hlt, List.getD_eq_getElem _ _ hlt] at h
  rw [List.takeWhile_cons, if_pos h, List.length_cons]

theorem scan_while_eq (p : Nat → Bool) (hp : p 0 = false) :
    ∀ (fuel : Nat) (c : TokenizerContext), c.content.length ≤ fuel + c.offset →
      scan_while p fuel c = next^[run_length p c] c := by
  intro fuel
  induction fuel with
  | zero =>
    intro c h
    have hpk : peek c = 0 := peek_n_of_ge c 0 (by omega)
    rw [run_length_of_false p c (by rw [hpk, hp])]
    rfl
  | succ fuel ih =>
    intro c h
    unfold scan_while
    by_cases hpc : p (peek c) = true
    · rw [if_pos hpc, run_length_of_true p hp c hpc, Function.iterate_succ_apply]
      exact ih (next c) (by simp; omega)
    · have hpf : p (peek c) = false := by simpa using hpc
      rw [if_neg hpc, run_length_of_false p c hpf]
      rfl

theorem scan_while_exit (p : Nat → Bool) (hp : p 0 = false) :
    ∀ (fuel : Nat) (c : TokenizerContext), c.content.length ≤ fuel + c.offset →
      p (peek (scan_while p fuel c)) = false := by
  intro fuel
  induction fuel with
  | zero =>
    intro c h
    have hpk : peek c = 0 := peek_n_of_ge c 0 (by omega)
    simp [scan_while, hpk, hp]
  | succ fuel ih =>
    intro c h
    unfold scan_while
    by_cases hpc : p (peek c) = true
    · rw [if_pos hpc]; exact ih (next c) (by simp; omega)
    · rw [if_neg hpc]; simpa using hpc

@[simp] theorem iterate_next_content (k : Nat) (c : TokenizerContext) :
    (next^[k] c).content = c.content := by
  induction k generalizing c with
  | zero => rfl
  | succ k ih => rw [Function.iterate_succ_apply, ih, next_content]

@[simp] theorem iterate_next_frame (k : Nat) (c : TokenizerContext) :
    (next^[k] c).frame = c.frame := by
  induction k generalizing c with
  | zero => rfl
  | succ k ih => rw [Function.iterate_succ_apply, ih, next_frame]

@[simp] theorem iterate_next_type (k : Nat) (c : TokenizerContext) :
    (next^[k] c).type = c.type := by
  induction k generalizing c with
  | zero => rfl
  | succ k ih => rw [Function.iterate_succ_apply, ih, next_type]

@[simp] theorem iterate_next_offset (k : Nat) (c : TokenizerContext) :
    (next^[k] c).offset = c.offset + k := by
  induction k generalizing c with
  | zero => rfl
  | succ k ih => rw [Function.iterate_succ_apply, ih, next_offset]; omega

theorem run_length_le (p : Nat → Bool) (c : TokenizerContext) :
    c.offset + run_length p c ≤ max c.offset c.content.length := by
  unfold run_length
  have := (List.takeWhile_prefix p (l := c.content.drop c.offset)).length_le
  simp only [List.length_drop] at this
  omega

theorem seg_run (p : Nat → Bool) (c : TokenizerContext) :
    seg c.content c.offset (c.offset + run_length p c)
      = (c.content.drop c.offset).takeWhile p := by
  unfold seg run_length
  have h : c.offset + ((c.content.drop c.offset).takeWhile p).length - c.offset
      = ((c.content.drop c.offset).takeWhile p).length := by omega
  rw [h]
  exact (List.prefix_iff_eq_take.mp (List.takeWhile_prefix p)).symm

@[simp] theorem next_content_length (c : TokenizerContext) :
    (next c).content_length = c.content_length := by
  simp [TokenizerContext.content_length]

theorem line_of_succ (S : List Nat) (off : Nat) (h : off < S.length) :
    line_of S (off + 1) = if S.getD off 0 = 10 then line_of S off + 1 else line_of S off := by
  unfold line_of
  rw [List.take_succ, List.getD_eq_getElem _ _ h, List.getElem?_eq_getElem h]
  simp only [Option.toList_some, List.count_append]
  split
  · rename_i h10; simp [h10]; omega
  · rename_i h10; simp [List.count_singleton, h10]

theorem column_of_succ (S : List Nat) (off : Nat) (h : off < S.length) :
    column_of S (off + 1) = if S.getD off 0 = 10 then 1 else column_of S off + 1 := by
  unfold column_of
  rw [List.take_succ, List.getD_eq_getElem _ _ h, List.getElem?_eq_getElem h]
  simp only [Option.toList_some, List.reverse_append, List.reverse_cons, List.reverse_nil,
    List.nil_append, List.singleton_append]
  split
  · rename_i h10; simp [List.takeWhile_cons, h10]
  · rename_i h10; simp [List.takeWhile_cons, h10]; omega

theorem Adv.adv_refl (c : TokenizerContext) : Adv c c := ⟨rfl, rfl, rfl, id⟩

theorem Adv.adv_trans {a b c : TokenizerContext} (h1 : Adv a b) (h2 : Adv b c) : Adv a c :=
  ⟨h2.1.trans h1.1, h2.2.1.trans h1.2.1, h2.2.2.1.trans h1.2.2.1, fun h => h2.2.2.2 (h1.2.2.2 h)⟩

theorem Adv.pres {a b : TokenizerContext} (h : Adv a b) : Pres a b :=
  ⟨h.1, h.2.1, h.2.2.1, fun hi => ⟨h.2.2.2 hi.1, by rw [h.1, h.2.1]; exact hi.2⟩⟩

theorem Pres.pres_refl (c : TokenizerContext) : Pres c c := ⟨rfl, rfl, rfl, id⟩

theorem Pres.pres_trans {a b c : TokenizerContext} (h1 : Pres a b) (h2 : Pres b c) : Pres a c :=
  ⟨h2.1.trans h1.1, h2.2.1.trans h1.2.1, h2.2.2.1.trans h1.2.2.1, fun h => h2.2.2.2 (h1.2.2.2 h)⟩

theorem Adv_next (c : TokenizerContext) : Adv c (next c) := by
  refine ⟨next_content c, next_frame c, next_type c, ?_⟩
  intro hp
  intro hle
  simp only [next_content, next_offset] at hle ⊢
  have hlt : c.offset < c.content.length := by omega
  obtain ⟨hl, hc⟩ := hp (by omega)
  have hpk : peek c = c.content.getD c.offset 0 := by
    unfold peek; rw [peek_n_of_lt c 0 (by simpa using hlt)]; simp
  rw [line_of_succ _ _ hlt, column_of_succ _ _ hlt, ← hpk]
  unfold next
  dsimp only
  rw [hl, hc]
  exact ⟨rfl, rfl⟩

theorem Pres_next (c : TokenizerContext) : Pres c (next c) := (Adv_next c).pres


/-! ## The trivia skipper -/

theorem Adv_iterate_next (k : Nat) (c : TokenizerContext) : Adv c (next^[k] c) := by
  induction k generalizing c with
  | zero => exact Adv.adv_refl c
  | succ k ih => rw [Function.iterate_succ_apply]; exact (Adv_next c).adv_trans (ih (next c))

theorem Pres_iterate_next (k : Nat) (c : TokenizerContext) : Pres c (next^[k] c) :=
  (Adv_iterate_next k c).pres

theorem line_comment_byte_zero : line_comment_byte 0 = false := by decide

theorem skip_single_comment_loop_eq (fuel : Nat) (c : TokenizerContext) :
    skip_single_comment_loop fuel c = scan_while line_comment_byte fuel c := by
  induction fuel generalizing c with
  | zero => rfl
  | succ fuel ih =>
    unfold skip_single_comment_loop scan_while
    by_cases h : peek c ≠ 13 ∧ peek c ≠ 10 ∧ peek c ≠ 0
    · rw [if_pos h, if_pos (by simp [line_comment_byte, h]), ih]
    · rw [if_neg h, if_neg (by simpa [line_comment_byte, and_assoc] using h)]

theorem skip_single_comment_eq (c : TokenizerContext) :
    skip_single_comment c
      = next (next^[run_length line_comment_byte (next_2 c)] (next_2 c)) := by
  unfold skip_single_comment
  rw [skip_single_comment_loop_eq, scan_while_eq _ line_comment_byte_zero]
  simp [next_2, TokenizerContext.content_length]; omega

theorem Adv_skip_single_comment (c : TokenizerContext) : Adv c (skip_single_comment c) := by
  rw [skip_single_comment_eq]
  exact ((Adv_next c).adv_trans (Adv_next _)).adv_trans
    ((Adv_iterate_next _ _).adv_trans (Adv_next _))

theorem skip_single_comment_offset (c : TokenizerContext) :
    (skip_single_comment c).offset
      = c.offset + 2 + run_length line_comment_byte (next_2 c) + 1 := by
  rw [skip_single_comment_eq]; simp [next_2]

theorem run_exit (p : Nat → Bool) (hp : p 0 = false) (c : TokenizerContext) :
    p (peek (next^[run_length p c] c)) = false := by
  have h := scan_while_exit p hp c.content.length c (by omega)
  rwa [scan_while_eq p hp c.content.length c (by omega)] at h

theorem run_all (p : Nat → Bool) (c : TokenizerContext) :
    ∀ b ∈ seg c.content c.offset (c.offset + run_length p c), p b = true := by
  intro b hb
  rw [seg_run] at hb
  exact List.mem_takeWhile_imp hb

theorem peek_n_eq_getD (c : TokenizerContext) (n v : Nat) (h : peek_n c n = v) (hv : v ≠ 0) :
    c.offset + n < c.content.length ∧ c.content.getD (c.offset + n) 0 = v := by
  have hlt := lt_of_peek_n_ne_zero c n (by rw [h]; exact hv)
  exact ⟨hlt, by rw [← peek_n_of_lt c n hlt]; exact h⟩

theorem skip_single_comment_seg (c : TokenizerContext) (h0 : peek_n c 0 = 47)
    (h1 : peek_n c 1 = 47) (e : Nat) (he : (skip_single_comment c).offset ≤ e)
    (hrest : Trivia (seg c.content (skip_single_comment c).offset e)) :
    Trivia (seg c.content c.offset e) := by
  obtain ⟨hlt0, hv0⟩ := peek_n_eq_getD c 0 47 h0 (by decide)
  obtain ⟨hlt1, hv1⟩ := peek_n_eq_getD c 1 47 h1 (by decide)
  simp only [Nat.add_zero] at hlt0 hv0
  rw [skip_single_comment_offset] at he hrest
  set d := next_2 c with hd
  set k := run_length line_comment_byte d with hk
  have hdo : d.offset = c.offset + 2 := by simp [hd, next_2]
  have hdc : d.content = c.content := by simp [hd, next_2]
  have hbody := run_all line_comment_byte d
  rw [hdo, hdc, ← hk] at hbody
  have hexit := run_exit line_comment_byte line_comment_byte_zero d
  rw [← hk] at hexit
  set f := next^[k] d with hf
  have hfo : f.offset = c.offset + 2 + k := by simp [hf, hdo]
  have hfc : f.content = c.content := by simp [hf, hdc]
  -- split the segment
  have e1 : seg c.content c.offset e
      = 47 :: 47 :: (seg c.content (c.offset + 2) (c.offset + 2 + k)
          ++ seg c.content (c.offset + 2 + k) (c.offset + 2 + k + 1)
          ++ seg c.content (c.offset + 2 + k + 1) e) := by
    rw [seg_cons _ _ _ hlt0 (by omega), hv0, seg_cons _ _ _ hlt1 (by omega), hv1,
      seg_append _ (c.offset + 1 + 1) (c.offset + 2 + k + 1) e (by omega) he,
      seg_append _ (c.offset + 1 + 1) (c.offset + 2 + k) (c.offset + 2 + k + 1)
        (by omega) (by omega)]
  rw [e1]
  refine Trivia.line _ _ _ ?_ ?_ hrest
  · intro b hb
    have := hbody b hb
    simpa [line_comment_byte, and_assoc] using this
  · by_cases hin : c.offset + 2 + k < c.content.length
    · right
      have hpk : peek f = c.content.getD (c.offset + 2 + k) 0 := by
        rw [peek_eq_getD f (by rw [hfo, hfc]; exact hin), hfo, hfc]
      rw [seg_cons _ _ _ hin (by omega), seg_self, ← hpk]
      have hx : ¬ (peek f ≠ 13 ∧ peek f ≠ 10 ∧ peek f ≠ 0) := by
        simpa [line_comment_byte, and_assoc] using hexit
      by_cases a : peek f = 13
      · left; rw [a]
      · by_cases b : peek f = 10
        · right; left; rw [b]
        · right; right
          have : peek f = 0 := by
            by_contra h0
            exact hx ⟨a, b, h0⟩
          rw [this]
    · left
      exact ⟨seg_of_ge _ _ _ (by omega), seg_of_ge _ _ _ (by omega)⟩

/-! ### Block comments -/

theorem skip_multi_comment_loop_pres (frame : TokenizerFrame) (fuel : Nat) (s : State) :
    Adv s.context (skip_multi_comment_loop frame fuel s).1.context ∧
      s.context.offset ≤ (skip_multi_comment_loop frame fuel s).1.context.offset := by
  induction fuel generalizing s with
  | zero => exact ⟨Adv.adv_refl _, le_refl _⟩
  | succ fuel ih =>
    unfold skip_multi_comment_loop
    split
    · split
      · exact ⟨Adv.adv_refl _, le_refl _⟩
      · have := ih { s with context := next s.context }
        exact ⟨(Adv_next _).adv_trans this.1, by have := this.2; simp at this; omega⟩
    · exact ⟨Adv.adv_refl _, le_refl _⟩

theorem skip_multi_comment_loop_true (frame : TokenizerFrame) (fuel : Nat) (s : State)
    (h : (skip_multi_comment_loop frame fuel s).2 = true) :
    (skip_multi_comment_loop frame fuel s).1.error = s.error ∧
      peek_n (skip_multi_comment_loop frame fuel s).1.context 0 = 42 ∧
      peek_n (skip_multi_comment_loop frame fuel s).1.context 1 = 47 := by
  induction fuel generalizing s with
  | zero => simp [skip_multi_comment_loop] at h
  | succ fuel ih =>
    unfold skip_multi_comment_loop at h ⊢
    split at h
    · split at h
      · simp at h
      · rename_i h1 h2
        rw [if_pos h1, if_neg h2]
        exact ih _ h
    · rename_i h1
      rw [if_neg h1]
      have : peek_n s.context 0 = 42 ∧ peek_n s.context 1 = 47 := by
        by_contra hc
        exact h1 (by
          by_cases a : peek_n s.context 0 = 42
          · right; intro b; exact hc ⟨a, b⟩
          · left; exact a)
      exact ⟨rfl, this⟩

theorem skip_multi_comment_loop_false (frame : TokenizerFrame) (fuel : Nat) (s : State)
    (h : (skip_multi_comment_loop frame fuel s).2 = false)
    (hfuel : s.context.content.length - s.context.offset < fuel) :
    (skip_multi_comment_loop frame fuel s).1.error
        = { message := some "unterminated comment", frame := frame } ∧
      s.context.content.length ≤ (skip_multi_comment_loop frame fuel s).1.context.offset := by
  induction fuel generalizing s with
  | zero => omega
  | succ fuel ih =>
    unfold skip_multi_comment_loop at h ⊢
    split at h
    · split at h
      · rename_i h1 h2
        rw [if_pos h1, if_pos h2]
        exact ⟨rfl, h2⟩
      · rename_i h1 h2
        rw [if_pos h1, if_neg h2]
        have := ih _ h (by
          simp only [TokenizerContext.content_length] at h2
          simp only [next_content, next_offset]; omega)
        simpa using this
    · simp at h

/-- All that is used about the block-comment loop run by `skip_multi_comment`. -/
theorem skip_multi_comment_loop_facts (s : State) (r : State × Bool)
    (hr : skip_multi_comment_loop (collect_frame s.context) (s.context.content_length + 1)
      { s with context := next_2 s.context } = r) :
    Adv s.context r.1.context ∧ s.context.offset + 2 ≤ r.1.context.offset ∧
    (r.2 = true → r.1.error = s.error ∧ peek_n r.1.context 0 = 42 ∧ peek_n r.1.context 1 = 47) ∧
    (r.2 = false →
      r.1.error = { message := some "unterminated comment", frame := collect_frame s.context } ∧
      s.context.content.length ≤ r.1.context.offset) := by
  have hp := skip_multi_comment_loop_pres (collect_frame s.context)
    (s.context.content_length + 1) { s with context := next_2 s.context }
  have ht := skip_multi_comment_loop_true (collect_frame s.context)
    (s.context.content_length + 1) { s with context := next_2 s.context }
  have ho : (next_2 s.context).offset = s.context.offset + 2 := by simp [next_2]
  have hc : (next_2 s.context).content = s.context.content := by simp [next_2]
  have hf := skip_multi_comment_loop_false (collect_frame s.context)
    (s.context.content_length + 1) { s with context := next_2 s.context }
  have hfuel : (next_2 s.context).content.length - (next_2 s.context).offset
      < s.context.content_length + 1 := by
    rw [hc, ho]; unfold TokenizerContext.content_length; omega
  rw [hr] at hp ht hf
  clear hr
  have h2 : Adv s.context (next_2 s.context) := (Adv_next _).adv_trans (Adv_next _)
  refine ⟨h2.adv_trans hp.1, ?_, ht, ?_⟩
  · have h3 : (next_2 s.context).offset ≤ r.1.context.offset := hp.2
    omega
  · intro h
    have h4 := hf h hfuel
    refine ⟨h4.1, ?_⟩
    have h3 : (next_2 s.context).content.length ≤ r.1.context.offset := h4.2
    rw [hc] at h3; exact h3

theorem skip_multi_comment_pres (s : State) :
    Adv s.context (skip_multi_comment s).context ∧
      s.context.offset + 2 ≤ (skip_multi_comment s).context.offset := by
  unfold skip_multi_comment
  simp only []
  generalize hr : skip_multi_comment_loop (collect_frame s.context)
    (s.context.content_length + 1) { s with context := next_2 s.context } = r
  have hf := skip_multi_comment_loop_facts s r hr
  clear hr
  obtain ⟨hp, ho, -, -⟩ := hf
  split
  · exact ⟨hp.adv_trans ((Adv_next _).adv_trans (Adv_next _)), by simp [next_2]; omega⟩
  · exact ⟨hp, ho⟩

theorem skip_multi_comment_error (s : State) :
    (skip_multi_comment s).error = s.error ∨
      ((skip_multi_comment s).error
          = { message := some "unterminated comment", frame := collect_frame s.context } ∧
        s.context.content.length ≤ (skip_multi_comment s).context.offset) := by
  unfold skip_multi_comment
  simp only []
  generalize hr : skip_multi_comment_loop (collect_frame s.context)
    (s.context.content_length + 1) { s with context := next_2 s.context } = r
  have hf := skip_multi_comment_loop_facts s r hr
  clear hr
  obtain ⟨-, -, ht, hfl⟩ := hf
  by_cases hok : r.2 = true
  · rw [if_pos hok]; left; exact (ht hok).1
  · rw [if_neg hok]; right; exact hfl (by simpa using hok)

theorem skip_multi_comment_seg (s : State) (h0 : peek_n s.context 0 = 47)
    (h1 : peek_n s.context 1 = 42) (hnone : (skip_multi_comment s).error.message = none)
    (e : Nat) (he : (skip_multi_comment s).context.offset ≤ e)
    (hrest : Trivia (seg s.context.content (skip_multi_comment s).context.offset e)) :
    Trivia (seg s.context.content s.context.offset e) := by
  obtain ⟨hlt0, hv0⟩ := peek_n_eq_getD _ 0 47 h0 (by decide)
  obtain ⟨hlt1, hv1⟩ := peek_n_eq_getD _ 1 42 h1 (by decide)
  simp only [Nat.add_zero] at hlt0 hv0
  unfold skip_multi_comment at hnone he hrest
  simp only [] at hnone he hrest
  generalize hr : skip_multi_comment_loop (collect_frame s.context)
    (s.context.content_length + 1) { s with context := next_2 s.context } = r
    at hnone he hrest
  have hf := skip_multi_comment_loop_facts s r hr
  clear hr
  obtain ⟨hp, ho, ht, hfl⟩ := hf
  by_cases hok : r.2 = true
  · rw [if_pos hok] at hnone he hrest
    obtain ⟨-, hs, hsl⟩ := ht hok
    obtain ⟨hlt2, hv2⟩ := peek_n_eq_getD _ 0 42 hs (by decide)
    obtain ⟨hlt3, hv3⟩ := peek_n_eq_getD _ 1 47 hsl (by decide)
    have hc : r.1.context.content = s.context.content := hp.1
    simp only [Nat.add_zero, hc] at hlt2 hv2 hlt3 hv3
    simp only [next_2, next_offset] at he hrest
    have e1 : seg s.context.content s.context.offset e
        = 47 :: 42 :: (seg s.context.content (s.context.offset + 1 + 1) r.1.context.offset
            ++ 42 :: 47 :: seg s.context.content (r.1.context.offset + 1 + 1) e) := by
      rw [seg_cons _ _ _ hlt0 (by omega), hv0, seg_cons _ _ _ hlt1 (by omega), hv1,
        seg_append _ (s.context.offset + 1 + 1) r.1.context.offset e (by omega) (by omega),
        seg_cons _ r.1.context.offset e hlt2 (by omega), hv2,
        seg_cons _ (r.1.context.offset + 1) e hlt3 (by omega), hv3]
    rw [e1]
    exact Trivia.block _ _ hrest
  · rw [if_neg hok] at hnone
    rw [(hfl (by simpa using hok)).1] at hnone
    cases hnone

/-! ### The skip loop -/

/-- Induction along the iterations of the `skip` loop. -/
theorem skip_loop_rel (P : State → State → Prop) (hrefl : ∀ s, P s s)
    (hmulti : ∀ s t, peek_n s.context 0 = 47 → peek_n s.context 1 = 42 →
      P (skip_multi_comment s) t → P s t)
    (hsingle : ∀ s t, peek_n s.context 0 = 47 → peek_n s.context 1 = 47 →
      P { s with context := skip_single_comment s.context } t → P s t)
    (hspace : ∀ s t, (peek s.context = 32 ∨ peek s.context = 9 ∨ peek s.context = 10
        ∨ peek s.context = 13) → P { s with context := next s.context } t → P s t) :
    ∀ (fuel : Nat) (s : State), P s (skip_loop fuel s) := by
  intro fuel
  induction fuel with
  | zero => intro s; exact hrefl s
  | succ fuel ih =>
    intro s
    unfold skip_loop
    split
    · rename_i h; exact hmulti s _ h.1 h.2 (ih _)
    · split
      · rename_i h; exact hsingle s _ h.1 h.2 (ih _)
      · split
        · rename_i h; exact hspace s _ h (ih _)
        · exact hrefl s

theorem Unterminated.mono (s s1 t : State) (hp : Adv s.context s1.context)
    (ho : s.context.offset ≤ s1.context.offset) (h : Unterminated s1 t) : Unterminated s t := by
  obtain ⟨h1, h2, h3, h4, h5, h6, h7⟩ := h
  rw [hp.1] at h3 h4 h5 h6 h7
  exact ⟨h1, by omega, h3, h4, h5, h6, fun hi => h7 (hp.2.2.2 hi)⟩

theorem skip_loop_facts (fuel : Nat) (s : State) : SkipRel s (skip_loop fuel s) := by
  apply skip_loop_rel SkipRel
  · intro s
    exact ⟨Adv.adv_refl _, le_refl _, Or.inl rfl, fun _ => by rw [seg_self]; exact Trivia.nil⟩
  · intro s t h0 h1 ⟨hp, ho, he, ht⟩
    have hm := skip_multi_comment_pres s
    have hme := skip_multi_comment_error s
    refine ⟨hm.1.adv_trans hp, by omega, ?_, ?_⟩
    · rcases he with he | he
      · rcases hme with hme | hme
        · left; rw [he, hme]
        · right
          obtain ⟨hlt0, hv0⟩ := peek_n_eq_getD _ 0 47 h0 (by decide)
          obtain ⟨hlt1, hv1⟩ := peek_n_eq_getD _ 1 42 h1 (by decide)
          rw [Nat.add_zero] at hv0
          refine ⟨by rw [he, hme.1], ?_, ?_, ?_, ?_, by have := hme.2; omega, ?_⟩
          all_goals rw [he, hme.1]
          · exact le_refl _
          · exact hlt1
          · exact hv0
          · exact hv1
          · intro hi; exact hi
      · right; exact Unterminated.mono _ _ _ hm.1 (by omega) he
    · intro hnone
      have hn1 : (skip_multi_comment s).error.message = none := by
        rcases he with he | he
        · rw [← he]; exact hnone
        · rw [he.1] at hnone; cases hnone
      have := ht hnone
      rw [hm.1.1] at this
      exact skip_multi_comment_seg s h0 h1 hn1 _ ho this
  · intro s t h0 h1 ⟨hp, ho, he, ht⟩
    have hm := Adv_skip_single_comment s.context
    have hmo := skip_single_comment_offset s.context
    simp only [] at hp ho he ht
    refine ⟨hm.adv_trans hp, by omega, ?_, ?_⟩
    · rcases he with he | he
      · left; exact he
      · right
        exact Unterminated.mono s { s with context := skip_single_comment s.context } t hm (by
            show s.context.offset ≤ (skip_single_comment s.context).offset
            omega) he
    · intro hnone
      have := ht hnone
      rw [hm.1] at this
      exact skip_single_comment_seg s.context h0 h1 _ ho this
  · intro s t hw ⟨hp, ho, he, ht⟩
    simp only [next_offset, next_content] at hp ho ht
    refine ⟨(Adv_next _).adv_trans hp, by omega, ?_, ?_⟩
    · rcases he with he | he
      · left; exact he
      · right
        exact Unterminated.mono s { s with context := next s.context } t
          (Adv_next _) (Nat.le_succ _) he
    · intro hnone
      have hne : peek s.context ≠ 0 := by rcases hw with h | h | h | h <;> rw [h] <;> decide
      have hlt := lt_of_peek_ne_zero _ hne
      rw [seg_cons _ _ _ hlt (by omega), ← peek_eq_getD _ hlt]
      exact Trivia.space _ _ hw (ht hnone)

theorem skip_facts (s : State) : SkipRel s (skip s) := skip_loop_facts _ s

theorem skip_loop_of_peek (fuel : Nat) (s : State) (h47 : peek_n s.context 0 ≠ 47)
    (h32 : peek_n s.context 0 ≠ 32) (h9 : peek_n s.context 0 ≠ 9)
    (h10 : peek_n s.context 0 ≠ 10) (h13 : peek_n s.context 0 ≠ 13) :
    skip_loop fuel s = s := by
  cases fuel with
  | zero => rfl
  | succ fuel =>
    unfold skip_loop
    simp [peek, h47, h32, h9, h10, h13]

theorem skip_of_peek (s : State) (h47 : peek_n s.context 0 ≠ 47)
    (h32 : peek_n s.context 0 ≠ 32) (h9 : peek_n s.context 0 ≠ 9)
    (h10 : peek_n s.context 0 ≠ 10) (h13 : peek_n s.context 0 ≠ 13) :
    skip s = s := skip_loop_of_peek _ s h47 h32 h9 h10 h13

theorem skip_of_ge (s : State) (h : s.context.content.length ≤ s.context.offset) :
    skip s = s := by
  have h0 : peek_n s.context 0 = 0 := peek_n_of_ge _ _ (by omega)
  apply skip_of_peek <;> rw [h0] <;> decide

/-- With the fuel `skip` gives it, the skip loop stops only where the source loop
breaks: the cursor is not on a comment opener nor on a whitespace byte. -/
theorem skip_loop_exit (fuel : Nat) (s : State)
    (hfuel : s.context.content.length ≤ fuel + s.context.offset) :
    ¬ (peek_n (skip_loop fuel s).context 0 = 47 ∧ peek_n (skip_loop fuel s).context 1 = 42) ∧
    ¬ (peek_n (skip_loop fuel s).context 0 = 47 ∧ peek_n (skip_loop fuel s).context 1 = 47) ∧
    ¬ (peek (skip_loop fuel s).context = 32 ∨ peek (skip_loop fuel s).context = 9 ∨
        peek (skip_loop fuel s).context = 10 ∨ peek (skip_loop fuel s).context = 13) := by
  induction fuel generalizing s with
  | zero =>
    have h0 : peek_n s.context 0 = 0 := peek_n_of_ge _ _ (by omega)
    have h1 : peek s.context = 0 := h0
    unfold skip_loop
    rw [h0, h1]
    exact ⟨fun h => absurd h.1 (by decide), fun h => absurd h.1 (by decide), by decide⟩
  | succ fuel ih =>
    unfold skip_loop
    split
    · have hm := skip_multi_comment_pres s
      exact ih _ (by rw [hm.1.1]; omega)
    · rename_i hA
      split
      · have hm := Adv_skip_single_comment s.context
        have hmo := skip_single_comment_offset s.context
        exact ih _ (by
          show (skip_single_comment s.context).content.length
            ≤ fuel + (skip_single_comment s.context).offset
          rw [hm.1]; omega)
      · rename_i hB
        split
        · exact ih _ (by
            show (next s.context).content.length ≤ fuel + (next s.context).offset
            rw [next_content, next_offset]; omega)
        · rename_i hC
          exact ⟨hA, hB, hC⟩

theorem skip_exit (s : State) :
    ¬ (peek_n (skip s).context 0 = 47 ∧ peek_n (skip s).context 1 = 42) ∧
    ¬ (peek_n (skip s).context 0 = 47 ∧ peek_n (skip s).context 1 = 47) ∧
    ¬ (peek (skip s).context = 32 ∨ peek (skip s).context = 9 ∨
        peek (skip s).context = 10 ∨ peek (skip s).context = 13) :=
  skip_loop_exit _ s (by unfold TokenizerContext.content_length; omega)


/-! ## The classifiers -/

theorem Pres_rewind (c : TokenizerContext) : Pres c (rewind c) :=
  ⟨rfl, rfl, rfl, fun h => ⟨h.2, h.2⟩⟩

theorem next_le_of_lt (c : TokenizerContext) (h : c.offset < c.content.length) :
    (next c).offset ≤ c.content.length := by simp; omega

theorem next_le_of_peek (c : TokenizerContext) (v : Nat) (h : peek c = v) (hv : v ≠ 0) :
    (next c).offset ≤ c.content.length :=
  next_le_of_lt c (lt_of_peek_ne_zero c (by rw [h]; exact hv))

/-! ### Identifiers -/

theorem tokenize_identifier_loop_eq (fuel : Nat) (c : TokenizerContext) :
    tokenize_identifier_loop (fuel + 1) c = scan_while is_identifier fuel (next c) := by
  induction fuel generalizing c with
  | zero => simp [tokenize_identifier_loop, scan_while]
  | succ fuel ih =>
    rw [tokenize_identifier_loop, ih]
    conv_rhs => rw [scan_while]

theorem is_identifier_zero : is_identifier 0 = false := by decide

theorem tokenize_identifier_context (c : TokenizerContext) :
    (tokenize_identifier c).2 = next^[run_length is_identifier (next c)] (next c) := by
  unfold tokenize_identifier
  simp only [TokenizerContext.content_length]
  rw [tokenize_identifier_loop_eq, scan_while_eq _ is_identifier_zero]
  rw [next_content, next_offset]; omega

theorem ite_ne_error {p : Prop} [Decidable p] {a b : TokenType} (ha : a ≠ TokenType.ERROR)
    (hb : b ≠ TokenType.ERROR) : (if p then a else b) ≠ TokenType.ERROR := by
  split <;> assumption

theorem identifier_type_ne_error (w : List Nat) : identifier_type w ≠ TokenType.ERROR := by
  unfold identifier_type
  repeat (refine ite_ne_error (by decide) ?_)
  decide

theorem tokenize_identifier_type (c : TokenizerContext) :
    (tokenize_identifier c).1 = identifier_type (slice (tokenize_identifier c).2) := by
  unfold tokenize_identifier; rfl

theorem tokenize_identifier_facts (c : TokenizerContext) (h : c.offset < c.content.length) :
    Pres c (tokenize_identifier c).2 ∧ (tokenize_identifier c).1 ≠ TokenType.ERROR ∧
      c.offset < (tokenize_identifier c).2.offset ∧
      (tokenize_identifier c).2.offset ≤ c.content.length := by
  rw [tokenize_identifier_type, tokenize_identifier_context]
  refine ⟨(Pres_next c).pres_trans (Pres_iterate_next _ _), identifier_type_ne_error _, ?_, ?_⟩
  · rw [iterate_next_offset, next_offset]; omega
  · have := run_length_le is_identifier (next c)
    rw [next_content, next_offset] at this
    rw [iterate_next_offset, next_offset]
    omega

/-! ### Numeric literals -/

theorem dec_part_byte_zero : dec_part_byte 0 = false := by decide

theorem tokenize_dec_part_loop_context (fuel : Nat) (c : TokenizerContext) (lu hn : Bool) :
    (tokenize_dec_part_loop fuel c lu hn).1 = scan_while dec_part_byte fuel c := by
  induction fuel generalizing c lu hn with
  | zero => rfl
  | succ fuel ih =>
    unfold tokenize_dec_part_loop scan_while
    by_cases h1 : is_number (peek c) = true
    · rw [if_pos h1, if_pos (by simp [dec_part_byte, h1]), ih]
    · rw [if_neg h1]
      by_cases h2 : peek c = 95
      · rw [if_pos h2, if_pos (by simp [dec_part_byte, h2]), ih]
      · rw [if_neg h2, if_neg (by simp [dec_part_byte, h1, h2])]

theorem tokenize_dec_part_loop_eq (c : TokenizerContext) (lu hn : Bool) :
    (tokenize_dec_part_loop (c.content_length + 1) c lu hn).1
      = next^[run_length dec_part_byte c] c := by
  rw [tokenize_dec_part_loop_context, scan_while_eq _ dec_part_byte_zero]
  unfold TokenizerContext.content_length; omega

/-- A digit run was required and the loop reports one: the first byte is a digit. -/
theorem tokenize_dec_part_loop_has_number (fuel : Nat) (c : TokenizerContext)
    (h95 : peek c ≠ 95) (h : (tokenize_dec_part_loop (fuel + 1) c false false).2.2 = true) :
    is_number (peek c) = true := by
  unfold tokenize_dec_part_loop at h
  by_cases h1 : is_number (peek c) = true
  · exact h1
  · rw [if_neg h1, if_neg h95] at h
    cases h

theorem tokenize_dec_part_facts (s : State) (req : Bool) :
    DecPart s req (tokenize_dec_part s req) := by
  unfold tokenize_dec_part
  by_cases h95 : peek s.context = 95
  · rw [if_pos h95]
    exact ⟨Pres.pres_refl _, le_refl _, fun h => h, fun _ => (by simp), fun h => (by cases h),
      fun h => (by cases h), fun h => (by cases h), fun h => (by cases h)⟩
  · rw [if_neg h95]
    simp only []
    have hctx := tokenize_dec_part_loop_eq s.context false false
    have hnum := tokenize_dec_part_loop_has_number s.context.content_length s.context h95
    generalize tokenize_dec_part_loop (s.context.content_length + 1) s.context false false = r
      at hctx hnum
    have hp : Pres s.context r.1 := by rw [hctx]; exact Pres_iterate_next _ _
    have ho : r.1.offset = s.context.offset + run_length dec_part_byte s.context := by
      rw [hctx]; simp
    have hle := run_length_le dec_part_byte s.context
    have hstrict : is_number (peek s.context) = true → s.context.offset < r.1.offset := by
      intro hd
      have := run_length_of_true dec_part_byte dec_part_byte_zero s.context
        (by simp [dec_part_byte, hd])
      omega
    split
    · exact ⟨hp, (by dsimp only; omega), fun h => (by dsimp only; omega), fun _ => (by simp),
        fun h => (by cases h), fun h => (by cases h), fun h => (by cases h),
        fun h => (by cases h)⟩
    · split
      · exact ⟨hp, (by dsimp only; omega), fun h => (by dsimp only; omega),
          fun _ => (by simp), fun h => (by cases h), fun h => (by cases h),
          fun h => (by cases h), fun h => (by cases h)⟩
      · rename_i hreq hlu
        refine ⟨hp, (by dsimp only; omega), fun h => (by dsimp only; omega),
          fun h => (by cases h), fun _ => rfl, fun _ hd => hstrict hd, ?_, ?_⟩
        · intro _ hr
          apply hnum
          simpa [hr] using hreq
        · intro _ hb
          dsimp only
          rw [hctx, run_length_of_false dec_part_byte s.context hb]
          rfl

theorem floating_point_suffix_facts (s : State) :
    Pres s.context (floating_point_suffix s).2.context ∧
      (floating_point_suffix s).1 ≠ TokenType.ERROR ∧
      s.context.offset ≤ (floating_point_suffix s).2.context.offset ∧
      (s.context.offset ≤ s.context.content.length →
        (floating_point_suffix s).2.context.offset ≤ s.context.content.length) := by
  unfold floating_point_suffix
  split
  · rename_i h
    have hne : peek s.context ≠ 0 := by rcases h with h | h <;> rw [h] <;> decide
    have := lt_of_peek_ne_zero _ hne
    exact ⟨Pres_next _, (by dsimp only; decide), (by dsimp only; rw [next_offset]; omega),
      fun _ => (by dsimp only; rw [next_offset]; omega)⟩
  · split
    · rename_i h
      have hne : peek s.context ≠ 0 := by rcases h with h | h <;> rw [h] <;> decide
      have := lt_of_peek_ne_zero _ hne
      exact ⟨Pres_next _, (by dsimp only; decide), (by dsimp only; rw [next_offset]; omega),
        fun _ => (by dsimp only; rw [next_offset]; omega)⟩
    · exact ⟨Pres.pres_refl _, (by dsimp only; decide), le_refl _, fun h => h⟩

theorem tokenize_floating_point_number_facts (s : State) :
    FloatScan s (tokenize_floating_point_number s) := by
  unfold tokenize_floating_point_number
  dsimp only
  have h1 := tokenize_dec_part_facts { s with context := rewind s.context } false
  generalize tokenize_dec_part { s with context := rewind s.context } false = r1 at h1 ⊢
  obtain ⟨hp1, ho1, hb1, he1, -, hs1, -, hz1⟩ := h1
  dsimp only at hp1 ho1 hb1 he1 hs1 hz1
  have hfo : (rewind s.context).offset = s.context.frame.offset := rfl
  have hfc : (rewind s.context).content = s.context.content := rfl
  rw [hfo] at ho1 hb1 hs1
  rw [hfc] at hb1
  have hpa : Pres s.context r1.2.context := (Pres_rewind _).pres_trans hp1
  by_cases hr1 : r1.1 = true
  · rw [if_neg (by simp [hr1])]
    by_cases hdot : peek r1.2.context = 46
    · rw [if_pos hdot]
      have hlt := lt_of_peek_ne_zero r1.2.context (by rw [hdot]; decide)
      rw [hp1.1, hfc] at hlt
      have h2 := tokenize_dec_part_facts { r1.2 with context := next r1.2.context } true
      generalize tokenize_dec_part { r1.2 with context := next r1.2.context } true = r2
        at h2 ⊢
      obtain ⟨hp2, ho2, hb2, he2, -, -, -, -⟩ := h2
      dsimp only at hp2 ho2 hb2 he2
      rw [next_offset] at ho2 hb2
      rw [next_content, hp1.1, hfc] at hb2
      have hpb : Pres s.context r2.2.context := hpa.pres_trans ((Pres_next _).pres_trans hp2)
      by_cases hr2 : r2.1 = true
      · rw [if_neg (by simp [hr2])]
        have h3 := floating_point_suffix_facts r2.2
        generalize floating_point_suffix r2.2 = r3 at h3 ⊢
        obtain ⟨hp3, hn3, ho3, hb3⟩ := h3
        rw [hp2.1, next_content, hp1.1, hfc] at hb3
        exact ⟨⟨hpb.pres_trans hp3, fun h => absurd h hn3⟩,
          fun _ hle => ⟨(by omega), hb3 (hb2 (by omega))⟩, fun _ _ => (by omega)⟩
      · rw [if_pos (by simp [hr2])]
        exact ⟨⟨hpb, fun _ => he2 (by simpa using hr2)⟩, fun h => absurd rfl h,
          fun h => absurd rfl h⟩
    · rw [if_neg hdot]
      have h3 := floating_point_suffix_facts r1.2
      generalize floating_point_suffix r1.2 = r3 at h3 ⊢
      obtain ⟨hp3, hn3, ho3, hb3⟩ := h3
      rw [hp1.1, hfc] at hb3
      refine ⟨⟨hpa.pres_trans hp3, fun h => absurd h hn3⟩,
        fun _ hle => ⟨(by omega), hb3 (hb1 hle)⟩, ?_⟩
      intro _ hstart
      rcases hstart with hd | hd
      · have := hs1 hr1 hd
        omega
      · exfalso
        have := hz1 hr1 (by rw [hd]; decide)
        rw [this] at hdot
        exact hdot hd
  · rw [if_pos (by simp [hr1])]
    exact ⟨⟨hpa, fun _ => he1 (by simpa using hr1)⟩, fun h => absurd rfl h,
      fun h => absurd rfl h⟩

theorem rewind_eq (c c1 : TokenizerContext) (hp : Pres c c1) (hf : c.frame = collect_frame c) :
    rewind c1 = c := by
  obtain ⟨h1, h2, h3, -⟩ := hp
  cases c
  cases c1
  simp only [collect_frame] at hf
  simp only at h1 h2 h3
  simp only [rewind, h1, h2, h3, hf]

theorem tokenize_dec_number_facts (s : State) (hlt : s.context.offset < s.context.content.length)
    (hfr : s.context.frame = collect_frame s.context) :
    TokenScan s (tokenize_dec_number s) := by
  unfold tokenize_dec_number
  dsimp only
  have h1 := tokenize_dec_part_facts s true
  generalize tokenize_dec_part s true = r at h1 ⊢
  obtain ⟨hp, ho, hb, he, -, hs, hn, -⟩ := h1
  by_cases hr : r.1 = true
  · rw [if_neg (by simp [hr])]
    have hnum := hn hr rfl
    have hso := hs hr hnum
    have hbo := hb (by omega)
    have hnext : ∀ v, peek r.2.context = v → v ≠ 0 →
        (next r.2.context).offset ≤ s.context.content.length := by
      intro v hv hv0
      have := next_le_of_peek _ v hv hv0
      rwa [hp.1] at this
    by_cases hdot : peek r.2.context = 46
    · rw [if_pos hdot]
      have hf := tokenize_floating_point_number_facts r.2
      generalize tokenize_floating_point_number r.2 = r2 at hf ⊢
      obtain ⟨⟨hp2, he2⟩, hb2, hs2⟩ := hf
      have hrw : rewind r.2.context = s.context := rewind_eq _ _ hp hfr
      rw [hrw, hp.2.1, hfr] at hs2
      rw [hp.2.1, hfr, hp.1] at hb2
      simp only [collect_frame] at hb2 hs2
      exact ⟨⟨hp.pres_trans hp2, he2⟩, fun h => ⟨hs2 h (Or.inl hnum), (hb2 h (by omega)).2⟩⟩
    · rw [if_neg hdot]
      split
      · rename_i h
        have := hnext (peek r.2.context) rfl (by rcases h with h | h <;> rw [h] <;> decide)
        exact ⟨⟨hp.pres_trans (Pres_next _), fun h => (by cases h)⟩,
          fun _ => ⟨(by dsimp only; rw [next_offset]; omega), this⟩⟩
      · split
        · rename_i h
          have := hnext (peek r.2.context) rfl (by rcases h with h | h <;> rw [h] <;> decide)
          exact ⟨⟨hp.pres_trans (Pres_next _), fun h => (by cases h)⟩,
            fun _ => ⟨(by dsimp only; rw [next_offset]; omega), this⟩⟩
        · split
          · rename_i h
            have := hnext (peek r.2.context) rfl
              (by rcases h with h | h <;> rw [h] <;> decide)
            exact ⟨⟨hp.pres_trans (Pres_next _), fun h => (by cases h)⟩,
              fun _ => ⟨(by dsimp only; rw [next_offset]; omega), this⟩⟩
          · exact ⟨⟨hp, fun h => (by cases h)⟩, fun _ => ⟨hso, hbo⟩⟩
  · rw [if_pos (by simp [hr])]
    exact ⟨⟨hp, fun _ => he (by simpa using hr)⟩, fun h => absurd rfl h⟩

theorem tokenize_number_facts (s : State) (hlt : s.context.offset < s.context.content.length)
    (hfr : s.context.frame = collect_frame s.context) :
    TokenScan s (tokenize_number s) := by
  unfold tokenize_number
  by_cases hdot : peek_n s.context 0 = 46
  · rw [if_pos hdot]
    split
    · have hf := tokenize_floating_point_number_facts s
      generalize tokenize_floating_point_number s = r2 at hf ⊢
      obtain ⟨hc, hb2, hs2⟩ := hf
      have hrw : rewind s.context = s.context := rewind_eq _ _ (Pres.pres_refl _) hfr
      rw [hrw, hfr] at hs2
      rw [hfr] at hb2
      simp only [collect_frame] at hb2 hs2
      exact ⟨hc, fun h => ⟨hs2 h (Or.inr hdot), (hb2 h (by omega)).2⟩⟩
    · exact ⟨⟨Pres_next _, fun h => (by cases h)⟩,
        fun _ => ⟨(by dsimp only; rw [next_offset]; omega), next_le_of_lt _ hlt⟩⟩
  · rw [if_neg hdot]
    exact tokenize_dec_number_facts s hlt hfr

/-! ### String and character literals -/

theorem tokenize_escape_hex_facts (k : Nat) (c : TokenizerContext) :
    Pres c (tokenize_escape_hex k c).2 ∧ c.offset ≤ (tokenize_escape_hex k c).2.offset ∧
      (c.offset ≤ c.content.length → (tokenize_escape_hex k c).2.offset ≤ c.content.length) := by
  induction k generalizing c with
  | zero => exact ⟨Pres.pres_refl _, le_refl _, fun h => h⟩
  | succ k ih =>
    unfold tokenize_escape_hex
    split
    · rename_i h
      have hne : peek c ≠ 0 := by intro h0; rw [h0] at h; revert h; decide
      have hlt := lt_of_peek_ne_zero _ hne
      obtain ⟨hp, ho, hb⟩ := ih (next c)
      rw [next_offset] at ho hb
      rw [next_content] at hb
      exact ⟨(Pres_next _).pres_trans hp, (by omega), fun _ => hb (by omega)⟩
    · exact ⟨Pres.pres_refl _, le_refl _, fun h => h⟩

theorem tokenize_escape_facts (s : State) (q : Nat)
    (hlt : s.context.offset < s.context.content.length) :
    EscapeScan s (tokenize_escape s q) := by
  unfold tokenize_escape
  dsimp only
  have h1 : (next s.context).offset ≤ s.context.content.length := next_le_of_lt _ hlt
  have h2 : ∀ v, peek (next s.context) = v → v ≠ 0 →
      (next (next s.context)).offset ≤ s.context.content.length := by
    intro v hv hv0
    have := next_le_of_peek _ v hv hv0
    rwa [next_content] at this
  have hbad : EscapeScan s (false, { context := next s.context, error :=
      { message := some "invalid escape sequence", frame := collect_frame s.context } }) :=
    ⟨Pres_next _, (by dsimp only; rw [next_offset]; omega), h1, fun _ => (by simp),
      fun h => (by cases h)⟩
  have hgood : ∀ v, peek (next s.context) = v → v ≠ 0 →
      EscapeScan s (true, { s with context := next (next s.context) }) := by
    intro v hv hv0
    exact ⟨(Pres_next _).pres_trans (Pres_next _),
      (by dsimp only; rw [next_offset, next_offset]; omega), h2 v hv hv0,
      fun h => (by cases h), fun _ => rfl⟩
  split
  · rename_i h
    split
    · exact hbad
    · exact hgood _ rfl (by rcases h with h | h <;> rw [h] <;> decide)
  · split
    · rename_i h
      exact hgood _ rfl (by rcases h with h | h | h | h | h <;> rw [h] <;> decide)
    · split
      · rename_i hu
        have h3 := h2 117 hu (by decide)
        have hx := tokenize_escape_hex_facts 4 (next (next s.context))
        generalize tokenize_escape_hex 4 (next (next s.context)) = r at hx ⊢
        obtain ⟨hp, ho, hb⟩ := hx
        rw [next_offset, next_offset] at ho
        rw [next_content, next_content] at hb
        have hpp : Pres s.context r.2 := ((Pres_next _).pres_trans (Pres_next _)).pres_trans hp
        split
        · exact ⟨hpp, (by dsimp only; omega), hb h3, fun h => (by cases h), fun _ => rfl⟩
        · exact ⟨hpp, (by dsimp only; omega), hb h3, fun _ => (by simp),
            fun h => (by cases h)⟩
      · exact hbad

theorem tokenize_string_loop_facts (fuel : Nat) (s : State) :
    Pres s.context (tokenize_string_loop fuel s).2.context ∧
      s.context.offset ≤ (tokenize_string_loop fuel s).2.context.offset ∧
      (s.context.offset ≤ s.context.content.length →
        (tokenize_string_loop fuel s).2.context.offset ≤ s.context.content.length) ∧
      ((tokenize_string_loop fuel s).1 = true →
        peek (tokenize_string_loop fuel s).2.context = 34) ∧
      ((tokenize_string_loop fuel s).1 = false →
        s.context.content.length - s.context.offset < fuel →
        (tokenize_string_loop fuel s).2.error.message ≠ none) := by
  induction fuel generalizing s with
  | zero =>
    exact ⟨Pres.pres_refl _, le_refl _, fun h => h, fun h => (by cases h),
      fun _ h => (by omega)⟩
  | succ fuel ih =>
    unfold tokenize_string_loop
    by_cases hq : peek s.context ≠ 34
    · rw [if_pos hq]
      by_cases hend : s.context.offset ≥ s.context.content_length
      · rw [if_pos hend]
        exact ⟨Pres.pres_refl _, le_refl _, fun h => h, fun h => (by cases h),
          fun _ _ => (by simp)⟩
      · rw [if_neg hend]
        have hlt : s.context.offset < s.context.content.length := by
          unfold TokenizerContext.content_length at hend; omega
        by_cases hbs : peek s.context = 92
        · rw [if_pos hbs]
          have hesc := tokenize_escape_facts s 34 hlt
          generalize tokenize_escape s 34 = e at hesc ⊢
          obtain ⟨hp, ho, hb, -, -⟩ := hesc
          obtain ⟨ip, io, ib, iq, ie⟩ := ih e.2
          rw [hp.1] at ib ie
          exact ⟨hp.pres_trans ip, (by omega), fun _ => ib hb, iq,
            fun h hf => ie h (by omega)⟩
        · rw [if_neg hbs]
          obtain ⟨ip, io, ib, iq, ie⟩ := ih { s with context := next s.context }
          dsimp only at ip io ib iq ie
          rw [next_offset] at io ib ie
          rw [next_content] at ib ie
          exact ⟨(Pres_next _).pres_trans ip, (by omega), fun _ => ib (by omega), iq,
            fun h hf => ie h (by omega)⟩
    · rw [if_neg hq]
      exact ⟨Pres.pres_refl _, le_refl _, fun h => h, fun _ => (by simpa using hq),
        fun h => (by cases h)⟩

theorem tokenize_string_facts (s : State) (hlt : s.context.offset < s.context.content.length) :
    TokenScan s (tokenize_string s) := by
  unfold tokenize_string
  dsimp only
  have hl := tokenize_string_loop_facts (s.context.content_length + 1)
    { s with context := next s.context }
  generalize tokenize_string_loop (s.context.content_length + 1)
    { s with context := next s.context } = r at hl ⊢
  obtain ⟨hp, ho, hb, hq, he⟩ := hl
  dsimp only at hp ho hb hq he
  rw [next_offset] at ho hb he
  rw [next_content] at hb he
  have hpp : Pres s.context r.2.context := (Pres_next _).pres_trans hp
  by_cases hr : r.1 = true
  · rw [if_pos hr]
    have hn := next_le_of_peek _ 34 (hq hr) (by decide)
    rw [hpp.1] at hn
    exact ⟨⟨hpp.pres_trans (Pres_next _), fun h => (by cases h)⟩,
      fun _ => ⟨(by dsimp only; rw [next_offset]; omega), hn⟩⟩
  · rw [if_neg hr]
    exact ⟨⟨hpp, fun _ => he (by simpa using hr)
      (by unfold TokenizerContext.content_length; omega)⟩, fun h => absurd rfl h⟩

theorem tokenize_char_close_facts (s : State) :
    Classified s (tokenize_char_close s) ∧
      ((tokenize_char_close s).1 ≠ TokenType.ERROR →
        s.context.offset < (tokenize_char_close s).2.context.offset ∧
        (tokenize_char_close s).2.context.offset ≤ s.context.content.length) := by
  unfold tokenize_char_close
  split
  · exact ⟨⟨Pres_next _, fun _ => (by simp)⟩, fun h => absurd rfl h⟩
  · rename_i h
    have hq : peek s.context = 39 := by simpa using h
    exact ⟨⟨Pres_next _, fun h => (by cases h)⟩,
      fun _ => ⟨(by dsimp only; rw [next_offset]; omega),
        next_le_of_peek _ 39 hq (by decide)⟩⟩

theorem tokenize_char_facts (s : State) :
    TokenScan s (tokenize_char s) := by
  unfold tokenize_char
  dsimp only
  split
  · rename_i hbs
    have hlt1 : (next s.context).offset < (next s.context).content.length :=
      lt_of_peek_ne_zero _ (by rw [hbs]; decide)
    have hesc := tokenize_escape_facts { s with context := next s.context } 39 hlt1
    generalize tokenize_escape { s with context := next s.context } 39 = e at hesc ⊢
    obtain ⟨hp, ho, hb, he, -⟩ := hesc
    dsimp only at hp ho hb he
    rw [next_offset] at ho
    have hpp : Pres s.context e.2.context := (Pres_next _).pres_trans hp
    by_cases hr : e.1 = true
    · rw [if_neg (by simp [hr])]
      have hc := tokenize_char_close_facts e.2
      generalize tokenize_char_close e.2 = r at hc ⊢
      obtain ⟨⟨hp2, he2⟩, hb2⟩ := hc
      rw [hpp.1] at hb2
      exact ⟨⟨hpp.pres_trans hp2, he2⟩, fun h => ⟨(by have := (hb2 h).1; omega), (hb2 h).2⟩⟩
    · rw [if_pos (by simp [hr])]
      exact ⟨⟨hpp, fun _ => he (by simpa using hr)⟩, fun h => absurd rfl h⟩
  · have hc := tokenize_char_close_facts
      { context := next (next s.context), error := s.error }
    generalize tokenize_char_close { context := next (next s.context), error := s.error } = r
      at hc ⊢
    obtain ⟨⟨hp2, he2⟩, hb2⟩ := hc
    dsimp only at hp2 he2 hb2
    rw [next_offset, next_offset] at hb2
    rw [next_content, next_content] at hb2
    exact ⟨⟨((Pres_next _).pres_trans (Pres_next _)).pres_trans hp2, he2⟩,
      fun h => ⟨(by have := (hb2 h).1; omega), (hb2 h).2⟩⟩

/-! ### Operators -/

theorem operator_one (s : State) (ty : TokenType)
    (hlt : s.context.offset < s.context.content.length) (hty : ty ≠ TokenType.ERROR) :
    TokenScan s (ty, { s with context := next s.context }) :=
  ⟨⟨Pres_next _, fun h => absurd h hty⟩,
    fun _ => ⟨(by dsimp only; rw [next_offset]; omega), next_le_of_lt _ hlt⟩⟩

theorem operator_two (s : State) (ty : TokenType) (v : Nat)
    (hv : peek (next s.context) = v) (hv0 : v ≠ 0) (hty : ty ≠ TokenType.ERROR) :
    TokenScan s (ty, { s with context := next (next s.context) }) := by
  have := next_le_of_peek _ v hv hv0
  rw [next_content] at this
  have hp : Pres s.context (next (next s.context)) :=
    (Pres_next s.context).pres_trans (Pres_next (next s.context))
  exact ⟨⟨hp, fun h => absurd h hty⟩,
    fun _ => ⟨(by dsimp only; rw [next_offset, next_offset]; omega), this⟩⟩


theorem operator_three (s : State) (ty : TokenType) (v : Nat)
    (hv : peek (next (next s.context)) = v) (hv0 : v ≠ 0) (hty : ty ≠ TokenType.ERROR) :
    TokenScan s (ty, { s with context := next (next (next s.context)) }) := by
  have := next_le_of_peek _ v hv hv0
  rw [next_content, next_content] at this
  have hp : Pres s.context (next (next (next s.context))) :=
    ((Pres_next s.context).pres_trans (Pres_next (next s.context))).pres_trans
      (Pres_next (next (next s.context)))
  exact ⟨⟨hp, fun h => absurd h hty⟩,
    fun _ => ⟨(by dsimp only; rw [next_offset, next_offset, next_offset]; omega), this⟩⟩

theorem operator_unknown (s : State) (e : TokenizerError) (he : e.message ≠ none) :
    TokenScan s (TokenType.ERROR, { context := next s.context, error := e }) :=
  ⟨⟨Pres_next s.context, fun _ => he⟩, fun h => absurd rfl h⟩


theorem scan_ite {s : State} {p : Prop} [Decidable p] {a b : TokenType × State}
    (ha : p → TokenScan s a) (hb : ¬p → TokenScan s b) :
    TokenScan s (if p then a else b) := by
  split
  · exact ha ‹_›
  · exact hb ‹_›

set_option maxHeartbeats 400000 in
theorem tokenize_operator_facts (s : State)
    (hlt : s.context.offset < s.context.content.length) (hdot : peek s.context ≠ 46) :
    TokenScan s (tokenize_operator s) := by
  unfold tokenize_operator
  simp only []
  repeat' (first
    | exact absurd (by assumption) hdot
    | (refine scan_ite (fun _ => ?_) (fun _ => ?_))
    | exact operator_one s _ hlt (by decide)
    | exact operator_two s _ _ (by assumption) (by decide) (by decide)
    | exact operator_three s _ _ (by assumption) (by decide) (by decide)
    | exact operator_unknown s _ (by simp))

/-! ### Dispatch -/

theorem tokenizer_dispatch_facts (s : State)
    (hlt : s.context.offset < s.context.content.length)
    (hfr : s.context.frame = collect_frame s.context) :
    TokenScan s (tokenizer_dispatch s) := by
  unfold tokenizer_dispatch
  simp only []
  split
  · have h := tokenize_identifier_facts s.context hlt
    generalize tokenize_identifier s.context = r at h ⊢
    exact ⟨⟨h.1, fun he => absurd he h.2.1⟩, fun _ => h.2.2⟩
  · split
    · exact tokenize_number_facts s hlt hfr
    · rename_i hnum
      split
      · exact tokenize_string_facts s hlt
      · split
        · exact tokenize_char_facts s
        · apply tokenize_operator_facts s hlt
          intro h46
          apply hnum
          simp [h46]


/-! ## Delimiters of the lexemes -/

theorem getD_of_peek (c : TokenizerContext) (v : Nat) (h : peek c = v) (hv : v ≠ 0) :
    c.content.getD ((next c).offset - 1) 0 = v := by
  have hlt := lt_of_peek_ne_zero c (by rw [h]; exact hv)
  rw [next_offset, Nat.add_sub_cancel, ← peek_eq_getD c hlt]
  exact h

theorem delimited_ite {S : List Nat} {b : Nat} {p : Prop} [Decidable p]
    {x y : TokenType × State}
    (hx : p → Delimited S b x.2.context.offset x.1)
    (hy : ¬p → Delimited S b y.2.context.offset y.1) :
    Delimited S b (if p then x else y).2.context.offset (if p then x else y).1 := by
  split
  · exact hx ‹_›
  · exact hy ‹_›

theorem delimited_type_ite {S : List Nat} {b e : Nat} {p : Prop} [Decidable p]
    {x y : TokenType} (hx : Delimited S b e x) (hy : Delimited S b e y) :
    Delimited S b e (if p then x else y) := by
  split
  · exact hx
  · exact hy

theorem identifier_type_delimited (S : List Nat) (b e : Nat) (w : List Nat) :
    Delimited S b e (identifier_type w) := by
  unfold identifier_type
  repeat (refine delimited_type_ite trivial ?_)
  trivial

theorem floating_point_suffix_delimited (s : State) (b : Nat) :
    Delimited s.context.content b (floating_point_suffix s).2.context.offset
      (floating_point_suffix s).1 := by
  unfold floating_point_suffix
  refine delimited_ite (fun h => ?_) (fun _ => delimited_ite (fun _ => trivial) (fun _ => trivial))
  show s.context.content.getD ((next s.context).offset - 1) 0 = 102 ∨
    s.context.content.getD ((next s.context).offset - 1) 0 = 70
  rcases h with h | h
  · left; exact getD_of_peek _ _ h (by decide)
  · right; exact getD_of_peek _ _ h (by decide)

theorem tokenize_floating_point_number_delimited (s : State) (b : Nat) :
    Delimited s.context.content b (tokenize_floating_point_number s).2.context.offset
      (tokenize_floating_point_number s).1 := by
  unfold tokenize_floating_point_number
  simp only []
  have h1 := tokenize_dec_part_facts { s with context := rewind s.context } false
  generalize tokenize_dec_part { s with context := rewind s.context } false = r1 at h1 ⊢
  have hc1 : r1.2.context.content = s.context.content := h1.1.1
  refine delimited_ite (fun _ => trivial) (fun _ => ?_)
  refine delimited_ite (fun _ => ?_) (fun _ => ?_)
  · have h2 := tokenize_dec_part_facts { r1.2 with context := next r1.2.context } true
    generalize tokenize_dec_part { r1.2 with context := next r1.2.context } true = r2 at h2 ⊢
    have hc2 : r2.2.context.content = s.context.content := by
      rw [h2.1.1]; exact hc1
    refine delimited_ite (fun _ => trivial) (fun _ => ?_)
    rw [← hc2]
    exact floating_point_suffix_delimited r2.2 b
  · rw [← hc1]
    exact floating_point_suffix_delimited r1.2 b

theorem tokenize_dec_number_delimited (s : State) (b : Nat) :
    Delimited s.context.content b (tokenize_dec_number s).2.context.offset
      (tokenize_dec_number s).1 := by
  unfold tokenize_dec_number
  simp only []
  have h1 := tokenize_dec_part_facts s true
  generalize tokenize_dec_part s true = r at h1 ⊢
  have hc : r.2.context.content = s.context.content := h1.1.1
  refine delimited_ite (fun _ => trivial) (fun _ => ?_)
  refine delimited_ite (fun _ => ?_) (fun _ => ?_)
  · rw [← hc]
    exact tokenize_floating_point_number_delimited r.2 b
  · refine delimited_ite (fun h => ?_) (fun _ => delimited_ite (fun _ => trivial)
      (fun _ => delimited_ite (fun h => ?_) (fun _ => trivial)))
    · show s.context.content.getD ((next r.2.context).offset - 1) 0 = 102 ∨
        s.context.content.getD ((next r.2.context).offset - 1) 0 = 70
      rw [← hc]
      rcases h with h | h
      · left; exact getD_of_peek _ _ h (by decide)
      · right; exact getD_of_peek _ _ h (by decide)
    · show s.context.content.getD ((next r.2.context).offset - 1) 0 = 108 ∨
        s.context.content.getD ((next r.2.context).offset - 1) 0 = 76
      rw [← hc]
      rcases h with h | h
      · left; exact getD_of_peek _ _ h (by decide)
      · right; exact getD_of_peek _ _ h (by decide)

theorem tokenize_number_delimited (s : State) (b : Nat) :
    Delimited s.context.content b (tokenize_number s).2.context.offset
      (tokenize_number s).1 := by
  unfold tokenize_number
  refine delimited_ite (fun _ => delimited_ite (fun _ => ?_) (fun _ => trivial)) (fun _ => ?_)
  · exact tokenize_floating_point_number_delimited s b
  · exact tokenize_dec_number_delimited s b

theorem tokenize_string_delimited (s : State) (h34 : peek s.context = 34) :
    Delimited s.context.content s.context.offset (tokenize_string s).2.context.offset
      (tokenize_string s).1 := by
  have hlt := lt_of_peek_ne_zero s.context (by rw [h34]; decide)
  unfold tokenize_string
  simp only []
  have hl := tokenize_string_loop_facts (s.context.content_length + 1)
    { s with context := next s.context }
  generalize tokenize_string_loop (s.context.content_length + 1)
    { s with context := next s.context } = r at hl ⊢
  obtain ⟨hp, ho, -, hq, -⟩ := hl
  have hc : r.2.context.content = s.context.content := hp.1
  have ho2 : s.context.offset + 1 ≤ r.2.context.offset := ho
  refine delimited_ite (fun hr => ?_) (fun _ => trivial)
  show s.context.offset + 2 ≤ (next r.2.context).offset ∧
    s.context.content.getD s.context.offset 0 = 34 ∧
    s.context.content.getD ((next r.2.context).offset - 1) 0 = 34
  refine ⟨by rw [next_offset]; omega, by rw [← peek_eq_getD _ hlt]; exact h34, ?_⟩
  rw [← hc]
  exact getD_of_peek _ _ (hq hr) (by decide)

theorem tokenize_char_close_delimited (s : State) (b : Nat) (hb : b + 1 ≤ s.context.offset)
    (hq : s.context.content.getD b 0 = 39) :
    Delimited s.context.content b (tokenize_char_close s).2.context.offset
      (tokenize_char_close s).1 := by
  unfold tokenize_char_close
  refine delimited_ite (fun _ => trivial) (fun h => ?_)
  have h39 : peek s.context = 39 := by simpa using h
  show b + 2 ≤ (next s.context).offset ∧ s.context.content.getD b 0 = 39 ∧
    s.context.content.getD ((next s.context).offset - 1) 0 = 39
  exact ⟨by rw [next_offset]; omega, hq, getD_of_peek _ _ h39 (by decide)⟩

theorem tokenize_char_delimited (s : State) (h39 : peek s.context = 39) :
    Delimited s.context.content s.context.offset (tokenize_char s).2.context.offset
      (tokenize_char s).1 := by
  have hlt := lt_of_peek_ne_zero s.context (by rw [h39]; decide)
  have hq : s.context.content.getD s.context.offset 0 = 39 := by
    rw [← peek_eq_getD _ hlt]; exact h39
  unfold tokenize_char
  simp only []
  refine delimited_ite (fun hbs => ?_) (fun _ => ?_)
  · have hlt1 : (next s.context).offset < (next s.context).content.length :=
      lt_of_peek_ne_zero _ (by rw [hbs]; decide)
    have hesc := tokenize_escape_facts { s with context := next s.context } 39 hlt1
    generalize tokenize_escape { s with context := next s.context } 39 = e at hesc ⊢
    obtain ⟨hp, ho, -, -, -⟩ := hesc
    have hc : e.2.context.content = s.context.content := hp.1
    have ho2 : s.context.offset + 1 < e.2.context.offset := ho
    refine delimited_ite (fun _ => trivial) (fun _ => ?_)
    rw [← hc]
    exact tokenize_char_close_delimited e.2 _ (by omega) (by rw [hc]; exact hq)
  · exact tokenize_char_close_delimited
      { context := next (next s.context), error := s.error } s.context.offset
      (by show s.context.offset + 1 ≤ (next (next s.context)).offset
          rw [next_offset, next_offset]; omega) hq

set_option maxHeartbeats 400000 in
theorem tokenize_operator_delimited (s : State) (b : Nat) (hdot : peek s.context ≠ 46) :
    Delimited s.context.content b (tokenize_operator s).2.context.offset
      (tokenize_operator s).1 := by
  unfold tokenize_operator
  simp only []
  repeat' (first
    | exact absurd (by assumption) hdot
    | (refine delimited_ite (fun _ => ?_) (fun _ => ?_))
    | exact trivial)

theorem tokenizer_dispatch_delimited (s : State) :
    Delimited s.context.content s.context.offset (tokenizer_dispatch s).2.context.offset
      (tokenizer_dispatch s).1 := by
  unfold tokenizer_dispatch
  simp only []
  refine delimited_ite (fun _ => ?_) (fun _ => delimited_ite (fun _ => ?_)
    (fun hnum => delimited_ite (fun h => ?_) (fun _ => delimited_ite (fun h => ?_)
      (fun _ => ?_))))
  · exact identifier_type_delimited _ _ _ _
  · exact tokenize_number_delimited s _
  · exact tokenize_string_delimited s h
  · exact tokenize_char_delimited s h
  · apply tokenize_operator_delimited
    intro h46
    apply hnum
    simp [h46]


/-! ## One call of `tokenizer_next` -/

theorem Inv_framed (c : TokenizerContext) (h : PosInv c) :
    Inv { c with frame := collect_frame c } := ⟨h, h⟩

theorem PosInv_type (c : TokenizerContext) (ty : TokenType) (h : PosInv c) :
    PosInv { c with type := ty } := h

theorem tokenizer_next_facts (s : State) : NextRel s (tokenizer_next s) := by
  unfold NextRel Emitted tokenizer_next
  simp only []
  have hsk := skip_facts s
  have hfm : framed (skip s) = { (skip s) with context :=
      { (skip s).context with frame := collect_frame (skip s).context } } := rfl
  generalize hs1 : skip s = s1 at hsk hfm ⊢
  obtain ⟨hp, ho, -, -⟩ := hsk
  split
  · rename_i hstop
    refine ⟨hp.1, hp.2.2.2, ?_, fun _ _ => rfl, fun t h => (by cases h)⟩
    intro _
    rcases hstop with h | h
    · right
      unfold TokenizerContext.content_length at h
      rw [hp.1] at h
      exact h
    · left
      intro hn
      rw [hn] at h
      cases h
  · rename_i hgo
    have hlt : s1.context.offset < s.context.content.length := by
      have : ¬ s1.context.offset ≥ s1.context.content_length := fun h => hgo (Or.inl h)
      unfold TokenizerContext.content_length at this
      rw [hp.1] at this
      omega
    have hnone : s1.error.message = none := by
      cases hm : s1.error.message with
      | none => rfl
      | some m => exact absurd (Or.inr (by rw [hm]; rfl)) hgo
    have hd := tokenizer_dispatch_facts (framed s1) (by
      show s1.context.offset < s1.context.content.length
      rw [hp.1]; exact hlt) rfl
    rw [← hfm]
    generalize hr : tokenizer_dispatch (framed s1) = r at hd ⊢
    obtain ⟨⟨hp2, he2⟩, hb2⟩ := hd
    have hc2 : r.2.context.content = s.context.content := by rw [hp2.1]; exact hp.1
    have hi2 : PosInv s.context → PosInv r.2.context :=
      fun h => (hp2.2.2.2 (Inv_framed _ (hp.2.2.2 h))).1
    split
    · rename_i herr
      exact ⟨hc2, hi2, fun _ => Or.inl (he2 herr), fun _ hn => absurd hn (he2 herr),
        fun t h => (by cases h)⟩
    · rename_i hok
      have hb := hb2 hok
      have hfo : r.2.context.frame.offset = s1.context.offset := by rw [hp2.2.1]; rfl
      have hfl : r.2.context.frame.line = s1.context.line := by rw [hp2.2.1]; rfl
      have hfc : r.2.context.frame.column = s1.context.column := by rw [hp2.2.1]; rfl
      have hbo : s1.context.offset < r.2.context.offset := hb.1
      have hbl : r.2.context.offset ≤ s.context.content.length := by
        have := hb.2
        rwa [show (framed s1).context.content = s1.context.content from rfl, hp.1] at this
      refine ⟨hc2, fun h => PosInv_type _ _ (hi2 h), fun h => (by cases h),
        fun h => (by cases h), ?_⟩
      intro t ht
      simp only [Option.some.injEq] at ht
      subst ht
      refine ⟨hnone, hfo, hfl, hfc, (by dsimp only; omega), (by dsimp only; omega),
        (by dsimp only; omega), hbl, ?_, rfl, hok, rfl, rfl, rfl⟩
      dsimp only
      unfold slice seg
      dsimp only
      rw [hc2, hfo]
      congr 2
      omega

/-- A call returns a token as soon as the skipper leaves the error slot empty and the
cursor inside the input, and the classifier does not fail. -/
theorem tokenizer_next_some (s : State) (hnone : (skip s).error.message = none)
    (hlt : (skip s).context.offset < (skip s).context.content.length)
    (hok : (tokenizer_dispatch (framed (skip s))).1 ≠ TokenType.ERROR) :
    ∃ t, (tokenizer_next s).1 = some t := by
  unfold tokenizer_next
  simp only []
  have hfm : framed (skip s) = { (skip s) with context :=
      { (skip s).context with frame := collect_frame (skip s).context } } := rfl
  rw [← hfm]
  rw [if_neg, if_neg hok]
  · exact ⟨_, rfl⟩
  · intro h
    rcases h with h | h
    · unfold TokenizerContext.content_length at h; omega
    · rw [hnone] at h; cases h


/-! ## Claims -/

/-- A state from which no call can return a token: the error slot is set, or the cursor
is at or past the end of the input. -/
theorem stuck_call (s : State)
    (h : s.error.message ≠ none ∨ s.context.content.length ≤ s.context.offset) :
    (tokenizer_next s).1 = none ∧
      ((tokenizer_next s).2.error.message ≠ none ∨
        (tokenizer_next s).2.context.content.length ≤ (tokenizer_next s).2.context.offset) := by
  have hsk := skip_facts s
  have hstop : (skip s).context.offset ≥ (skip s).context.content_length ∨
      (skip s).error.message.isSome = true := by
    rcases h with h | h
    · right
      rcases hsk.2.2.1 with he | he
      · rw [he]
        cases hm : s.error.message with
        | none => exact absurd hm h
        | some m => rfl
      · rw [he.1]; rfl
    · left
      rw [skip_of_ge s h]
      exact h
  have hcall : tokenizer_next s = (none, skip s) := by
    unfold tokenizer_next
    simp only []
    rw [if_pos hstop]
  rw [hcall]
  refine ⟨rfl, ?_⟩
  rcases hstop with h1 | h1
  · right; exact h1
  · left
    intro hn
    rw [hn] at h1
    cases h1

theorem stuck_after_none (s : State) (h : (tokenizer_next s).1 = none) :
    (tokenizer_next s).2.error.message ≠ none ∨
      (tokenizer_next s).2.context.content.length ≤ (tokenizer_next s).2.context.offset := by
  have hf := tokenizer_next_facts s
  rcases hf.2.2.1 h with h1 | h1
  · left; exact h1
  · right; rw [hf.1]; exact h1

theorem stuck_iterate (n : Nat) (s : State)
    (h : s.error.message ≠ none ∨ s.context.content.length ≤ s.context.offset) :
    ((fun x => (tokenizer_next x).2)^[n] s).error.message ≠ none ∨
      ((fun x => (tokenizer_next x).2)^[n] s).context.content.length
        ≤ ((fun x => (tokenizer_next x).2)^[n] s).context.offset := by
  induction n generalizing s with
  | zero => exact h
  | succ n ih =>
    rw [Function.iterate_succ_apply]
    exact ih _ (stuck_call s h).2

/-- C1. End-of-stream is sticky: if a call of `tokenizer_next` on any state (any context,
any content of the error slot) returns no token, then each of the calls that follow it on
the state it left returns no token either. -/
theorem C1_end_of_stream_sticky (s : State) (h : (tokenizer_next s).1 = none) (n : Nat) :
    (tokenizer_next ((fun x => (tokenizer_next x).2)^[n + 1] s)).1 = none := by
  rw [Function.iterate_succ_apply]
  exact (stuck_call _ (stuck_iterate n _ (stuck_after_none s h))).1

/-- Witness for C1 on the input `# x`: the first call fails on `#`, and the fourth call
still returns nothing although `x` was never scanned. -/
theorem C1_end_of_stream_sticky_witness :
    (tokenizer_next (initial_state (bytes "# x") ⟨0, 0, 0⟩ TokenType.ERROR)).1 = none ∧
    (tokenizer_next ((fun x => (tokenizer_next x).2)^[3]
      (initial_state (bytes "# x") ⟨0, 0, 0⟩ TokenType.ERROR))).1 = none :=
  ⟨by decide, C1_end_of_stream_sticky _ (by decide) 2⟩

/-- C3, the failing input.  On the closed string literal with an invalid escape the call
that latches "invalid escape sequence" returns a `STRING_LITERAL` token all the same. -/
theorem C3_token_returned_with_error :
    (initial_state (bytes "\"\\q\"") ⟨0, 0, 0⟩ TokenType.ERROR).error.message = none ∧
    (tokenizer_next (initial_state (bytes "\"\\q\"") ⟨0, 0, 0⟩ TokenType.ERROR)).1
      = some { type := TokenType.STRING_LITERAL, content := bytes "\"\\q\"", offset := 0,
               length := 4, line := 1, column := 1 } ∧
    (tokenizer_next (initial_state (bytes "\"\\q\"") ⟨0, 0, 0⟩ TokenType.ERROR)).2.error
      = { message := some "invalid escape sequence", frame := ⟨1, 1, 2⟩ } := by
  decide

/-! ### The token stream -/

theorem token_stream_zero (s : State) : token_stream 0 s = ([], s) := rfl

theorem token_stream_none (n : Nat) (s : State) (h : (tokenizer_next s).1 = none) :
    token_stream (n + 1) s = ([], (tokenizer_next s).2) := by
  rw [token_stream]
  generalize tokenizer_next s = r at h ⊢
  obtain ⟨o, s1⟩ := r
  simp only at h
  subst h
  rfl

theorem token_stream_some (n : Nat) (s : State) (t : Token)
    (h : (tokenizer_next s).1 = some t) :
    token_stream (n + 1) s
      = (t :: (token_stream n (tokenizer_next s).2).1,
         (token_stream n (tokenizer_next s).2).2) := by
  rw [token_stream]
  generalize tokenizer_next s = r at h ⊢
  obtain ⟨o, s1⟩ := r
  simp only at h
  subst h
  rfl

/-- Induction along the calls made by the driver loop. -/
theorem token_stream_induction (P : State → List Token → State → Prop)
    (hzero : ∀ s, P s [] s)
    (hnone : ∀ s, (tokenizer_next s).1 = none → P s [] (tokenizer_next s).2)
    (hsome : ∀ s t ts f, (tokenizer_next s).1 = some t →
      P (tokenizer_next s).2 ts f → P s (t :: ts) f) :
    ∀ (n : Nat) (s : State), P s (token_stream n s).1 (token_stream n s).2 := by
  intro n
  induction n with
  | zero => intro s; exact hzero s
  | succ n ih =>
    intro s
    cases h : (tokenizer_next s).1 with
    | none => rw [token_stream_none n s h]; exact hnone s h
    | some t => rw [token_stream_some n s t h]; exact hsome s t _ _ h (ih _)

theorem token_stream_spans (n : Nat) (s : State) :
    (∀ t ∈ (token_stream n s).1,
      s.context.offset ≤ t.offset ∧ 1 ≤ t.length ∧
      t.offset + t.length ≤ s.context.content.length) ∧
    List.Chain' (fun a b : Token => a.offset + a.length ≤ b.offset ∧ a.offset < b.offset)
      (token_stream n s).1 := by
  apply token_stream_induction
    (fun s ts _ => (∀ t ∈ ts, s.context.offset ≤ t.offset ∧ 1 ≤ t.length ∧
        t.offset + t.length ≤ s.context.content.length) ∧
      List.Chain' (fun a b : Token => a.offset + a.length ≤ b.offset ∧ a.offset < b.offset) ts)
  · intro s
    exact ⟨fun t h => (by cases h), List.chain'_nil⟩
  · intro s _
    exact ⟨fun t h => (by cases h), List.chain'_nil⟩
  · intro s t ts f ht ⟨hall, hchain⟩
    have hf := tokenizer_next_facts s
    obtain ⟨-, ho, -, -, hlt, hlen, hend, hle, -⟩ := hf.2.2.2.2 t ht
    have hsk := (skip_facts s).2.1
    rw [hf.1] at hall
    refine ⟨?_, ?_⟩
    · intro u hu
      rcases List.mem_cons.mp hu with rfl | hu
      · exact ⟨by omega, hlen, by omega⟩
      · obtain ⟨h1, h2, h3⟩ := hall u hu
        exact ⟨by omega, h2, h3⟩
    · rw [List.chain'_cons']
      refine ⟨?_, hchain⟩
      intro u hu
      have hmem : u ∈ ts := List.mem_of_mem_head? hu
      obtain ⟨h1, -, -⟩ := hall u hmem
      exact ⟨by omega, by omega⟩

/-- C4. For every input and every state of the scan over it, the tokens returned by
successive calls of `tokenizer_next` have non-empty spans inside the input, in strictly
increasing order and without overlap: `offset + length <= |S|` for each token, and each
token starts at or after the end of the token before it. -/
theorem C4_spans_inside_and_ordered (s : State) (n : Nat) :
    (∀ t ∈ (token_stream n s).1,
      1 ≤ t.length ∧ t.offset + t.length ≤ s.context.content.length) ∧
    List.Chain' (fun a b : Token => a.offset + a.length ≤ b.offset ∧ a.offset < b.offset)
      (token_stream n s).1 :=
  ⟨fun t ht => ((token_stream_spans n s).1 t ht).2, (token_stream_spans n s).2⟩

/-! ### Coverage -/

theorem mem_of_mem_seg (S : List Nat) (a b x : Nat) (h : x ∈ seg S a b) : x ∈ S :=
  List.mem_of_mem_drop (List.mem_of_mem_take h)

/-- C6. For every input without NUL bytes, the raw lexeme of every token returned by
`tokenizer_next` is exactly the bytes `S[offset .. offset+length)` of the input: it has
`length` bytes, and it includes the two quotes of a string or character literal and the
suffix letter of a float (`f`/`F`) or long (`l`/`L`) literal. -/
theorem C6_raw_lexeme (s : State) (t : Token) (hnul : ∀ b ∈ s.context.content, b ≠ 0)
    (h : (tokenizer_next s).1 = some t) :
    t.content = (s.context.content.drop t.offset).take t.length ∧
    t.content.length = t.length ∧
    Delimited s.context.content t.offset (t.offset + t.length) t.type := by
  have hf := tokenizer_next_facts s
  obtain ⟨-, ho, -, -, -, -, hto, hle, hcontent, -, -, hty, hoff, -⟩ := hf.2.2.2.2 t h
  have hc : t.content = seg s.context.content t.offset (t.offset + t.length) := by
    rw [hcontent]
    apply List.takeWhile_eq_self_iff.mpr
    intro b hb
    simpa using hnul b (mem_of_mem_seg _ _ _ _ hb)
  have hseg : seg s.context.content t.offset (t.offset + t.length)
      = (s.context.content.drop t.offset).take t.length := by
    unfold seg; rw [Nat.add_sub_cancel_left]
  refine ⟨by rw [hc, hseg], ?_, ?_⟩
  · rw [hc, hseg, List.length_take, List.length_drop]
    omega
  · have hd := tokenizer_dispatch_delimited (framed (skip s))
    rw [← hty, ← hoff, ← hto] at hd
    have hc2 : (framed (skip s)).context.content = s.context.content := (skip_facts s).1.1
    have ho2 : (framed (skip s)).context.offset = t.offset := ho.symm
    rw [hc2, ho2] at hd
    exact hd

/-- Witness for C6 on the input `"ab" 10L`: the first token is the string literal with
its quotes. -/
theorem C6_raw_lexeme_witness :
    (∀ b ∈ bytes "\"ab\" 10L", b ≠ 0) ∧
    (tokenizer_next (initial_state (bytes "\"ab\" 10L") ⟨0, 0, 0⟩ TokenType.ERROR)).1
      = some { type := TokenType.STRING_LITERAL, content := bytes "\"ab\"", offset := 0,
               length := 4, line := 1, column := 1 } ∧
    bytes "\"ab\"" = ((bytes "\"ab\" 10L").drop 0).take 4 :=
  ⟨by decide, by decide,
    (C6_raw_lexeme (initial_state (bytes "\"ab\" 10L") ⟨0, 0, 0⟩ TokenType.ERROR)
      { type := TokenType.STRING_LITERAL, content := bytes "\"ab\"", offset := 0,
        length := 4, line := 1, column := 1 } (by decide) (by decide)).1⟩

theorem token_stream_positions (n : Nat) (s : State) (hpos : PosInv s.context) :
    ∀ t ∈ (token_stream n s).1,
      t.line = line_of s.context.content t.offset ∧
      t.column = column_of s.context.content t.offset := by
  revert hpos
  apply token_stream_induction
    (fun s ts _ => PosInv s.context → ∀ t ∈ ts,
      t.line = line_of s.context.content t.offset ∧
      t.column = column_of s.context.content t.offset)
  · intro s _ t h; cases h
  · intro s _ _ t h; cases h
  · intro s t ts f ht ih hpos u hu
    have hf := tokenizer_next_facts s
    obtain ⟨-, ho, hl, hc, hlt, -⟩ := hf.2.2.2.2 t ht
    have hsk := skip_facts s
    rcases List.mem_cons.mp hu with rfl | hu
    · have hp1 : PosInv (skip s).context := hsk.1.2.2.2 hpos
      have := hp1 (by rw [hsk.1.1, ← ho]; omega)
      rw [hsk.1.1, ← ho, ← hl, ← hc] at this
      exact this
    · have := ih (hf.2.1 hpos) u hu
      rwa [hf.1] at this

/-- C7. Starting from the initial context (offset 0, line 1, column 1), every token
returned for the input `S` carries `line = 1 +` the number of line feeds in
`S[0..offset)` and `column = 1 +` the number of bytes between the last line feed before
`offset` (or the start of `S`) and `offset`; the frame of a numeric literal, to which the
floating-point scanner rewinds, carries these values too. -/
theorem C7_line_and_column (S : List Nat) (frame : TokenizerFrame) (type : TokenType)
    (n : Nat) :
    ∀ t ∈ (token_stream n (initial_state S frame type)).1,
      t.line = 1 + (S.take t.offset).count 10 ∧
      t.column = 1 + ((S.take t.offset).reverse.takeWhile (fun b => decide (b ≠ 10))).length := by
  intro t ht
  have hpos : PosInv (initial_state S frame type).context := by
    intro _
    exact ⟨rfl, rfl⟩
  exact token_stream_positions n (initial_state S frame type) hpos t ht

/-- Witness for C7 on the input `a`, line feed, ` 1.5`: the literal `1.5`, scanned
through the rewind of the floating-point scanner, is on line 2, column 2. -/
theorem C7_line_and_column_witness :
    ({ type := TokenType.DOUBLE_NUMBER, content := bytes "1.5", offset := 3, length := 3,
       line := 2, column := 2 } : Token)
      ∈ (token_stream 3 (initial_state (bytes "a\n 1.5") ⟨0, 0, 0⟩ TokenType.ERROR)).1 ∧
    (2 = 1 + ((bytes "a\n 1.5").take 3).count 10 ∧
     2 = 1 + (((bytes "a\n 1.5").take 3).reverse.takeWhile
        (fun b => decide (b ≠ 10))).length) :=
  ⟨by decide,
    C7_line_and_column (bytes "a\n 1.5") ⟨0, 0, 0⟩ TokenType.ERROR 3
      { type := TokenType.DOUBLE_NUMBER, content := bytes "1.5", offset := 3, length := 3,
        line := 2, column := 2 } (by decide)⟩


theorem tokenizer_dispatch_identifier (x : State)
    (h : is_identifier_start (peek x.context) = true) :
    tokenizer_dispatch x
      = ((tokenize_identifier x.context).1,
         { x with context := (tokenize_identifier x.context).2 }) := by
  unfold tokenizer_dispatch
  simp only []
  rw [if_pos h]

theorem is_identifier_of_start (b : Nat) (h : is_identifier_start b = true) :
    is_identifier b = true := by
  unfold is_identifier
  rw [h]
  rfl

theorem ne_zero_of_is_identifier (b : Nat) (h : is_identifier b = true) : b ≠ 0 := by
  intro h0
  rw [h0] at h
  revert h
  decide

/-- The state left by the skipper when the error slot was empty before and the cursor
ends on a byte: the slot is still empty. -/
theorem skip_error_none (s : State) (herr : s.error.message = none)
    (hpk : peek (skip s).context ≠ 0) : (skip s).error.message = none := by
  have hsk := skip_facts s
  rcases hsk.2.2.1 with he | he
  · rw [he]; exact herr
  · exfalso
    apply hpk
    exact peek_n_of_ge _ _ (by rw [hsk.1.1]; have := he.2.2.2.2.2.1; omega)

/-- The identifier scanned at the cursor of a framed context. -/
theorem tokenize_identifier_run (c : TokenizerContext)
    (hfr : c.frame = collect_frame c) (h : is_identifier_start (peek c) = true) :
    (tokenize_identifier c).2.offset = c.offset + run_length is_identifier c ∧
    slice (tokenize_identifier c).2 = (c.content.drop c.offset).takeWhile is_identifier ∧
    is_identifier (c.content.getD (c.offset + run_length is_identifier c) 0) = false := by
  have hid := is_identifier_of_start _ h
  have hrun := run_length_of_true is_identifier is_identifier_zero c hid
  have hctx := tokenize_identifier_context c
  have hoff : (tokenize_identifier c).2.offset = c.offset + run_length is_identifier c := by
    rw [hctx, iterate_next_offset, next_offset, hrun]; omega
  have hcon : (tokenize_identifier c).2.content = c.content := by
    rw [hctx, iterate_next_content, next_content]
  have hframe : (tokenize_identifier c).2.frame = c.frame := by
    rw [hctx, iterate_next_frame, next_frame]
  refine ⟨hoff, ?_, ?_⟩
  · unfold slice
    rw [hcon, hframe, hfr, hoff]
    simp only [collect_frame]
    have hseg := seg_run is_identifier c
    unfold seg at hseg
    rw [hseg]
    apply List.takeWhile_eq_self_iff.mpr
    intro b hb
    have := ne_zero_of_is_identifier b (List.mem_takeWhile_imp hb)
    simpa using this
  · have hexit := run_exit is_identifier is_identifier_zero c
    by_cases hin : c.offset + run_length is_identifier c < c.content.length
    · rw [peek_eq_getD _ (by rw [iterate_next_offset, iterate_next_content]; exact hin),
        iterate_next_offset, iterate_next_content] at hexit
      exact hexit
    · rw [List.getD_eq_default _ _ (by omega)]
      exact is_identifier_zero

/-- C8. Identifier maximal munch: in every state with an empty error slot, when the
first byte after the trivia is a letter, `_` or `$`, the call returns a token that starts
on that byte and whose lexeme is the longest run of letters, digits, `_` and `$` from
there; the byte after the span, if any, is not an identifier byte; its kind is given by
the keyword chain applied to the whole lexeme.  So `iffy` yields one `IDENTIFIER` token of
length 4. -/
theorem C8_identifier_maximal_munch (s : State) (herr : s.error.message = none)
    (hstart : is_identifier_start (peek (skip s).context) = true) :
    (∃ t, (tokenizer_next s).1 = some t ∧ t.offset = (skip s).context.offset ∧
      t.content = (s.context.content.drop t.offset).takeWhile is_identifier ∧
      t.length = t.content.length ∧
      is_identifier (s.context.content.getD (t.offset + t.length) 0) = false ∧
      t.type = identifier_type t.content) ∧
    (token_stream 3 (initial_state (bytes "iffy") ⟨0, 0, 0⟩ TokenType.ERROR)).1
      = [{ type := TokenType.IDENTIFIER, content := bytes "iffy", offset := 0, length := 4,
           line := 1, column := 1 }] := by
  refine ⟨?_, by decide⟩
  have hid := is_identifier_of_start _ hstart
  have hpk : peek (skip s).context ≠ 0 := ne_zero_of_is_identifier _ hid
  have hnone := skip_error_none s herr hpk
  have hlt := lt_of_peek_ne_zero _ hpk
  have hsk := skip_facts s
  have hc : (skip s).context.content = s.context.content := hsk.1.1
  have hdis := tokenizer_dispatch_identifier (framed (skip s)) hstart
  have hrun := tokenize_identifier_run (framed (skip s)).context rfl hstart
  have hok : (tokenizer_dispatch (framed (skip s))).1 ≠ TokenType.ERROR := by
    rw [hdis, tokenize_identifier_type]
    exact identifier_type_ne_error _
  obtain ⟨t, ht⟩ := tokenizer_next_some s hnone hlt hok
  have hf := tokenizer_next_facts s
  obtain ⟨-, ho, -, -, -, -, hto, -, hcontent, -, -, hty, hoff, -⟩ := hf.2.2.2.2 t ht
  rw [hdis] at hty hoff
  simp only [] at hty hoff
  obtain ⟨hr1, hr2, hr3⟩ := hrun
  have hfo : (framed (skip s)).context.offset = t.offset := ho.symm
  have hfc : (framed (skip s)).context.content = s.context.content := hc
  rw [hfo] at hr1 hr2 hr3
  rw [hfc] at hr2 hr3
  have hlen : t.length = run_length is_identifier (framed (skip s)).context := by omega
  have hcon : t.content = (s.context.content.drop t.offset).takeWhile is_identifier := by
    rw [← hr2]
    rw [hcontent]
    unfold slice seg
    have hfacts := tokenize_identifier_facts (framed (skip s)).context hlt
    have h1 : (tokenize_identifier (framed (skip s)).context).2.content = s.context.content :=
      hfacts.1.1.trans hfc
    have h2 : (tokenize_identifier (framed (skip s)).context).2.frame.offset = t.offset := by
      rw [hfacts.1.2.1]; exact hfo
    rw [h1, h2, hr1, ← hlen]
  refine ⟨t, ht, ho, hcon, ?_, ?_, ?_⟩
  · rw [hcon, hlen]
    unfold run_length
    rw [hfo, hfc]
  · rw [hlen]; exact hr3
  · rw [hty, tokenize_identifier_type, hr2, hcon]

/-- Witness for C8 on the input ` ab1+`, whose identifier follows a space. -/
theorem C8_identifier_maximal_munch_witness :
    (initial_state (bytes " ab1+") ⟨0, 0, 0⟩ TokenType.ERROR).error.message = none ∧
    is_identifier_start
      (peek (skip (initial_state (bytes " ab1+") ⟨0, 0, 0⟩ TokenType.ERROR)).context) = true ∧
    ∃ t, (tokenizer_next (initial_state (bytes " ab1+") ⟨0, 0, 0⟩ TokenType.ERROR)).1 = some t ∧
      t.content = ((bytes " ab1+").drop t.offset).takeWhile is_identifier :=
  ⟨by decide, by decide,
    (C8_identifier_maximal_munch (initial_state (bytes " ab1+") ⟨0, 0, 0⟩ TokenType.ERROR)
      (by decide) (by decide)).1.imp (fun _ h => ⟨h.1, h.2.2.1⟩)⟩


theorem keyword_kind_ite (w : List Nat) (k : String) (K r : TokenType)
    (hK : keyword_kind (bytes k) = K) (hr : w ≠ bytes k → r = keyword_kind w) :
    (if w = bytes k then K else r) = keyword_kind w := by
  split
  · rename_i h; rw [h, hK]
  · rename_i h; exact hr h

/-- C9. Keyword exactness: the kind that `tokenize_identifier` gives to a lexeme `w` (the
kind of the token, by C8) is the kind of the keyword whose spelling is byte for byte the
whole of `w`, among the 19 keywords of the specification, whose spellings and kinds are
pairwise different, and `IDENTIFIER` when there is none; so `ifx`, `if2`, `If` and also
`and`, `or`, `not` are `IDENTIFIER` tokens, and `if` is an `IF` token. -/
theorem C9_keyword_exactness (w : List Nat) :
    identifier_type w = keyword_kind w ∧
    keyword_table.length = 19 ∧ (keyword_table.map Prod.fst).Nodup ∧
    (keyword_table.map Prod.snd).Nodup ∧
    TokenType.IDENTIFIER ∉ keyword_table.map Prod.snd ∧
    (token_stream 8 (initial_state (bytes "ifx if2 If and or not if") ⟨0, 0, 0⟩
        TokenType.ERROR)).1.map Token.type
      = [TokenType.IDENTIFIER, TokenType.IDENTIFIER, TokenType.IDENTIFIER,
         TokenType.IDENTIFIER, TokenType.IDENTIFIER, TokenType.IDENTIFIER, TokenType.IF] := by
  refine ⟨?_, by decide, by decide, by decide, by decide, by decide⟩
  unfold identifier_type
  repeat (refine keyword_kind_ite w _ _ _ (by decide) (fun _ => ?_))
  unfold keyword_kind keyword_table
  simp only [List.find?_cons, *, decide_False, List.find?_nil]


theorem peek_next (c : TokenizerContext) : peek (next c) = peek_n c 1 := by
  unfold peek peek_n TokenizerContext.content_length
  rw [next_offset, next_content]

theorem operand_expected_iff (k : TokenType) :
    ((TokenType.PLUS.ord ≤ k.ord ∧ k.ord ≤ TokenType.AS.ord)
        ∨ k = TokenType.LEFT_PARENT ∨ k = TokenType.LEFT_SQUARE
        ∨ k = TokenType.RETURN ∨ k = TokenType.THIS) ↔ operand_expected k = true := by
  cases k <;> decide

set_option maxHeartbeats 400000 in
theorem tokenize_operator_minus (x : State) (h45 : peek x.context = 45)
    (h1 : peek_n x.context 1 ≠ 45) (h2 : peek_n x.context 1 ≠ 61)
    (h3 : peek_n x.context 1 ≠ 62) :
    tokenize_operator x
      = (if operand_expected x.context.type = true then TokenType.UNARY_MINUS
          else TokenType.MINUS, { x with context := next x.context }) := by
  unfold tokenize_operator
  simp only [h45, peek_next, next_type]
  simp only [Nat.reduceEqDiff, if_false, if_true, h1, h2, h3]
  by_cases hk : operand_expected x.context.type = true
  · rw [if_pos ((operand_expected_iff _).mpr hk), if_pos hk]
  · rw [if_neg (fun h => hk ((operand_expected_iff _).mp h)), if_neg hk]

theorem tokenizer_dispatch_minus (x : State) (h45 : peek x.context = 45) :
    tokenizer_dispatch x = tokenize_operator x := by
  unfold tokenizer_dispatch
  simp only [h45]
  rw [if_neg (by decide), if_neg (by decide), if_neg (by decide), if_neg (by decide)]

/-- A bare `-` at the cursor after the trivia, in a state with an empty error slot: the
call returns a one-byte token, unary or binary according to `context->type`. -/
theorem bare_minus (s : State) (herr : s.error.message = none)
    (h45 : peek (skip s).context = 45)
    (h1 : peek_n (skip s).context 1 ≠ 45) (h2 : peek_n (skip s).context 1 ≠ 61)
    (h3 : peek_n (skip s).context 1 ≠ 62) :
    ∃ t, (tokenizer_next s).1 = some t ∧ t.offset = (skip s).context.offset ∧ t.length = 1 ∧
      t.type = if operand_expected s.context.type = true then TokenType.UNARY_MINUS
        else TokenType.MINUS := by
  have hpk : peek (skip s).context ≠ 0 := by rw [h45]; decide
  have hnone := skip_error_none s herr hpk
  have hlt := lt_of_peek_ne_zero _ hpk
  have hsk := skip_facts s
  have hdis : tokenizer_dispatch (framed (skip s))
      = (if operand_expected s.context.type = true then TokenType.UNARY_MINUS
          else TokenType.MINUS,
         { framed (skip s) with context := next (framed (skip s)).context }) := by
    have g45 : peek (framed (skip s)).context = 45 := h45
    have g1 : peek_n (framed (skip s)).context 1 ≠ 45 := h1
    have g2 : peek_n (framed (skip s)).context 1 ≠ 61 := h2
    have g3 : peek_n (framed (skip s)).context 1 ≠ 62 := h3
    rw [tokenizer_dispatch_minus (framed (skip s)) g45,
      tokenize_operator_minus (framed (skip s)) g45 g1 g2 g3]
    have : (framed (skip s)).context.type = s.context.type := hsk.1.2.2.1
    rw [this]
  have hok : (tokenizer_dispatch (framed (skip s))).1 ≠ TokenType.ERROR := by
    rw [hdis]
    dsimp only
    split <;> decide
  obtain ⟨t, ht⟩ := tokenizer_next_some s hnone hlt hok
  have hf := tokenizer_next_facts s
  obtain ⟨-, ho, -, -, -, -, hto, -, -, -, -, hty, hoff, -⟩ := hf.2.2.2.2 t ht
  rw [hdis] at hty hoff
  dsimp only at hty hoff
  rw [next_offset] at hoff
  have : (framed (skip s)).context.offset = (skip s).context.offset := rfl
  exact ⟨t, ht, ho, by omega, hty⟩


/-! ## The bytes under the cursor as a list -/

theorem peek_n_eq_head (c : TokenizerContext) (n : Nat) :
    peek_n c n = (c.content.drop (c.offset + n)).headD 0 := by
  by_cases h : c.offset + n < c.content.length
  · rw [peek_n_of_lt c n h, List.drop_eq_getElem_cons h, List.headD_cons,
      List.getD_eq_getElem _ _ h]
  · rw [peek_n_of_ge c n (by omega), List.drop_eq_nil_of_le (by omega)]
    rfl

theorem peek_eq_head (c : TokenizerContext) :
    peek c = (c.content.drop c.offset).headD 0 := peek_n_eq_head c 0

theorem peek_iterate (k : Nat) (c : TokenizerContext) : peek (next^[k] c) = peek_n c k := by
  unfold peek peek_n TokenizerContext.content_length
  rw [iterate_next_offset, iterate_next_content]
  rfl

theorem peek_n_iterate (k n : Nat) (c : TokenizerContext) :
    peek_n (next^[k] c) n = peek_n c (k + n) := by
  unfold peek_n TokenizerContext.content_length
  rw [iterate_next_offset, iterate_next_content, Nat.add_assoc]

theorem peek_n_next (n : Nat) (c : TokenizerContext) :
    peek_n (next c) n = peek_n c (1 + n) := peek_n_iterate 1 n c

theorem drop_eq_peek_cons (c : TokenizerContext) (h : peek c ≠ 0) :
    c.content.drop c.offset = peek c :: c.content.drop (c.offset + 1) := by
  have hlt := lt_of_peek_ne_zero c h
  rw [List.drop_eq_getElem_cons hlt, peek_eq_getD c hlt, List.getD_eq_getElem _ _ hlt]

theorem drop_add_drop (S : List Nat) (a b : Nat) : (S.drop a).drop b = S.drop (a + b) := by
  rw [List.drop_drop, Nat.add_comm]

theorem iterate_next_succ (k : Nat) (c : TokenizerContext) :
    next (next^[k] c) = next^[k + 1] c := by
  rw [Function.iterate_succ_apply']

theorem iterate_next_add (j k : Nat) (c : TokenizerContext) :
    next^[j] (next^[k] c) = next^[k + j] c := by
  rw [Nat.add_comm, Function.iterate_add_apply]

/-! ## One call of `tokenizer_next`, by the result of the classifier -/

theorem tokenizer_next_error (s : State) (hnone : (skip s).error.message = none)
    (hlt : (skip s).context.offset < (skip s).context.content.length)
    (herr : (tokenizer_dispatch (framed (skip s))).1 = TokenType.ERROR) :
    tokenizer_next s = (none, (tokenizer_dispatch (framed (skip s))).2) := by
  unfold tokenizer_next
  simp only []
  have hfm : framed (skip s) = { (skip s) with context :=
      { (skip s).context with frame := collect_frame (skip s).context } } := rfl
  rw [← hfm]
  rw [if_neg, if_pos herr]
  intro h
  rcases h with h | h
  · unfold TokenizerContext.content_length at h; omega
  · rw [hnone] at h; cases h

/-- The token returned when the classifier yields the kind `k` and leaves the cursor `n`
bytes after the start of the token. -/
theorem tokenizer_next_token (s : State) (hnone : (skip s).error.message = none)
    (hlt : (skip s).context.offset < (skip s).context.content.length)
    (k : TokenType) (n : Nat) (hk : k ≠ TokenType.ERROR)
    (h1 : (tokenizer_dispatch (framed (skip s))).1 = k)
    (h2 : (tokenizer_dispatch (framed (skip s))).2.context.offset
      = (skip s).context.offset + n) :
    ∃ t, (tokenizer_next s).1 = some t ∧ t.type = k ∧ t.offset = (skip s).context.offset ∧
      t.length = n ∧ t.line = (skip s).context.line ∧ t.column = (skip s).context.column ∧
      t.content = cstring (seg s.context.content t.offset (t.offset + n)) ∧
      (tokenizer_next s).2.error = (tokenizer_dispatch (framed (skip s))).2.error := by
  obtain ⟨t, ht⟩ := tokenizer_next_some s hnone hlt (by rw [h1]; exact hk)
  obtain ⟨-, ho, hl, hc, -, -, hto, -, hcontent, -, -, hty, hoff, he⟩ :=
    (tokenizer_next_facts s).2.2.2.2 t ht
  have hlen : t.length = n := by omega
  refine ⟨t, ht, hty.trans h1, ho, hlen, hl, hc, ?_, he⟩
  rw [hcontent, hlen]
  rfl

/-! ## The digit-run loop, exactly -/

theorem digit_run_length (c : TokenizerContext) :
    (digit_run (c.content.drop c.offset)).length = run_length dec_part_byte c := rfl

theorem digit_run_cons (c : TokenizerContext) (h : dec_part_byte (peek c) = true) :
    digit_run (c.content.drop c.offset)
      = peek c :: digit_run ((next c).content.drop (next c).offset) := by
  have h0 : peek c ≠ 0 := by
    intro h0
    rw [h0] at h
    exact absurd h (by decide)
  rw [next_content, next_offset, drop_eq_peek_cons c h0]
  unfold digit_run
  rw [List.takeWhile_cons, if_pos h]

theorem digit_run_nil (c : TokenizerContext) (h : dec_part_byte (peek c) = false) :
    digit_run (c.content.drop c.offset) = [] := by
  have := run_length_of_false dec_part_byte c h
  rw [← digit_run_length] at this
  exact List.eq_nil_of_length_eq_zero this

theorem digit_run_ne_nil (c : TokenizerContext) (h : dec_part_byte (peek c) = true) :
    digit_run (c.content.drop c.offset) ≠ [] := by
  rw [digit_run_cons c h]
  exact List.cons_ne_nil _ _

theorem digit_run_head (c : TokenizerContext) (h : dec_part_byte (peek c) = true) :
    (digit_run (c.content.drop c.offset)).head? = some (peek c) := by
  rw [digit_run_cons c h]
  rfl

/-- The flags `last_underscore` and `has_number` at the exit of the loop of
`tokenize_dec_part`, in terms of the digit run at the cursor. -/
theorem tokenize_dec_part_loop_flags (fuel : Nat) :
    ∀ (c : TokenizerContext) (lu hn : Bool), c.content.length - c.offset < fuel →
      (tokenize_dec_part_loop fuel c lu hn).2
        = (if digit_run (c.content.drop c.offset) = [] then lu
            else decide ((digit_run (c.content.drop c.offset)).getLast? = some 95),
           hn || (digit_run (c.content.drop c.offset)).any is_number) := by
  induction fuel with
  | zero => intro c lu hn h; omega
  | succ fuel ih =>
    intro c lu hn hfuel
    unfold tokenize_dec_part_loop
    by_cases h1 : is_number (peek c) = true
    · have hb : dec_part_byte (peek c) = true := by simp [dec_part_byte, h1]
      have hlt := lt_of_peek_ne_zero c (by
        intro h0; rw [h0] at h1; exact absurd h1 (by decide))
      have h95 : peek c ≠ 95 := by
        intro h; rw [h] at h1; exact absurd h1 (by decide)
      rw [if_pos h1, ih (next c) false true (by rw [next_content, next_offset]; omega),
        digit_run_cons c hb]
      generalize digit_run ((next c).content.drop (next c).offset) = r
      cases r with
      | nil => simp [h1, h95]
      | cons a r => simp [h1, List.getLast?_cons_cons]
    · rw [if_neg h1]
      by_cases h2 : peek c = 95
      · have hb : dec_part_byte (peek c) = true := by simp [dec_part_byte, h2]
        have hlt := lt_of_peek_ne_zero c (by rw [h2]; decide)
        rw [if_pos h2, ih (next c) true hn (by rw [next_content, next_offset]; omega),
          digit_run_cons c hb]
        generalize digit_run ((next c).content.drop (next c).offset) = r
        have h3 : is_number 95 = false := by decide
        cases r with
        | nil => simp [h2, h3]
        | cons a r => simp [h2, h3, List.getLast?_cons_cons]
      · have hb : dec_part_byte (peek c) = false := by simp [dec_part_byte, h1, h2]
        rw [if_neg h2, digit_run_nil c hb]
        simp

theorem tokenize_dec_part_leading (s : State) (req : Bool) (h95 : peek s.context = 95) :
    tokenize_dec_part s req
      = (false, { s with error :=
          { message := some
              "numeric literal cannot have an underscore as it's first or last character",
            frame := s.context.frame } }) := by
  unfold tokenize_dec_part
  rw [if_pos h95]

/-- The result of `tokenize_dec_part` when the cursor is not on `_`, in terms of the digit
run at the cursor. -/
theorem tokenize_dec_part_eq (s : State) (req : Bool) (h95 : peek s.context ≠ 95) :
    tokenize_dec_part s req
      = if digit_run (s.context.content.drop s.context.offset) = [] ∧ req = true then
          (false, { context := s.context, error :=
            { message := some "numeric literal cannot terminate with a dot",
              frame := s.context.frame } })
        else if (digit_run (s.context.content.drop s.context.offset)).getLast? = some 95 then
          (false, { context := next^[run_length dec_part_byte s.context] s.context, error :=
            { message := some
                "numeric literal cannot have an underscore as it's last character",
              frame := s.context.frame } })
        else (true, { s with context := next^[run_length dec_part_byte s.context] s.context }) := by
  unfold tokenize_dec_part
  rw [if_neg h95]
  simp only []
  have hctx := tokenize_dec_part_loop_eq s.context false false
  have hfl := tokenize_dec_part_loop_flags (s.context.content_length + 1) s.context false false
    (by unfold TokenizerContext.content_length; omega)
  generalize tokenize_dec_part_loop (s.context.content_length + 1) s.context false false = r
    at hctx hfl
  obtain ⟨r1, r2, r3⟩ := r
  simp only [Prod.mk.injEq] at hfl
  obtain ⟨hlu, hhn⟩ := hfl
  simp only [] at hctx
  subst hctx
  simp only []
  by_cases hb : dec_part_byte (peek s.context) = true
  · have hne := digit_run_ne_nil s.context hb
    have hnum : is_number (peek s.context) = true := by
      simp only [dec_part_byte, Bool.or_eq_true, decide_eq_true_eq] at hb
      rcases hb with hb | hb
      · exact hb
      · exact absurd hb h95
    have hany : (digit_run (s.context.content.drop s.context.offset)).any is_number = true := by
      rw [digit_run_cons s.context hb]
      simp [hnum]
    rw [hany] at hhn
    rw [if_neg hne] at hlu
    subst hlu hhn
    have hc : ¬(digit_run (s.context.content.drop s.context.offset) = [] ∧ req = true) :=
      fun h => hne h.1
    simp only [hc, Bool.false_or, Bool.not_true, Bool.false_and, Bool.false_eq_true, if_false,
      decide_eq_true_eq, iterate_next_frame]
  · have hb2 : dec_part_byte (peek s.context) = false := by simpa using hb
    have hnil := digit_run_nil s.context hb2
    have hk := run_length_of_false dec_part_byte s.context hb2
    rw [hnil] at hlu hhn ⊢
    simp only [if_true, List.any_nil, Bool.or_false] at hlu hhn
    subst hlu hhn
    rw [hk]
    cases req <;> simp


/-! ## Operators: the longest lexeme of the table -/

theorem operator_table_bytes :
    operator_table.map (fun e => (bytes e.1, e.2)) = operator_bytes := by decide

theorem operator_bytes_mem (e : String × TokenType) (h : e ∈ operator_table) :
    (bytes e.1, e.2) ∈ operator_bytes := by
  rw [← operator_table_bytes]
  exact List.mem_map.mpr ⟨e, h, rfl⟩

theorem operator_bytes_shape :
    ∀ p ∈ operator_bytes, p.1.length ≤ 3 ∧ p.1 ≠ [] ∧ (∀ b ∈ p.1, b ≠ 0) ∧
      (is_identifier_start (p.1.headD 0) = false ∧ is_number (p.1.headD 0) = false ∧
        p.1.headD 0 ≠ 34 ∧ p.1.headD 0 ≠ 39) := by decide

theorem drop_eq_peek_n_cons (c : TokenizerContext) (n : Nat) (h : peek_n c n ≠ 0) :
    c.content.drop (c.offset + n) = peek_n c n :: c.content.drop (c.offset + n + 1) := by
  have hlt := lt_of_peek_n_ne_zero c n h
  rw [List.drop_eq_getElem_cons hlt, peek_n_of_lt c n hlt, List.getD_eq_getElem _ _ hlt]

/-- A lexeme of at most three bytes that is a prefix of the bytes at the cursor is read off
the three bytes the classifier looks at. -/
theorem prefix_window (c : TokenizerContext) (w : List Nat)
    (h : w <+: c.content.drop c.offset) (hlen : w.length ≤ 3) :
    [peek c, peek (next c), peek (next (next c))].take w.length = w := by
  obtain ⟨t, ht⟩ := h
  have e0 : peek c = (w ++ t).headD 0 := by rw [peek_eq_head, ht]
  have e1 : peek (next c) = ((w ++ t).drop 1).headD 0 := by
    rw [peek_next, peek_n_eq_head, ht, List.drop_drop, Nat.add_comm]
  have e2 : peek (next (next c)) = ((w ++ t).drop 2).headD 0 := by
    rw [peek_next, peek_n_next, peek_n_eq_head, ht, List.drop_drop, Nat.add_comm]
  rw [e0, e1, e2]
  match w, hlen with
  | [], _ => rfl
  | [_], _ => rfl
  | [_, _], _ => rfl
  | [_, _, _], _ => rfl
  | _ :: _ :: _ :: _ :: _, hlen => simp at hlen

/-- The bytes the classifier looks at, as long as they are not NUL, are a prefix of the
bytes at the cursor. -/
theorem window_prefix (c : TokenizerContext) (w : List Nat) (hlen : w.length ≤ 3)
    (h0 : ∀ b ∈ w, b ≠ 0)
    (h : [peek c, peek (next c), peek (next (next c))].take w.length = w) :
    w <+: c.content.drop c.offset := by
  rw [peek_next, peek_next, peek_n_next] at h
  match w, hlen with
  | [], _ => exact List.nil_prefix
  | [a], _ =>
    simp only [List.length_singleton, List.take_succ_cons, List.take_zero, List.cons.injEq,
      and_true] at h
    have ha : peek_n c 0 ≠ 0 := by
      show peek c ≠ 0
      rw [h]; exact h0 a (by simp)
    have := drop_eq_peek_n_cons c 0 ha
    rw [Nat.add_zero] at this
    rw [this]
    exact ⟨_, by rw [← h]; rfl⟩
  | [a, b], _ =>
    simp only [List.length_cons, List.length_singleton, List.length_nil, List.take_succ_cons,
      List.take_zero, List.cons.injEq, and_true] at h
    obtain ⟨h1, h2⟩ := h
    have ha : peek_n c 0 ≠ 0 := by
      show peek c ≠ 0
      rw [h1]; exact h0 a (by simp)
    have hb : peek_n c 1 ≠ 0 := by rw [h2]; exact h0 b (by simp)
    have e0 := drop_eq_peek_n_cons c 0 ha
    have e1 := drop_eq_peek_n_cons c 1 hb
    rw [Nat.add_zero] at e0
    rw [e0, e1]
    exact ⟨_, by rw [← h1, ← h2]; rfl⟩
  | [a, b, d], _ =>
    simp only [List.length_cons, List.length_singleton, List.length_nil, List.take_succ_cons,
      List.take_zero, List.cons.injEq, and_true] at h
    obtain ⟨h1, h2, h3⟩ := h
    have ha : peek_n c 0 ≠ 0 := by
      show peek c ≠ 0
      rw [h1]; exact h0 a (by simp)
    have hb : peek_n c 1 ≠ 0 := by rw [h2]; exact h0 b (by simp)
    have hd : peek_n c (1 + 1) ≠ 0 := by rw [h3]; exact h0 d (by simp)
    have e0 := drop_eq_peek_n_cons c 0 ha
    have e1 := drop_eq_peek_n_cons c 1 hb
    have e2 := drop_eq_peek_n_cons c (1 + 1) hd
    rw [← Nat.add_assoc] at e2
    rw [Nat.add_zero] at e0
    rw [e0, e1, e2]
    exact ⟨_, by rw [← h1, ← h2, ← h3]; rfl⟩
  | _ :: _ :: _ :: _ :: _, hlen => simp at hlen

theorem op_ite {s : State} {p : Prop} [Decidable p] {a b : TokenType × State}
    (ha : p → OperatorScan s a) (hb : ¬p → OperatorScan s b) :
    OperatorScan s (if p then a else b) := by
  split
  · exact ha ‹_›
  · exact hb ‹_›

/-- A leaf of `tokenize_operator` that returns the kind `k`: `w` is the lexeme the table
gives for `k`, `b0` its first byte and `L` the longer lexemes of the table that start with
`b0`. -/
theorem op_leaf (s : State) (k : TokenType) (st : State) (b0 : Nat) (w : List Nat)
    (L : List (List Nat))
    (hb0 : peek s.context = b0)
    (hmem : (w, k) ∈ operator_bytes)
    (hL : (operator_bytes.filter
      (fun p => decide (p.1.headD 0 = b0) && decide (w.length < p.1.length))).map Prod.fst = L)
    (hst : st.context.offset = s.context.offset + w.length)
    (herr : st.error = s.error)
    (hpre : [b0, peek (next s.context), peek (next (next s.context))].take w.length = w)
    (hmax : ∀ q ∈ L,
      ¬ [b0, peek (next s.context), peek (next (next s.context))].take q.length = q) :
    OperatorScan s (k, st) := by
  right
  rw [← operator_table_bytes] at hmem
  obtain ⟨e, he, hep⟩ := List.mem_map.mp hmem
  have hew : bytes e.1 = w := congrArg Prod.fst hep
  have hek : e.2 = k := congrArg Prod.snd hep
  have hshape := operator_bytes_shape _ (operator_bytes_mem e he)
  rw [← hb0] at hpre hmax
  refine ⟨e, he, hek.symm, by rw [hew]; exact hst, herr, ⟨e, he, rfl⟩, ?_, ?_⟩
  · rw [hew]
    apply window_prefix s.context w _ _ hpre
    · rw [← hew]; exact hshape.1
    · rw [← hew]; exact hshape.2.2.1
  · intro e1 he1 hpre1
    have hin := operator_bytes_mem e1 he1
    have hshape1 := operator_bytes_shape _ hin
    have hwin := prefix_window s.context _ hpre1 hshape1.1
    rw [hew]
    by_contra hlt
    apply hmax (bytes e1.1) _ hwin
    rw [← hL]
    refine List.mem_map.mpr ⟨(bytes e1.1, e1.2), List.mem_filter.mpr ⟨hin, ?_⟩, rfl⟩
    have hhead : (bytes e1.1).headD 0 = b0 := by
      rw [← hwin, ← hb0]
      have hne := hshape1.2.1
      cases hb : bytes e1.1 with
      | nil => exact absurd hb hne
      | cons a r => rfl
    simp only [Bool.and_eq_true, decide_eq_true_eq]
    exact ⟨hhead, by omega⟩

/-- The failing leaf of `tokenize_operator`: the first byte starts no lexeme of the
table. -/
theorem op_error (s : State) (st : State)
    (hno : peek s.context ∉ operator_bytes.map (fun p => p.1.headD 0)) :
    OperatorScan s (TokenType.ERROR, st) := by
  left
  refine ⟨rfl, ?_⟩
  intro e he hpre
  have hin := operator_bytes_mem e he
  have hshape := operator_bytes_shape _ hin
  have hwin := prefix_window s.context _ hpre hshape.1
  apply hno
  refine List.mem_map.mpr ⟨(bytes e.1, e.2), hin, ?_⟩
  show (bytes e.1).headD 0 = peek s.context
  rw [← hwin]
  have hne := hshape.2.1
  cases hb : bytes e.1 with
  | nil => exact absurd hb hne
  | cons a r => rfl

theorem operator_first_bytes :
    operator_bytes.map (fun p => p.1.headD 0)
      = [40, 41, 123, 125, 91, 93, 44, 46, 59, 58, 45, 43, 45, 42, 47, 37, 38, 124, 33, 61, 33,
         62, 60, 62, 60, 61, 43, 45, 42, 47, 37, 38, 124, 126, 94, 60, 62, 38, 124, 94, 60, 62,
         45, 43, 45, 64, 63] := by decide

set_option maxHeartbeats 4000000 in
/-- The operator classifier takes the longest lexeme of the table. -/
theorem tokenize_operator_scan (s : State) (hdot : peek s.context ≠ 46) :
    OperatorScan s (tokenize_operator s) := by
  unfold tokenize_operator
  simp only []
  repeat' (first
    | exact absurd (by assumption) hdot
    | (refine op_ite (fun _ => ?_) (fun _ => ?_))
    | exact op_error s _ (by rw [operator_first_bytes]; simp [*])
    | exact op_leaf s TokenType.LEFT_PARENT _ 40 [40] [] (by assumption) (by decide)
        (by decide) (by simp) rfl (by simp [*]) (by simp [*])
    | exact op_leaf s TokenType.RIGHT_PARENT _ 41 [41] [] (by assumption) (by decide)
        (by decide) (by simp) rfl (by simp [*]) (by simp [*])
    | exact op_leaf s TokenType.LEFT_BRACE _ 123 [123] [] (by assumption) (by decide)
        (by decide) (by simp) rfl (by simp [*]) (by simp [*])
    | exact op_leaf s TokenType.RIGHT_BRACE _ 125 [125] [] (by assumption) (by decide)
        (by decide) (by simp) rfl (by simp [*]) (by simp [*])
    | exact op_leaf s TokenType.LEFT_SQUARE _ 91 [91] [] (by assumption) (by decide)
        (by decide) (by simp) rfl (by simp [*]) (by simp [*])
    | exact op_leaf s TokenType.RIGHT_SQUARE _ 93 [93] [] (by assumption) (by decide)
        (by decide) (by simp) rfl (by simp [*]) (by simp [*])
    | exact op_leaf s TokenType.COMMA _ 44 [44] [] (by assumption) (by decide)
        (by decide) (by simp) rfl (by simp [*]) (by simp [*])
    | exact op_leaf s TokenType.SEMI _ 59 [59] [] (by assumption) (by decide)
        (by decide) (by simp) rfl (by simp [*]) (by simp [*])
    | exact op_leaf s TokenType.COLON _ 58 [58] [] (by assumption) (by decide)
        (by decide) (by simp) rfl (by simp [*]) (by simp [*])
    | exact op_leaf s TokenType.IMPLICATION _ 45 [45, 62] [] (by assumption) (by decide)
        (by decide) (by simp) rfl (by simp [*]) (by simp [*])
    | exact op_leaf s TokenType.PLUS _ 43 [43] [[43, 61], [43, 43]] (by assumption) (by decide)
        (by decide) (by simp) rfl (by simp [*]) (by simp [*])
    | exact op_leaf s TokenType.MINUS _ 45 [45] [[45, 62], [45, 61], [45, 45]] (by assumption) (by decide)
        (by decide) (by simp) rfl (by simp [*]) (by simp [*])
    | exact op_leaf s TokenType.MULTIPLY _ 42 [42] [[42, 61]] (by assumption) (by decide)
        (by decide) (by simp) rfl (by simp [*]) (by simp [*])
    | exact op_leaf s TokenType.DIVIDE _ 47 [47] [[47, 61]] (by assumption) (by decide)
        (by decide) (by simp) rfl (by simp [*]) (by simp [*])
    | exact op_leaf s TokenType.MODULO _ 37 [37] [[37, 61]] (by assumption) (by decide)
        (by decide) (by simp) rfl (by simp [*]) (by simp [*])
    | exact op_leaf s TokenType.AND _ 38 [38, 38] [] (by assumption) (by decide)
        (by decide) (by simp) rfl (by simp [*]) (by simp [*])
    | exact op_leaf s TokenType.OR _ 124 [124, 124] [] (by assumption) (by decide)
        (by decide) (by simp) rfl (by simp [*]) (by simp [*])
    | exact op_leaf s TokenType.NOT _ 33 [33] [[33, 61]] (by assumption) (by decide)
        (by decide) (by simp) rfl (by simp [*]) (by simp [*])
    | exact op_leaf s TokenType.EQUALS _ 61 [61, 61] [] (by assumption) (by decide)
        (by decide) (by simp) rfl (by simp [*]) (by simp [*])
    | exact op_leaf s TokenType.NOT_EQUALS _ 33 [33, 61] [] (by assumption) (by decide)
        (by decide) (by simp) rfl (by simp [*]) (by simp [*])
    | exact op_leaf s TokenType.GREATER _ 62 [62] [[62, 61], [62, 62], [62, 62, 61]] (by assumption) (by decide)
        (by decide) (by simp) rfl (by simp [*]) (by simp [*])
    | exact op_leaf s TokenType.LESS _ 60 [60] [[60, 61], [60, 60], [60, 60, 61]] (by assumption) (by decide)
        (by decide) (by simp) rfl (by simp [*]) (by simp [*])
    | exact op_leaf s TokenType.GREATER_OR_EQUAL _ 62 [62, 61] [[62, 62, 61]] (by assumption) (by decide)
        (by decide) (by simp) rfl (by simp [*]) (by simp [*])
    | exact op_leaf s TokenType.LESS_OR_EQUAL _ 60 [60, 61] [[60, 60, 61]] (by assumption) (by decide)
        (by decide) (by simp) rfl (by simp [*]) (by simp [*])
    | exact op_leaf s TokenType.ASSIGN _ 61 [61] [[61, 61]] (by assumption) (by decide)
        (by decide) (by simp) rfl (by simp [*]) (by simp [*])
    | exact op_leaf s TokenType.PLUS_ASSIGN _ 43 [43, 61] [] (by assumption) (by decide)
        (by decide) (by simp) rfl (by simp [*]) (by simp [*])
    | exact op_leaf s TokenType.MINUS_ASSIGN _ 45 [45, 61] [] (by assumption) (by decide)
        (by decide) (by simp) rfl (by simp [*]) (by simp [*])
    | exact op_leaf s TokenType.MULTIPLY_ASSIGN _ 42 [42, 61] [] (by assumption) (by decide)
        (by decide) (by simp) rfl (by simp [*]) (by simp [*])
    | exact op_leaf s TokenType.DIVIDE_ASSIGN _ 47 [47, 61] [] (by assumption) (by decide)
        (by decide) (by simp) rfl (by simp [*]) (by simp [*])
    | exact op_leaf s TokenType.MODULO_ASSIGN _ 37 [37, 61] [] (by assumption) (by decide)
        (by decide) (by simp) rfl (by simp [*]) (by simp [*])
    | exact op_leaf s TokenType.BIT_AND _ 38 [38] [[38, 38], [38, 61]] (by assumption) (by decide)
        (by decide) (by simp) rfl (by simp [*]) (by simp [*])
    | exact op_leaf s TokenType.BIT_OR _ 124 [124] [[124, 124], [124, 61]] (by assumption) (by decide)
        (by decide) (by simp) rfl (by simp [*]) (by simp [*])
    | exact op_leaf s TokenType.BIT_NOT _ 126 [126] [] (by assumption) (by decide)
        (by decide) (by simp) rfl (by simp [*]) (by simp [*])
    | exact op_leaf s TokenType.BIT_XOR _ 94 [94] [[94, 61]] (by assumption) (by decide)
        (by decide) (by simp) rfl (by simp [*]) (by simp [*])
    | exact op_leaf s TokenType.BIT_SHIFT_LEFT _ 60 [60, 60] [[60, 60, 61]] (by assumption) (by decide)
        (by decide) (by simp) rfl (by simp [*]) (by simp [*])
    | exact op_leaf s TokenType.BIT_SHIFT_RIGHT _ 62 [62, 62] [[62, 62, 61]] (by assumption) (by decide)
        (by decide) (by simp) rfl (by simp [*]) (by simp [*])
    | exact op_leaf s TokenType.BIT_AND_ASSIGN _ 38 [38, 61] [] (by assumption) (by decide)
        (by decide) (by simp) rfl (by simp [*]) (by simp [*])
    | exact op_leaf s TokenType.BIT_OR_ASSIGN _ 124 [124, 61] [] (by assumption) (by decide)
        (by decide) (by simp) rfl (by simp [*]) (by simp [*])
    | exact op_leaf s TokenType.BIT_XOR_ASSIGN _ 94 [94, 61] [] (by assumption) (by decide)
        (by decide) (by simp) rfl (by simp [*]) (by simp [*])
    | exact op_leaf s TokenType.BIT_SHIFT_LEFT_ASSIGN _ 60 [60, 60, 61] [] (by assumption) (by decide)
        (by decide) (by simp) rfl (by simp [*]) (by simp [*])
    | exact op_leaf s TokenType.BIT_SHIFT_RIGHT_ASSIGN _ 62 [62, 62, 61] [] (by assumption) (by decide)
        (by decide) (by simp) rfl (by simp [*]) (by simp [*])
    | exact op_leaf s TokenType.UNARY_MINUS _ 45 [45] [[45, 62], [45, 61], [45, 45]] (by assumption) (by decide)
        (by decide) (by simp) rfl (by simp [*]) (by simp [*])
    | exact op_leaf s TokenType.INCREMENT _ 43 [43, 43] [] (by assumption) (by decide)
        (by decide) (by simp) rfl (by simp [*]) (by simp [*])
    | exact op_leaf s TokenType.DECREMENT _ 45 [45, 45] [] (by assumption) (by decide)
        (by decide) (by simp) rfl (by simp [*]) (by simp [*])
    | exact op_leaf s TokenType.AT_SYMBOL _ 64 [64] [] (by assumption) (by decide)
        (by decide) (by simp) rfl (by simp [*]) (by simp [*])
    | exact op_leaf s TokenType.QUESTION_MARK _ 63 [63] [] (by assumption) (by decide)
        (by decide) (by simp) rfl (by simp [*]) (by simp [*]))


theorem tokenizer_dispatch_operator (x : State)
    (h1 : is_identifier_start (peek x.context) = false) (h2 : is_number (peek x.context) = false)
    (h3 : peek x.context ≠ 46) (h4 : peek x.context ≠ 34) (h5 : peek x.context ≠ 39) :
    tokenizer_dispatch x = tokenize_operator x := by
  unfold tokenizer_dispatch
  simp only []
  rw [if_neg (by rw [h1]; decide), if_neg (by rw [h2]; simpa using h3), if_neg h4, if_neg h5]

theorem tokenizer_dispatch_dot (x : State) (h : peek x.context = 46)
    (hn : is_number (peek_n x.context 1) = false) :
    tokenizer_dispatch x = (TokenType.DOT, { x with context := next x.context }) := by
  unfold tokenizer_dispatch
  simp only []
  rw [h, if_neg (by decide), if_pos (by decide)]
  unfold tokenize_number
  have h' : peek_n x.context 0 = 46 := h
  rw [if_pos h', if_neg (by rw [hn]; decide)]

theorem operator_table_ne_error : ∀ e ∈ operator_table, e.2 ≠ TokenType.ERROR := by decide

theorem cstring_eq_self (w : List Nat) (h : ∀ b ∈ w, b ≠ 0) : cstring w = w := by
  unfold cstring
  apply List.takeWhile_eq_self_iff.mpr
  intro b hb
  simpa using h b hb

theorem seg_of_prefix (S : List Nat) (off : Nat) (w : List Nat) (h : w <+: S.drop off) :
    seg S off (off + w.length) = w := by
  unfold seg
  rw [Nat.add_sub_cancel_left]
  exact (List.prefix_iff_eq_take.mp h).symm

/-- The classifier run by `tokenizer_next` on an operator byte takes the longest lexeme of
the table. -/
theorem tokenizer_dispatch_scan (x : State)
    (hop : ∃ e ∈ operator_table, bytes e.1 <+: x.context.content.drop x.context.offset)
    (hdot : ¬ (peek x.context = 46 ∧ is_number (peek_n x.context 1) = true)) :
    ∃ e ∈ operator_table, (tokenizer_dispatch x).1 = e.2 ∧
      (tokenizer_dispatch x).2.context.offset = x.context.offset + (bytes e.1).length ∧
      (tokenizer_dispatch x).2.error = x.error ∧
      longest_operator (x.context.content.drop x.context.offset) (bytes e.1) := by
  obtain ⟨e0, he0, hpre0⟩ := hop
  have hin0 := operator_bytes_mem e0 he0
  have hshape0 := operator_bytes_shape _ hin0
  have hwin0 := prefix_window x.context _ hpre0 hshape0.1
  have hhead : peek x.context = (bytes e0.1).headD 0 := by
    rw [← hwin0]
    have hne := hshape0.2.1
    cases hb : bytes e0.1 with
    | nil => exact absurd hb hne
    | cons a r => rfl
  have hscan : OperatorScan x (tokenizer_dispatch x) := by
    by_cases h46 : peek x.context = 46
    · have hn : is_number (peek_n x.context 1) = false := by
        cases hd : is_number (peek_n x.context 1) with
        | false => rfl
        | true => exact absurd ⟨h46, hd⟩ hdot
      rw [tokenizer_dispatch_dot x h46 hn]
      exact op_leaf x TokenType.DOT _ 46 [46] [] h46 (by decide) (by decide) (by simp) rfl
        (by simp) (by simp)
    · rw [tokenizer_dispatch_operator x (by rw [hhead]; exact hshape0.2.2.2.1)
        (by rw [hhead]; exact hshape0.2.2.2.2.1) h46 (by rw [hhead]; exact hshape0.2.2.2.2.2.1)
        (by rw [hhead]; exact hshape0.2.2.2.2.2.2)]
      exact tokenize_operator_scan x h46
  rcases hscan with ⟨-, hno⟩ | h
  · exact absurd hpre0 (hno e0 he0)
  · exact h

/-- C11. Operator maximal munch: in every state with an empty error slot, when the bytes
after the trivia begin with a lexeme of the operator table and are not `.` followed by a
digit, the call returns a token whose lexeme is the longest lexeme of the table that is a
prefix of the remaining input, with a kind the table gives to that lexeme; for the lexeme
`-`, which has two kinds, the kind is the one the unary-minus rule selects.  (After the
trivia the bytes never begin with a comment opener.)  So `>>=` is one
`BIT_SHIFT_RIGHT_ASSIGN` token, `>>` one `BIT_SHIFT_RIGHT`, `>=` one `GREATER_OR_EQUAL`
and `->` one `IMPLICATION`. -/
theorem C11_operator_maximal_munch (s : State) (herr : s.error.message = none)
    (hop : ∃ e ∈ operator_table, bytes e.1 <+: s.context.content.drop (skip s).context.offset)
    (hdot : ¬ (peek (skip s).context = 46 ∧ is_number (peek_n (skip s).context 1) = true)) :
    (∃ t, (tokenizer_next s).1 = some t ∧ t.offset = (skip s).context.offset ∧
      longest_operator (s.context.content.drop t.offset) t.content ∧
      t.length = t.content.length ∧
      (∃ e ∈ operator_table, bytes e.1 = t.content ∧ e.2 = t.type) ∧
      (t.content = bytes "-" → t.type = if operand_expected s.context.type = true
        then TokenType.UNARY_MINUS else TokenType.MINUS)) ∧
    (token_stream 3 (initial_state (bytes ">>=") ⟨0, 0, 0⟩ TokenType.ERROR)).1
      = [{ type := TokenType.BIT_SHIFT_RIGHT_ASSIGN, content := bytes ">>=", offset := 0,
           length := 3, line := 1, column := 1 }] ∧
    (token_stream 3 (initial_state (bytes ">>") ⟨0, 0, 0⟩ TokenType.ERROR)).1
      = [{ type := TokenType.BIT_SHIFT_RIGHT, content := bytes ">>", offset := 0,
           length := 2, line := 1, column := 1 }] ∧
    (token_stream 3 (initial_state (bytes ">=") ⟨0, 0, 0⟩ TokenType.ERROR)).1
      = [{ type := TokenType.GREATER_OR_EQUAL, content := bytes ">=", offset := 0,
           length := 2, line := 1, column := 1 }] ∧
    (token_stream 3 (initial_state (bytes "->") ⟨0, 0, 0⟩ TokenType.ERROR)).1
      = [{ type := TokenType.IMPLICATION, content := bytes "->", offset := 0,
           length := 2, line := 1, column := 1 }] := by
  refine ⟨?_, by decide, by decide, by decide, by decide⟩
  have hsk := skip_facts s
  have hc : (skip s).context.content = s.context.content := hsk.1.1
  have hopx : ∃ e ∈ operator_table,
      bytes e.1 <+: (framed (skip s)).context.content.drop (framed (skip s)).context.offset := by
    show ∃ e ∈ operator_table,
      bytes e.1 <+: (skip s).context.content.drop (skip s).context.offset
    rw [hc]; exact hop
  obtain ⟨e0, he0, hpre0⟩ := hopx
  have hshape0 := operator_bytes_shape _ (operator_bytes_mem e0 he0)
  have hwin0 := prefix_window (framed (skip s)).context _ hpre0 hshape0.1
  have hpk : peek (skip s).context ≠ 0 := by
    show peek (framed (skip s)).context ≠ 0
    have hne := hshape0.2.1
    have h0 := hshape0.2.2.1
    rw [← hwin0] at h0
    cases hb : bytes e0.1 with
    | nil => exact absurd hb hne
    | cons a r =>
      rw [hb] at h0
      exact h0 _ (by simp)
  have hnone := skip_error_none s herr hpk
  have hlt := lt_of_peek_ne_zero _ hpk
  obtain ⟨e, he, hk, hoff, -, hlong⟩ :=
    tokenizer_dispatch_scan (framed (skip s)) ⟨e0, he0, hpre0⟩ hdot
  have hshape := operator_bytes_shape _ (operator_bytes_mem e he)
  obtain ⟨t, ht, hty, hto, hlen, -, -, hcontent, -⟩ :=
    tokenizer_next_token s hnone hlt e.2 (bytes e.1).length (operator_table_ne_error e he) hk hoff
  have hrest : (framed (skip s)).context.content.drop (framed (skip s)).context.offset
      = s.context.content.drop t.offset := by
    show (skip s).context.content.drop (skip s).context.offset = _
    rw [hc, hto]
  rw [hrest] at hlong
  have hcon : t.content = bytes e.1 := by
    rw [hcontent, seg_of_prefix _ _ _ hlong.2.1, cstring_eq_self _ hshape.2.2.1]
  refine ⟨t, ht, hto, by rw [hcon]; exact hlong, by rw [hcon]; exact hlen,
    ⟨e, he, hcon.symm, hty.symm⟩, ?_⟩
  intro hminus
  rw [hcon] at hminus
  rw [hminus] at hlong
  have hpre : bytes "-" <+: (skip s).context.content.drop (skip s).context.offset := by
    rw [hc, ← hto]; exact hlong.2.1
  have hw := prefix_window (skip s).context _ hpre (by decide)
  have h45 : peek (skip s).context = 45 := by
    have : [peek (skip s).context] = [45] := hw
    simpa using this
  have hno : ∀ b, (b = 45 ∨ b = 61 ∨ b = 62) → peek_n (skip s).context 1 ≠ b := by
    intro b hb hpeek
    have hmem : ∃ e1 ∈ operator_table, bytes e1.1 = [45, b] := by
      rcases hb with hb | hb | hb
      · exact ⟨("--", TokenType.DECREMENT), by decide, by rw [hb]; decide⟩
      · exact ⟨("-=", TokenType.MINUS_ASSIGN), by decide, by rw [hb]; decide⟩
      · exact ⟨("->", TokenType.IMPLICATION), by decide, by rw [hb]; decide⟩
    obtain ⟨e1, he1, hb1⟩ := hmem
    have hb0 : b ≠ 0 := by rcases hb with hb | hb | hb <;> (rw [hb]; decide)
    have hp1 : [45, b] <+: (skip s).context.content.drop (skip s).context.offset := by
      apply window_prefix (skip s).context [45, b] (by simp)
      · intro y hy
        simp only [List.mem_cons, List.mem_singleton, List.not_mem_nil, or_false] at hy
        rcases hy with hy | hy
        · rw [hy]; decide
        · rw [hy]; exact hb0
      · rw [peek_next, h45, hpeek]
        rfl
    rw [hc, ← hto] at hp1
    have := hlong.2.2 e1 he1 (by rw [hb1]; exact hp1)
    rw [hb1] at this
    have h1 : (bytes "-").length = 1 := by decide
    rw [h1] at this
    simp at this
  obtain ⟨t1, ht1, -, -, hty1⟩ :=
    bare_minus s herr h45 (hno 45 (Or.inl rfl)) (hno 61 (Or.inr (Or.inl rfl)))
      (hno 62 (Or.inr (Or.inr rfl)))
  rw [ht] at ht1
  cases ht1
  exact hty1

/-- Witness for C11 on the input ` >>=1`, whose operator follows a space. -/
theorem C11_operator_maximal_munch_witness :
    ∃ t, (tokenizer_next (initial_state (bytes " >>=1") ⟨0, 0, 0⟩ TokenType.ERROR)).1 = some t ∧
      longest_operator ((bytes " >>=1").drop t.offset) t.content :=
  (C11_operator_maximal_munch (initial_state (bytes " >>=1") ⟨0, 0, 0⟩ TokenType.ERROR)
    (by decide) ⟨(">>=", TokenType.BIT_SHIFT_RIGHT_ASSIGN), by decide, by decide⟩
    (by decide)).1.imp (fun _ h => ⟨h.1, h.2.2.1⟩)


theorem head?_drop_eq_some (c : TokenizerContext) (n v : Nat) (hv : v ≠ 0) :
    (c.content.drop (c.offset + n)).head? = some v ↔ peek_n c n = v := by
  rw [peek_n_eq_head]
  cases c.content.drop (c.offset + n) with
  | nil => simp; exact fun h => hv h.symm
  | cons a r => simp

theorem well_formed_run_iff (r : List Nat) :
    well_formed_run r = true ↔ r ≠ [] ∧ r.head? ≠ some 95 ∧ r.getLast? ≠ some 95 := by
  unfold well_formed_run
  simp [and_assoc]

theorem dec_part_byte_of_run (c : TokenizerContext)
    (h : digit_run (c.content.drop c.offset) ≠ []) : dec_part_byte (peek c) = true := by
  cases hb : dec_part_byte (peek c) with
  | true => rfl
  | false => exact absurd (digit_run_nil c hb) h

theorem tokenize_dec_part_wf (s : State) (req : Bool)
    (h : well_formed_run (digit_run (s.context.content.drop s.context.offset)) = true) :
    tokenize_dec_part s req
      = (true, { s with context :=
          next^[(digit_run (s.context.content.drop s.context.offset)).length] s.context }) := by
  obtain ⟨hne, hhead, hlast⟩ := (well_formed_run_iff _).mp h
  have hb := dec_part_byte_of_run s.context hne
  have h95 : peek s.context ≠ 95 := by
    intro h95
    rw [digit_run_head s.context hb, h95] at hhead
    exact hhead rfl
  rw [tokenize_dec_part_eq s req h95, if_neg (fun h => hne h.1), if_neg hlast]
  rfl


theorem head?_drop_ne (c : TokenizerContext) (n : Nat) (a b : Nat) (ha : a ≠ 0) (hb : b ≠ 0) :
    ((c.content.drop (c.offset + n)).head? = some a
      ∨ (c.content.drop (c.offset + n)).head? = some b) ↔ (peek_n c n = a ∨ peek_n c n = b) := by
  rw [head?_drop_eq_some c n a ha, head?_drop_eq_some c n b hb]

theorem tokenize_dec_number_kind (x : State) (hfr : x.context.frame = collect_frame x.context)
    (k : TokenType) (n : Nat)
    (h : numeric_kind (x.context.content.drop x.context.offset) = some (k, n)) :
    tokenize_dec_number x = (k, { x with context := next^[n] x.context }) := by
  unfold numeric_kind at h
  simp only [drop_add_drop, Nat.add_assoc] at h
  simp only [head?_drop_eq_some x.context _ _ (by decide : (46 : Nat) ≠ 0),
    head?_drop_ne x.context _ _ _ (by decide : (102 : Nat) ≠ 0) (by decide : (70 : Nat) ≠ 0),
    head?_drop_ne x.context _ _ _ (by decide : (100 : Nat) ≠ 0) (by decide : (68 : Nat) ≠ 0),
    head?_drop_ne x.context _ _ _ (by decide : (108 : Nat) ≠ 0) (by decide : (76 : Nat) ≠ 0)] at h
  cases hwf : well_formed_run (digit_run (x.context.content.drop x.context.offset)) with
  | false => rw [hwf] at h; simp at h
  | true =>
    rw [hwf] at h
    simp only [Bool.true_eq_false, if_false] at h
    have hdp1 := tokenize_dec_part_wf x true hwf
    have hdp2 := tokenize_dec_part_wf { x with context := x.context } false hwf
    generalize (digit_run (x.context.content.drop x.context.offset)).length = i at h hdp1 hdp2
    unfold tokenize_dec_number
    rw [hdp1]
    simp only [Bool.not_true, Bool.false_eq_true, if_false, peek_iterate]
    by_cases h46 : peek_n x.context i = 46
    · rw [if_pos h46] at h ⊢
      cases hwf2 : well_formed_run
          (digit_run (x.context.content.drop (x.context.offset + (i + 1)))) with
      | false => rw [hwf2] at h; simp at h
      | true =>
        rw [hwf2] at h
        simp only [Bool.true_eq_false, if_false] at h
        have hrw : rewind (next^[i] x.context) = x.context :=
          rewind_eq x.context _ (Pres_iterate_next _ _) hfr
        have hdp3 := tokenize_dec_part_wf
          { context := next (next^[i] x.context), error := x.error } true
          (by simpa [Nat.add_assoc] using hwf2)
        simp only [next_content, iterate_next_content, next_offset, iterate_next_offset,
          Nat.add_assoc, iterate_next_succ, iterate_next_add] at hdp3
        generalize (digit_run (x.context.content.drop (x.context.offset + (i + 1)))).length = m
          at h hdp3
        unfold tokenize_floating_point_number
        simp only [hrw]
        rw [hdp2]
        simp only [Bool.not_true, Bool.false_eq_true, if_false, peek_iterate, h46, if_true,
          iterate_next_succ]
        rw [hdp3]
        unfold floating_point_suffix
        simp only [Bool.not_true, Bool.false_eq_true, if_false, peek_iterate, iterate_next_succ,
          Nat.add_assoc]
        split_ifs at h ⊢ <;> (cases h; rfl)
    · rw [if_neg h46] at h ⊢
      rw [iterate_next_succ]
      split_ifs at h ⊢ <;> (cases h; rfl)

theorem numeric_kind_ne_error (r : List Nat) (k : TokenType) (n : Nat)
    (h : numeric_kind r = some (k, n)) :
    k = TokenType.FLOAT_NUMBER ∨ k = TokenType.DOUBLE_NUMBER ∨ k = TokenType.DEC_LONG_NUMBER
      ∨ k = TokenType.DEC_NUMBER := by
  unfold numeric_kind at h
  simp only [] at h
  split_ifs at h <;> cases h <;> simp

theorem is_number_ne (b : Nat) (h : is_number b = true) :
    is_identifier_start b = false ∧ b ≠ 46 ∧ b ≠ 95 ∧ b ≠ 0 ∧ dec_part_byte b = true := by
  simp only [is_number, Bool.and_eq_true, decide_eq_true_eq] at h
  refine ⟨?_, by omega, by omega, by omega, ?_⟩
  · simp only [is_identifier_start, Bool.or_eq_false_iff, Bool.and_eq_false_iff,
      decide_eq_false_iff_not]
    omega
  · simp only [dec_part_byte, is_number, Bool.or_eq_true, Bool.and_eq_true, decide_eq_true_eq]
    omega

theorem tokenizer_dispatch_number (x : State) (h : is_number (peek x.context) = true) :
    tokenizer_dispatch x = tokenize_dec_number x := by
  have hn := is_number_ne _ h
  unfold tokenizer_dispatch
  simp only []
  rw [if_neg (by rw [hn.1]; decide), if_pos (by rw [h]; rfl)]
  unfold tokenize_number
  rw [if_neg (show ¬ peek_n x.context 0 = 46 from hn.2.1)]

/-- A well-formed digit run at the cursor starts with a digit. -/
theorem is_number_of_wf (c : TokenizerContext)
    (h : well_formed_run (digit_run (c.content.drop c.offset)) = true) :
    is_number (peek c) = true := by
  obtain ⟨hne, hhead, -⟩ := (well_formed_run_iff _).mp h
  have hb := dec_part_byte_of_run c hne
  rw [digit_run_head c hb] at hhead
  simp only [dec_part_byte, Bool.or_eq_true, decide_eq_true_eq] at hb
  rcases hb with hb | hb
  · exact hb
  · rw [hb] at hhead; exact absurd rfl hhead

theorem wf_of_is_number (c : TokenizerContext) (h : is_number (peek c) = true)
    (hlast : (digit_run (c.content.drop c.offset)).getLast? ≠ some 95) :
    well_formed_run (digit_run (c.content.drop c.offset)) = true := by
  have hn := is_number_ne _ h
  refine (well_formed_run_iff _).mpr ⟨digit_run_ne_nil c hn.2.2.2.2, ?_, hlast⟩
  rw [digit_run_head c hn.2.2.2.2]
  intro h95
  exact hn.2.2.1 (Option.some.inj h95)

theorem numeric_kind_wf (r : List Nat) (k : TokenType) (n : Nat)
    (h : numeric_kind r = some (k, n)) : well_formed_run (digit_run r) = true := by
  unfold numeric_kind at h
  simp only [] at h
  cases hwf : well_formed_run (digit_run r) with
  | true => rfl
  | false => rw [hwf] at h; simp at h

/-- The position the skipper leaves the cursor on, in a state whose cursor carries the
right line and column. -/
theorem skip_position (s : State) (hinv : PosInv s.context)
    (hlt : (skip s).context.offset < (skip s).context.content.length) :
    (skip s).context.line = line_of s.context.content (skip s).context.offset ∧
    (skip s).context.column = column_of s.context.content (skip s).context.offset := by
  have hsk := skip_facts s
  have h := hsk.1.2.2.2 hinv
  unfold PosInv PosOK at h
  rw [hsk.1.1] at h hlt
  exact h (by omega)

/-- The integer digit run ends with `_`. -/
theorem tokenize_dec_number_trailing (x : State) (hd : is_number (peek x.context) = true)
    (hlast : (digit_run (x.context.content.drop x.context.offset)).getLast? = some 95) :
    tokenize_dec_number x
      = (TokenType.ERROR,
          { context := next^[(digit_run (x.context.content.drop x.context.offset)).length]
              x.context,
            error :=
              { message := some "numeric literal cannot have an underscore as it's last character",
                frame := x.context.frame } }) := by
  have hn := is_number_ne _ hd
  have hdp := tokenize_dec_part_eq x true hn.2.2.1
  rw [if_neg (fun h => digit_run_ne_nil x.context hn.2.2.2.2 h.1), if_pos hlast] at hdp
  unfold tokenize_dec_number
  rw [hdp]
  rfl

/-- The integer digit run is well formed and a `.` follows: the result is that of the
second digit run and the suffix test. -/
theorem tokenize_dec_number_dot (x : State) (hfr : x.context.frame = collect_frame x.context)
    (hwf : well_formed_run (digit_run (x.context.content.drop x.context.offset)) = true)
    (h46 : peek_n x.context (digit_run (x.context.content.drop x.context.offset)).length = 46) :
    tokenize_dec_number x
      = if (!(tokenize_dec_part
            { context := next^[(digit_run (x.context.content.drop x.context.offset)).length + 1]
                x.context, error := x.error } true).1) = true then
          (TokenType.ERROR, (tokenize_dec_part
            { context := next^[(digit_run (x.context.content.drop x.context.offset)).length + 1]
                x.context, error := x.error } true).2)
        else floating_point_suffix (tokenize_dec_part
            { context := next^[(digit_run (x.context.content.drop x.context.offset)).length + 1]
                x.context, error := x.error } true).2 := by
  have hdp1 := tokenize_dec_part_wf x true hwf
  have hdp2 := tokenize_dec_part_wf { x with context := x.context } false hwf
  generalize (digit_run (x.context.content.drop x.context.offset)).length = i at h46 hdp1 hdp2 ⊢
  have hrw : rewind (next^[i] x.context) = x.context :=
    rewind_eq x.context _ (Pres_iterate_next _ _) hfr
  unfold tokenize_dec_number
  rw [hdp1]
  simp only [Bool.not_true, Bool.false_eq_true, if_false, peek_iterate, h46, if_true]
  unfold tokenize_floating_point_number
  simp only [hrw]
  rw [hdp2]
  simp only [Bool.not_true, Bool.false_eq_true, if_false, peek_iterate, h46, if_true,
    iterate_next_succ]


/-- C12. Numeric kind by suffix: in every state with an empty error slot, when the bytes
after the trivia start with a well-formed numeric literal (a digit run that neither starts
nor ends with `_`, optionally followed by `.` and a second such run), the call returns a
token that starts there, leaves the error slot empty, and has the kind and the length the
specification gives: `FLOAT_NUMBER` when `f`/`F` follows, `DOUBLE_NUMBER` when `d`/`D`
follows or there is a fractional part and no `f`/`F`, `DEC_LONG_NUMBER` when the literal
has no fractional part and `l`/`L` follows, `DEC_NUMBER` otherwise; the suffix letter is
part of the span. -/
theorem C12_numeric_kind_by_suffix (s : State) (herr : s.error.message = none)
    (k : TokenType) (n : Nat)
    (hnum : numeric_kind (s.context.content.drop (skip s).context.offset) = some (k, n)) :
    (∃ t, (tokenizer_next s).1 = some t ∧ t.type = k ∧ t.offset = (skip s).context.offset ∧
      t.length = n ∧ (tokenizer_next s).2.error.message = none) ∧
    (token_stream 9 (initial_state (bytes "1.5f 10L 2d 3.5 42 7F 1_0.2_5D") ⟨0, 0, 0⟩
        TokenType.ERROR)).1.map (fun t => (t.type, t.offset, t.length))
      = [(TokenType.FLOAT_NUMBER, 0, 4), (TokenType.DEC_LONG_NUMBER, 5, 3),
         (TokenType.DOUBLE_NUMBER, 9, 2), (TokenType.DOUBLE_NUMBER, 12, 3),
         (TokenType.DEC_NUMBER, 16, 2), (TokenType.FLOAT_NUMBER, 19, 2),
         (TokenType.DOUBLE_NUMBER, 22, 8)] := by
  refine ⟨?_, by decide⟩
  have hsk := skip_facts s
  have hc : (skip s).context.content = s.context.content := hsk.1.1
  have hnumx : numeric_kind ((framed (skip s)).context.content.drop
      (framed (skip s)).context.offset) = some (k, n) := by
    show numeric_kind ((skip s).context.content.drop (skip s).context.offset) = some (k, n)
    rw [hc]; exact hnum
  have hdig : is_number (peek (skip s).context) = true :=
    is_number_of_wf (framed (skip s)).context (numeric_kind_wf _ _ _ hnumx)
  have hpk : peek (skip s).context ≠ 0 := (is_number_ne _ hdig).2.2.2.1
  have hnone := skip_error_none s herr hpk
  have hlt := lt_of_peek_ne_zero _ hpk
  have hdis : tokenizer_dispatch (framed (skip s))
      = (k, { framed (skip s) with context := next^[n] (framed (skip s)).context }) := by
    rw [tokenizer_dispatch_number (framed (skip s)) hdig]
    exact tokenize_dec_number_kind (framed (skip s)) rfl k n hnumx
  have hk : k ≠ TokenType.ERROR := by
    rcases numeric_kind_ne_error _ _ _ hnumx with h | h | h | h <;> (rw [h]; decide)
  obtain ⟨t, ht, hty, hto, hlen, -, -, -, he⟩ :=
    tokenizer_next_token s hnone hlt k n hk (by rw [hdis])
      (by rw [hdis]; simp only [iterate_next_offset]; rfl)
  refine ⟨t, ht, hty, hto, hlen, ?_⟩
  rw [he, hdis]
  exact hnone

/-- Witness for C12 on the input ` 1_0.5f+`: a float literal with a digit separator. -/
theorem C12_numeric_kind_by_suffix_witness :
    ∃ t, (tokenizer_next (initial_state (bytes " 1_0.5f+") ⟨0, 0, 0⟩ TokenType.ERROR)).1
        = some t ∧ t.type = TokenType.FLOAT_NUMBER ∧ t.length = 6 :=
  (C12_numeric_kind_by_suffix (initial_state (bytes " 1_0.5f+") ⟨0, 0, 0⟩ TokenType.ERROR)
    (by decide) TokenType.FLOAT_NUMBER 6 (by decide)).1.imp
      (fun _ h => ⟨h.1, h.2.1, h.2.2.2.1⟩)


theorem fraction_run (c : TokenizerContext) (i : Nat) :
    digit_run ((next^[i + 1] c).content.drop (next^[i + 1] c).offset)
      = digit_run (c.content.drop (c.offset + i + 1)) := by
  rw [iterate_next_content, iterate_next_offset, Nat.add_assoc]

/-- C16. Separator position inside a numeric literal: in every state with an empty error
slot, when the bytes after the trivia start with a digit and the integer digit run `i`
ends with `_`, or `.` follows it and the fractional digit run `f` starts or ends with `_`,
the call returns no token and latches an underscore-position error ("... as it's first or
last character" when the fractional run starts with `_`, "... as it's last character"
otherwise) whose position is the cursor at the start of the literal, with the line and the
column of that byte.  So `1_`, `1.5_` and `1._5` fail at offset 0, and the doubled
separator of `1__0` is accepted. -/
theorem C16_separator_position (s : State) (herr : s.error.message = none) (i f : List Nat)
    (hi : i = digit_run (s.context.content.drop (skip s).context.offset))
    (hf : f = digit_run (s.context.content.drop ((skip s).context.offset + i.length + 1)))
    (hdigit : is_number (peek (skip s).context) = true)
    (hbad : i.getLast? = some 95 ∨
      (peek_n (skip s).context i.length = 46 ∧ (f.head? = some 95 ∨ f.getLast? = some 95))) :
    ((tokenizer_next s).1 = none ∧
      (tokenizer_next s).2.error.message = some
        (if i.getLast? ≠ some 95 ∧ f.head? = some 95 then
          "numeric literal cannot have an underscore as it's first or last character"
        else "numeric literal cannot have an underscore as it's last character") ∧
      (tokenizer_next s).2.error.frame = collect_frame (skip s).context ∧
      (PosInv s.context →
        (tokenizer_next s).2.error.frame.line
          = line_of s.context.content (tokenizer_next s).2.error.frame.offset ∧
        (tokenizer_next s).2.error.frame.column
          = column_of s.context.content (tokenizer_next s).2.error.frame.offset)) ∧
    (token_stream 3 (initial_state (bytes "1__0") ⟨0, 0, 0⟩ TokenType.ERROR))
      = ([{ type := TokenType.DEC_NUMBER, content := bytes "1__0", offset := 0, length := 4,
            line := 1, column := 1 }],
         { context := { content := bytes "1__0", frame := ⟨0, 1, 1⟩,
                        type := TokenType.DEC_NUMBER, offset := 4, line := 1, column := 5 },
           error := { message := none, frame := ⟨0, 0, 0⟩ } }) ∧
    (tokenizer_next (initial_state (bytes "1_") ⟨0, 0, 0⟩ TokenType.ERROR)).2.error
      = { message := some "numeric literal cannot have an underscore as it's last character",
          frame := ⟨0, 1, 1⟩ } ∧
    (tokenizer_next (initial_state (bytes "1.5_") ⟨0, 0, 0⟩ TokenType.ERROR)).2.error
      = { message := some "numeric literal cannot have an underscore as it's last character",
          frame := ⟨0, 1, 1⟩ } ∧
    (tokenizer_next (initial_state (bytes "1._5") ⟨0, 0, 0⟩ TokenType.ERROR)).2.error
      = { message := some
            "numeric literal cannot have an underscore as it's first or last character",
          frame := ⟨0, 1, 1⟩ } := by
  refine ⟨?_, by decide, by decide, by decide, by decide⟩
  have hsk := skip_facts s
  have hc : (skip s).context.content = s.context.content := hsk.1.1
  have hpk : peek (skip s).context ≠ 0 := (is_number_ne _ hdigit).2.2.2.1
  have hnone := skip_error_none s herr hpk
  have hlt := lt_of_peek_ne_zero _ hpk
  have hix : i = digit_run ((framed (skip s)).context.content.drop
      (framed (skip s)).context.offset) := by
    rw [hi]
    show _ = digit_run ((skip s).context.content.drop (skip s).context.offset)
    rw [hc]
  have hfx : f = digit_run ((framed (skip s)).context.content.drop
      ((framed (skip s)).context.offset + i.length + 1)) := by
    rw [hf]
    show _ = digit_run ((skip s).context.content.drop ((skip s).context.offset + i.length + 1))
    rw [hc]
  have hpos : PosInv s.context →
      (skip s).context.line = line_of s.context.content (skip s).context.offset ∧
      (skip s).context.column = column_of s.context.content (skip s).context.offset :=
    fun hinv => skip_position s hinv hlt
  have hdx : is_number (peek (framed (skip s)).context) = true := hdigit
  have hbadx : i.getLast? = some 95 ∨ (peek_n (framed (skip s)).context i.length = 46 ∧
      (f.head? = some 95 ∨ f.getLast? = some 95)) := hbad
  have hfrx : (framed (skip s)).context.frame = collect_frame (skip s).context := rfl
  have hfr1 : (framed (skip s)).context.frame = collect_frame (framed (skip s)).context := rfl
  have hex : (framed (skip s)).error = (skip s).error := rfl
  have hdis := tokenizer_dispatch_number (framed (skip s)) hdx
  have hgoal : ∀ st : State, tokenizer_dispatch (framed (skip s)) = (TokenType.ERROR, st) →
      st.error =
        { message := some (if i.getLast? ≠ some 95 ∧ f.head? = some 95 then
                    "numeric literal cannot have an underscore as it's first or last character"
                  else "numeric literal cannot have an underscore as it's last character"),
          frame := collect_frame (skip s).context } →
      ((tokenizer_next s).1 = none ∧
      (tokenizer_next s).2.error.message = some
        (if i.getLast? ≠ some 95 ∧ f.head? = some 95 then
          "numeric literal cannot have an underscore as it's first or last character"
        else "numeric literal cannot have an underscore as it's last character") ∧
      (tokenizer_next s).2.error.frame = collect_frame (skip s).context ∧
      (PosInv s.context →
        (tokenizer_next s).2.error.frame.line
          = line_of s.context.content (tokenizer_next s).2.error.frame.offset ∧
        (tokenizer_next s).2.error.frame.column
          = column_of s.context.content (tokenizer_next s).2.error.frame.offset)) := by
    intro st hst herr2
    have hnx := tokenizer_next_error s hnone hlt (by rw [hst])
    rw [hnx, hst]
    dsimp only
    rw [herr2]
    exact ⟨rfl, rfl, rfl, hpos⟩
  generalize framed (skip s) = x at hix hfx hdx hbadx hfrx hfr1 hex hdis hgoal
  by_cases hl : i.getLast? = some 95
  · have h := tokenize_dec_number_trailing x hdx (by rw [← hix]; exact hl)
    rw [← hdis, ← hix] at h
    apply hgoal _ h
    rw [if_neg (fun hh => hh.1 hl), hfrx]
  · rcases hbadx with h | ⟨h46, hfr⟩
    · exact absurd h hl
    · have hwf := wf_of_is_number x.context hdx (by rw [← hix]; exact hl)
      have h := tokenize_dec_number_dot x hfr1 hwf (by rw [← hix]; exact h46)
      rw [← hdis, ← hix] at h
      have hrun := fraction_run x.context i.length
      rw [← hfx] at hrun
      by_cases hh : f.head? = some 95
      · have hy95 : peek (next^[i.length + 1] x.context) = 95 := by
          cases hb : dec_part_byte (peek (next^[i.length + 1] x.context)) with
          | false =>
            have := digit_run_nil _ hb
            rw [hrun] at this
            rw [this] at hh
            cases hh
          | true =>
            have := digit_run_head _ hb
            rw [hrun, hh] at this
            exact (Option.some.inj this).symm
        have hdp := tokenize_dec_part_leading
          { context := next^[i.length + 1] x.context, error := x.error } true hy95
        rw [hdp] at h
        apply hgoal _ h
        rw [if_pos ⟨hl, hh⟩]
        simp only [iterate_next_frame, hfrx]
      · have hlast : f.getLast? = some 95 := hfr.resolve_left hh
        have hne : f ≠ [] := by
          intro h0; rw [h0] at hlast; cases hlast
        have hy95 : peek (next^[i.length + 1] x.context) ≠ 95 := by
          intro h95
          have hb : dec_part_byte (peek (next^[i.length + 1] x.context)) = true := by
            rw [h95]; decide
          have := digit_run_head _ hb
          rw [hrun, h95] at this
          exact hh this
        have hdp := tokenize_dec_part_eq
          { context := next^[i.length + 1] x.context, error := x.error } true hy95
        simp only [hrun] at hdp
        rw [if_neg (fun h0 => hne h0.1), if_pos hlast] at hdp
        rw [hdp] at h
        apply hgoal _ h
        rw [if_neg (fun h0 => hh h0.2)]
        simp only [iterate_next_frame, hfrx]

/-- Witness for C16 on the input ` 12_.5`, whose integer run ends with `_`. -/
theorem C16_separator_position_witness :
    (tokenizer_next (initial_state (bytes " 12_.5") ⟨0, 0, 0⟩ TokenType.ERROR)).1 = none ∧
    (tokenizer_next (initial_state (bytes " 12_.5") ⟨0, 0, 0⟩ TokenType.ERROR)).2.error.frame
      = collect_frame (skip (initial_state (bytes " 12_.5") ⟨0, 0, 0⟩ TokenType.ERROR)).context :=
  have h := (C16_separator_position (initial_state (bytes " 12_.5") ⟨0, 0, 0⟩ TokenType.ERROR)
    (by decide) (bytes "12_") (bytes "5") (by decide) (by decide) (by decide)
    (Or.inl (by decide))).1
  ⟨h.1, h.2.2.1⟩


/-- C17. Trailing dot: in every state with an empty error slot, when the bytes after the
trivia start with a digit, the digit run `i` there does not end with `_`, a `.` follows it
and the byte after the dot is neither a digit nor `_` (the end of the input included), the
call returns no token and latches "numeric literal cannot terminate with a dot" with the
position of the start of the literal: the offset, line and column of the cursor before the
first digit, not the position reached by the scan.  So `1.` fails at offset 0, and in
`x` newline ` 12.y` the error is at offset 3, line 2, column 2. -/
theorem C17_trailing_dot (s : State) (herr : s.error.message = none) (i : List Nat)
    (hi : i = digit_run (s.context.content.drop (skip s).context.offset))
    (hdigit : is_number (peek (skip s).context) = true)
    (hlast : i.getLast? ≠ some 95)
    (h46 : peek_n (skip s).context i.length = 46)
    (hafter : dec_part_byte (peek_n (skip s).context (i.length + 1)) = false) :
    ((tokenizer_next s).1 = none ∧
      (tokenizer_next s).2.error
        = { message := some "numeric literal cannot terminate with a dot",
            frame := collect_frame (skip s).context } ∧
      (PosInv s.context →
        (tokenizer_next s).2.error.frame.line
          = line_of s.context.content (tokenizer_next s).2.error.frame.offset ∧
        (tokenizer_next s).2.error.frame.column
          = column_of s.context.content (tokenizer_next s).2.error.frame.offset)) ∧
    (token_stream 3 (initial_state (bytes "1.") ⟨0, 0, 0⟩ TokenType.ERROR)).1 = [] ∧
    (token_stream 3 (initial_state (bytes "1.") ⟨0, 0, 0⟩ TokenType.ERROR)).2.error
      = { message := some "numeric literal cannot terminate with a dot", frame := ⟨0, 1, 1⟩ } ∧
    (token_stream 3 (initial_state (bytes "x\n 12.y") ⟨0, 0, 0⟩ TokenType.ERROR)).2.error
      = { message := some "numeric literal cannot terminate with a dot", frame := ⟨3, 2, 2⟩ } ∧
    (token_stream 3 (initial_state (bytes "x\n 12.y") ⟨0, 0, 0⟩
      TokenType.ERROR)).2.context.offset = 6 := by
  refine ⟨?_, by decide, by decide, by decide, by decide⟩
  have hsk := skip_facts s
  have hc : (skip s).context.content = s.context.content := hsk.1.1
  have hpk : peek (skip s).context ≠ 0 := (is_number_ne _ hdigit).2.2.2.1
  have hnone := skip_error_none s herr hpk
  have hlt := lt_of_peek_ne_zero _ hpk
  have hix : i = digit_run ((framed (skip s)).context.content.drop
      (framed (skip s)).context.offset) := by
    rw [hi]
    show _ = digit_run ((skip s).context.content.drop (skip s).context.offset)
    rw [hc]
  have hpos : PosInv s.context →
      (skip s).context.line = line_of s.context.content (skip s).context.offset ∧
      (skip s).context.column = column_of s.context.content (skip s).context.offset :=
    fun hinv => skip_position s hinv hlt
  have hdx : is_number (peek (framed (skip s)).context) = true := hdigit
  have h46x : peek_n (framed (skip s)).context i.length = 46 := h46
  have haftx : dec_part_byte (peek_n (framed (skip s)).context (i.length + 1)) = false := hafter
  have hfrx : (framed (skip s)).context.frame = collect_frame (skip s).context := rfl
  have hfr1 : (framed (skip s)).context.frame = collect_frame (framed (skip s)).context := rfl
  have hdis := tokenizer_dispatch_number (framed (skip s)) hdx
  have hgoal : ∀ st : State, tokenizer_dispatch (framed (skip s)) = (TokenType.ERROR, st) →
      st.error = { message := some "numeric literal cannot terminate with a dot",
                   frame := collect_frame (skip s).context } →
      ((tokenizer_next s).1 = none ∧
      (tokenizer_next s).2.error
        = { message := some "numeric literal cannot terminate with a dot",
            frame := collect_frame (skip s).context } ∧
      (PosInv s.context →
        (tokenizer_next s).2.error.frame.line
          = line_of s.context.content (tokenizer_next s).2.error.frame.offset ∧
        (tokenizer_next s).2.error.frame.column
          = column_of s.context.content (tokenizer_next s).2.error.frame.offset)) := by
    intro st hst herr2
    have hnx := tokenizer_next_error s hnone hlt (by rw [hst])
    rw [hnx, hst]
    dsimp only
    rw [herr2]
    exact ⟨rfl, rfl, hpos⟩
  generalize framed (skip s) = x at hix hdx h46x haftx hfrx hfr1 hdis hgoal
  have hwf := wf_of_is_number x.context hdx (by rw [← hix]; exact hlast)
  have h := tokenize_dec_number_dot x hfr1 hwf (by rw [← hix]; exact h46x)
  rw [← hdis, ← hix] at h
  have hpy : peek (next^[i.length + 1] x.context) = peek_n x.context (i.length + 1) :=
    peek_iterate _ _
  have hb : dec_part_byte (peek (next^[i.length + 1] x.context)) = false := by
    rw [hpy]; exact haftx
  have hy95 : peek (next^[i.length + 1] x.context) ≠ 95 := by
    intro h95
    rw [h95] at hb
    exact absurd hb (by decide)
  have hdp := tokenize_dec_part_eq
    { context := next^[i.length + 1] x.context, error := x.error } true hy95
  rw [if_pos ⟨digit_run_nil _ hb, rfl⟩] at hdp
  rw [hdp] at h
  apply hgoal _ h
  simp only [iterate_next_frame, hfrx]

/-- Witness for C17 on the input ` 7.x`. -/
theorem C17_trailing_dot_witness :
    (tokenizer_next (initial_state (bytes " 7.x") ⟨0, 0, 0⟩ TokenType.ERROR)).1 = none ∧
    (tokenizer_next (initial_state (bytes " 7.x") ⟨0, 0, 0⟩ TokenType.ERROR)).2.error
      = { message := some "numeric literal cannot terminate with a dot",
          frame := collect_frame
            (skip (initial_state (bytes " 7.x") ⟨0, 0, 0⟩ TokenType.ERROR)).context } :=
  have h := (C17_trailing_dot (initial_state (bytes " 7.x") ⟨0, 0, 0⟩ TokenType.ERROR)
    (by decide) (bytes "7") (by decide) (by decide) (by decide) (by decide) (by decide)).1
  ⟨h.1, h.2.1⟩


/-- The token returned on an identifier-start byte, with the error slot it leaves. -/
theorem identifier_token (s : State) (herr : s.error.message = none)
    (hstart : is_identifier_start (peek (skip s).context) = true) :
    ∃ t, (tokenizer_next s).1 = some t ∧ t.offset = (skip s).context.offset ∧
      t.content = (s.context.content.drop t.offset).takeWhile is_identifier ∧
      t.type = identifier_type t.content ∧ t.length = t.content.length ∧
      (tokenizer_next s).2.error.message = none := by
  have hid := is_identifier_of_start _ hstart
  have hpk : peek (skip s).context ≠ 0 := ne_zero_of_is_identifier _ hid
  have hnone := skip_error_none s herr hpk
  have hlt := lt_of_peek_ne_zero _ hpk
  have hsk := skip_facts s
  have hc : (skip s).context.content = s.context.content := hsk.1.1
  have hdis := tokenizer_dispatch_identifier (framed (skip s)) hstart
  obtain ⟨hr1, hr2, -⟩ := tokenize_identifier_run (framed (skip s)).context rfl hstart
  have hk : identifier_type (slice (tokenize_identifier (framed (skip s)).context).2)
      ≠ TokenType.ERROR := identifier_type_ne_error _
  obtain ⟨t, ht, hty, hto, hlen, -, -, hcontent, he⟩ :=
    tokenizer_next_token s hnone hlt _ (run_length is_identifier (framed (skip s)).context) hk
      (by rw [hdis, tokenize_identifier_type]) (by rw [hdis]; exact hr1)
  have hseg := seg_run is_identifier (framed (skip s)).context
  have hfo : (framed (skip s)).context.offset = t.offset := hto.symm
  have hfc : (framed (skip s)).context.content = s.context.content := hc
  rw [hfo, hfc] at hseg hr2
  have hcon : t.content = (s.context.content.drop t.offset).takeWhile is_identifier := by
    rw [hcontent, hseg]
    apply cstring_eq_self
    intro b hb
    exact ne_zero_of_is_identifier b (List.mem_takeWhile_imp hb)
  refine ⟨t, ht, hto, hcon, ?_, ?_, ?_⟩
  · rw [hty, hr2, hcon]
  · rw [hlen, hcon]
    unfold run_length
    rw [hfo, hfc]
  · rw [he, hdis]
    exact hnone

theorem identifier_type_underscore (w : List Nat) (h : w.head? = some 95) :
    identifier_type w = TokenType.IDENTIFIER := by
  unfold identifier_type
  repeat (rw [if_neg (fun hw => by rw [hw] at h; revert h; decide)])

/-- C15, the claim as stated fails: on the input `_1` the call returns the `IDENTIFIER`
token `_1` and the error slot stays empty. -/
theorem C15_counterexample :
    tokenizer_next (initial_state (bytes "_1") ⟨0, 0, 0⟩ TokenType.ERROR)
      = (some { type := TokenType.IDENTIFIER, content := bytes "_1", offset := 0, length := 2,
                line := 1, column := 1 },
         { context := { content := bytes "_1", frame := ⟨0, 1, 1⟩,
                        type := TokenType.IDENTIFIER, offset := 2, line := 1, column := 3 },
           error := { message := none, frame := ⟨0, 0, 0⟩ } }) := by
  decide

/-- C15, amended. A leading `_` starts an identifier: in every state with an empty error
slot, when the first byte after the trivia is `_` (followed by a digit run or not), the
call returns one `IDENTIFIER` token that starts on the `_` and whose lexeme is the longest
run of letters, digits, `_` and `$` from there, and the error slot stays empty. -/
theorem C15_leading_separator_amended (s : State) (herr : s.error.message = none)
    (h95 : peek (skip s).context = 95) :
    ∃ t, (tokenizer_next s).1 = some t ∧ t.type = TokenType.IDENTIFIER ∧
      t.offset = (skip s).context.offset ∧
      t.content = (s.context.content.drop t.offset).takeWhile is_identifier ∧
      t.length = t.content.length ∧ t.content.head? = some 95 ∧
      (tokenizer_next s).2.error.message = none := by
  obtain ⟨t, ht, hto, hcon, hty, hlen, he⟩ :=
    identifier_token s herr (by rw [h95]; decide)
  have hsk := skip_facts s
  have hhead : t.content.head? = some 95 := by
    rw [hcon, hto, ← hsk.1.1, drop_eq_peek_cons _ (by rw [h95]; decide), h95,
      List.takeWhile_cons, if_pos (by decide)]
    rfl
  exact ⟨t, ht, by rw [hty]; exact identifier_type_underscore _ hhead, hto, hcon, hlen, hhead,
    he⟩

/-- Witness for C15 (amended) on the input ` _12+`. -/
theorem C15_leading_separator_amended_witness :
    ∃ t, (tokenizer_next (initial_state (bytes " _12+") ⟨0, 0, 0⟩ TokenType.ERROR)).1 = some t ∧
      t.type = TokenType.IDENTIFIER ∧
      (tokenizer_next (initial_state (bytes " _12+") ⟨0, 0, 0⟩ TokenType.ERROR)).2.error.message
        = none :=
  (C15_leading_separator_amended (initial_state (bytes " _12+") ⟨0, 0, 0⟩ TokenType.ERROR)
    (by decide) (by decide)).imp (fun _ h => ⟨h.1, h.2.1, h.2.2.2.2.2.2⟩)


theorem seg_snoc (S : List Nat) (a e : Nat) (hae : a ≤ e) (he : e < S.length) :
    seg S a (e + 1) = seg S a e ++ [S.getD e 0] := by
  rw [seg_append S a e (e + 1) hae (by omega), seg_cons S e (e + 1) he (by omega), seg_self]

/-- A successful call of `tokenize_dec_part` moves the cursor over the digit run. -/
theorem tokenize_dec_part_true (s : State) (req : Bool)
    (h : (tokenize_dec_part s req).1 = true) :
    (tokenize_dec_part s req).2
      = { s with context := next^[run_length dec_part_byte s.context] s.context } := by
  by_cases h95 : peek s.context = 95
  · rw [tokenize_dec_part_leading s req h95] at h
    cases h
  · have hdp := tokenize_dec_part_eq s req h95
    rw [hdp] at h ⊢
    split_ifs at h ⊢
    rfl

theorem body_run (c : TokenizerContext) :
    ∀ b ∈ seg c.content c.offset (c.offset + run_length dec_part_byte c),
      dec_part_byte b = true ∨ b = 46 :=
  fun b hb => Or.inl (run_all dec_part_byte c b hb)

theorem body_append (S : List Nat) (a b c : Nat) (hab : a ≤ b) (hbc : b ≤ c)
    (h1 : ∀ x ∈ seg S a b, dec_part_byte x = true ∨ x = 46)
    (h2 : ∀ x ∈ seg S b c, dec_part_byte x = true ∨ x = 46) :
    ∀ x ∈ seg S a c, dec_part_byte x = true ∨ x = 46 := by
  intro x hx
  rw [seg_append S a b c hab hbc, List.mem_append] at hx
  rcases hx with hx | hx
  · exact h1 x hx
  · exact h2 x hx

/-- The suffix tests of `tokenize_floating_point_number` after a body. -/
theorem floating_point_suffix_shape (st : State) (a : Nat) (ha : a ≤ st.context.offset)
    (hbody : ∀ b ∈ seg st.context.content a st.context.offset, dec_part_byte b = true ∨ b = 46) :
    NumericLexeme (floating_point_suffix st).1
      (seg st.context.content a (floating_point_suffix st).2.context.offset) := by
  unfold floating_point_suffix
  split
  · rename_i h
    have hpk : peek st.context ≠ 0 := by rcases h with h | h <;> (rw [h]; decide)
    have hlt := lt_of_peek_ne_zero _ hpk
    rw [peek_eq_getD _ hlt] at h
    refine ⟨_, hbody, Or.inr ⟨_, ?_, Or.inl ⟨rfl, h⟩⟩⟩
    exact seg_snoc _ _ _ ha hlt
  · split
    · rename_i h
      have hpk : peek st.context ≠ 0 := by rcases h with h | h <;> (rw [h]; decide)
      have hlt := lt_of_peek_ne_zero _ hpk
      rw [peek_eq_getD _ hlt] at h
      refine ⟨_, hbody, Or.inr ⟨_, ?_, Or.inr (Or.inl ⟨rfl, h⟩)⟩⟩
      exact seg_snoc _ _ _ ha hlt
    · exact ⟨_, hbody, Or.inl ⟨rfl, Or.inl rfl⟩⟩

/-- The lexeme scanned by `tokenize_floating_point_number`, from the frame on. -/
theorem tokenize_floating_point_number_shape (y : State)
    (hne : (tokenize_floating_point_number y).1 ≠ TokenType.ERROR) :
    NumericLexeme (tokenize_floating_point_number y).1
      (seg y.context.content y.context.frame.offset
        (tokenize_floating_point_number y).2.context.offset) := by
  unfold tokenize_floating_point_number at hne ⊢
  simp only [] at hne ⊢
  have hd1 := tokenize_dec_part_true { y with context := rewind y.context } false
  rcases Bool.eq_false_or_eq_true
    (tokenize_dec_part { y with context := rewind y.context } false).1 with h1 | h1
  case inr => rw [h1] at hne; exact absurd rfl hne
  case inl =>
    have e1 := hd1 h1
    simp only [] at e1
    rw [h1, e1]
    rw [h1, e1] at hne
    simp only [Bool.not_true, Bool.false_eq_true, if_false] at hne ⊢
    have hb1 := body_run (rewind y.context)
    have ho1 : (next^[run_length dec_part_byte (rewind y.context)] (rewind y.context)).offset
        = y.context.frame.offset + run_length dec_part_byte (rewind y.context) := by
      rw [iterate_next_offset]; rfl
    generalize run_length dec_part_byte (rewind y.context) = j at hne hb1 ho1 ⊢
    have hc0 : (rewind y.context).content = y.context.content := rfl
    have hf0 : (rewind y.context).offset = y.context.frame.offset := rfl
    rw [hc0, hf0] at hb1
    generalize hc1 : next^[j] (rewind y.context) = c1 at hne ho1 ⊢
    have hcc : c1.content = y.context.content := by rw [← hc1, iterate_next_content]; rfl
    by_cases h46 : peek c1 = 46
    · rw [if_pos h46] at hne ⊢
      have hlt := lt_of_peek_ne_zero c1 (by rw [h46]; decide)
      have hg : c1.content.getD c1.offset 0 = 46 := by rw [← peek_eq_getD c1 hlt]; exact h46
      have hd2 := tokenize_dec_part_true { context := next c1, error := y.error } true
      rcases Bool.eq_false_or_eq_true
        (tokenize_dec_part { context := next c1, error := y.error } true).1 with h2 | h2
      swap
      · rw [h2] at hne; exact absurd rfl hne
      · have e2 := hd2 h2
        simp only [] at e2
        rw [h2, e2]
        simp only [Bool.not_true, Bool.false_eq_true, if_false]
        have hb2 := body_run (next c1)
        rw [next_content, next_offset, hcc] at hb2
        have hres := floating_point_suffix_shape
          { context := next^[run_length dec_part_byte (next c1)] (next c1), error := y.error }
          y.context.frame.offset
          (by simp only [iterate_next_offset, next_offset]; omega)
          (by
            simp only [iterate_next_offset, next_offset, iterate_next_content, next_content, hcc]
            apply body_append _ _ (c1.offset + 1) _ (by omega) (by omega)
            · rw [seg_snoc _ _ c1.offset (by omega) (by rw [← hcc]; exact hlt)]
              intro b hb
              rw [List.mem_append] at hb
              rcases hb with hb | hb
              · rw [ho1] at hb; exact hb1 b hb
              · rw [← hcc, hg] at hb
                simp only [List.mem_singleton] at hb
                exact Or.inr hb
            · exact hb2)
        simp only [iterate_next_content, next_content, hcc] at hres
        exact hres
    · rw [if_neg h46] at hne ⊢
      have hres := floating_point_suffix_shape { context := c1, error := y.error }
        y.context.frame.offset (by show _ ≤ c1.offset; omega)
        (by
          show ∀ b ∈ seg c1.content y.context.frame.offset c1.offset, _
          rw [hcc, ho1]; exact hb1)
      simp only [hcc] at hres
      exact hres

/-- The lexeme scanned by `tokenize_dec_number`. -/
theorem tokenize_dec_number_shape (x : State) (hfr : x.context.frame = collect_frame x.context)
    (hne : (tokenize_dec_number x).1 ≠ TokenType.ERROR) :
    NumericLexeme (tokenize_dec_number x).1
      (seg x.context.content x.context.offset (tokenize_dec_number x).2.context.offset) := by
  have hfo : x.context.frame.offset = x.context.offset := by rw [hfr]; rfl
  unfold tokenize_dec_number at hne ⊢
  simp only [] at hne ⊢
  have hd1 := tokenize_dec_part_true x true
  rcases Bool.eq_false_or_eq_true (tokenize_dec_part x true).1 with h1 | h1
  swap
  · rw [h1] at hne; exact absurd rfl hne
  · have e1 := hd1 h1
    rw [h1, e1]
    rw [h1, e1] at hne
    simp only [Bool.not_true, Bool.false_eq_true, if_false] at hne ⊢
    have hb1 := body_run x.context
    have ho1 : (next^[run_length dec_part_byte x.context] x.context).offset
        = x.context.offset + run_length dec_part_byte x.context := by
      rw [iterate_next_offset]
    generalize run_length dec_part_byte x.context = j at hne hb1 ho1 ⊢
    generalize hc1 : next^[j] x.context = c1 at hne ho1 ⊢
    have hcc : c1.content = x.context.content := by rw [← hc1, iterate_next_content]
    have hcf : c1.frame = x.context.frame := by rw [← hc1, iterate_next_frame]
    rw [← ho1] at hb1
    by_cases h46 : peek c1 = 46
    · rw [if_pos h46] at hne ⊢
      have := tokenize_floating_point_number_shape { context := c1, error := x.error } hne
      simp only [hcc, hcf, hfo] at this
      exact this
    · rw [if_neg h46] at hne ⊢
      have leaf : ∀ (k : TokenType) (v : Nat), peek c1 = v → v ≠ 0 →
          ((k = TokenType.FLOAT_NUMBER ∧ (v = 102 ∨ v = 70)) ∨
           (k = TokenType.DOUBLE_NUMBER ∧ (v = 100 ∨ v = 68)) ∨
           (k = TokenType.DEC_LONG_NUMBER ∧ (v = 108 ∨ v = 76))) →
          NumericLexeme k (seg x.context.content x.context.offset (next c1).offset) := by
        intro k v hv hv0 hk
        have hlt := lt_of_peek_ne_zero c1 (by rw [hv]; exact hv0)
        rw [peek_eq_getD _ hlt, hcc] at hv
        rw [hcc] at hlt
        refine ⟨_, hb1, Or.inr ⟨v, ?_, hk⟩⟩
        rw [next_offset, seg_snoc _ _ _ (by omega) hlt, hv]
      split
      · rename_i h
        rcases h with h | h
        · exact leaf _ _ h (by decide) (Or.inl ⟨rfl, Or.inl rfl⟩)
        · exact leaf _ _ h (by decide) (Or.inl ⟨rfl, Or.inr rfl⟩)
      · split
        · rename_i h
          rcases h with h | h
          · exact leaf _ _ h (by decide) (Or.inr (Or.inl ⟨rfl, Or.inl rfl⟩))
          · exact leaf _ _ h (by decide) (Or.inr (Or.inl ⟨rfl, Or.inr rfl⟩))
        · split
          · rename_i h
            rcases h with h | h
            · exact leaf _ _ h (by decide) (Or.inr (Or.inr ⟨rfl, Or.inl rfl⟩))
            · exact leaf _ _ h (by decide) (Or.inr (Or.inr ⟨rfl, Or.inr rfl⟩))
          · exact ⟨_, hb1, Or.inl ⟨rfl, Or.inr rfl⟩⟩

theorem ite_ne_kind {p : Prop} [Decidable p] {a b k : TokenType} (ha : a ≠ k) (hb : b ≠ k) :
    (if p then a else b) ≠ k := by
  split
  · exact ha
  · exact hb

theorem identifier_type_not_numeric (w : List Nat) :
    identifier_type w ≠ TokenType.FLOAT_NUMBER ∧ identifier_type w ≠ TokenType.DOUBLE_NUMBER ∧
      identifier_type w ≠ TokenType.DEC_LONG_NUMBER ∧
      identifier_type w ≠ TokenType.DEC_NUMBER := by
  unfold identifier_type
  refine ⟨?_, ?_, ?_, ?_⟩ <;>
    (repeat (first | exact (by decide) | refine ite_ne_kind (by decide) ?_))

theorem tokenize_string_kind (x : State) :
    (tokenize_string x).1 = TokenType.STRING_LITERAL ∨ (tokenize_string x).1 = TokenType.ERROR := by
  unfold tokenize_string
  simp only []
  split
  · exact Or.inl rfl
  · exact Or.inr rfl

theorem tokenize_char_close_kind (x : State) :
    (tokenize_char_close x).1 = TokenType.CHAR_LITERAL
      ∨ (tokenize_char_close x).1 = TokenType.ERROR := by
  unfold tokenize_char_close
  split
  · exact Or.inr rfl
  · exact Or.inl rfl

theorem tokenize_char_kind (x : State) :
    (tokenize_char x).1 = TokenType.CHAR_LITERAL ∨ (tokenize_char x).1 = TokenType.ERROR := by
  unfold tokenize_char
  simp only []
  split
  · split
    · exact Or.inr rfl
    · exact tokenize_char_close_kind _
  · exact tokenize_char_close_kind _

theorem operator_table_not_numeric :
    ∀ e ∈ operator_table, e.2 ≠ TokenType.FLOAT_NUMBER ∧ e.2 ≠ TokenType.DOUBLE_NUMBER ∧
      e.2 ≠ TokenType.DEC_LONG_NUMBER ∧ e.2 ≠ TokenType.DEC_NUMBER ∧
      e.2 ≠ TokenType.STRING_LITERAL ∧ e.2 ≠ TokenType.CHAR_LITERAL := by decide

/-- A numeric kind returned by the classifier comes with a numeric lexeme. -/
theorem tokenizer_dispatch_numeric (x : State)
    (hfr : x.context.frame = collect_frame x.context)
    (hk : (tokenizer_dispatch x).1 = TokenType.FLOAT_NUMBER
      ∨ (tokenizer_dispatch x).1 = TokenType.DOUBLE_NUMBER
      ∨ (tokenizer_dispatch x).1 = TokenType.DEC_LONG_NUMBER
      ∨ (tokenizer_dispatch x).1 = TokenType.DEC_NUMBER) :
    NumericLexeme (tokenizer_dispatch x).1
      (seg x.context.content x.context.offset (tokenizer_dispatch x).2.context.offset) := by
  have hfo : x.context.frame.offset = x.context.offset := by rw [hfr]; rfl
  have hne : (tokenizer_dispatch x).1 ≠ TokenType.ERROR := by
    rcases hk with h | h | h | h <;> (rw [h]; decide)
  unfold tokenizer_dispatch at hk hne ⊢
  simp only [] at hk hne ⊢
  split at hk
  · exfalso
    have := identifier_type_not_numeric (slice (tokenize_identifier x.context).2)
    rw [← tokenize_identifier_type] at this
    rcases hk with h | h | h | h
    · exact this.1 h
    · exact this.2.1 h
    · exact this.2.2.1 h
    · exact this.2.2.2 h
  · rename_i hid
    rw [if_neg hid] at hne ⊢
    split at hk
    · rename_i hnum
      rw [if_pos hnum] at hne ⊢
      unfold tokenize_number at hk hne ⊢
      split at hk
      · rename_i h46
        rw [if_pos h46] at hne ⊢
        split at hk
        · rename_i hd
          rw [if_pos hd] at hne ⊢
          have := tokenize_floating_point_number_shape x hne
          rw [hfo] at this
          exact this
        · rcases hk with h | h | h | h <;> cases h
      · rename_i h46
        rw [if_neg h46] at hne ⊢
        exact tokenize_dec_number_shape x hfr hne
    · rename_i hnum
      rw [if_neg hnum] at hne ⊢
      split at hk
      · exfalso
        rcases tokenize_string_kind x with h | h <;> rw [h] at hk <;>
          (rcases hk with h | h | h | h <;> cases h)
      · split at hk
        · exfalso
          rcases tokenize_char_kind x with h | h <;> rw [h] at hk <;>
            (rcases hk with h | h | h | h <;> cases h)
        · exfalso
          have h46 : peek x.context ≠ 46 := by
            intro h
            apply hnum
            rw [h]
            rfl
          rcases tokenize_operator_scan x h46 with ⟨h, -⟩ | ⟨e, he, h, -⟩
          · rw [h] at hk
            rcases hk with h | h | h | h <;> cases h
          · have := operator_table_not_numeric e he
            rw [← h] at this
            rcases hk with h | h | h | h
            · exact this.1 h
            · exact this.2.1 h
            · exact this.2.2.1 h
            · exact this.2.2.2.1 h


theorem body_byte (b : Nat) (h : dec_part_byte b = true ∨ b = 46) :
    b ≠ 0 ∧ b ∉ bytes "fFdD" ∧ b ∉ bytes "fFdDlL" := by
  have e1 : bytes "fFdD" = [102, 70, 100, 68] := by decide
  have e2 : bytes "fFdDlL" = [102, 70, 100, 68, 108, 76] := by decide
  rw [e1, e2]
  simp only [dec_part_byte, is_number, Bool.or_eq_true, Bool.and_eq_true, decide_eq_true_eq] at h
  simp only [List.mem_cons, List.mem_singleton, List.not_mem_nil, or_false, not_or]
  omega

/-- The decoder on a numeric lexeme with a suffix kind removes exactly the suffix letter. -/
theorem decode_numeric (t : Token) (h : NumericLexeme t.type t.content)
    (hk : t.type = TokenType.FLOAT_NUMBER ∨ t.type = TokenType.DOUBLE_NUMBER
      ∨ t.type = TokenType.DEC_LONG_NUMBER) :
    token_content_to_value t = Value.text (strip_suffix t.content) := by
  obtain ⟨body, hbody, hw⟩ := h
  have hb0 : ∀ b ∈ body, b ≠ 0 := fun b hb => (body_byte b (hbody b hb)).1
  have hcut : strcspn_cut (bytes "fFdD") body = body := by
    unfold strcspn_cut
    apply List.takeWhile_eq_self_iff.mpr
    intro b hb
    simpa using (body_byte b (hbody b hb)).2.1
  have hstrip : strip_suffix body = body := by
    unfold strip_suffix
    cases hl : body.getLast? with
    | none => rfl
    | some b =>
      have hmem : b ∈ body := List.mem_of_getLast?_eq_some hl
      simp only []
      rw [if_neg (body_byte b (hbody b hmem)).2.2]
  rcases hw with ⟨hw, hk2⟩ | ⟨c, hw, hc⟩
  · have hty : t.type = TokenType.DOUBLE_NUMBER := by
      rcases hk2 with h | h
      · exact h
      · rw [h] at hk
        rcases hk with h | h | h <;> cases h
    unfold token_content_to_value
    simp only [hty, hw, cstring_eq_self body hb0, hcut, hstrip]
  · have hc0 : c ≠ 0 := by
      rcases hc with ⟨-, h | h⟩ | ⟨-, h | h⟩ | ⟨-, h | h⟩ <;> (rw [h]; decide)
    have hcs : cstring (body ++ [c]) = body ++ [c] := by
      apply cstring_eq_self
      intro b hb
      rw [List.mem_append, List.mem_singleton] at hb
      rcases hb with hb | hb
      · exact hb0 b hb
      · rw [hb]; exact hc0
    have hin : c ∈ bytes "fFdDlL" := by
      rcases hc with ⟨-, h | h⟩ | ⟨-, h | h⟩ | ⟨-, h | h⟩ <;> (rw [h]; decide)
    have hst : strip_suffix (body ++ [c]) = body := by
      unfold strip_suffix
      rw [List.getLast?_concat]
      simp only []
      rw [if_pos hin, List.dropLast_concat]
    unfold token_content_to_value
    rcases hc with ⟨hty, hc⟩ | ⟨hty, hc⟩ | ⟨hty, hc⟩
    · have hin2 : c ∈ bytes "fFdD" := by rcases hc with h | h <;> (rw [h]; decide)
      simp only [hty, hw, hcs, hst]
      unfold strcspn_cut
      rw [List.takeWhile_append_of_pos (by
        intro b hb
        simpa using (body_byte b (hbody b hb)).2.1)]
      rw [List.takeWhile_cons, if_neg (by simpa using hin2), List.append_nil]
    · have hin2 : c ∈ bytes "fFdD" := by rcases hc with h | h <;> (rw [h]; decide)
      simp only [hty, hw, hcs, hst]
      unfold strcspn_cut
      rw [List.takeWhile_append_of_pos (by
        intro b hb
        simpa using (body_byte b (hbody b hb)).2.1)]
      rw [List.takeWhile_cons, if_neg (by simpa using hin2), List.append_nil]
    · simp only [hty, hw, hcs, hst]
      simp

/-- The lexeme of a returned token of a numeric kind. -/
theorem numeric_token (s : State) (t : Token) (ht : (tokenizer_next s).1 = some t)
    (hk : t.type = TokenType.FLOAT_NUMBER ∨ t.type = TokenType.DOUBLE_NUMBER
      ∨ t.type = TokenType.DEC_LONG_NUMBER ∨ t.type = TokenType.DEC_NUMBER) :
    NumericLexeme t.type t.content := by
  obtain ⟨-, ho, -, -, -, -, hto, -, hcontent, -, -, hty, hoff, -⟩ :=
    (tokenizer_next_facts s).2.2.2.2 t ht
  have hsk := skip_facts s
  have hc : (framed (skip s)).context.content = s.context.content := hsk.1.1
  have hsh := tokenizer_dispatch_numeric (framed (skip s)) rfl (by rw [← hty]; exact hk)
  rw [← hty, hc, ← hoff, ← hto] at hsh
  have hfo : (framed (skip s)).context.offset = t.offset := ho.symm
  rw [hfo] at hsh
  have hnul : ∀ b ∈ seg s.context.content t.offset (t.offset + t.length), b ≠ 0 := by
    obtain ⟨body, hbody, hw⟩ := hsh
    have hb0 : ∀ b ∈ body, b ≠ 0 := fun b hb => (body_byte b (hbody b hb)).1
    rcases hw with ⟨hw, -⟩ | ⟨c, hw, hcc⟩
    · rw [hw]; exact hb0
    · rw [hw]
      intro b hb
      rw [List.mem_append, List.mem_singleton] at hb
      rcases hb with hb | hb
      · exact hb0 b hb
      · rw [hb]
        rcases hcc with ⟨-, h | h⟩ | ⟨-, h | h⟩ | ⟨-, h | h⟩ <;> (rw [h]; decide)
  have hcon : t.content = seg s.context.content t.offset (t.offset + t.length) := by
    rw [hcontent]
    exact cstring_eq_self _ hnul
  rw [hcon]
  exact hsh

/-- C13. Suffix stripping in the decoder: for every token of kind `FLOAT_NUMBER`,
`DOUBLE_NUMBER` or `DEC_LONG_NUMBER` returned by a call, the lexeme consists of digits,
`_` and `.` followed by at most one suffix letter, and `token_content_to_value` returns the
lexeme with that trailing letter removed when there is one and the lexeme unchanged
otherwise.  So `3.14f` gives `3.14`, `10L` gives `10`, `7d` gives `7` and `2.5` stays. -/
theorem C13_suffix_stripping (s : State) (t : Token) (ht : (tokenizer_next s).1 = some t)
    (hk : t.type = TokenType.FLOAT_NUMBER ∨ t.type = TokenType.DOUBLE_NUMBER
      ∨ t.type = TokenType.DEC_LONG_NUMBER) :
    (NumericLexeme t.type t.content ∧
      token_content_to_value t = Value.text (strip_suffix t.content)) ∧
    (token_stream 5 (initial_state (bytes "3.14f 10L 7d 2.5") ⟨0, 0, 0⟩ TokenType.ERROR)).1.map
        (fun t => (t.content, token_content_to_value t))
      = [(bytes "3.14f", Value.text (bytes "3.14")), (bytes "10L", Value.text (bytes "10")),
         (bytes "7d", Value.text (bytes "7")), (bytes "2.5", Value.text (bytes "2.5"))] := by
  refine ⟨?_, by decide⟩
  have hsh := numeric_token s t ht (by
    rcases hk with h | h | h
    · exact Or.inl h
    · exact Or.inr (Or.inl h)
    · exact Or.inr (Or.inr (Or.inl h)))
  exact ⟨hsh, decode_numeric t hsh hk⟩

/-- Witness for C13 on the input ` 1_0.5F;`. -/
theorem C13_suffix_stripping_witness :
    token_content_to_value
        { type := TokenType.FLOAT_NUMBER, content := bytes "1_0.5F", offset := 1, length := 6,
          line := 1, column := 2 }
      = Value.text (strip_suffix (bytes "1_0.5F")) :=
  (C13_suffix_stripping (initial_state (bytes " 1_0.5F;") ⟨0, 0, 0⟩ TokenType.ERROR)
    { type := TokenType.FLOAT_NUMBER, content := bytes "1_0.5F", offset := 1, length := 6,
      line := 1, column := 2 } (by decide) (Or.inl rfl)).1.2


theorem body_byte_plain (b : Nat) (h : dec_part_byte b = true ∨ b = 46) :
    isspace b = false ∧ b ≠ 45 ∧ b ≠ 43 := by
  simp only [dec_part_byte, is_number, Bool.or_eq_true, Bool.and_eq_true, decide_eq_true_eq] at h
  simp only [isspace, Bool.or_eq_false_iff, Bool.and_eq_false_iff, decide_eq_false_iff_not]
  omega

/-- On a lexeme of digits, `_` and `.`, `strtol` reads the leading digits and nothing
else. -/
theorem strtol_consumed (w : List Nat) (hw : ∀ b ∈ w, dec_part_byte b = true ∨ b = 46) :
    (strtol w).2 = (w.takeWhile is_number).length := by
  have hcs : cstring w = w :=
    cstring_eq_self w (fun b hb => (body_byte b (hw b hb)).1)
  unfold strtol
  simp only [hcs]
  cases w with
  | nil => simp
  | cons a r =>
    have ha := body_byte_plain a (hw a (List.mem_cons_self _ _))
    have h1 : List.takeWhile isspace (a :: r) = [] := by
      rw [List.takeWhile_cons, if_neg (by rw [ha.1]; decide)]
    rw [h1]
    simp only [List.length_nil, List.drop_zero, List.head?_cons, Option.some.injEq, ha.2.1,
      ha.2.2, or_self, if_false, Nat.zero_add]
    split
    · rename_i h
      rw [h]; rfl
    · rfl

/-- C14, the code departs from the claim.  For every `DEC_NUMBER` token returned by a call
whose lexeme contains a separator `_`, the decoder returns the lexeme unchanged, `_`
included, and the conversion of `main` fails: `strtol` stops at the first `_`, the test
`*ptr != 0` holds and `main` gives no number.  On the input `1_000` the token has the
lexeme `1_000`, `strtol` reads one byte and `main` fails, where the specification asks for
the value 1000; without separator, `1000` gives 1000. -/
theorem C14_separator_kept (s : State) (t : Token) (ht : (tokenizer_next s).1 = some t)
    (hk : t.type = TokenType.DEC_NUMBER) (hsep : 95 ∈ t.content) :
    (token_content_to_value t = Value.text t.content ∧ main_dec_number t = none) ∧
    (token_stream 3 (initial_state (bytes "1_000") ⟨0, 0, 0⟩ TokenType.ERROR)).1
      = [{ type := TokenType.DEC_NUMBER, content := bytes "1_000", offset := 0, length := 5,
           line := 1, column := 1 }] ∧
    strtol (bytes "1_000") = (1, 1) ∧
    separated_value (bytes "1_000") = 1000 ∧
    main_dec_number
        { type := TokenType.DEC_NUMBER, content := bytes "1000", offset := 0, length := 4,
          line := 1, column := 1 } = some 1000 := by
  refine ⟨?_, by decide, by decide, by decide, by decide⟩
  obtain ⟨body, hbody, hw⟩ := numeric_token s t ht (Or.inr (Or.inr (Or.inr hk)))
  have hcon : t.content = body := by
    rcases hw with ⟨hw, -⟩ | ⟨c, -, hc⟩
    · exact hw
    · rw [hk] at hc
      rcases hc with ⟨h, -⟩ | ⟨h, -⟩ | ⟨h, -⟩ <;> cases h
  rw [← hcon] at hbody
  have hb0 : ∀ b ∈ t.content, b ≠ 0 := fun b hb => (body_byte b (hbody b hb)).1
  have hval : token_content_to_value t = Value.text t.content := by
    unfold token_content_to_value
    simp only [hk, cstring_eq_self _ hb0]
  refine ⟨hval, ?_⟩
  unfold main_dec_number
  rw [hval]
  simp only []
  rw [strtol_consumed _ hbody, if_pos]
  by_cases hd : (t.content.takeWhile is_number).length = 0
  · exact Or.inr hd
  · left
    have hle : (t.content.takeWhile is_number).length ≤ t.content.length :=
      (List.takeWhile_prefix is_number).length_le
    have hlt : (t.content.takeWhile is_number).length < t.content.length := by
      rcases Nat.lt_or_ge (t.content.takeWhile is_number).length t.content.length with h | h
      · exact h
      · exfalso
        have heq : t.content.takeWhile is_number = t.content :=
          (List.takeWhile_prefix is_number).eq_of_length (by omega)
        have := List.takeWhile_eq_self_iff.mp heq 95 hsep
        exact absurd this (by decide)
    rw [List.getD_eq_getElem _ _ hlt]
    exact hb0 _ (List.getElem_mem _)

/-- Witness for C14 on the input `1_000`. -/
theorem C14_separator_kept_witness :
    main_dec_number
        { type := TokenType.DEC_NUMBER, content := bytes "1_000", offset := 0, length := 5,
          line := 1, column := 1 } = none :=
  (C14_separator_kept (initial_state (bytes "1_000") ⟨0, 0, 0⟩ TokenType.ERROR)
    { type := TokenType.DEC_NUMBER, content := bytes "1_000", offset := 0, length := 5,
      line := 1, column := 1 } (by decide) rfl (by decide)).1.2


/-- The skip loop does nothing in a state where none of its three tests holds. -/
theorem skip_loop_of_exit (fuel : Nat) (s : State)
    (h1 : ¬ (peek_n s.context 0 = 47 ∧ peek_n s.context 1 = 42))
    (h2 : ¬ (peek_n s.context 0 = 47 ∧ peek_n s.context 1 = 47))
    (h3 : ¬ (peek s.context = 32 ∨ peek s.context = 9 ∨ peek s.context = 10
        ∨ peek s.context = 13)) :
    skip_loop fuel s = s := by
  cases fuel with
  | zero => rfl
  | succ fuel =>
    unfold skip_loop
    rw [if_neg h1, if_neg h2, if_neg h3]

/-- Running the skip loop for `m` iterations and then for `k` more is running it for
`m + k` iterations. -/
theorem skip_loop_add (m k : Nat) : ∀ s : State,
    skip_loop (m + k) s = skip_loop k (skip_loop m s) := by
  induction m with
  | zero => intro s; rw [Nat.zero_add]; rfl
  | succ m ih =>
    intro s
    rw [Nat.add_right_comm]
    by_cases h1 : peek_n s.context 0 = 47 ∧ peek_n s.context 1 = 42
    · have e1 : skip_loop (m + k + 1) s = skip_loop (m + k) (skip_multi_comment s) := by
        rw [skip_loop, if_pos h1]
      have e2 : skip_loop (m + 1) s = skip_loop m (skip_multi_comment s) := by
        rw [skip_loop, if_pos h1]
      rw [e1, e2, ih]
    · by_cases h2 : peek_n s.context 0 = 47 ∧ peek_n s.context 1 = 47
      · have e1 : skip_loop (m + k + 1) s
            = skip_loop (m + k) { s with context := skip_single_comment s.context } := by
          rw [skip_loop, if_neg h1, if_pos h2]
        have e2 : skip_loop (m + 1) s
            = skip_loop m { s with context := skip_single_comment s.context } := by
          rw [skip_loop, if_neg h1, if_pos h2]
        rw [e1, e2, ih]
      · by_cases h3 : peek s.context = 32 ∨ peek s.context = 9 ∨ peek s.context = 10
            ∨ peek s.context = 13
        · have e1 : skip_loop (m + k + 1) s
              = skip_loop (m + k) { s with context := next s.context } := by
            rw [skip_loop, if_neg h1, if_neg h2, if_pos h3]
          have e2 : skip_loop (m + 1) s = skip_loop m { s with context := next s.context } := by
            rw [skip_loop, if_neg h1, if_neg h2, if_pos h3]
          rw [e1, e2, ih]
        · rw [skip_loop_of_exit _ s h1 h2 h3, skip_loop_of_exit _ s h1 h2 h3,
            skip_loop_of_exit _ s h1 h2 h3]

/-- The state reached after any number of iterations of the skip loop is skipped to the
same state as the start. -/
theorem skip_skip_loop (m : Nat) (s : State) : skip (skip_loop m s) = skip s := by
  have hc : (skip_loop m s).context.content = s.context.content := (skip_loop_facts m s).1.1
  have e1 : skip (skip_loop m s) = skip_loop (m + (s.context.content.length + 1)) s := by
    rw [skip_loop_add]
    unfold skip TokenizerContext.content_length
    rw [hc]
  have e2 : skip_loop (s.context.content.length + 1 + m) s = skip s := by
    rw [skip_loop_add]
    have hx := skip_loop_exit (s.context.content.length + 1) s (by omega)
    exact skip_loop_of_exit m _ hx.1 hx.2.1 hx.2.2
  rw [e1, Nat.add_comm, e2]

/-- The skipper on a `/*` after which no `*/` begins: the error is latched at the `/*` and
the input is exhausted. -/
theorem skip_unterminated (s : State) (h0 : peek_n s.context 0 = 47)
    (h1 : peek_n s.context 1 = 42)
    (hopen : ∀ j, s.context.offset + 2 ≤ j →
      ¬ (s.context.content.getD j 0 = 42 ∧ s.context.content.getD (j + 1) 0 = 47)) :
    (skip s).error = { message := some "unterminated comment", frame := collect_frame s.context }
      ∧ s.context.content.length ≤ (skip s).context.offset := by
  have hstep : skip s = skip_loop s.context.content.length (skip_multi_comment s) := by
    unfold skip TokenizerContext.content_length
    rw [skip_loop, if_pos ⟨h0, h1⟩]
  have hm : (skip_multi_comment s).error
        = { message := some "unterminated comment", frame := collect_frame s.context } ∧
      s.context.content.length ≤ (skip_multi_comment s).context.offset ∧
      (skip_multi_comment s).context.content = s.context.content := by
    unfold skip_multi_comment
    simp only []
    have hf := skip_multi_comment_loop_facts s _ rfl
    generalize skip_multi_comment_loop (collect_frame s.context) (s.context.content_length + 1)
      { s with context := next_2 s.context } = r at hf
    obtain ⟨hadv, hoff, htrue, hfalse⟩ := hf
    rcases Bool.eq_false_or_eq_true r.2 with h | h
    · exfalso
      obtain ⟨-, hp0, hp1⟩ := htrue h
      have g0 := (peek_n_eq_getD _ _ _ hp0 (by decide)).2
      have g1 := (peek_n_eq_getD _ _ _ hp1 (by decide)).2
      rw [hadv.1] at g0 g1
      exact hopen r.1.context.offset (by omega) ⟨g0, g1⟩
    · rw [h]
      simp only [Bool.false_eq_true, if_false]
      exact ⟨(hfalse h).1, (hfalse h).2, hadv.1⟩
  obtain ⟨he, ho, hc⟩ := hm
  have hstop : skip_loop s.context.content.length (skip_multi_comment s)
      = skip_multi_comment s := by
    have hp : peek_n (skip_multi_comment s).context 0 = 0 :=
      peek_n_of_ge _ _ (by rw [hc]; omega)
    apply skip_loop_of_peek <;> rw [hp] <;> decide
  rw [hstep, hstop]
  exact ⟨he, ho⟩

/-- C18. Unterminated block comment: in every state with an empty error slot, when the
skip loop reaches, after some number `m` of iterations, a cursor on `/*` such that no `*/`
begins at or after the byte that follows this `/*`, the call returns no token, the input is
exhausted, and the error slot holds "unterminated comment" with the position of the `/*`:
its offset, and the line and the column of that byte.  So `/* never closes` gives no token
and the error at offset 0, and `a` newline ` /*/` gives the token `a` and the error at
offset 3, line 2, column 2. -/
theorem C18_unterminated_block_comment (s : State) (m : Nat) (_herr : s.error.message = none)
    (h0 : peek_n (skip_loop m s).context 0 = 47) (h1 : peek_n (skip_loop m s).context 1 = 42)
    (hopen : ∀ j, (skip_loop m s).context.offset + 2 ≤ j →
      ¬ (s.context.content.getD j 0 = 42 ∧ s.context.content.getD (j + 1) 0 = 47)) :
    ((tokenizer_next s).1 = none ∧
      (tokenizer_next s).2.error
        = { message := some "unterminated comment",
            frame := collect_frame (skip_loop m s).context } ∧
      s.context.content.getD (tokenizer_next s).2.error.frame.offset 0 = 47 ∧
      s.context.content.getD ((tokenizer_next s).2.error.frame.offset + 1) 0 = 42 ∧
      s.context.content.length ≤ (tokenizer_next s).2.context.offset ∧
      (PosInv s.context →
        (tokenizer_next s).2.error.frame.line
          = line_of s.context.content (tokenizer_next s).2.error.frame.offset ∧
        (tokenizer_next s).2.error.frame.column
          = column_of s.context.content (tokenizer_next s).2.error.frame.offset)) ∧
    (token_stream 3 (initial_state (bytes "/* never closes") ⟨0, 0, 0⟩ TokenType.ERROR)).1 = [] ∧
    (token_stream 3 (initial_state (bytes "/* never closes") ⟨0, 0, 0⟩ TokenType.ERROR)).2.error
      = { message := some "unterminated comment", frame := ⟨0, 1, 1⟩ } ∧
    (token_stream 3 (initial_state (bytes "a\n /*/") ⟨0, 0, 0⟩ TokenType.ERROR)).1.map
        Token.content = [bytes "a"] ∧
    (token_stream 3 (initial_state (bytes "a\n /*/") ⟨0, 0, 0⟩ TokenType.ERROR)).2.error
      = { message := some "unterminated comment", frame := ⟨3, 2, 2⟩ } := by
  refine ⟨?_, by decide, by decide, by decide, by decide⟩
  have hrel := skip_loop_facts m s
  have hc : (skip_loop m s).context.content = s.context.content := hrel.1.1
  have hun := skip_unterminated (skip_loop m s) h0 h1 (by rw [hc]; exact hopen)
  rw [skip_skip_loop, hc] at hun
  have hnx : tokenizer_next s = (none, skip s) := by
    unfold tokenizer_next
    simp only []
    rw [if_pos]
    left
    unfold TokenizerContext.content_length
    rw [(skip_facts s).1.1]
    exact hun.2
  have g0 := peek_n_eq_getD _ _ _ h0 (by decide)
  have g1 := peek_n_eq_getD _ _ _ h1 (by decide)
  rw [hc] at g0 g1
  rw [hnx]
  dsimp only
  rw [hun.1]
  refine ⟨rfl, rfl, g0.2, g1.2, hun.2, ?_⟩
  intro hinv
  have hpi := hrel.1.2.2.2 hinv
  unfold PosInv PosOK at hpi
  rw [hc] at hpi
  exact hpi (by have := g0.1; omega)

/-- Witness for C18 on the input `x /* y`: the second call reaches the `/*` after one
iteration of the skip loop. -/
theorem C18_unterminated_block_comment_witness :
    (tokenizer_next (tokenizer_next
        (initial_state (bytes "x /* y") ⟨0, 0, 0⟩ TokenType.ERROR)).2).1 = none ∧
    (tokenizer_next (tokenizer_next
        (initial_state (bytes "x /* y") ⟨0, 0, 0⟩ TokenType.ERROR)).2).2.error
      = { message := some "unterminated comment",
          frame := collect_frame (skip_loop 1 (tokenizer_next
            (initial_state (bytes "x /* y") ⟨0, 0, 0⟩ TokenType.ERROR)).2).context } :=
  have h := (C18_unterminated_block_comment
    (tokenizer_next (initial_state (bytes "x /* y") ⟨0, 0, 0⟩ TokenType.ERROR)).2 1
    (by decide) (by decide) (by decide) (by
      intro j hj
      have e : (skip_loop 1 (tokenizer_next
          (initial_state (bytes "x /* y") ⟨0, 0, 0⟩ TokenType.ERROR)).2).context.offset = 2 := by
        decide
      rw [e] at hj
      have hS : (tokenizer_next
          (initial_state (bytes "x /* y") ⟨0, 0, 0⟩ TokenType.ERROR)).2.context.content
            = [120, 32, 47, 42, 32, 121] := by decide
      rw [hS]
      intro hh
      have h5 : j < 6 := by
        by_contra hge
        rw [List.getD_eq_default _ _ (by simp; omega)] at hh
        exact absurd hh.1 (by decide)
      interval_cases j <;> simp at hh)).1
  ⟨h.1, h.2.1⟩


theorem is_number_hex_zero : is_number_hex 0 = false := by decide

/-- The hex-digit loop of `tokenize_escape` succeeds exactly when `k` hexadecimal digits
follow, and then it has moved the cursor over them. -/
theorem tokenize_escape_hex_eq (k : Nat) : ∀ c : TokenizerContext,
    (tokenize_escape_hex k c).1
        = (decide (((c.content.drop c.offset).take k).length = k)
            && ((c.content.drop c.offset).take k).all is_number_hex) ∧
    ((tokenize_escape_hex k c).1 = true → (tokenize_escape_hex k c).2 = next^[k] c) := by
  induction k with
  | zero => intro c; exact ⟨by simp [tokenize_escape_hex], fun _ => rfl⟩
  | succ k ih =>
    intro c
    unfold tokenize_escape_hex
    by_cases h : is_number_hex (peek c) = true
    · have h0 : peek c ≠ 0 := by
        intro h0; rw [h0] at h; exact absurd h (by decide)
      rw [if_pos h]
      obtain ⟨ih1, ih2⟩ := ih (next c)
      rw [next_content, next_offset] at ih1
      refine ⟨?_, fun ht => by rw [ih2 ht]; rfl⟩
      rw [ih1, drop_eq_peek_cons c h0]
      simp [h]
    · rw [if_neg h]
      refine ⟨?_, fun ht => by cases ht⟩
      have hf : is_number_hex (peek c) = false := by simpa using h
      rw [peek_eq_head] at hf
      cases hd : c.content.drop c.offset with
      | nil => simp
      | cons a r =>
        rw [hd] at hf
        simp only [List.headD_cons] at hf
        simp [hf]

theorem ite_pair_fst (b : Bool) (x y : State) :
    (if b = true then (true, x) else (false, y)).1 = b := by
  cases b <;> rfl

theorem drop_succ_eq (c : TokenizerContext) (n : Nat) (a : Nat) (r : List Nat)
    (h : c.content.drop (c.offset + n) = a :: r) :
    peek_n c n = a ∧ c.content.drop (c.offset + n + 1) = r := by
  constructor
  · rw [peek_n_eq_head, h]; rfl
  · have := congrArg (List.drop 1) h
    rw [List.drop_drop] at this
    simpa using this

/-- The verdict of `tokenize_escape` is the one of the specification. -/
theorem tokenize_escape_valid (s : State) (q : Nat) (hq : q = 34 ∨ q = 39) :
    (tokenize_escape s q).1
      = valid_escape q (s.context.content.drop (s.context.offset + 1)) := by
  unfold tokenize_escape
  simp only [peek_next]
  cases hd : s.context.content.drop (s.context.offset + 1) with
  | nil =>
    have hb : peek_n s.context 1 = 0 := by rw [peek_n_eq_head, hd]; rfl
    rw [hb]
    simp [valid_escape]
  | cons a r =>
    obtain ⟨hb, hr⟩ := drop_succ_eq s.context 1 a r hd
    have hhex := (tokenize_escape_hex_eq 4 (next (next s.context))).1
    rw [next_content, next_content, next_offset, next_offset, hr] at hhex
    rw [hb]
    unfold valid_escape
    simp only [List.mem_cons, List.mem_singleton, List.not_mem_nil, or_false]
    by_cases h1 : a = 39 ∨ a = 34
    · rw [if_pos h1]
      by_cases h2 : a = q
      · rw [if_neg (by simpa using h2)]
        simp [h2]
      · rw [if_pos h2]
        rcases h1 with h1 | h1 <;> simp [h1] at h2 ⊢ <;> omega
    · rw [if_neg h1]
      have hqa : a ≠ q := by
        rcases hq with hq | hq <;> (rw [hq]; intro h; apply h1; simp [h])
      by_cases h3 : a = 110 ∨ a = 116 ∨ a = 114 ∨ a = 48 ∨ a = 92
      · rw [if_pos h3]
        rcases h3 with h | h | h | h | h <;> simp [h]
      · rw [if_neg h3]
        simp only [not_or] at h3
        by_cases h4 : a = 117
        · rw [if_pos h4]
          have hq117 : ¬ (117 = q) := by rcases hq with hq | hq <;> (rw [hq]; decide)
          rw [ite_pair_fst, hhex, h4]
          simp [hq117]
        · rw [if_neg h4]
          simp [h3.1, h3.2.1, h3.2.2.1, h3.2.2.2.1, h3.2.2.2.2, hqa, h4]

/-- The error slot and the cursor after `tokenize_escape`. -/
theorem tokenize_escape_result (s : State) (q : Nat) :
    ((tokenize_escape s q).1 = true → (tokenize_escape s q).2.error = s.error) ∧
    ((tokenize_escape s q).1 = false →
      (tokenize_escape s q).2.error
        = { message := some (if peek_n s.context 1 = 117 then "invalid unicode"
                              else "invalid escape sequence"),
            frame := collect_frame s.context }) ∧
    (peek_n s.context 1 ≠ 117 →
      (tokenize_escape s q).2.context
        = if (tokenize_escape s q).1 = true then next (next s.context) else next s.context) ∧
    (peek_n s.context 1 = 117 → s.context.offset + 2 ≤ (tokenize_escape s q).2.context.offset) := by
  unfold tokenize_escape
  simp only [peek_next]
  by_cases h1 : peek_n s.context 1 = 39 ∨ peek_n s.context 1 = 34
  · have hu : peek_n s.context 1 ≠ 117 := by rcases h1 with h | h <;> (rw [h]; decide)
    rw [if_pos h1, if_neg hu]
    split
    · exact ⟨fun h => (by cases h), fun _ => rfl, fun _ => rfl, fun h => absurd h hu⟩
    · exact ⟨fun _ => rfl, fun h => (by cases h), fun _ => rfl, fun h => absurd h hu⟩
  · rw [if_neg h1]
    by_cases h2 : peek_n s.context 1 = 110 ∨ peek_n s.context 1 = 116 ∨ peek_n s.context 1 = 114
        ∨ peek_n s.context 1 = 48 ∨ peek_n s.context 1 = 92
    · have hu : peek_n s.context 1 ≠ 117 := by
        rcases h2 with h | h | h | h | h <;> (rw [h]; decide)
      rw [if_pos h2]
      exact ⟨fun _ => rfl, fun h => (by cases h), fun _ => rfl, fun h => absurd h hu⟩
    · rw [if_neg h2]
      by_cases h3 : peek_n s.context 1 = 117
      · rw [if_pos h3, if_pos h3]
        have hx := (tokenize_escape_hex_facts 4 (next (next s.context))).2.1
        rw [next_offset, next_offset] at hx
        generalize tokenize_escape_hex 4 (next (next s.context)) = r at hx ⊢
        split
        · exact ⟨fun _ => rfl, fun h => (by cases h), fun h => absurd h3 h, fun _ => hx⟩
        · exact ⟨fun h => (by cases h), fun _ => rfl, fun h => absurd h3 h, fun _ => hx⟩
      · rw [if_neg h3, if_neg h3]
        exact ⟨fun h => (by cases h), fun _ => rfl, fun _ => rfl, fun h => absurd h h3⟩

/-- The error slot after the loop of `tokenize_string` has reached the closing quote: it is
the one the loop was entered with, or it was set by an escape that the specification
rejects, at the position of its backslash. -/
theorem tokenize_string_loop_escape (fuel : Nat) : ∀ s : State,
    (tokenize_string_loop fuel s).1 = true →
    ((tokenize_string_loop fuel s).2.error = s.error ∨
      ∃ c : TokenizerContext, Pres s.context c ∧ s.context.offset ≤ c.offset ∧
        c.offset < (tokenize_string_loop fuel s).2.context.offset ∧ peek c = 92 ∧
        valid_escape 34 (c.content.drop (c.offset + 1)) = false ∧
        (tokenize_string_loop fuel s).2.error
          = { message := some (if peek_n c 1 = 117 then "invalid unicode"
                                else "invalid escape sequence"),
              frame := collect_frame c }) := by
  induction fuel with
  | zero => intro s h; cases h
  | succ fuel ih =>
    intro s
    unfold tokenize_string_loop
    by_cases h34 : peek s.context = 34
    · rw [if_neg (by simpa using h34)]
      exact fun _ => Or.inl rfl
    · rw [if_pos h34]
      by_cases hge : s.context.offset ≥ s.context.content_length
      · rw [if_pos hge]
        intro h; cases h
      · rw [if_neg hge]
        have hlt : s.context.offset < s.context.content.length := by
          unfold TokenizerContext.content_length at hge; omega
        by_cases h92 : peek s.context = 92
        · rw [if_pos h92]
          intro htrue
          have hes := tokenize_escape_facts s 34 hlt
          have her := tokenize_escape_result s 34
          have hval := tokenize_escape_valid s 34 (Or.inl rfl)
          have hmono := (tokenize_string_loop_facts fuel (tokenize_escape s 34).2).2.1
          rcases ih _ htrue with h | ⟨c, hp, ho, hlt2, hpk, hv, he⟩
          · rcases Bool.eq_false_or_eq_true (tokenize_escape s 34).1 with hb | hb
            · left
              rw [h]; exact her.1 hb
            · right
              refine ⟨s.context, Pres.pres_refl _, le_refl _, ?_, h92, ?_, ?_⟩
              · have := hes.2.1
                omega
              · rw [← hval]; exact hb
              · rw [h]; exact her.2.1 hb
          · right
            refine ⟨c, hes.1.pres_trans hp, ?_, hlt2, hpk, hv, he⟩
            have := hes.2.1
            omega
        · rw [if_neg h92]
          intro htrue
          rcases ih _ htrue with h | ⟨c, hp, ho, hlt2, hpk, hv, he⟩
          · exact Or.inl h
          · right
            refine ⟨c, (Pres_next _).pres_trans hp, ?_, hlt2, hpk, hv, he⟩
            have : (next s.context).offset = s.context.offset + 1 := rfl
            have ho' : (next s.context).offset ≤ c.offset := ho
            omega


theorem tokenizer_dispatch_string (x : State) (h : peek x.context = 34) :
    tokenizer_dispatch x = tokenize_string x := by
  unfold tokenizer_dispatch
  simp only [h]
  rw [if_neg (by decide), if_neg (by decide), if_pos trivial]

theorem tokenizer_dispatch_char (x : State) (h : peek x.context = 39) :
    tokenizer_dispatch x = tokenize_char x := by
  unfold tokenizer_dispatch
  simp only [h]
  rw [if_neg (by decide), if_neg (by decide), if_neg (by decide), if_pos trivial]

/-- A character literal whose first byte is a backslash: the escape decides. -/
theorem tokenize_char_escape (x : State) (h92 : peek_n x.context 1 = 92) :
    tokenize_char x
      = if (!(tokenize_escape { x with context := next x.context } 39).1) = true then
          (TokenType.ERROR, (tokenize_escape { x with context := next x.context } 39).2)
        else tokenize_char_close (tokenize_escape { x with context := next x.context } 39).2 := by
  unfold tokenize_char
  simp only []
  rw [if_pos (by rw [peek_next]; exact h92)]

theorem tokenize_char_close_error (x : State) :
    (tokenize_char_close x).2.error = x.error ∨
      (tokenize_char_close x).2.error.message = some "symbol literal is not completed" := by
  unfold tokenize_char_close
  split
  · exact Or.inr rfl
  · exact Or.inl rfl


theorem simple_unescape_cons (a : Nat) (l : List Nat) (h : a ≠ 92) :
    simple_unescape (a :: l) = a :: simple_unescape l := by
  cases l with
  | nil => rfl
  | cons b r => rw [simple_unescape, if_neg h]

theorem simple_unescape_pair (b : Nat) (l : List Nat) :
    simple_unescape (92 :: b :: l) = escape_byte b :: simple_unescape l := by
  rw [simple_unescape, if_pos rfl]

theorem well_escaped_cons (a : Nat) (l : List Nat) (h : a ≠ 92) :
    well_escaped (a :: l) = well_escaped l := by
  cases l with
  | nil => simp [well_escaped, h]
  | cons b r => rw [well_escaped, if_neg h]

theorem well_escaped_pair (b : Nat) (l : List Nat) :
    well_escaped (92 :: b :: l) = well_escaped l := by
  rw [well_escaped, if_pos rfl]

theorem unescape_eq (d : Nat) : unescape d = escape_byte d := by
  unfold unescape escape_byte
  split_ifs <;> simp_all

theorem unescape_ne_zero (d : Nat) (h : d ≠ 0) : unescape d ≠ 0 := by
  unfold unescape
  split_ifs <;> omega

theorem res_at_lt (res : List Nat) (i : Nat) (h : i < res.length) :
    res_at res i = some (res.getD i 0) := by
  unfold res_at
  rw [if_pos h]

theorem res_at_len (res : List Nat) (i : Nat) (h : i = res.length) : res_at res i = some 0 := by
  unfold res_at
  rw [if_neg (by omega), if_pos (by omega)]

/-- The decoder on an interior without NUL and without `\u`, in which no backslash is
left alone at the end: the result is the interior with each two-byte escape replaced. -/
theorem decode_loop_simple (res : List Nat) (hnul : ∀ b ∈ res, b ≠ 0)
    (hnou : ∀ j, ¬ (res.getD j 0 = 92 ∧ res.getD (j + 1) 0 = 117)) :
    ∀ (fuel i : Nat) (builder : List Nat), i ≤ res.length → res.length - i < fuel →
      well_escaped (res.drop i) = true → (∀ b ∈ builder, b ≠ 0) →
      decode_loop res fuel i builder = Value.text (builder ++ simple_unescape (res.drop i)) := by
  intro fuel
  induction fuel with
  | zero => intro i builder _ h; omega
  | succ fuel ih =>
    intro i builder hi hfuel hwe hb
    unfold decode_loop
    rcases Nat.lt_or_ge i res.length with hlt | hge
    · have hc0 : res.getD i 0 ≠ 0 := by
        rw [List.getD_eq_getElem _ _ hlt]
        exact hnul _ (List.getElem_mem _)
      have hdrop : res.drop i = res.getD i 0 :: res.drop (i + 1) := by
        rw [List.drop_eq_getElem_cons hlt, List.getD_eq_getElem _ _ hlt]
      rw [res_at_lt res i hlt]
      simp only []
      rw [if_neg hc0]
      by_cases h92 : res.getD i 0 = 92
      · have hu : ¬ (res.getD i 0 = 92 ∧ res_at res (i + 1) = some 117) := by
          intro h
          rcases Nat.lt_or_ge (i + 1) res.length with h1 | h1
          · rw [res_at_lt res _ h1] at h
            exact hnou i ⟨h.1, Option.some.inj h.2⟩
          · rw [res_at_len res _ (by omega)] at h
            exact absurd (Option.some.inj h.2) (by decide)
        rw [if_neg hu, if_pos h92]
        rw [hdrop, h92] at hwe
        have hlt1 : i + 1 < res.length := by
          rcases Nat.lt_or_ge (i + 1) res.length with h1 | h1
          · exact h1
          · rw [List.drop_eq_nil_of_le h1] at hwe
            exact absurd hwe (by decide)
        have hdrop1 : res.drop (i + 1) = res.getD (i + 1) 0 :: res.drop (i + 2) := by
          rw [List.drop_eq_getElem_cons hlt1, List.getD_eq_getElem _ _ hlt1]
        have hd0 : res.getD (i + 1) 0 ≠ 0 := by
          rw [List.getD_eq_getElem _ _ hlt1]
          exact hnul _ (List.getElem_mem _)
        rw [hdrop1, well_escaped_pair] at hwe
        rw [res_at_lt res _ hlt1]
        simp only []
        rw [ih (i + 2) _ (by omega) (by omega) hwe (by
          intro b hb'
          rw [List.mem_append, List.mem_singleton] at hb'
          rcases hb' with h | h
          · exact hb b h
          · rw [h]; exact unescape_ne_zero _ hd0)]
        rw [hdrop, h92, hdrop1, simple_unescape_pair, unescape_eq, List.append_assoc]
        rfl
      · have hu : ¬ (res.getD i 0 = 92 ∧ res_at res (i + 1) = some 117) := fun h => h92 h.1
        rw [if_neg hu, if_neg h92]
        rw [hdrop, well_escaped_cons _ _ h92] at hwe
        rw [ih (i + 1) _ (by omega) (by omega) hwe (by
          intro b hb'
          rw [List.mem_append, List.mem_singleton] at hb'
          rcases hb' with h | h
          · exact hb b h
          · rw [h]; exact hc0)]
        rw [hdrop, simple_unescape_cons _ _ h92, List.append_assoc]
        rfl
    · rw [res_at_len res i (by omega)]
      simp only []
      rw [if_pos trivial, List.drop_eq_nil_of_le hge, cstring_eq_self _ hb]
      simp [simple_unescape]


/-- The loop of `tokenize_string`, when it reaches the closing quote from a byte that is
not a quote, has moved the cursor. -/
theorem tokenize_string_loop_advance (fuel : Nat) (s : State)
    (h : (tokenize_string_loop fuel s).1 = true) (h34 : peek s.context ≠ 34) :
    s.context.offset < (tokenize_string_loop fuel s).2.context.offset := by
  cases fuel with
  | zero => cases h
  | succ fuel =>
    unfold tokenize_string_loop at h ⊢
    rw [if_pos h34] at h ⊢
    by_cases hge : s.context.offset ≥ s.context.content_length
    · rw [if_pos hge] at h; cases h
    · rw [if_neg hge] at h ⊢
      have hlt : s.context.offset < s.context.content.length := by
        unfold TokenizerContext.content_length at hge; omega
      by_cases h92 : peek s.context = 92
      · rw [if_pos h92] at h ⊢
        have h1 := (tokenize_escape_facts s 34 hlt).2.1
        have h2 := (tokenize_string_loop_facts fuel (tokenize_escape s 34).2).2.1
        omega
      · rw [if_neg h92] at h ⊢
        have h2 := (tokenize_string_loop_facts fuel { s with context := next s.context }).2.1
        have h3 : (next s.context).offset = s.context.offset + 1 := rfl
        have h2' : (next s.context).offset
            ≤ (tokenize_string_loop fuel { s with context := next s.context }).2.context.offset := h2
        omega

theorem valid_escape_of_head (q : Nat) (l : List Nat)
    (h : l.headD 0 = 92 ∨ l.headD 0 = q) (hq : q ≠ 0) : valid_escape q l = true := by
  cases l with
  | nil =>
    rcases h with h | h
    · cases h
    · exact absurd h.symm hq
  | cons a r =>
    simp only [List.headD_cons] at h
    unfold valid_escape
    rcases h with h | h <;> simp [h]

/-- The bytes between the cursor and the closing quote reached by the loop of
`tokenize_string`, when they contain no `\u`: no backslash is left alone at the end. -/
theorem tokenize_string_loop_well_escaped (fuel : Nat) : ∀ s : State,
    (tokenize_string_loop fuel s).1 = true →
    (∀ j, s.context.offset ≤ j → j + 1 < (tokenize_string_loop fuel s).2.context.offset →
      ¬ (s.context.content.getD j 0 = 92 ∧ s.context.content.getD (j + 1) 0 = 117)) →
    well_escaped (seg s.context.content s.context.offset
      (tokenize_string_loop fuel s).2.context.offset) = true := by
  induction fuel with
  | zero => intro s h; cases h
  | succ fuel ih =>
    intro s htrue hnou
    have hadv := tokenize_string_loop_advance (fuel + 1) s htrue
    have hle := (tokenize_string_loop_facts (fuel + 1) s).2.2.1
    unfold tokenize_string_loop at htrue hnou hadv hle ⊢
    by_cases h34 : peek s.context = 34
    · rw [if_neg (by simpa using h34)]
      rw [seg_self]
      rfl
    · rw [if_pos h34] at htrue hnou hadv hle ⊢
      by_cases hge : s.context.offset ≥ s.context.content_length
      · rw [if_pos hge] at htrue; cases htrue
      · rw [if_neg hge] at htrue hnou hadv hle ⊢
        have hlt : s.context.offset < s.context.content.length := by
          unfold TokenizerContext.content_length at hge; omega
        have hg0 : s.context.content.getD s.context.offset 0 = peek s.context :=
          (peek_eq_getD _ hlt).symm
        have hadv' := hadv h34
        have hle' := hle (by omega)
        by_cases h92 : peek s.context = 92
        · rw [if_pos h92] at htrue hnou hadv' hle' ⊢
          have hes := tokenize_escape_facts s 34 hlt
          have her := tokenize_escape_result s 34
          have hval := tokenize_escape_valid s 34 (Or.inl rfl)
          have hmono := (tokenize_string_loop_facts fuel (tokenize_escape s 34).2).2.1
          have hadv2 := tokenize_string_loop_advance fuel (tokenize_escape s 34).2 htrue
          have hih := ih (tokenize_escape s 34).2 htrue
          have hcc : (tokenize_escape s 34).2.context.content = s.context.content := hes.1.1
          rw [hcc] at hih
          generalize hE : (tokenize_string_loop fuel (tokenize_escape s 34).2).2.context.offset
            = E at hnou hadv' hle' hmono hadv2 hih ⊢
          by_cases hu : peek_n s.context 1 = 117
          · exfalso
            have h2 := her.2.2.2 hu
            have hg1 := (peek_n_eq_getD _ _ _ hu (by decide)).2
            exact hnou s.context.offset (le_refl _) (by omega) ⟨by rw [hg0]; exact h92, hg1⟩
          · have hctx := her.2.2.1 hu
            rcases Bool.eq_false_or_eq_true (tokenize_escape s 34).1 with hb | hb
            · rw [hb] at hctx
              simp only [if_true] at hctx
              have ho2 : (tokenize_escape s 34).2.context.offset = s.context.offset + 2 := by
                rw [hctx]; rfl
              rw [ho2] at hih hmono
              have hw := hih (fun j hj1 hj2 => hnou j (by omega) hj2)
              rw [seg_cons _ _ _ hlt (by omega), seg_cons _ _ _ (by omega) (by omega), hg0, h92,
                well_escaped_pair]
              exact hw
            · rw [hb] at hctx
              simp only [Bool.false_eq_true, if_false] at hctx
              have ho2 : (tokenize_escape s 34).2.context.offset = s.context.offset + 1 := by
                rw [hctx]; rfl
              rw [ho2] at hih hmono
              have hw := hih (fun j hj1 hj2 => hnou j (by omega) hj2)
              have hpk : peek (tokenize_escape s 34).2.context = peek_n s.context 1 := by
                rw [hctx]; exact peek_next _
              have hv : valid_escape 34 (s.context.content.drop (s.context.offset + 1)) = false := by
                rw [← hval]; exact hb
              have hb1 : peek_n s.context 1 ≠ 92 ∧ peek_n s.context 1 ≠ 34 := by
                constructor
                · intro h
                  rw [peek_n_eq_head] at h
                  rw [valid_escape_of_head 34 _ (Or.inl h) (by decide)] at hv
                  cases hv
                · intro h
                  rw [peek_n_eq_head] at h
                  rw [valid_escape_of_head 34 _ (Or.inr h) (by decide)] at hv
                  cases hv
              have hlt2 := hadv2 (by rw [hpk]; exact hb1.2)
              rw [ho2] at hlt2
              have hg1 : s.context.content.getD (s.context.offset + 1) 0 = peek_n s.context 1 :=
                (peek_n_of_lt _ 1 (by omega)).symm
              rw [seg_cons _ _ _ (by omega) (by omega), hg1,
                well_escaped_cons _ _ hb1.1] at hw
              rw [seg_cons _ _ _ hlt (by omega), seg_cons _ _ _ (by omega) (by omega), hg0, h92,
                well_escaped_pair]
              exact hw
        · rw [if_neg h92] at htrue hnou hadv' hle' ⊢
          have hih := ih { s with context := next s.context } htrue
          simp only [next_content, next_offset] at hih
          have hw := hih (fun j hj1 hj2 => hnou j (by omega) hj2)
          rw [seg_cons _ _ _ hlt hadv', hg0, well_escaped_cons _ _ h92]
          exact hw


theorem bytes_backslash_u : bytes "\\u" = [92, 117] := by decide

theorem seg_two (S : List Nat) (j : Nat) (h : j + 1 < S.length) :
    seg S j (j + 2) = [S.getD j 0, S.getD (j + 1) 0] := by
  rw [seg_cons S j (j + 2) (by omega) (by omega), seg_cons S (j + 1) (j + 2) h (by omega),
    seg_self]

theorem seg_one (S : List Nat) (j : Nat) (h : j < S.length) :
    seg S j (j + 1) = [S.getD j 0] := by
  rw [seg_cons S j (j + 1) h (by omega), seg_self]

/-- A lexeme without `\u` has no backslash followed by `u` at any index. -/
theorem no_backslash_u (S : List Nat) (o e : Nat) (he : e ≤ S.length)
    (h : ¬ (bytes "\\u" <:+: seg S o e)) :
    ∀ j, o ≤ j → j + 1 < e → ¬ (S.getD j 0 = 92 ∧ S.getD (j + 1) 0 = 117) := by
  intro j hj1 hj2 hh
  apply h
  rw [bytes_backslash_u]
  refine ⟨seg S o j, seg S (j + 2) e, ?_⟩
  rw [← hh.1, ← hh.2, ← seg_two S j (by omega), ← seg_append S o j (j + 2) hj1 (by omega),
    ← seg_append S o (j + 2) e (by omega) (by omega)]

theorem seg_quotes (S : List Nat) (o e : Nat) (h2 : o + 2 ≤ e) (he : e ≤ S.length) :
    seg S o e = S.getD o 0 :: seg S (o + 1) (e - 1) ++ [S.getD (e - 1) 0] := by
  obtain ⟨e1, rfl⟩ : ∃ e1, e = e1 + 1 := ⟨e - 1, by omega⟩
  rw [seg_cons S o (e1 + 1) (by omega) (by omega), seg_snoc S (o + 1) e1 (by omega) (by omega),
    Nat.add_sub_cancel]
  rfl

theorem interior_quotes (q1 q2 : Nat) (I : List Nat) : interior (q1 :: I ++ [q2]) = I := by
  unfold interior
  simp

theorem getD_seg (S : List Nat) (a b j : Nat) (hb : b ≤ S.length) (hj : a + j < b) :
    (seg S a b).getD j 0 = S.getD (a + j) 0 := by
  unfold seg
  rw [List.getD_eq_getElem _ _ (by simp; omega), List.getD_eq_getElem _ _ (by omega)]
  simp

theorem seg_length (S : List Nat) (a b : Nat) (_hab : a ≤ b) (hb : b ≤ S.length) :
    (seg S a b).length = b - a := by
  unfold seg
  simp
  omega

/-- The decoder on a quoted lexeme whose interior is well escaped and free of NUL and
`\u`. -/
theorem decode_literal (t : Token) (q1 q2 : Nat) (I : List Nat)
    (hk : t.type = TokenType.STRING_LITERAL ∨ t.type = TokenType.CHAR_LITERAL)
    (hcontent : t.content = q1 :: I ++ [q2]) (hq1 : q1 ≠ 0) (hq2 : q2 ≠ 0)
    (hnul : ∀ b ∈ I, b ≠ 0)
    (hnou : ∀ j, ¬ (I.getD j 0 = 92 ∧ I.getD (j + 1) 0 = 117))
    (hwe : well_escaped I = true) :
    token_content_to_value t = Value.text (simple_unescape I) := by
  have hcs : cstring t.content = q1 :: I ++ [q2] := by
    rw [hcontent]
    apply cstring_eq_self
    intro b hb
    simp only [List.cons_append, List.mem_cons, List.mem_append, List.mem_singleton,
      List.not_mem_nil, or_false] at hb
    rcases hb with h | h | h
    · rw [h]; exact hq1
    · exact hnul b h
    · rw [h]; exact hq2
  have hres : ((q1 :: I ++ [q2]).drop 1).take ((q1 :: I ++ [q2]).length - 2) = I := by
    simp
  have hdec := decode_loop_simple I hnul hnou (I.length + 1) 0 [] (by omega) (by omega)
    (by rw [List.drop_zero]; exact hwe) (by simp)
  rw [List.drop_zero, List.nil_append] at hdec
  unfold token_content_to_value
  rcases hk with hk | hk
  · simp only [hk, hcs]
    rw [if_neg (by simp), hres]
    exact hdec
  · simp only [hk, hcs]
    rw [if_neg (by simp), hres]
    exact hdec


theorem tokenize_char_close_char (y : State)
    (h : (tokenize_char_close y).1 = TokenType.CHAR_LITERAL) :
    (tokenize_char_close y).2.context.offset = y.context.offset + 1 := by
  unfold tokenize_char_close at h ⊢
  split
  · rename_i hne
    rw [if_pos hne] at h
    cases h
  · rfl

/-- The interior of a string or character literal scanned by the classifier, when the
lexeme contains no `\u`: no backslash is left alone at its end. -/
theorem literal_scan (x : State) (hlt : x.context.offset < x.context.content.length)
    (hfr : x.context.frame = collect_frame x.context)
    (hk : (tokenizer_dispatch x).1 = TokenType.STRING_LITERAL
      ∨ (tokenizer_dispatch x).1 = TokenType.CHAR_LITERAL)
    (hnou : ∀ j, x.context.offset ≤ j → j + 1 < (tokenizer_dispatch x).2.context.offset →
      ¬ (x.context.content.getD j 0 = 92 ∧ x.context.content.getD (j + 1) 0 = 117)) :
    well_escaped (seg x.context.content (x.context.offset + 1)
      ((tokenizer_dispatch x).2.context.offset - 1)) = true := by
  have hd := tokenizer_dispatch_delimited x
  have hts := tokenizer_dispatch_facts x hlt hfr
  rcases hk with hk | hk
  · rw [hk] at hd
    have h34 : peek x.context = 34 := by rw [peek_eq_getD _ hlt]; exact hd.2.1
    rw [tokenizer_dispatch_string x h34] at hk hnou ⊢
    unfold tokenize_string at hk hnou ⊢
    simp only [] at hk hnou ⊢
    have hloop := tokenize_string_loop_well_escaped (x.context.content_length + 1)
      { x with context := next x.context }
    generalize tokenize_string_loop (x.context.content_length + 1)
      { x with context := next x.context } = r at hk hnou hloop ⊢
    rcases Bool.eq_false_or_eq_true r.1 with hr | hr
    swap
    · rw [hr] at hk
      cases hk
    · rw [hr] at hnou ⊢
      simp only [if_true, next_offset, Nat.add_sub_cancel] at hnou ⊢
      exact hloop hr (fun j hj1 hj2 => hnou j (by
        have : (next x.context).offset = x.context.offset + 1 := rfl
        have hj1' : (next x.context).offset ≤ j := hj1
        omega) (by omega))
  · rw [hk] at hd
    have h39 : peek x.context = 39 := by rw [peek_eq_getD _ hlt]; exact hd.2.1
    have hle : (tokenizer_dispatch x).2.context.offset ≤ x.context.content.length :=
      (hts.2 (by rw [hk]; decide)).2
    rw [tokenizer_dispatch_char x h39] at hk hnou hle ⊢
    by_cases h92 : peek_n x.context 1 = 92
    · rw [tokenize_char_escape x h92] at hk hnou hle ⊢
      have her := tokenize_escape_result { x with context := next x.context } 39
      simp only [] at her
      have hp2 : peek_n (next x.context) 1 = peek_n x.context 2 := peek_n_next 1 _
      rw [hp2] at her
      generalize tokenize_escape { context := next x.context, error := x.error } 39 = r
        at hk hnou hle her ⊢
      rcases Bool.eq_false_or_eq_true r.1 with hr | hr
      swap
      · rw [hr] at hk
        cases hk
      · rw [hr] at hk hnou hle ⊢
        simp only [Bool.not_true, Bool.false_eq_true, if_false] at hk hnou hle ⊢
        have hoff := tokenize_char_close_char r.2 hk
        rw [hoff] at hnou hle ⊢
        rw [Nat.add_sub_cancel]
        have hg1 := (peek_n_eq_getD _ _ _ h92 (by decide)).2
        by_cases hu : peek_n x.context 2 = 117
        · exfalso
          have h2 := her.2.2.2 hu
          rw [next_offset] at h2
          have hg2 := (peek_n_eq_getD _ _ _ hu (by decide)).2
          exact hnou (x.context.offset + 1) (by omega) (by omega) ⟨hg1, hg2⟩
        · have hctx := her.2.2.1 hu
          rw [hr] at hctx
          simp only [if_true] at hctx
          have ho : r.2.context.offset = x.context.offset + 1 + 2 := by rw [hctx]; rfl
          rw [ho] at hle ⊢
          rw [seg_two _ _ (by omega), hg1, well_escaped_pair]
          rfl
    · have h92' : ¬ peek { x with context := next x.context }.context = 92 := by
        show ¬ peek (next x.context) = 92
        rw [peek_next]; exact h92
      unfold tokenize_char at hk hnou hle ⊢
      simp only [] at hk hnou hle ⊢
      rw [if_neg h92'] at hk hnou hle ⊢
      have hoff := tokenize_char_close_char _ hk
      simp only [next_offset] at hoff
      rw [hoff] at hle ⊢
      rw [Nat.add_sub_cancel, seg_one _ _ (by omega)]
      have hg1 : x.context.content.getD (x.context.offset + 1) 0 = peek_n x.context 1 :=
        (peek_n_of_lt _ 1 (by omega)).symm
      rw [hg1]
      simp [well_escaped, h92]


/-- C20, the claim as stated fails on a lexeme cut by a NUL byte.  On the three-byte input
quote, NUL, quote the call returns a `STRING_LITERAL` token whose lexeme is the single
byte `"`; it contains no `\u`, and the decoder, which overwrites `res[strlen(res) - 1]` of
an empty `res`, leaves its buffer instead of returning an interior. -/
theorem C20_counterexample :
    tokenizer_next (initial_state [34, 0, 34] ⟨0, 0, 0⟩ TokenType.ERROR)
      = (some { type := TokenType.STRING_LITERAL, content := [34], offset := 0, length := 3,
                line := 1, column := 1 },
         { context := { content := [34, 0, 34], frame := ⟨0, 1, 1⟩,
                        type := TokenType.STRING_LITERAL, offset := 3, line := 1, column := 4 },
           error := { message := none, frame := ⟨0, 0, 0⟩ } }) ∧
    ¬ (bytes "\\u" <:+: [34]) ∧
    token_content_to_value
        { type := TokenType.STRING_LITERAL, content := [34], offset := 0, length := 3,
          line := 1, column := 1 } = Value.undefined := by
  refine ⟨by decide, ?_, by decide⟩
  intro h
  have := h.length_le
  rw [bytes_backslash_u] at this
  simp at this

/-- C20, amended.  For every input without NUL bytes and every `STRING_LITERAL` or
`CHAR_LITERAL` token returned by a call whose lexeme contains no `\u`: the lexeme is its
interior between two quotes, no backslash of the interior is left without a following
byte, and `token_content_to_value` returns the interior with each two-byte escape replaced
by one byte (`\n`, `\t`, `\r`, `\b`, `\f` by the control byte, any other escaped byte by
itself) and every other byte copied.  So `"a\nb"` decodes to `a`, line feed, `b`, and
`'\0'` to the digit `0`. -/
theorem C20_simple_escape_decoding_amended (s : State) (t : Token)
    (hnul : ∀ b ∈ s.context.content, b ≠ 0)
    (ht : (tokenizer_next s).1 = some t)
    (hk : t.type = TokenType.STRING_LITERAL ∨ t.type = TokenType.CHAR_LITERAL)
    (hnou : ¬ (bytes "\\u" <:+: t.content)) :
    ((∃ q, t.content = q :: interior t.content ++ [q] ∧
        ((q = 34 ∧ t.type = TokenType.STRING_LITERAL)
          ∨ (q = 39 ∧ t.type = TokenType.CHAR_LITERAL))) ∧
      well_escaped (interior t.content) = true ∧
      token_content_to_value t = Value.text (simple_unescape (interior t.content))) ∧
    (token_stream 9 (initial_state (bytes "\"a\\nb\" '\\0' \"\\t\\r\\\\\\\"'\" '\\''") ⟨0, 0, 0⟩
        TokenType.ERROR)).1.map token_content_to_value
      = [Value.text [97, 10, 98], Value.text [48], Value.text [9, 13, 92, 34, 39],
         Value.text [39]] ∧
    token_content_to_value
        { type := TokenType.STRING_LITERAL, content := bytes "\"\\b\\f\\q\"", offset := 0,
          length := 8, line := 1, column := 1 } = Value.text [8, 12, 113] := by
  refine ⟨?_, by decide, by decide⟩
  obtain ⟨-, ho, -, -, hlt, -, hto, hle, hcontent, -, -, hty, hoff, -⟩ :=
    (tokenizer_next_facts s).2.2.2.2 t ht
  have hsk := skip_facts s
  have hc : (framed (skip s)).context.content = s.context.content := hsk.1.1
  have hxo : (framed (skip s)).context.offset = t.offset := ho.symm
  have hxlt : (framed (skip s)).context.offset < (framed (skip s)).context.content.length := by
    rw [hc, hxo]; exact hlt
  have he : (tokenizer_dispatch (framed (skip s))).2.context.offset = t.offset + t.length := by
    rw [← hoff, hto]
  have hd := tokenizer_dispatch_delimited (framed (skip s))
  rw [← hty, hc, hxo, he] at hd
  have hcon : t.content = seg s.context.content t.offset (t.offset + t.length) := by
    rw [hcontent]
    exact cstring_eq_self _ (fun b hb => hnul b (mem_of_mem_seg _ _ _ _ hb))
  have hle' : t.offset + t.length ≤ s.context.content.length := by omega
  have hidx := no_backslash_u s.context.content t.offset (t.offset + t.length) hle'
    (by rw [← hcon]; exact hnou)
  have hwe := literal_scan (framed (skip s)) hxlt rfl (by rw [← hty]; exact hk) (by
    rw [hc, hxo, he]; exact hidx)
  rw [hc, hxo, he] at hwe
  have hdel : t.offset + 2 ≤ t.offset + t.length ∧
      ((s.context.content.getD t.offset 0 = 34
          ∧ s.context.content.getD (t.offset + t.length - 1) 0 = 34
          ∧ t.type = TokenType.STRING_LITERAL) ∨
       (s.context.content.getD t.offset 0 = 39
          ∧ s.context.content.getD (t.offset + t.length - 1) 0 = 39
          ∧ t.type = TokenType.CHAR_LITERAL)) := by
    rcases hk with h | h
    · rw [h] at hd
      exact ⟨hd.1, Or.inl ⟨hd.2.1, hd.2.2, h⟩⟩
    · rw [h] at hd
      exact ⟨hd.1, Or.inr ⟨hd.2.1, hd.2.2, h⟩⟩
  obtain ⟨h2, hq⟩ := hdel
  have hsq := seg_quotes s.context.content t.offset (t.offset + t.length) h2 hle'
  rw [← hcon] at hsq
  generalize hI : seg s.context.content (t.offset + 1) (t.offset + t.length - 1) = I
    at hsq hwe
  have hIn : ∀ b ∈ I, b ≠ 0 := by
    intro b hb
    rw [← hI] at hb
    exact hnul b (mem_of_mem_seg _ _ _ _ hb)
  have hIlen : I.length = t.offset + t.length - 1 - (t.offset + 1) := by
    rw [← hI]
    exact seg_length _ _ _ (by omega) (by omega)
  have hIu : ∀ j, ¬ (I.getD j 0 = 92 ∧ I.getD (j + 1) 0 = 117) := by
    intro j hh
    have hj1 : j + 1 < I.length := by
      by_contra hge
      have hd0 : I.getD (j + 1) 0 = 0 := List.getD_eq_default _ _ (by omega)
      rw [hd0] at hh
      exact absurd hh.2 (by decide)
    have g0 := getD_seg s.context.content (t.offset + 1) (t.offset + t.length - 1) j
      (by omega) (by omega)
    have g1 := getD_seg s.context.content (t.offset + 1) (t.offset + t.length - 1) (j + 1)
      (by omega) (by omega)
    rw [hI] at g0 g1
    rw [g0, g1] at hh
    exact hidx (t.offset + 1 + j) (by omega) (by omega) hh
  have hint : interior t.content = I := by
    rw [hsq]; exact interior_quotes _ _ _
  rw [hint]
  refine ⟨?_, hwe, ?_⟩
  · rcases hq with ⟨h1, h3, h4⟩ | ⟨h1, h3, h4⟩
    · exact ⟨34, by rw [hsq, h1, h3], Or.inl ⟨rfl, h4⟩⟩
    · exact ⟨39, by rw [hsq, h1, h3], Or.inr ⟨rfl, h4⟩⟩
  · rcases hq with ⟨h1, h3, h4⟩ | ⟨h1, h3, h4⟩
    · exact decode_literal t _ _ I hk hsq (by rw [h1]; decide) (by rw [h3]; decide) hIn hIu hwe
    · exact decode_literal t _ _ I hk hsq (by rw [h1]; decide) (by rw [h3]; decide) hIn hIu hwe

/-- Witness for C20 (amended) on the input ` "a\nb";`. -/
theorem C20_simple_escape_decoding_amended_witness :
    token_content_to_value
        { type := TokenType.STRING_LITERAL, content := bytes "\"a\\nb\"", offset := 1,
          length := 6, line := 1, column := 2 }
      = Value.text (simple_unescape (interior (bytes "\"a\\nb\""))) :=
  (C20_simple_escape_decoding_amended
    (initial_state (bytes " \"a\\nb\";") ⟨0, 0, 0⟩ TokenType.ERROR)
    { type := TokenType.STRING_LITERAL, content := bytes "\"a\\nb\"", offset := 1,
      length := 6, line := 1, column := 2 }
    (by decide) (by decide) (Or.inl rfl) (by
      intro h
      obtain ⟨a, b, hab⟩ := h
      have e1 : bytes "\\u" = [92, 117] := by decide
      have e2 : bytes "\"a\\nb\"" = [34, 97, 92, 110, 98, 34] := by decide
      rw [e1, e2] at hab
      have hlen := congrArg List.length hab
      simp at hlen
      have ha : a.length ≤ 4 := by omega
      match a, ha with
      | [], _ => simp at hab
      | [_], _ => simp at hab
      | [_, _], _ => simp at hab
      | [_, _, _], _ => simp at hab
      | [_, _, _, _], _ => simp at hab
      | _ :: _ :: _ :: _ :: _ :: _, ha => simp at ha)).1.2.2


theorem is_number_hex_facts (d : Nat) (h : is_number_hex d = true) :
    d ≠ 0 ∧ isspace d = false ∧ d ≠ 45 ∧ d ≠ 43 ∧ d ≠ 120 ∧ d ≠ 88 ∧ d ≠ 92 ∧ d ≠ 10 ∧
      d ≠ 34 ∧ hex_value d < 16 := by
  have hr : (48 ≤ d ∧ d ≤ 57) ∨ (97 ≤ d ∧ d ≤ 102) ∨ (65 ≤ d ∧ d ≤ 70) := by
    simpa [is_number_hex, is_number, or_assoc] using h
  refine ⟨by omega, ?_, by omega, by omega, by omega, by omega, by omega, by omega, by omega, ?_⟩
  · simp only [isspace, Bool.or_eq_false_iff, Bool.and_eq_false_iff, decide_eq_false_iff_not]
    omega
  · unfold hex_value is_number
    split_ifs <;> simp_all <;> omega

/-- The call `sscanf(str, "%4x", &v)` on four hexadecimal digits reads their value. -/
theorem sscanf_hex4_digits (d1 d2 d3 d4 : Nat) (rest : List Nat)
    (h1 : is_number_hex d1 = true) (h2 : is_number_hex d2 = true)
    (h3 : is_number_hex d3 = true) (h4 : is_number_hex d4 = true) :
    sscanf_hex4 (d1 :: d2 :: d3 :: d4 :: rest) = code_point [d1, d2, d3, d4] := by
  obtain ⟨a0, as, a45, a43, -, -, -, -, -, -⟩ := is_number_hex_facts d1 h1
  obtain ⟨b0, -, -, -, b120, b88, -, -, -, -⟩ := is_number_hex_facts d2 h2
  obtain ⟨c0, -⟩ := is_number_hex_facts d3 h3
  obtain ⟨e0, -⟩ := is_number_hex_facts d4 h4
  have hcs : cstring (d1 :: d2 :: d3 :: d4 :: rest) = d1 :: d2 :: d3 :: d4 :: cstring rest := by
    simp [cstring, List.takeWhile_cons, a0, b0, c0, e0]
  have hw : ((cstring (d1 :: d2 :: d3 :: d4 :: rest)).dropWhile isspace).take 4
      = [d1, d2, d3, d4] := by
    rw [hcs, List.dropWhile_cons, if_neg (by rw [as]; decide)]
    rfl
  unfold sscanf_hex4
  simp only [hw]
  have hh : ¬ ([d1, d2, d3, d4].head? = some 45 ∨ [d1, d2, d3, d4].head? = some 43) := by
    simp [a45, a43]
  have hh45 : ¬ ([d1, d2, d3, d4].head? = some 45) := by simp [a45]
  rw [if_neg hh, if_neg hh45]
  have hfold : List.foldl (fun acc d => 16 * acc + hex_value d) 0
      (List.takeWhile is_number_hex [d1, d2, d3, d4]) = code_point [d1, d2, d3, d4] := by
    simp [List.takeWhile_cons, h1, h2, h3, h4, code_point]
  by_cases h48 : d1 = 48
  · subst h48
    simp only [b120, b88, or_self, if_false]
    exact hfold
  · split
    · next x r heq =>
        simp only [List.cons.injEq] at heq
        exact absurd heq.1 h48
    · exact hfold


theorem or_eq_add (a b i x : Nat) (ha : a = 2 ^ i * b) (hx : x < 2 ^ i) : a ||| x = a + x := by
  rw [ha]
  exact (Nat.mul_add_lt_is_or hx b).symm

/-- The bit operations of the four-way branch of the decoder compute the standard UTF-8
encoding. -/
theorem utf8_encode_eq (c : Nat) (h : c < 2 ^ 21) : utf8_encode c = utf8 c := by
  have m63 : ∀ x : Nat, x &&& 63 = x % 64 := fun x => Nat.and_pow_two_sub_one_eq_mod x 6
  have m31 : ∀ x : Nat, x &&& 31 = x % 32 := fun x => Nat.and_pow_two_sub_one_eq_mod x 5
  have m15 : ∀ x : Nat, x &&& 15 = x % 16 := fun x => Nat.and_pow_two_sub_one_eq_mod x 4
  have m7 : ∀ x : Nat, x &&& 7 = x % 8 := fun x => Nat.and_pow_two_sub_one_eq_mod x 3
  have o80 : ∀ x : Nat, 128 ||| x % 64 = 128 + x % 64 := fun x =>
    or_eq_add 128 2 6 _ (by norm_num) (Nat.mod_lt _ (by norm_num))
  have oC0 : ∀ x : Nat, 192 ||| x % 32 = 192 + x % 32 := fun x =>
    or_eq_add 192 6 5 _ (by norm_num) (Nat.mod_lt _ (by norm_num))
  have oE0 : ∀ x : Nat, 224 ||| x % 16 = 224 + x % 16 := fun x =>
    or_eq_add 224 14 4 _ (by norm_num) (Nat.mod_lt _ (by norm_num))
  have oF0 : ∀ x : Nat, 240 ||| x % 8 = 240 + x % 8 := fun x =>
    or_eq_add 240 30 3 _ (by norm_num) (Nat.mod_lt _ (by norm_num))
  unfold utf8_encode utf8
  simp only [Nat.shiftRight_eq_div_pow, m63, m31, m15, m7, o80, oC0, oE0, oF0]
  norm_num at h
  split_ifs with a b d
  · rw [Nat.mod_eq_of_lt (by omega)]
  · have e1 : c / 2 ^ 6 % 32 = c / 64 := by omega
    rw [e1]
  · have e1 : c / 2 ^ 12 % 16 = c / 4096 := by omega
    have e2 : c / 2 ^ 6 % 64 = c / 64 % 64 := by norm_num
    rw [e1, e2]
  · have e1 : c / 2 ^ 18 % 8 = c / 262144 := by omega
    have e2 : c / 2 ^ 6 % 64 = c / 64 % 64 := by norm_num
    have e3 : c / 2 ^ 12 % 64 = c / 4096 % 64 := by norm_num
    rw [e1, e2, e3]

theorem utf8_ne_zero (c : Nat) (h : 1 ≤ c) : ∀ b ∈ utf8 c, b ≠ 0 := by
  intro b hb
  unfold utf8 at hb
  split_ifs at hb <;> simp at hb <;> omega

theorem utf8_length (c : Nat) :
    (utf8 c).length = if c ≤ 0x7F then 1 else if c ≤ 0x7FF then 2
      else if c ≤ 0xFFFF then 3 else 4 := by
  unfold utf8
  split_ifs <;> rfl

theorem code_point_four (d1 d2 d3 d4 : Nat) :
    code_point [d1, d2, d3, d4]
      = 4096 * hex_value d1 + 256 * hex_value d2 + 16 * hex_value d3 + hex_value d4 := by
  simp only [code_point, List.foldl]
  omega

theorem code_point_lt (d1 d2 d3 d4 : Nat)
    (h1 : is_number_hex d1 = true) (h2 : is_number_hex d2 = true)
    (h3 : is_number_hex d3 = true) (h4 : is_number_hex d4 = true) :
    code_point [d1, d2, d3, d4] < 65536 := by
  have a := (is_number_hex_facts d1 h1).2.2.2.2.2.2.2.2.2
  have b := (is_number_hex_facts d2 h2).2.2.2.2.2.2.2.2.2
  have c := (is_number_hex_facts d3 h3).2.2.2.2.2.2.2.2.2
  have d := (is_number_hex_facts d4 h4).2.2.2.2.2.2.2.2.2
  rw [code_point_four]
  omega


theorem res_at_drop (res : List Nat) (i k a : Nat) (h : (res.drop i)[k]? = some a) :
    res_at res (i + k) = some a := by
  rw [List.getElem?_drop] at h
  obtain ⟨hlt, heq⟩ := List.getElem?_eq_some.mp h
  rw [res_at_lt res _ hlt, List.getD_eq_getElem _ _ hlt, heq]

/-- One iteration of the decoder on `\u` when the code point read is not a high
surrogate. -/
theorem decode_loop_unicode (res : List Nat) (fuel i : Nat) (builder : List Nat)
    (h0 : res_at res i = some 92) (h1 : res_at res (i + 1) = some 117)
    (hs : ¬ (0xD800 ≤ sscanf_hex4 (res.drop (i + 2))
      ∧ sscanf_hex4 (res.drop (i + 2)) ≤ 0xDBFF)) :
    decode_loop res (fuel + 1) i builder
      = decode_loop res fuel (i + 6)
          (builder ++ utf8_encode (sscanf_hex4 (res.drop (i + 2)))) := by
  rw [decode_loop]
  simp only [h0, h1]
  rw [if_neg (by decide), if_pos ⟨trivial, trivial⟩, if_neg hs]

/-- One iteration of the decoder on `\u` when the code point read is a high surrogate
that is not followed by `\u`. -/
theorem decode_loop_high_alone (res : List Nat) (fuel i a : Nat) (builder : List Nat)
    (h0 : res_at res i = some 92) (h1 : res_at res (i + 1) = some 117)
    (h6 : res_at res (i + 6) = some a)
    (hn : ¬ (a = 92 ∧ res_at res (i + 7) = some 117)) :
    decode_loop res (fuel + 1) i builder
      = decode_loop res fuel (i + 6)
          (builder ++ utf8_encode (sscanf_hex4 (res.drop (i + 2)))) := by
  rw [decode_loop]
  simp only [h0, h1]
  rw [if_neg (by decide), if_pos ⟨trivial, trivial⟩]
  split_ifs with hs
  · have e6 : i + 5 + 1 = i + 6 := rfl
    have e7 : i + 5 + 2 = i + 7 := rfl
    rw [e6, h6]
    simp only []
    by_cases ha : a = 92
    · rw [if_pos ha, e7]
      cases h7 : res_at res (i + 7) with
      | none =>
        exfalso
        subst ha
        have : i + 6 < res.length := by
          unfold res_at at h6
          split_ifs at h6 with x y
          · exact x
          · exact absurd (Option.some.inj h6) (by decide)
        rw [res_at] at h7
        split_ifs at h7
        omega
      | some b =>
        simp only []
        rw [if_neg (fun hb => hn ⟨ha, by rw [h7, hb]⟩)]
    · rw [if_neg ha]
  · rfl

/-- One iteration of the decoder on `\u` when the code point read is a high surrogate
followed by `\u`: both escapes are consumed and one code point is written. -/
theorem decode_loop_pair (res : List Nat) (fuel i : Nat) (builder : List Nat)
    (h0 : res_at res i = some 92) (h1 : res_at res (i + 1) = some 117)
    (hs : 0xD800 ≤ sscanf_hex4 (res.drop (i + 2)) ∧ sscanf_hex4 (res.drop (i + 2)) ≤ 0xDBFF)
    (h6 : res_at res (i + 6) = some 92) (h7 : res_at res (i + 7) = some 117) :
    decode_loop res (fuel + 1) i builder
      = decode_loop res fuel (i + 12)
          (builder ++ utf8_encode ((0x10000 + ((sscanf_hex4 (res.drop (i + 2)) - 0xD800) <<< 10)
            + (sscanf_hex4 (res.drop (i + 8)) + 2 ^ 32 - 0xDC00)) % 2 ^ 32)) := by
  rw [decode_loop]
  simp only [h0, h1]
  rw [if_neg (by decide), if_pos ⟨trivial, trivial⟩, if_pos hs]
  have e6 : i + 5 + 1 = i + 6 := rfl
  have e7 : i + 5 + 2 = i + 7 := rfl
  have e8 : i + 5 + 3 = i + 8 := rfl
  have e12 : i + 5 + 6 + 1 = i + 12 := rfl
  rw [e6, h6]
  simp only []
  rw [if_pos trivial, e7, h7]
  simp only []
  rw [if_pos trivial, e8, e12]

/-- The loop of the decoder stops on the terminator. -/
theorem decode_loop_end (res : List Nat) (fuel i : Nat) (builder : List Nat)
    (h0 : res_at res i = some 0) :
    decode_loop res (fuel + 1) i builder = Value.text (cstring builder) := by
  rw [decode_loop]
  simp only [h0]
  rw [if_pos trivial]

/-- The loop of the decoder leaves its buffer when the index is past the terminator. -/
theorem decode_loop_outside (res : List Nat) (fuel i : Nat) (builder : List Nat)
    (h0 : res_at res i = none) :
    decode_loop res (fuel + 1) i builder = Value.undefined := by
  rw [decode_loop]
  simp only [h0]

/-- The decoder on a quoted lexeme without NUL bytes runs its loop on the interior. -/
theorem decode_quoted (t : Token) (q1 q2 : Nat) (I : List Nat)
    (hk : t.type = TokenType.STRING_LITERAL ∨ t.type = TokenType.CHAR_LITERAL)
    (hcontent : t.content = q1 :: I ++ [q2]) (hq1 : q1 ≠ 0) (hq2 : q2 ≠ 0)
    (hnul : ∀ b ∈ I, b ≠ 0) :
    token_content_to_value t = decode_loop I (I.length + 1) 0 [] := by
  have hcs : cstring t.content = q1 :: I ++ [q2] := by
    rw [hcontent]
    apply cstring_eq_self
    intro b hb
    simp only [List.cons_append, List.mem_cons, List.mem_append, List.mem_singleton,
      List.not_mem_nil, or_false] at hb
    rcases hb with h | h | h
    · rw [h]; exact hq1
    · exact hnul b h
    · rw [h]; exact hq2
  have hres : ((q1 :: I ++ [q2]).drop 1).take ((q1 :: I ++ [q2]).length - 2) = I := by
    simp
  unfold token_content_to_value
  rcases hk with hk | hk
  · simp only [hk, hcs]
    rw [if_neg (by simp), hres]
  · simp only [hk, hcs]
    rw [if_neg (by simp), hres]


/-- One iteration of the decoder on a two-byte escape. -/
theorem decode_loop_escape (res : List Nat) (fuel i d : Nat) (builder : List Nat)
    (h0 : res_at res i = some 92) (h1 : res_at res (i + 1) = some d) (hd : d ≠ 117) :
    decode_loop res (fuel + 1) i builder
      = decode_loop res fuel (i + 2) (builder ++ [unescape d]) := by
  rw [decode_loop]
  simp only [h0, h1]
  rw [if_neg (by decide), if_neg (fun h => hd (Option.some.inj h.2)), if_pos trivial]

/-- One iteration of the decoder on a byte that is not a backslash. -/
theorem decode_loop_copy (res : List Nat) (fuel i c : Nat) (builder : List Nat)
    (h0 : res_at res i = some c) (hc0 : c ≠ 0) (hc : c ≠ 92) :
    decode_loop res (fuel + 1) i builder = decode_loop res fuel (i + 1) (builder ++ [c]) := by
  rw [decode_loop]
  simp only [h0]
  rw [if_neg hc0, if_neg (fun h => hc h.1), if_neg hc]

theorem res_at_append (pre rest : List Nat) (j : Nat) (h : j < pre.length) :
    res_at (pre ++ rest) j = some (pre.getD j 0) := by
  rw [res_at_lt _ _ (by rw [List.length_append]; omega)]
  rw [List.getD_eq_getElem _ _ (by rw [List.length_append]; omega), List.getD_eq_getElem _ _ h,
    List.getElem_append_left h]

/-- The decoder on the part of an interior before a given point: when that part holds no
NUL and no `\u` and no backslash is left alone at its end, the loop arrives at the point
with the part decoded. -/
theorem decode_loop_pre (pre rest : List Nat) (hnul : ∀ b ∈ pre, b ≠ 0)
    (hnou : ∀ j, ¬ (pre.getD j 0 = 92 ∧ pre.getD (j + 1) 0 = 117)) :
    ∀ (fuel i : Nat) (builder : List Nat), i ≤ pre.length → pre.length - i ≤ fuel →
      well_escaped (pre.drop i) = true →
      ∃ fuel1, fuel ≤ fuel1 + (pre.length - i) ∧ fuel1 ≤ fuel ∧
        decode_loop (pre ++ rest) fuel i builder
          = decode_loop (pre ++ rest) fuel1 pre.length
              (builder ++ simple_unescape (pre.drop i)) := by
  intro fuel
  induction fuel with
  | zero =>
    intro i builder hi hfuel _
    have : i = pre.length := by omega
    subst this
    exact ⟨0, by omega, by omega, by simp [simple_unescape]⟩
  | succ fuel ih =>
    intro i builder hi hfuel hwe
    rcases Nat.lt_or_ge i pre.length with hlt | hge
    · have hc0 : pre.getD i 0 ≠ 0 := by
        rw [List.getD_eq_getElem _ _ hlt]
        exact hnul _ (List.getElem_mem _)
      have hdrop : pre.drop i = pre.getD i 0 :: pre.drop (i + 1) := by
        rw [List.drop_eq_getElem_cons hlt, List.getD_eq_getElem _ _ hlt]
      by_cases h92 : pre.getD i 0 = 92
      · rw [hdrop, h92] at hwe
        have hlt1 : i + 1 < pre.length := by
          rcases Nat.lt_or_ge (i + 1) pre.length with h1 | h1
          · exact h1
          · rw [List.drop_eq_nil_of_le h1] at hwe
            exact absurd hwe (by decide)
        have hdrop1 : pre.drop (i + 1) = pre.getD (i + 1) 0 :: pre.drop (i + 2) := by
          rw [List.drop_eq_getElem_cons hlt1, List.getD_eq_getElem _ _ hlt1]
        rw [hdrop1, well_escaped_pair] at hwe
        obtain ⟨f1, hf1, hf2, heq⟩ := ih (i + 2) (builder ++ [unescape (pre.getD (i + 1) 0)])
          (by omega) (by omega) hwe
        refine ⟨f1, by omega, by omega, ?_⟩
        rw [decode_loop_escape _ _ _ (pre.getD (i + 1) 0) _
          (by rw [res_at_append _ _ _ hlt, h92]) (res_at_append _ _ _ hlt1)
          (fun h => hnou i ⟨h92, h⟩), heq, hdrop, h92, hdrop1, simple_unescape_pair,
          unescape_eq, List.append_assoc]
        rfl
      · rw [hdrop, well_escaped_cons _ _ h92] at hwe
        obtain ⟨f1, hf1, hf2, heq⟩ := ih (i + 1) (builder ++ [pre.getD i 0])
          (by omega) (by omega) hwe
        refine ⟨f1, by omega, by omega, ?_⟩
        rw [decode_loop_copy _ _ _ (pre.getD i 0) _ (res_at_append _ _ _ hlt) hc0 h92, heq,
          hdrop, simple_unescape_cons _ _ h92, List.append_assoc]
        rfl
    · have : i = pre.length := by omega
      subst this
      exact ⟨fuel + 1, by omega, by omega, by simp [simple_unescape]⟩


theorem peek_n_of_drop (c : TokenizerContext) (k a : Nat)
    (h : (c.content.drop c.offset)[k]? = some a) : peek_n c k = a := by
  rw [List.getElem?_drop] at h
  obtain ⟨hlt, heq⟩ := List.getElem?_eq_some.mp h
  rw [peek_n_of_lt c k hlt, List.getD_eq_getElem _ _ hlt, heq]

theorem drop_iterate (k : Nat) (c : TokenizerContext) :
    (next^[k] c).content.drop (next^[k] c).offset = (c.content.drop c.offset).drop k := by
  rw [iterate_next_content, iterate_next_offset, drop_add_drop]

/-- The scanner on `\u` followed by four hexadecimal digits: the escape is accepted and
the cursor moves over its six bytes. -/
theorem tokenize_escape_unicode (y : State) (q d1 d2 d3 d4 : Nat) (rest : List Nat)
    (hd : y.context.content.drop y.context.offset = 92 :: 117 :: d1 :: d2 :: d3 :: d4 :: rest)
    (h1 : is_number_hex d1 = true) (h2 : is_number_hex d2 = true)
    (h3 : is_number_hex d3 = true) (h4 : is_number_hex d4 = true) :
    tokenize_escape y q = (true, { y with context := next^[6] y.context }) := by
  have hp : peek (next y.context) = 117 := by
    rw [peek_next]
    exact peek_n_of_drop _ 1 117 (by rw [hd]; simp)
  have hhex := tokenize_escape_hex_eq 4 (next (next y.context))
  have hdr : (next (next y.context)).content.drop (next (next y.context)).offset
      = d1 :: d2 :: d3 :: d4 :: rest := by
    have := drop_iterate 2 y.context
    rw [hd] at this
    exact this
  rw [hdr] at hhex
  have htrue : (tokenize_escape_hex 4 (next (next y.context))).1 = true := by
    rw [hhex.1]
    simp [h1, h2, h3, h4]
  have hctx := hhex.2 htrue
  unfold tokenize_escape
  simp only []
  rw [hp, if_neg (by decide), if_neg (by decide), if_pos rfl, if_pos htrue, hctx]
  rfl

theorem tokenize_string_loop_on_escape (fuel : Nat) (y : State) (h : peek y.context = 92) :
    tokenize_string_loop (fuel + 1) y = tokenize_string_loop fuel (tokenize_escape y 34).2 := by
  have hlt := lt_of_peek_ne_zero y.context (by rw [h]; decide)
  rw [tokenize_string_loop, if_pos (by rw [h]; decide),
    if_neg (by unfold TokenizerContext.content_length; omega), if_pos h]

theorem tokenize_string_loop_on_quote (fuel : Nat) (y : State) (h : peek y.context = 34) :
    tokenize_string_loop (fuel + 1) y = (true, y) := by
  rw [tokenize_string_loop, if_neg (by rw [h]; decide)]

theorem tokenize_string_of_loop (x : State) (f k : Nat)
    (hf : x.context.content_length + 1 = f)
    (h : tokenize_string_loop f { x with context := next x.context }
      = (true, { x with context := next^[k] x.context })) :
    tokenize_string x
      = (TokenType.STRING_LITERAL, { x with context := next^[k + 1] x.context }) := by
  unfold tokenize_string
  simp only []
  rw [hf, h]
  simp only [if_true, iterate_next_succ]

/-- The scanner on a string literal that holds one `\uXXXX` escape. -/
theorem tokenize_string_unicode (x : State) (d1 d2 d3 d4 : Nat) (rest : List Nat)
    (hd : x.context.content.drop x.context.offset
      = 34 :: 92 :: 117 :: d1 :: d2 :: d3 :: d4 :: 34 :: rest)
    (h1 : is_number_hex d1 = true) (h2 : is_number_hex d2 = true)
    (h3 : is_number_hex d3 = true) (h4 : is_number_hex d4 = true) :
    tokenize_string x = (TokenType.STRING_LITERAL, { x with context := next^[8] x.context }) := by
  have hlen : 8 ≤ x.context.content.length := by
    have := congrArg List.length hd
    simp at this
    omega
  obtain ⟨f, hf⟩ : ∃ f, x.context.content_length + 1 = f + 2 :=
    ⟨x.context.content_length - 1, by unfold TokenizerContext.content_length; omega⟩
  have hd1 : (next^[1] x.context).content.drop (next^[1] x.context).offset
      = 92 :: 117 :: d1 :: d2 :: d3 :: d4 :: 34 :: rest := by
    have := drop_iterate 1 x.context
    rw [hd] at this
    exact this
  have hesc := tokenize_escape_unicode { x with context := next^[1] x.context } 34 d1 d2 d3 d4
    (34 :: rest) hd1 h1 h2 h3 h4
  simp only [iterate_next_add, Nat.reduceAdd] at hesc
  have hesc2 : (tokenize_escape { x with context := next^[1] x.context } 34).2
      = { x with context := next^[7] x.context } := by rw [hesc]
  have hp1 : peek (next^[1] x.context) = 92 := by
    rw [peek_iterate]
    exact peek_n_of_drop _ 1 92 (by rw [hd]; simp)
  have hp7 : peek (next^[7] x.context) = 34 := by
    rw [peek_iterate]
    exact peek_n_of_drop _ 7 34 (by rw [hd]; simp)
  have hloop : tokenize_string_loop (f + 2) { x with context := next^[1] x.context }
      = (true, { x with context := next^[7] x.context }) := by
    rw [tokenize_string_loop_on_escape (f + 1) { x with context := next^[1] x.context } hp1,
      hesc2]
    exact tokenize_string_loop_on_quote f { x with context := next^[7] x.context } hp7
  exact tokenize_string_of_loop x (f + 2) 7 hf hloop

/-- The scanner on a string literal that holds two `\uXXXX` escapes. -/
theorem tokenize_string_unicode_pair (x : State) (d1 d2 d3 d4 e1 e2 e3 e4 : Nat)
    (rest : List Nat)
    (hd : x.context.content.drop x.context.offset
      = 34 :: 92 :: 117 :: d1 :: d2 :: d3 :: d4 :: 92 :: 117 :: e1 :: e2 :: e3 :: e4 :: 34 :: rest)
    (h1 : is_number_hex d1 = true) (h2 : is_number_hex d2 = true)
    (h3 : is_number_hex d3 = true) (h4 : is_number_hex d4 = true)
    (g1 : is_number_hex e1 = true) (g2 : is_number_hex e2 = true)
    (g3 : is_number_hex e3 = true) (g4 : is_number_hex e4 = true) :
    tokenize_string x
      = (TokenType.STRING_LITERAL, { x with context := next^[14] x.context }) := by
  have hlen : 14 ≤ x.context.content.length := by
    have := congrArg List.length hd
    simp at this
    omega
  obtain ⟨f, hf⟩ : ∃ f, x.context.content_length + 1 = f + 3 :=
    ⟨x.context.content_length - 2, by unfold TokenizerContext.content_length; omega⟩
  have hd1 : (next^[1] x.context).content.drop (next^[1] x.context).offset
      = 92 :: 117 :: d1 :: d2 :: d3 :: d4 :: 92 :: 117 :: e1 :: e2 :: e3 :: e4 :: 34 :: rest := by
    have := drop_iterate 1 x.context
    rw [hd] at this
    exact this
  have hd7 : (next^[7] x.context).content.drop (next^[7] x.context).offset
      = 92 :: 117 :: e1 :: e2 :: e3 :: e4 :: 34 :: rest := by
    have := drop_iterate 7 x.context
    rw [hd] at this
    exact this
  have hesc1 := tokenize_escape_unicode { x with context := next^[1] x.context } 34 d1 d2 d3 d4
    (92 :: 117 :: e1 :: e2 :: e3 :: e4 :: 34 :: rest) hd1 h1 h2 h3 h4
  have hesc2 := tokenize_escape_unicode { x with context := next^[7] x.context } 34 e1 e2 e3 e4
    (34 :: rest) hd7 g1 g2 g3 g4
  simp only [iterate_next_add, Nat.reduceAdd] at hesc1 hesc2
  have hs1 : (tokenize_escape { x with context := next^[1] x.context } 34).2
      = { x with context := next^[7] x.context } := by rw [hesc1]
  have hs2 : (tokenize_escape { x with context := next^[7] x.context } 34).2
      = { x with context := next^[13] x.context } := by rw [hesc2]
  have hp1 : peek (next^[1] x.context) = 92 := by
    rw [peek_iterate]
    exact peek_n_of_drop _ 1 92 (by rw [hd]; simp)
  have hp7 : peek (next^[7] x.context) = 92 := by
    rw [peek_iterate]
    exact peek_n_of_drop _ 7 92 (by rw [hd]; simp)
  have hp13 : peek (next^[13] x.context) = 34 := by
    rw [peek_iterate]
    exact peek_n_of_drop _ 13 34 (by rw [hd]; simp)
  have hloop : tokenize_string_loop (f + 3) { x with context := next^[1] x.context }
      = (true, { x with context := next^[13] x.context }) := by
    rw [tokenize_string_loop_on_escape (f + 2) { x with context := next^[1] x.context } hp1,
      hs1, tokenize_string_loop_on_escape (f + 1) { x with context := next^[7] x.context } hp7,
      hs2]
    exact tokenize_string_loop_on_quote f { x with context := next^[13] x.context } hp13
  exact tokenize_string_of_loop x (f + 3) 13 hf hloop

/-- The token returned for a string literal the scanner runs over without an error. -/
theorem string_token (s : State) (herr : s.error.message = none) (w rest : List Nat)
    (hd : s.context.content.drop (skip s).context.offset = w ++ rest)
    (h34 : w.head? = some 34) (hw0 : ∀ b ∈ w, b ≠ 0)
    (hts : tokenize_string (framed (skip s))
      = (TokenType.STRING_LITERAL,
          { framed (skip s) with context := next^[w.length] (framed (skip s)).context })) :
    ∃ t, (tokenizer_next s).1 = some t ∧ t.type = TokenType.STRING_LITERAL ∧
      t.content = w ∧ t.offset = (skip s).context.offset ∧ t.length = w.length ∧
      (tokenizer_next s).2.error.message = none := by
  have hsk := skip_facts s
  have hc : (skip s).context.content = s.context.content := hsk.1.1
  have hpk : peek (skip s).context = 34 := by
    rw [peek_eq_head, hc, hd]
    cases w with
    | nil => simp at h34
    | cons a r =>
      simp only [List.head?_cons, Option.some.injEq] at h34
      rw [h34]
      rfl
  have hpk0 : peek (skip s).context ≠ 0 := by rw [hpk]; decide
  have hnone := skip_error_none s herr hpk0
  have hlt := lt_of_peek_ne_zero _ hpk0
  have hdis : tokenizer_dispatch (framed (skip s)) = _ :=
    (tokenizer_dispatch_string (framed (skip s)) hpk).trans hts
  obtain ⟨t, ht, hty, hto, hlen, -, -, hcontent, he⟩ :=
    tokenizer_next_token s hnone hlt TokenType.STRING_LITERAL w.length (by decide)
      (by rw [hdis]) (by rw [hdis]; simp only [iterate_next_offset]; rfl)
  refine ⟨t, ht, hty, ?_, hto, hlen, ?_⟩
  · rw [hcontent, seg_of_prefix _ _ _ (by rw [hto, hd]; exact List.prefix_append _ _),
      cstring_eq_self _ hw0]
  · rw [he, hdis]
    exact hnone


/-- The decoder on a string lexeme that holds one `\uXXXX` escape. -/
theorem decode_unicode_literal (t : Token) (d1 d2 d3 d4 : Nat)
    (hk : t.type = TokenType.STRING_LITERAL)
    (hcontent : t.content = 34 :: unicode_escape [d1, d2, d3, d4] ++ [34])
    (h1 : is_number_hex d1 = true) (h2 : is_number_hex d2 = true)
    (h3 : is_number_hex d3 = true) (h4 : is_number_hex d4 = true)
    (hs : ¬ (0xD800 ≤ code_point [d1, d2, d3, d4] ∧ code_point [d1, d2, d3, d4] ≤ 0xDBFF)) :
    token_content_to_value t
      = Value.text (cstring (utf8 (code_point [d1, d2, d3, d4]))) := by
  have a0 := (is_number_hex_facts d1 h1).1
  have b0 := (is_number_hex_facts d2 h2).1
  have c0 := (is_number_hex_facts d3 h3).1
  have e0 := (is_number_hex_facts d4 h4).1
  have hlt := code_point_lt d1 d2 d3 d4 h1 h2 h3 h4
  have hscan : sscanf_hex4 ((unicode_escape [d1, d2, d3, d4]).drop (0 + 2))
      = code_point [d1, d2, d3, d4] := sscanf_hex4_digits d1 d2 d3 d4 [] h1 h2 h3 h4
  rw [decode_quoted t 34 34 (unicode_escape [d1, d2, d3, d4]) (Or.inl hk) hcontent
    (by decide) (by decide) (by
      intro b hb
      simp only [unicode_escape, List.mem_cons, List.mem_singleton, List.not_mem_nil,
        or_false] at hb
      rcases hb with h | h | h | h | h | h <;> rw [h] <;> first | decide | assumption)]
  have hlen : (unicode_escape [d1, d2, d3, d4]).length + 1 = 5 + 1 + 1 := rfl
  have r0 : res_at (unicode_escape [d1, d2, d3, d4]) 0 = some 92 := rfl
  have r1 : res_at (unicode_escape [d1, d2, d3, d4]) (0 + 1) = some 117 := rfl
  have r6 : res_at (unicode_escape [d1, d2, d3, d4]) (0 + 6) = some 0 := rfl
  rw [hlen, decode_loop_unicode (unicode_escape [d1, d2, d3, d4]) (5 + 1) 0 [] r0 r1
    (by rw [hscan]; exact hs), hscan,
    decode_loop_end (unicode_escape [d1, d2, d3, d4]) 5 (0 + 6) _ r6, List.nil_append,
    utf8_encode_eq _ (by norm_num; omega)]

/-- C21. Unicode escape to UTF-8: in every state with an empty error slot, when the bytes
after the trivia begin with the string literal `"\uXXXX"` whose four hexadecimal digits
(of either case) denote a code point `c` in `0x0001..0xFFFF` outside the surrogate range,
the call returns that literal as a `STRING_LITERAL` token, the error slot stays empty, and
`token_content_to_value` returns exactly the standard UTF-8 encoding of `c`: one byte for
`c <= 0x7F`, two bytes for `c <= 0x7FF`, three bytes otherwise.  So `"\u0041"` decodes
to `A`, `"\u00e9"` to `C3 A9` and `"\u20AC"` to `E2 82 AC`. -/
theorem C21_unicode_escape_utf8 (s : State) (herr : s.error.message = none)
    (d1 d2 d3 d4 : Nat) (rest : List Nat)
    (h1 : is_number_hex d1 = true) (h2 : is_number_hex d2 = true)
    (h3 : is_number_hex d3 = true) (h4 : is_number_hex d4 = true)
    (hd : s.context.content.drop (skip s).context.offset
      = (34 :: unicode_escape [d1, d2, d3, d4] ++ [34]) ++ rest)
    (hc : 1 ≤ code_point [d1, d2, d3, d4])
    (hs : ¬ (0xD800 ≤ code_point [d1, d2, d3, d4] ∧ code_point [d1, d2, d3, d4] ≤ 0xDFFF)) :
    (∃ t, (tokenizer_next s).1 = some t ∧ t.type = TokenType.STRING_LITERAL ∧
      t.content = 34 :: unicode_escape [d1, d2, d3, d4] ++ [34] ∧
      (tokenizer_next s).2.error.message = none ∧
      token_content_to_value t = Value.text (utf8 (code_point [d1, d2, d3, d4])) ∧
      (utf8 (code_point [d1, d2, d3, d4])).length
        = (if code_point [d1, d2, d3, d4] ≤ 0x7F then 1
           else if code_point [d1, d2, d3, d4] ≤ 0x7FF then 2 else 3)) ∧
    (token_stream 3 (initial_state (bytes "\"\\u0041\" \"\\u00e9\" \"\\u20AC\"") ⟨0, 0, 0⟩
        TokenType.ERROR)).1.map token_content_to_value
      = [Value.text (bytes "A"), Value.text [0xC3, 0xA9], Value.text [0xE2, 0x82, 0xAC]] := by
  refine ⟨?_, by decide⟩
  have hsk := skip_facts s
  have hcc : (framed (skip s)).context.content = s.context.content := hsk.1.1
  have hlt := code_point_lt d1 d2 d3 d4 h1 h2 h3 h4
  obtain ⟨t, ht, hty, hcontent, -, -, he⟩ :=
    string_token s herr (34 :: unicode_escape [d1, d2, d3, d4] ++ [34]) rest hd rfl (by
      intro b hb
      simp only [unicode_escape, List.cons_append, List.nil_append, List.mem_cons,
        List.mem_singleton, List.not_mem_nil, or_false] at hb
      rcases hb with h | h | h | h | h | h | h | h
      · rw [h]; decide
      · rw [h]; decide
      · rw [h]; decide
      · rw [h]; exact (is_number_hex_facts d1 h1).1
      · rw [h]; exact (is_number_hex_facts d2 h2).1
      · rw [h]; exact (is_number_hex_facts d3 h3).1
      · rw [h]; exact (is_number_hex_facts d4 h4).1
      · rw [h]; decide)
      (tokenize_string_unicode (framed (skip s)) d1 d2 d3 d4 rest (by
        rw [hcc]
        exact hd) h1 h2 h3 h4)
  refine ⟨t, ht, hty, hcontent, he, ?_, ?_⟩
  · rw [decode_unicode_literal t d1 d2 d3 d4 hty hcontent h1 h2 h3 h4 (fun h => hs ⟨h.1, by omega⟩),
      cstring_eq_self _ (utf8_ne_zero _ hc)]
  · rw [utf8_length]
    split_ifs <;> first | rfl | omega

/-- Witness for C21 on the input ` "\u00E9";`. -/
theorem C21_unicode_escape_utf8_witness :
    ∃ t, (tokenizer_next (initial_state (bytes " \"\\u00E9\";") ⟨0, 0, 0⟩ TokenType.ERROR)).1
        = some t ∧ token_content_to_value t = Value.text (utf8 (code_point (bytes "00E9"))) :=
  (C21_unicode_escape_utf8 (initial_state (bytes " \"\\u00E9\";") ⟨0, 0, 0⟩ TokenType.ERROR)
    (by decide) 48 48 69 57 [59] (by decide) (by decide) (by decide) (by decide) (by decide)
    (by decide) (by decide)).1.imp (fun _ h => ⟨h.1, h.2.2.2.2.1⟩)


theorem res_at_drop_eq (res : List Nat) (i k : Nat) (hi : i ≤ res.length) :
    res_at (res.drop i) k = res_at res (i + k) := by
  unfold res_at
  rw [List.length_drop]
  by_cases h1 : i + k < res.length
  · rw [if_pos (by omega), if_pos h1, List.getD_eq_getElem _ _ (by rw [List.length_drop]; omega),
      List.getD_eq_getElem _ _ h1, List.getElem_drop]
  · rw [if_neg (by omega), if_neg h1]
    by_cases h2 : i + k ≤ res.length + 1
    · rw [if_pos (by omega), if_pos h2]
    · rw [if_neg (by omega), if_neg h2]

/-- The loop of the decoder at an index `i` inside the buffer is the loop on the bytes from
`i` on. -/
theorem decode_loop_drop (res : List Nat) (i : Nat) (hi : i ≤ res.length) :
    ∀ (fuel k : Nat) (builder : List Nat),
      decode_loop res fuel (i + k) builder = decode_loop (res.drop i) fuel k builder := by
  intro fuel
  induction fuel with
  | zero => intro k builder; rw [decode_loop, decode_loop]
  | succ fuel ih =>
    intro k builder
    rw [decode_loop, decode_loop]
    simp only [res_at_drop_eq res i _ hi, drop_add_drop, ← ih, Nat.add_assoc]

theorem no_backslash_u_list (l : List Nat) (h : ¬ (bytes "\\u" <:+: l)) :
    ∀ j, ¬ (l.getD j 0 = 92 ∧ l.getD (j + 1) 0 = 117) := by
  intro j hh
  have hj : j + 1 < l.length := by
    by_contra hge
    have hd0 : l.getD (j + 1) 0 = 0 := List.getD_eq_default _ _ (by omega)
    rw [hd0] at hh
    exact absurd hh.2 (by decide)
  have hseg : seg l 0 l.length = l := by
    unfold seg
    simp
  exact no_backslash_u l 0 l.length (Nat.le_refl _) (by rw [hseg]; exact h) j (Nat.zero_le _) hj hh

theorem escape_byte_ne_zero (b : Nat) (h : b ≠ 0) : escape_byte b ≠ 0 := by
  rw [← unescape_eq]
  exact unescape_ne_zero b h

theorem simple_unescape_ne_zero (l : List Nat) :
    (∀ b ∈ l, b ≠ 0) → ∀ b ∈ simple_unescape l, b ≠ 0 := by
  induction l using simple_unescape.induct with
  | case1 => intro _ b hb; simp [simple_unescape] at hb
  | case2 a => intro h b hb; simp only [simple_unescape, List.mem_singleton] at hb; rw [hb]; exact h a (by simp)
  | case3 b rest ih =>
    intro h x hx
    rw [simple_unescape, if_pos rfl, List.mem_cons] at hx
    rcases hx with hx | hx
    · rw [hx]; exact escape_byte_ne_zero b (h b (by simp))
    · exact ih (fun y hy => h y (by simp [hy])) x hx
  | case4 a b rest ha ih =>
    intro h x hx
    rw [simple_unescape, if_neg ha, List.mem_cons] at hx
    rcases hx with hx | hx
    · rw [hx]; exact h a (by simp)
    · exact ih (fun y hy => h y (List.mem_cons_of_mem _ hy)) x hx

theorem token_content_ne_zero (s : State) (t : Token) (ht : (tokenizer_next s).1 = some t) :
    ∀ b ∈ t.content, b ≠ 0 := by
  obtain ⟨-, -, -, -, -, -, -, -, hcontent, -⟩ := (tokenizer_next_facts s).2.2.2.2 t ht
  intro b hb
  rw [hcontent] at hb
  simpa using List.mem_takeWhile_imp hb

/-- The decoder on a string lexeme in which `\uXXXX\uYYYY`, the first a high surrogate,
follows a part without `\u`: both escapes are consumed, one code point is written, and the
loop goes on with the bytes after the second escape. -/
theorem decode_pair_literal (t : Token) (pre post : List Nat)
    (a1 a2 a3 a4 b1 b2 b3 b4 : Nat) (hk : t.type = TokenType.STRING_LITERAL)
    (hcontent : t.content = 34 :: (pre ++ (unicode_escape [a1, a2, a3, a4]
      ++ unicode_escape [b1, b2, b3, b4] ++ post)) ++ [34])
    (ha1 : is_number_hex a1 = true) (ha2 : is_number_hex a2 = true)
    (ha3 : is_number_hex a3 = true) (ha4 : is_number_hex a4 = true)
    (hb1 : is_number_hex b1 = true) (hb2 : is_number_hex b2 = true)
    (hb3 : is_number_hex b3 = true) (hb4 : is_number_hex b4 = true)
    (hhigh : 0xD800 ≤ code_point [a1, a2, a3, a4] ∧ code_point [a1, a2, a3, a4] ≤ 0xDBFF)
    (hnul1 : ∀ b ∈ pre, b ≠ 0) (hnul2 : ∀ b ∈ post, b ≠ 0)
    (hpre : well_escaped pre = true)
    (hnou : ∀ j, ¬ (pre.getD j 0 = 92 ∧ pre.getD (j + 1) 0 = 117)) :
    ∃ fuel, post.length < fuel ∧
      token_content_to_value t
        = decode_loop post fuel 0 (simple_unescape pre ++ utf8_encode
            (combine_surrogates (code_point [a1, a2, a3, a4]) (code_point [b1, b2, b3, b4]))) := by
  have hxa := fun d (h : is_number_hex d = true) => (is_number_hex_facts d h).1
  have hnulI : ∀ b ∈ pre ++ (unicode_escape [a1, a2, a3, a4]
      ++ unicode_escape [b1, b2, b3, b4] ++ post), b ≠ 0 := by
    intro b hb
    simp only [unicode_escape, List.cons_append, List.nil_append, List.mem_append, List.mem_cons]
      at hb
    rcases hb with h | h | h | h | h | h | h | h | h | h | h | h | h | h
    · exact hnul1 b h
    · rw [h]; decide
    · rw [h]; decide
    · rw [h]; exact hxa _ ha1
    · rw [h]; exact hxa _ ha2
    · rw [h]; exact hxa _ ha3
    · rw [h]; exact hxa _ ha4
    · rw [h]; decide
    · rw [h]; decide
    · rw [h]; exact hxa _ hb1
    · rw [h]; exact hxa _ hb2
    · rw [h]; exact hxa _ hb3
    · rw [h]; exact hxa _ hb4
    · exact hnul2 b h
  rw [decode_quoted t 34 34 _ (Or.inl hk) hcontent (by decide) (by decide) hnulI]
  generalize hI : pre ++ (unicode_escape [a1, a2, a3, a4]
      ++ unicode_escape [b1, b2, b3, b4] ++ post) = I
  have hIlen : I.length = pre.length + 12 + post.length := by
    rw [← hI]
    simp [unicode_escape]
    omega
  have hdropI : I.drop pre.length = 92 :: 117 :: a1 :: a2 :: a3 :: a4 :: 92 :: 117 :: b1 :: b2
      :: b3 :: b4 :: post := by
    rw [← hI, List.drop_left]
    rfl
  obtain ⟨f1, hf1, -, heq⟩ := decode_loop_pre pre (unicode_escape [a1, a2, a3, a4]
      ++ unicode_escape [b1, b2, b3, b4] ++ post) hnul1 hnou (I.length + 1) 0 []
      (Nat.zero_le _) (by omega) (by rw [List.drop_zero]; exact hpre)
  rw [hI, List.drop_zero, List.nil_append] at heq
  obtain ⟨f2, rfl⟩ : ∃ f2, f1 = f2 + 1 := ⟨f1 - 1, by omega⟩
  have hs1 : sscanf_hex4 (I.drop (pre.length + 2)) = code_point [a1, a2, a3, a4] := by
    rw [← drop_add_drop, hdropI]
    exact sscanf_hex4_digits a1 a2 a3 a4 _ ha1 ha2 ha3 ha4
  have hs2 : sscanf_hex4 (I.drop (pre.length + 8)) = code_point [b1, b2, b3, b4] := by
    rw [← drop_add_drop, hdropI]
    exact sscanf_hex4_digits b1 b2 b3 b4 _ hb1 hb2 hb3 hb4
  have hstep := decode_loop_pair I f2 pre.length (simple_unescape pre)
    (res_at_drop I pre.length 0 92 (by rw [hdropI]; simp))
    (res_at_drop I pre.length 1 117 (by rw [hdropI]; simp))
    (by rw [hs1]; exact hhigh)
    (res_at_drop I pre.length 6 92 (by rw [hdropI]; simp))
    (res_at_drop I pre.length 7 117 (by rw [hdropI]; simp))
  rw [hs1, hs2] at hstep
  have hdrop12 : I.drop (pre.length + 12) = post := by
    rw [← drop_add_drop, hdropI]
    rfl
  have hshift := decode_loop_drop I (pre.length + 12) (by omega) f2 0
    (simple_unescape pre ++ utf8_encode
      (combine_surrogates (code_point [a1, a2, a3, a4]) (code_point [b1, b2, b3, b4])))
  rw [hdrop12, Nat.add_zero] at hshift
  refine ⟨f2, by omega, ?_⟩
  rw [heq, hstep]
  exact hshift

/-- One iteration of the decoder with its index on the first backslash of
`\uXXXX\uYYYY`, the first a high surrogate, wherever that is in the buffer. -/
theorem decode_loop_pair_at (res : List Nat) (fuel i : Nat) (builder rest : List Nat)
    (a1 a2 a3 a4 b1 b2 b3 b4 : Nat)
    (hd : res.drop i
      = unicode_escape [a1, a2, a3, a4] ++ unicode_escape [b1, b2, b3, b4] ++ rest)
    (ha1 : is_number_hex a1 = true) (ha2 : is_number_hex a2 = true)
    (ha3 : is_number_hex a3 = true) (ha4 : is_number_hex a4 = true)
    (hb1 : is_number_hex b1 = true) (hb2 : is_number_hex b2 = true)
    (hb3 : is_number_hex b3 = true) (hb4 : is_number_hex b4 = true)
    (hhigh : 0xD800 ≤ code_point [a1, a2, a3, a4] ∧ code_point [a1, a2, a3, a4] ≤ 0xDBFF) :
    decode_loop res (fuel + 1) i builder
      = decode_loop res fuel (i + 12) (builder ++ utf8_encode
          (combine_surrogates (code_point [a1, a2, a3, a4]) (code_point [b1, b2, b3, b4]))) := by
  have hdrop : res.drop i = 92 :: 117 :: a1 :: a2 :: a3 :: a4 :: 92 :: 117 :: b1 :: b2
      :: b3 :: b4 :: rest := hd
  have hs1 : sscanf_hex4 (res.drop (i + 2)) = code_point [a1, a2, a3, a4] := by
    rw [← drop_add_drop, hdrop]
    exact sscanf_hex4_digits a1 a2 a3 a4 _ ha1 ha2 ha3 ha4
  have hs2 : sscanf_hex4 (res.drop (i + 8)) = code_point [b1, b2, b3, b4] := by
    rw [← drop_add_drop, hdrop]
    exact sscanf_hex4_digits b1 b2 b3 b4 _ hb1 hb2 hb3 hb4
  have hstep := decode_loop_pair res fuel i builder
    (res_at_drop res i 0 92 (by rw [hdrop]; simp))
    (res_at_drop res i 1 117 (by rw [hdrop]; simp))
    (by rw [hs1]; exact hhigh)
    (res_at_drop res i 6 92 (by rw [hdrop]; simp))
    (res_at_drop res i 7 117 (by rw [hdrop]; simp))
  rw [hs1, hs2] at hstep
  exact hstep

theorem combine_surrogates_pair (h l : Nat) (hh : 0xD800 ≤ h ∧ h ≤ 0xDBFF)
    (hl : 0xDC00 ≤ l ∧ l ≤ 0xDFFF) :
    combine_surrogates h l = surrogate_pair h l ∧ 0x10000 ≤ surrogate_pair h l ∧
      surrogate_pair h l ≤ 0x10FFFF := by
  unfold combine_surrogates surrogate_pair
  rw [Nat.shiftLeft_eq]
  norm_num
  omega

/-- A surrogate pair the decoder arrives at.  Whenever the loop of the decoder stands on
the first backslash of `\uHHHH\uLLLL`, with `h` a high and `l` a low surrogate, one
iteration consumes both escapes and writes the four bytes of the standard UTF-8 encoding
of `0x10000 + ((h - 0xD800) << 10) + (l - 0xDC00)`.  For a returned `STRING_LITERAL` token
whose lexeme holds the pair after a part without `\u` that reads as escapes and plain
bytes, the decoded text is the decoded first part, the four bytes, and the loop of the
decoder on the bytes after the pair.  The literal `"\uHHHH\uLLLL"` itself is returned by
the scanner as one token and decodes to the four bytes. -/
theorem surrogate_pair_token (s : State) (t : Token) (pre post : List Nat)
    (a1 a2 a3 a4 b1 b2 b3 b4 : Nat)
    (ht : (tokenizer_next s).1 = some t) (hk : t.type = TokenType.STRING_LITERAL)
    (hcontent : t.content = 34 :: (pre ++ (unicode_escape [a1, a2, a3, a4]
      ++ unicode_escape [b1, b2, b3, b4] ++ post)) ++ [34])
    (ha1 : is_number_hex a1 = true) (ha2 : is_number_hex a2 = true)
    (ha3 : is_number_hex a3 = true) (ha4 : is_number_hex a4 = true)
    (hb1 : is_number_hex b1 = true) (hb2 : is_number_hex b2 = true)
    (hb3 : is_number_hex b3 = true) (hb4 : is_number_hex b4 = true)
    (hhigh : 0xD800 ≤ code_point [a1, a2, a3, a4] ∧ code_point [a1, a2, a3, a4] ≤ 0xDBFF)
    (hlow : 0xDC00 ≤ code_point [b1, b2, b3, b4] ∧ code_point [b1, b2, b3, b4] ≤ 0xDFFF)
    (hpre : well_escaped pre = true) (hnou : ¬ (bytes "\\u" <:+: pre)) :
    (∀ (res : List Nat) (fuel i : Nat) (builder rest : List Nat),
      res.drop i = unicode_escape [a1, a2, a3, a4] ++ unicode_escape [b1, b2, b3, b4] ++ rest →
      decode_loop res (fuel + 1) i builder
        = decode_loop res fuel (i + 12) (builder ++ utf8
            (surrogate_pair (code_point [a1, a2, a3, a4]) (code_point [b1, b2, b3, b4])))) ∧
    ((∃ fuel, post.length < fuel ∧
        token_content_to_value t
          = decode_loop post fuel 0 (simple_unescape pre ++ utf8
              (surrogate_pair (code_point [a1, a2, a3, a4]) (code_point [b1, b2, b3, b4])))) ∧
      (utf8 (surrogate_pair (code_point [a1, a2, a3, a4]) (code_point [b1, b2, b3, b4]))).length
        = 4 ∧
      (well_escaped post = true → ¬ (bytes "\\u" <:+: post) →
        token_content_to_value t
          = Value.text (simple_unescape pre ++ utf8
              (surrogate_pair (code_point [a1, a2, a3, a4]) (code_point [b1, b2, b3, b4]))
              ++ simple_unescape post))) ∧
    (∀ (s1 : State) (rest : List Nat), s1.error.message = none →
      s1.context.content.drop (skip s1).context.offset
        = (34 :: (unicode_escape [a1, a2, a3, a4] ++ unicode_escape [b1, b2, b3, b4]) ++ [34])
            ++ rest →
      ∃ t1, (tokenizer_next s1).1 = some t1 ∧ t1.type = TokenType.STRING_LITERAL ∧
        t1.content
          = 34 :: (unicode_escape [a1, a2, a3, a4] ++ unicode_escape [b1, b2, b3, b4]) ++ [34] ∧
        (tokenizer_next s1).2.error.message = none ∧
        token_content_to_value t1 = Value.text (utf8
          (surrogate_pair (code_point [a1, a2, a3, a4]) (code_point [b1, b2, b3, b4])))) ∧
    (token_stream 3 (initial_state (bytes "\"\\uD83D\\uDE00\" \"a\\ud83d\\ude00\\nb\"")
        ⟨0, 0, 0⟩ TokenType.ERROR)).1.map token_content_to_value
      = [Value.text [0xF0, 0x9F, 0x98, 0x80],
         Value.text [97, 0xF0, 0x9F, 0x98, 0x80, 10, 98]] := by
  obtain ⟨hcomb, hlo, hhi⟩ := combine_surrogates_pair _ _ hhigh hlow
  have hu8 := utf8_encode_eq (surrogate_pair (code_point [a1, a2, a3, a4])
    (code_point [b1, b2, b3, b4])) (by norm_num; omega)
  have hu0 := utf8_ne_zero (surrogate_pair (code_point [a1, a2, a3, a4])
    (code_point [b1, b2, b3, b4])) (by omega)
  have hxa := fun d (h : is_number_hex d = true) => (is_number_hex_facts d h).1
  have h0 := token_content_ne_zero s t ht
  have hnul1 : ∀ b ∈ pre, b ≠ 0 := fun b hb => h0 b (by rw [hcontent]; simp [hb])
  have hnul2 : ∀ b ∈ post, b ≠ 0 := fun b hb => h0 b (by rw [hcontent]; simp [hb])
  obtain ⟨fuel, hfuel, hdec⟩ := decode_pair_literal t pre post a1 a2 a3 a4 b1 b2 b3 b4 hk
    hcontent ha1 ha2 ha3 ha4 hb1 hb2 hb3 hb4 hhigh hnul1 hnul2 hpre (no_backslash_u_list pre hnou)
  rw [hcomb, hu8] at hdec
  refine ⟨?_, ⟨⟨fuel, hfuel, hdec⟩, ?_, ?_⟩, ?_, by decide⟩
  · intro res fuel1 i builder rest hd
    rw [decode_loop_pair_at res fuel1 i builder rest a1 a2 a3 a4 b1 b2 b3 b4 hd ha1 ha2 ha3 ha4
      hb1 hb2 hb3 hb4 hhigh, hcomb, hu8]
  · rw [utf8_length, if_neg (by omega), if_neg (by omega), if_neg (by omega)]
  · intro hpost hnou2
    rw [hdec, decode_loop_simple post hnul2 (no_backslash_u_list post hnou2) fuel 0 _
      (Nat.zero_le _) (by omega) (by rw [List.drop_zero]; exact hpost) (by
        intro b hb
        rw [List.mem_append] at hb
        rcases hb with h | h
        · exact simple_unescape_ne_zero pre hnul1 b h
        · exact hu0 b h), List.drop_zero]
  · intro s1 rest herr1 hd1
    have hsk := skip_facts s1
    have hcc : (framed (skip s1)).context.content = s1.context.content := hsk.1.1
    obtain ⟨t1, ht1, hty1, hcontent1, -, -, he1⟩ :=
      string_token s1 herr1
        (34 :: (unicode_escape [a1, a2, a3, a4] ++ unicode_escape [b1, b2, b3, b4]) ++ [34]) rest
        hd1 rfl (by
          intro b hb
          simp only [unicode_escape, List.cons_append, List.nil_append, List.mem_cons,
            List.mem_singleton, List.not_mem_nil, or_false] at hb
          rcases hb with h | h | h | h | h | h | h | h | h | h | h | h | h | h
          · rw [h]; decide
          · rw [h]; decide
          · rw [h]; decide
          · rw [h]; exact hxa _ ha1
          · rw [h]; exact hxa _ ha2
          · rw [h]; exact hxa _ ha3
          · rw [h]; exact hxa _ ha4
          · rw [h]; decide
          · rw [h]; decide
          · rw [h]; exact hxa _ hb1
          · rw [h]; exact hxa _ hb2
          · rw [h]; exact hxa _ hb3
          · rw [h]; exact hxa _ hb4
          · rw [h]; decide)
        (tokenize_string_unicode_pair (framed (skip s1)) a1 a2 a3 a4 b1 b2 b3 b4 rest (by
          rw [hcc]
          exact hd1) ha1 ha2 ha3 ha4 hb1 hb2 hb3 hb4)
    refine ⟨t1, ht1, hty1, hcontent1, he1, ?_⟩
    obtain ⟨f, hf, hdec1⟩ := decode_pair_literal t1 [] [] a1 a2 a3 a4 b1 b2 b3 b4 hty1
      (by rw [hcontent1]; simp) ha1 ha2 ha3 ha4 hb1 hb2 hb3 hb4 hhigh (by simp) (by simp) rfl
      (by intro j h; simp at h)
    obtain ⟨f1, rfl⟩ : ∃ f1, f = f1 + 1 := ⟨f - 1, by simp at hf; omega⟩
    have hnil : simple_unescape ([] : List Nat) = [] := by simp [simple_unescape]
    rw [hdec1, hcomb, hu8, hnil, List.nil_append, decode_loop_end [] f1 0 _ rfl,
      cstring_eq_self _ hu0]


theorem combine_surrogates_value (h x : Nat) (hh : 0xD800 ≤ h ∧ h ≤ 0xDBFF) (hx : x < 65536) :
    combine_surrogates h x = 0x2400 + (h - 0xD800) * 1024 + x := by
  unfold combine_surrogates
  rw [Nat.shiftLeft_eq]
  norm_num
  omega

theorem cstring_append_zero (l r : List Nat) (h : ∀ b ∈ l, b ≠ 0) :
    cstring (l ++ 0 :: r) = l := by
  unfold cstring
  rw [List.takeWhile_append_of_pos (by intro b hb; simpa using h b hb)]
  simp

/-- The encoding of the combined value is never the encoding of the high surrogate
followed by the encoding of a code point that is not a low surrogate. -/
theorem utf8_combined_ne (h x : Nat) (hh : 0xD800 ≤ h ∧ h ≤ 0xDBFF) (hx : x < 65536)
    (hnot : ¬ (0xDC00 ≤ x ∧ x ≤ 0xDFFF)) :
    utf8 (0x2400 + (h - 0xD800) * 1024 + x) ≠ cstring (utf8 h ++ utf8 x) := by
  have hH : utf8 h = [224 + h / 4096, 128 + h / 64 % 64, 128 + h % 64] := by
    unfold utf8
    rw [if_neg (by omega), if_neg (by omega), if_pos (by omega)]
  by_cases hx0 : x = 0
  · subst hx0
    have h0 : utf8 0 = [0] := by decide
    rw [h0, cstring_append_zero _ _ (utf8_ne_zero h (by omega)), hH]
    intro heq
    unfold utf8 at heq
    split_ifs at heq <;> (simp at heq; try omega)
  · rw [cstring_eq_self _ (by
      intro b hb
      rw [List.mem_append] at hb
      rcases hb with hb | hb
      · exact utf8_ne_zero h (by omega) b hb
      · exact utf8_ne_zero x (by omega) b hb), hH]
    intro heq
    unfold utf8 at heq
    split_ifs at heq <;> (simp at heq; try omega)

/-- C23, the decoder combines where the claim says it does not.  In every state with an
empty error slot, when the bytes after the trivia begin with the string literal
`"\uHHHH\uXXXX"` in which `HHHH` is a high surrogate `h` in `0xD800..0xDBFF` and the value
`x` of `XXXX` is not a low surrogate, the call returns the literal as one token and
`token_content_to_value` consumes both escapes as a pair: the decoded text is the UTF-8
encoding of the single value `0x10000 + ((h - 0xD800) << 10) + (x - 0xDC00)` taken modulo
`2 ^ 32`, at most four bytes, and it is never the encoding of `h` followed by the encoding
of `x`.  On `"\uD83D\u0041"` the decoder returns `F0 91 A1 81`, where decoding the two
escapes independently gives `ED A0 BD 41`; on `"\uD800\uD83D\uDE00"` it pairs `D800` with
`D83D` and returns `EF B0 BD ED B8 80`, so the pair `\uD83D\uDE00` that follows the
unpaired high surrogate is lost. -/
theorem C23_unpaired_high_surrogate_combined (s : State) (herr : s.error.message = none)
    (a1 a2 a3 a4 b1 b2 b3 b4 : Nat) (rest : List Nat)
    (ha1 : is_number_hex a1 = true) (ha2 : is_number_hex a2 = true)
    (ha3 : is_number_hex a3 = true) (ha4 : is_number_hex a4 = true)
    (hb1 : is_number_hex b1 = true) (hb2 : is_number_hex b2 = true)
    (hb3 : is_number_hex b3 = true) (hb4 : is_number_hex b4 = true)
    (hd : s.context.content.drop (skip s).context.offset
      = (34 :: (unicode_escape [a1, a2, a3, a4] ++ unicode_escape [b1, b2, b3, b4]) ++ [34])
          ++ rest)
    (hhigh : 0xD800 ≤ code_point [a1, a2, a3, a4] ∧ code_point [a1, a2, a3, a4] ≤ 0xDBFF)
    (hnot : ¬ (0xDC00 ≤ code_point [b1, b2, b3, b4] ∧ code_point [b1, b2, b3, b4] ≤ 0xDFFF)) :
    (∃ t, (tokenizer_next s).1 = some t ∧ t.type = TokenType.STRING_LITERAL ∧
      t.content
        = 34 :: (unicode_escape [a1, a2, a3, a4] ++ unicode_escape [b1, b2, b3, b4]) ++ [34] ∧
      (tokenizer_next s).2.error.message = none ∧
      token_content_to_value t = Value.text (utf8
        (combine_surrogates (code_point [a1, a2, a3, a4]) (code_point [b1, b2, b3, b4]))) ∧
      (utf8 (combine_surrogates (code_point [a1, a2, a3, a4])
        (code_point [b1, b2, b3, b4]))).length ≤ 4 ∧
      token_content_to_value t ≠ Value.text (cstring
        (utf8 (code_point [a1, a2, a3, a4]) ++ utf8 (code_point [b1, b2, b3, b4])))) ∧
    (token_stream 3 (initial_state (bytes "\"\\uD83D\\u0041\"") ⟨0, 0, 0⟩
        TokenType.ERROR)).1.map token_content_to_value
      = [Value.text [0xF0, 0x91, 0xA1, 0x81]] ∧
    cstring (utf8 (code_point (bytes "D83D")) ++ utf8 (code_point (bytes "0041")))
      = [0xED, 0xA0, 0xBD, 0x41] ∧
    (token_stream 3 (initial_state (bytes "\"\\uD800\\uD83D\\uDE00\"") ⟨0, 0, 0⟩
        TokenType.ERROR)).1.map token_content_to_value
      = [Value.text [0xEF, 0xB0, 0xBD, 0xED, 0xB8, 0x80]] ∧
    utf8 (code_point (bytes "D800")) ++ utf8 (surrogate_pair (code_point (bytes "D83D"))
        (code_point (bytes "DE00")))
      = [0xED, 0xA0, 0x80, 0xF0, 0x9F, 0x98, 0x80] := by
  refine ⟨?_, by decide, by decide, by decide, by decide⟩
  have hxa := fun d (h : is_number_hex d = true) => (is_number_hex_facts d h).1
  have hblt := code_point_lt b1 b2 b3 b4 hb1 hb2 hb3 hb4
  have hval := combine_surrogates_value _ _ hhigh hblt
  have hsk := skip_facts s
  have hcc : (framed (skip s)).context.content = s.context.content := hsk.1.1
  obtain ⟨t, ht, hty, hcontent, -, -, he⟩ :=
    string_token s herr
      (34 :: (unicode_escape [a1, a2, a3, a4] ++ unicode_escape [b1, b2, b3, b4]) ++ [34]) rest
      hd rfl (by
        intro b hb
        simp only [unicode_escape, List.cons_append, List.nil_append, List.mem_cons,
          List.mem_singleton, List.not_mem_nil, or_false] at hb
        rcases hb with h | h | h | h | h | h | h | h | h | h | h | h | h | h
        · rw [h]; decide
        · rw [h]; decide
        · rw [h]; decide
        · rw [h]; exact hxa _ ha1
        · rw [h]; exact hxa _ ha2
        · rw [h]; exact hxa _ ha3
        · rw [h]; exact hxa _ ha4
        · rw [h]; decide
        · rw [h]; decide
        · rw [h]; exact hxa _ hb1
        · rw [h]; exact hxa _ hb2
        · rw [h]; exact hxa _ hb3
        · rw [h]; exact hxa _ hb4
        · rw [h]; decide)
      (tokenize_string_unicode_pair (framed (skip s)) a1 a2 a3 a4 b1 b2 b3 b4 rest (by
        rw [hcc]
        exact hd) ha1 ha2 ha3 ha4 hb1 hb2 hb3 hb4)
  obtain ⟨f, hf, hdec⟩ := decode_pair_literal t [] [] a1 a2 a3 a4 b1 b2 b3 b4 hty
    (by rw [hcontent]; simp) ha1 ha2 ha3 ha4 hb1 hb2 hb3 hb4 hhigh (by simp) (by simp) rfl
    (by intro j h; simp at h)
  obtain ⟨f1, rfl⟩ : ∃ f1, f = f1 + 1 := ⟨f - 1, by simp at hf; omega⟩
  have hnil : simple_unescape ([] : List Nat) = [] := by simp [simple_unescape]
  have hu0 := utf8_ne_zero (combine_surrogates (code_point [a1, a2, a3, a4])
    (code_point [b1, b2, b3, b4])) (by rw [hval]; omega)
  have hdec2 : token_content_to_value t = Value.text (utf8
      (combine_surrogates (code_point [a1, a2, a3, a4]) (code_point [b1, b2, b3, b4]))) := by
    rw [hdec, utf8_encode_eq _ (by rw [hval]; norm_num; omega), hnil, List.nil_append,
      decode_loop_end [] f1 0 _ rfl, cstring_eq_self _ hu0]
  refine ⟨t, ht, hty, hcontent, he, hdec2, ?_, ?_⟩
  · rw [utf8_length]
    split_ifs <;> omega
  · rw [hdec2, hval]
    intro h
    exact utf8_combined_ne _ _ hhigh hblt hnot (Value.text.inj h)

/-- Witness for C23 on the input ` "\uD83D\u0041";`. -/
theorem C23_unpaired_high_surrogate_combined_witness :
    ∃ t, (tokenizer_next (initial_state (bytes " \"\\uD83D\\u0041\";") ⟨0, 0, 0⟩
        TokenType.ERROR)).1 = some t ∧
      token_content_to_value t = Value.text (utf8
        (combine_surrogates (code_point (bytes "D83D")) (code_point (bytes "0041")))) :=
  (C23_unpaired_high_surrogate_combined
    (initial_state (bytes " \"\\uD83D\\u0041\";") ⟨0, 0, 0⟩ TokenType.ERROR) (by decide)
    68 56 51 68 48 48 52 49 [59] (by decide) (by decide) (by decide) (by decide) (by decide)
    (by decide) (by decide) (by decide) (by decide) (by decide) (by decide)).1.imp
      (fun _ h => ⟨h.1, h.2.2.2.2.1⟩)


/-- The operator classifier on a byte `>= 0x80`: no case of the `switch` matches. -/
theorem tokenize_operator_high (x : State) (h : 128 ≤ peek x.context) :
    tokenize_operator x
      = (TokenType.ERROR, { context := next x.context, error :=
          { message := some "unknown operator", frame := x.context.frame } }) := by
  unfold tokenize_operator
  simp only []
  repeat (rw [if_neg (fun hw => by omega)])
  rfl

theorem drop_takeWhile_length (p : Nat → Bool) (l : List Nat) :
    l.drop (l.takeWhile p).length = l.dropWhile p := by
  have h : (l.takeWhile p ++ l.dropWhile p).drop (l.takeWhile p).length = l.dropWhile p :=
    List.drop_left _ _
  rw [List.takeWhile_append_dropWhile] at h
  exact h

/-- C24, the claim as stated fails: on the five bytes of `café` in UTF-8 the first call
returns the `IDENTIFIER` token `caf`, and the second call returns no token and latches
"unknown operator" at offset 3, the position of the byte `0xC3`. -/
theorem C24_counterexample :
    token_stream 5 (initial_state [99, 97, 102, 195, 169] ⟨0, 0, 0⟩ TokenType.ERROR)
      = ([{ type := TokenType.IDENTIFIER, content := bytes "caf", offset := 0, length := 3,
            line := 1, column := 1 }],
         { context := { content := [99, 97, 102, 195, 169], frame := ⟨3, 1, 4⟩,
                        type := TokenType.IDENTIFIER, offset := 4, line := 1, column := 5 },
           error := { message := some "unknown operator", frame := ⟨3, 1, 4⟩ } }) := by
  decide

/-- C24, amended.  A byte `>= 0x80` ends an identifier and is rejected as a token start:
in every state with an empty error slot, when the first byte after the trivia is an
identifier-start byte and the longest run of letters, digits, `_` and `$` from there is
followed by a byte `>= 0x80`, the call returns one identifier or keyword token whose
lexeme is that run (it holds no byte `>= 0x80`), the error slot stays empty, and the next
call returns no token and latches "unknown operator" at the position of the byte
`>= 0x80`. -/
theorem C24_non_ascii_ends_identifier (s : State) (herr : s.error.message = none)
    (hstart : is_identifier_start (peek (skip s).context) = true)
    (hhigh : 128 ≤ ((s.context.content.drop (skip s).context.offset).dropWhile
      is_identifier).headD 0) :
    ∃ t, (tokenizer_next s).1 = some t ∧ t.offset = (skip s).context.offset ∧
      t.content = (s.context.content.drop t.offset).takeWhile is_identifier ∧
      t.type = identifier_type t.content ∧ t.length = t.content.length ∧
      (∀ b ∈ t.content, b < 128) ∧
      (tokenizer_next s).2.error.message = none ∧
      (tokenizer_next (tokenizer_next s).2).1 = none ∧
      (tokenizer_next (tokenizer_next s).2).2.error
        = { message := some "unknown operator",
            frame := collect_frame (tokenizer_next s).2.context } ∧
      (tokenizer_next s).2.context.offset = t.offset + t.length ∧
      128 ≤ s.context.content.getD (t.offset + t.length) 0 ∧
      (PosInv s.context →
        (tokenizer_next s).2.context.line = line_of s.context.content (t.offset + t.length) ∧
        (tokenizer_next s).2.context.column
          = column_of s.context.content (t.offset + t.length)) := by
  obtain ⟨t, ht, hto, hcon, hty, hlen, he⟩ := identifier_token s herr hstart
  have hfacts := tokenizer_next_facts s
  obtain ⟨-, -, -, -, hlt, -, hoff, hle, -, -, -, -, -, -⟩ := hfacts.2.2.2.2 t ht
  have hcc : (tokenizer_next s).2.context.content = s.context.content := hfacts.1
  have hpos : PosInv s.context → PosInv (tokenizer_next s).2.context := hfacts.2.1
  generalize hs1 : (tokenizer_next s).2 = s1 at he hoff hle hcc hpos
  have hpk : peek s1.context
      = ((s.context.content.drop (skip s).context.offset).dropWhile is_identifier).headD 0 := by
    rw [peek_eq_head, hcc, ← hoff, hlen, hcon, ← drop_add_drop, drop_takeWhile_length, hto]
  have h128 : 128 ≤ peek s1.context := by rw [hpk]; exact hhigh
  have hlt1 : s1.context.offset < s1.context.content.length :=
    lt_of_peek_ne_zero _ (by omega)
  have hskip : skip s1 = s1 := by
    apply skip_of_peek <;> (show peek s1.context ≠ _) <;> omega
  have hdis : tokenizer_dispatch (framed s1) = tokenize_operator (framed s1) := by
    apply tokenizer_dispatch_operator
    · show is_identifier_start (peek s1.context) = false
      simp only [is_identifier_start, Bool.or_eq_false_iff, Bool.and_eq_false_iff,
        decide_eq_false_iff_not]
      omega
    · show is_number (peek s1.context) = false
      simp only [is_number, Bool.and_eq_false_iff, decide_eq_false_iff_not]
      omega
    · show peek s1.context ≠ 46
      omega
    · show peek s1.context ≠ 34
      omega
    · show peek s1.context ≠ 39
      omega
  have hop := tokenize_operator_high (framed s1) h128
  have hnext := tokenizer_next_error s1 (by rw [hskip]; exact he) (by rw [hskip]; exact hlt1)
    (by rw [hskip, hdis, hop])
  rw [hskip, hdis, hop] at hnext
  have hget : peek s1.context = s.context.content.getD (t.offset + t.length) 0 := by
    rw [peek_eq_getD _ hlt1, hcc, hoff]
  refine ⟨t, ht, hto, hcon, hty, hlen, ?_, he, ?_, ?_, hoff.symm, ?_, ?_⟩
  · intro b hb
    rw [hcon] at hb
    have hid := List.mem_takeWhile_imp hb
    simp only [is_identifier, is_identifier_start, is_number, Bool.or_eq_true,
      Bool.and_eq_true, decide_eq_true_eq] at hid
    omega
  · rw [hnext]
  · rw [hnext]
    rfl
  · rw [← hget]; exact h128
  · intro hinv
    have hinv1 : PosInv s1.context := hpos hinv
    unfold PosInv PosOK at hinv1
    rw [hcc, ← hoff] at hinv1
    exact hinv1 (by rw [← hcc]; omega)

/-- Witness for C24 (amended) on the bytes of ` if` followed by `0xC3 0xA9`. -/
theorem C24_non_ascii_ends_identifier_witness :
    ∃ t, (tokenizer_next (initial_state [32, 105, 102, 195, 169] ⟨0, 0, 0⟩ TokenType.ERROR)).1
        = some t ∧ t.content = bytes "if" ∧ t.type = TokenType.IF :=
  (C24_non_ascii_ends_identifier (initial_state [32, 105, 102, 195, 169] ⟨0, 0, 0⟩
    TokenType.ERROR) (by decide) (by decide) (by decide)).imp
      (fun t h => ⟨h.1, by rw [h.2.2.1, h.2.1]; decide,
        by rw [h.2.2.2.1, h.2.2.1, h.2.1]; decide⟩)


/-! ## Every loop of the scanner leaves by its own test -/

theorem skip_loop_stable (s : State) (k : Nat) :
    skip_loop (s.context.content_length + 1 + k) s = skip s := by
  have hex := skip_loop_exit (s.context.content_length + 1) s
    (by unfold TokenizerContext.content_length; omega)
  rw [skip_loop_add, skip_loop_of_exit k _ hex.1 hex.2.1 hex.2.2]
  rfl

theorem scan_while_stable (p : Nat → Bool) (hp : p 0 = false) (c : TokenizerContext)
    (f1 f2 : Nat) (h1 : c.content.length ≤ f1 + c.offset) (h2 : c.content.length ≤ f2 + c.offset) :
    scan_while p f1 c = scan_while p f2 c := by
  rw [scan_while_eq p hp f1 c h1, scan_while_eq p hp f2 c h2]

theorem skip_single_comment_loop_stable (c : TokenizerContext) (k : Nat) :
    skip_single_comment_loop (c.content_length + 1 + k) c
      = skip_single_comment_loop (c.content_length + 1) c := by
  rw [skip_single_comment_loop_eq, skip_single_comment_loop_eq]
  exact scan_while_stable _ (by decide) c _ _
    (by unfold TokenizerContext.content_length; omega)
    (by unfold TokenizerContext.content_length; omega)

theorem tokenize_identifier_loop_stable (c : TokenizerContext) (k : Nat) :
    tokenize_identifier_loop (c.content_length + 1 + k) c
      = tokenize_identifier_loop (c.content_length + 1) c := by
  have e : c.content_length + 1 + k = c.content_length + k + 1 := by omega
  rw [e, tokenize_identifier_loop_eq, tokenize_identifier_loop_eq]
  exact scan_while_stable _ (by decide) (next c) _ _
    (by rw [next_content, next_offset]; unfold TokenizerContext.content_length; omega)
    (by rw [next_content, next_offset]; unfold TokenizerContext.content_length; omega)

theorem skip_multi_comment_loop_fuel (frame : TokenizerFrame) (k : Nat) :
    ∀ (fuel : Nat) (s : State), s.context.content.length - s.context.offset < fuel →
      skip_multi_comment_loop frame (fuel + k) s = skip_multi_comment_loop frame fuel s := by
  intro fuel
  induction fuel with
  | zero => intro s h; omega
  | succ fuel ih =>
    intro s h
    have e : fuel + 1 + k = fuel + k + 1 := by omega
    rw [e, skip_multi_comment_loop, skip_multi_comment_loop]
    split_ifs with h1 h2
    · rfl
    · exact ih _ (by
        show s.context.content.length - (s.context.offset + 1) < fuel
        unfold TokenizerContext.content_length at h2
        omega)
    · rfl

theorem tokenize_dec_part_loop_fuel (k : Nat) :
    ∀ (fuel : Nat) (c : TokenizerContext) (lu hn : Bool), c.content.length - c.offset < fuel →
      tokenize_dec_part_loop (fuel + k) c lu hn = tokenize_dec_part_loop fuel c lu hn := by
  intro fuel
  induction fuel with
  | zero => intro c lu hn h; omega
  | succ fuel ih =>
    intro c lu hn h
    have e : fuel + 1 + k = fuel + k + 1 := by omega
    rw [e, tokenize_dec_part_loop, tokenize_dec_part_loop]
    split_ifs with h1 h2
    · have hlt := lt_of_peek_ne_zero c (by
        intro h0; rw [h0] at h1; exact absurd h1 (by decide))
      exact ih _ _ _ (by rw [next_content, next_offset]; omega)
    · have hlt := lt_of_peek_ne_zero c (by rw [h2]; decide)
      exact ih _ _ _ (by rw [next_content, next_offset]; omega)
    · rfl

theorem tokenize_string_loop_fuel (k : Nat) :
    ∀ (fuel : Nat) (s : State), s.context.content.length - s.context.offset < fuel →
      tokenize_string_loop (fuel + k) s = tokenize_string_loop fuel s := by
  intro fuel
  induction fuel with
  | zero => intro s h; omega
  | succ fuel ih =>
    intro s h
    have e : fuel + 1 + k = fuel + k + 1 := by omega
    rw [e, tokenize_string_loop, tokenize_string_loop]
    split_ifs with h1 h2 h3
    · rfl
    · have hlt : s.context.offset < s.context.content.length := by
        unfold TokenizerContext.content_length at h2
        omega
      obtain ⟨hpres, hadv, -⟩ := tokenize_escape_facts s 34 hlt
      exact ih _ (by rw [hpres.1]; omega)
    · exact ih _ (by
        show s.context.content.length - (s.context.offset + 1) < fuel
        unfold TokenizerContext.content_length at h2
        omega)
    · rfl

/-! ## The number of tokens -/

theorem token_stream_calls (n : Nat) : ∀ s : State,
    (token_stream n s).1.length ≤ n ∧
    ((token_stream n s).1.length < n →
      (tokenizer_next ((fun x => (tokenizer_next x).2)^[(token_stream n s).1.length] s)).1
        = none) := by
  induction n with
  | zero => intro s; exact ⟨Nat.le_refl _, fun h => absurd h (Nat.lt_irrefl _)⟩
  | succ n ih =>
    intro s
    rw [token_stream]
    rcases h : tokenizer_next s with ⟨o, s1⟩
    cases o with
    | none =>
      refine ⟨Nat.zero_le _, fun _ => ?_⟩
      show (tokenizer_next s).1 = none
      rw [h]
    | some t =>
      have hs1 : (tokenizer_next s).2 = s1 := by rw [h]
      obtain ⟨ih1, ih2⟩ := ih s1
      refine ⟨Nat.succ_le_succ ih1, fun hlt => ?_⟩
      have := ih2 (Nat.lt_of_succ_lt_succ hlt)
      show (tokenizer_next ((fun x => (tokenizer_next x).2)^[(token_stream n s1).1.length + 1]
        s)).1 = none
      rw [Function.iterate_succ_apply, hs1]
      exact this

theorem token_stream_length (n : Nat) (s : State) :
    (token_stream n s).1.length ≤ s.context.content.length - s.context.offset := by
  refine token_stream_induction
    (fun s ts _ => ts.length ≤ s.context.content.length - s.context.offset) ?_ ?_ ?_ n s
  · intro s; exact Nat.zero_le _
  · intro s _; exact Nat.zero_le _
  · intro s t ts f ht hP
    have hfacts := tokenizer_next_facts s
    obtain ⟨-, ho, -, -, -, hlen, hoff, hle, -⟩ := hfacts.2.2.2.2 t ht
    have hsk := (skip_facts s).2.1
    have hcc := hfacts.1
    simp only [List.length_cons]
    rw [hcc] at hP
    omega


/-- The decoder on `\u` less than five bytes before the end of its buffer: the index moves
past the buffer and the next read is outside of it. -/
theorem decode_loop_short_unicode (res : List Nat) (fuel i : Nat) (builder : List Nat)
    (h0 : res_at res i = some 92) (h1 : res_at res (i + 1) = some 117)
    (h6 : res_at res (i + 6) = none) :
    decode_loop res (fuel + 2) i builder = Value.undefined := by
  rw [decode_loop]
  simp only [h0, h1]
  rw [if_neg (by decide), if_pos ⟨trivial, trivial⟩]
  have e6 : i + 5 + 1 = i + 6 := rfl
  split_ifs with hs
  · rw [e6, h6]
  · rw [e6]
    exact decode_loop_outside res fuel (i + 6) _ h6

/-- C26, the decoder leaves the lexeme.  For every `STRING_LITERAL` token returned by a
call whose interior ends with `\u` followed by at most two bytes, after a part without
`\u` that reads as escapes and plain bytes, `token_content_to_value` adds 5 to its index
and reads `res[i + 1]` at least one byte past the terminator of its buffer: the call has
no defined result.  The scanner returns such tokens, because `tokenize_string` discards
the result of `tokenize_escape`: one call on the four bytes `"\u"` returns the token `"\u"`
with "invalid unicode" in the error slot, `main` passes it to the decoder, and the decoder
reads index 6 of a buffer of 4 bytes; the same holds for `"\u1"` and `"ab\u12"`. -/
theorem C26_decoder_leaves_buffer (s : State) (t : Token) (pre tail : List Nat)
    (ht : (tokenizer_next s).1 = some t) (hk : t.type = TokenType.STRING_LITERAL)
    (hcontent : t.content = 34 :: (pre ++ unicode_escape tail) ++ [34])
    (htail : tail.length ≤ 2)
    (hpre : well_escaped pre = true) (hnou : ¬ (bytes "\\u" <:+: pre)) :
    token_content_to_value t = Value.undefined ∧
    tokenizer_next (initial_state (bytes "\"\\u\"") ⟨0, 0, 0⟩ TokenType.ERROR)
      = (some { type := TokenType.STRING_LITERAL, content := bytes "\"\\u\"", offset := 0,
                length := 4, line := 1, column := 1 },
         { context := { content := bytes "\"\\u\"", frame := ⟨0, 1, 1⟩,
                        type := TokenType.STRING_LITERAL, offset := 4, line := 1, column := 5 },
           error := { message := some "invalid unicode", frame := ⟨1, 1, 2⟩ } }) ∧
    res_at (interior (bytes "\"\\u\"")) 6 = none ∧
    ((token_stream 3 (initial_state (bytes "\"\\u1\"") ⟨0, 0, 0⟩ TokenType.ERROR)).1.map
        (fun t => (t.content, token_content_to_value t))
      = [(bytes "\"\\u1\"", Value.undefined)]) ∧
    ((token_stream 3 (initial_state (bytes "\"ab\\u12\"") ⟨0, 0, 0⟩ TokenType.ERROR)).1.map
        (fun t => (t.content, token_content_to_value t))
      = [(bytes "\"ab\\u12\"", Value.undefined)]) := by
  refine ⟨?_, by decide, by decide, by decide, by decide⟩
  have h0 := token_content_ne_zero s t ht
  have hnulI : ∀ b ∈ pre ++ unicode_escape tail, b ≠ 0 := by
    intro b hb
    apply h0 b
    rw [hcontent, List.cons_append, List.mem_cons, List.mem_append]
    exact Or.inr (Or.inl hb)
  have hnul1 : ∀ b ∈ pre, b ≠ 0 := fun b hb => hnulI b (by simp [hb])
  rw [decode_quoted t 34 34 _ (Or.inl hk) hcontent (by decide) (by decide) hnulI]
  generalize hI : pre ++ unicode_escape tail = I
  have hIlen : I.length = pre.length + 2 + tail.length := by
    rw [← hI]
    simp [unicode_escape]
    omega
  have hdropI : I.drop pre.length = 92 :: 117 :: tail := by
    rw [← hI, List.drop_left]
    rfl
  obtain ⟨f1, hf1, -, heq⟩ := decode_loop_pre pre (unicode_escape tail) hnul1
    (no_backslash_u_list pre hnou) (I.length + 1) 0 [] (Nat.zero_le _) (by omega)
    (by rw [List.drop_zero]; exact hpre)
  rw [hI] at heq
  obtain ⟨f2, rfl⟩ : ∃ f2, f1 = f2 + 2 := ⟨f1 - 2, by omega⟩
  rw [heq]
  exact decode_loop_short_unicode I f2 pre.length _
    (res_at_drop I pre.length 0 92 (by rw [hdropI]; simp))
    (res_at_drop I pre.length 1 117 (by rw [hdropI]; simp))
    (by
      unfold res_at
      rw [if_neg (by omega), if_neg (by omega)])

/-- Witness for C26 on the input ` "ab\u12";`. -/
theorem C26_decoder_leaves_buffer_witness :
    token_content_to_value
        { type := TokenType.STRING_LITERAL, content := bytes "\"ab\\u12\"", offset := 1,
          length := 8, line := 1, column := 2 } = Value.undefined :=
  (C26_decoder_leaves_buffer
    (initial_state (bytes " \"ab\\u12\";") ⟨0, 0, 0⟩ TokenType.ERROR)
    { type := TokenType.STRING_LITERAL, content := bytes "\"ab\\u12\"", offset := 1,
      length := 8, line := 1, column := 2 }
    (bytes "ab") (bytes "12") (by decide) rfl (by decide) (by decide) (by decide) (by
      intro h
      have := h.length_le
      simp [bytes] at this
      obtain ⟨a, b, hab⟩ := h
      have e1 : bytes "\\u" = [92, 117] := by decide
      have e2 : bytes "ab" = [97, 98] := by decide
      rw [e1, e2] at hab
      match a with
      | [] => simp at hab
      | [_] => simp at hab
      | _ :: _ :: _ => simp at hab)).1


/-- C27. The kind of a bare `-` by the token before it: when a call has returned the token
`t0` and left the error slot empty, and the bytes after the next trivia are a `-` that is
not followed by `-`, `=` or `>`, the next call returns a one-byte token that is
`UNARY_MINUS` exactly when the kind of `t0` lies in the enumerator range `PLUS..AS` or is
`LEFT_PARENT`, `LEFT_SQUARE`, `RETURN` or `THIS`, and `MINUS` otherwise.  So after `COMMA`,
`SEMI`, `COLON`, `LEFT_BRACE` or `IMPLICATION` the token is `MINUS` (in `f(a, -b)` the
minus after the comma is `MINUS`), and after `AT_SYMBOL` or `QUESTION_MARK` it is
`UNARY_MINUS`. -/
theorem C27_minus_after_punctuation (s0 : State) (t0 : Token)
    (h0 : (tokenizer_next s0).1 = some t0)
    (herr : (tokenizer_next s0).2.error.message = none)
    (h45 : peek (skip (tokenizer_next s0).2).context = 45)
    (h1 : peek_n (skip (tokenizer_next s0).2).context 1 ≠ 45)
    (h2 : peek_n (skip (tokenizer_next s0).2).context 1 ≠ 61)
    (h3 : peek_n (skip (tokenizer_next s0).2).context 1 ≠ 62) :
    (∃ t, (tokenizer_next (tokenizer_next s0).2).1 = some t ∧ t.length = 1 ∧
      (t.type = TokenType.UNARY_MINUS ∨ t.type = TokenType.MINUS) ∧
      (t.type = TokenType.UNARY_MINUS ↔
        ((TokenType.PLUS.ord ≤ t0.type.ord ∧ t0.type.ord ≤ TokenType.AS.ord)
          ∨ t0.type = TokenType.LEFT_PARENT ∨ t0.type = TokenType.LEFT_SQUARE
          ∨ t0.type = TokenType.RETURN ∨ t0.type = TokenType.THIS)) ∧
      (t0.type ∈ [TokenType.COMMA, TokenType.SEMI, TokenType.COLON, TokenType.LEFT_BRACE,
          TokenType.IMPLICATION] → t.type = TokenType.MINUS) ∧
      (t0.type ∈ [TokenType.AT_SYMBOL, TokenType.QUESTION_MARK] →
        t.type = TokenType.UNARY_MINUS)) ∧
    (token_stream 9 (initial_state (bytes "f(a, -b)") ⟨0, 0, 0⟩ TokenType.ERROR)).1.map
        (fun t => t.type)
      = [TokenType.IDENTIFIER, TokenType.LEFT_PARENT, TokenType.IDENTIFIER, TokenType.COMMA,
         TokenType.MINUS, TokenType.IDENTIFIER, TokenType.RIGHT_PARENT] ∧
    (token_stream 9 (initial_state (bytes "@-1 ?-x") ⟨0, 0, 0⟩ TokenType.ERROR)).1.map
        (fun t => t.type)
      = [TokenType.AT_SYMBOL, TokenType.UNARY_MINUS, TokenType.DEC_NUMBER,
         TokenType.QUESTION_MARK, TokenType.UNARY_MINUS, TokenType.IDENTIFIER] ∧
    (token_stream 13 (initial_state (bytes "; -1 : -1 \x7b -1 -> -1") ⟨0, 0, 0⟩
        TokenType.ERROR)).1.map (fun t => t.type)
      = [TokenType.SEMI, TokenType.MINUS, TokenType.DEC_NUMBER,
         TokenType.COLON, TokenType.MINUS, TokenType.DEC_NUMBER,
         TokenType.LEFT_BRACE, TokenType.MINUS, TokenType.DEC_NUMBER,
         TokenType.IMPLICATION, TokenType.MINUS, TokenType.DEC_NUMBER] := by
  refine ⟨?_, by decide, by decide, by decide⟩
  obtain ⟨-, -, -, -, -, -, -, -, -, htype, -⟩ := (tokenizer_next_facts s0).2.2.2.2 t0 h0
  obtain ⟨t, ht, -, hlen, hty⟩ := bare_minus (tokenizer_next s0).2 herr h45 h1 h2 h3
  rw [htype] at hty
  have hiff := operand_expected_iff t0.type
  refine ⟨t, ht, hlen, ?_, ?_, ?_, ?_⟩
  · rw [hty]
    split_ifs
    · exact Or.inl rfl
    · exact Or.inr rfl
  · rw [hty, hiff]
    split_ifs with h
    · simp [h]
    · simp [h]
  · intro hmem
    rw [hty, if_neg]
    simp only [List.mem_cons, List.mem_singleton, List.not_mem_nil, or_false] at hmem
    rcases hmem with h | h | h | h | h <;> (rw [h]; decide)
  · intro hmem
    rw [hty, if_pos]
    simp only [List.mem_cons, List.mem_singleton, List.not_mem_nil, or_false] at hmem
    rcases hmem with h | h <;> (rw [h]; decide)

/-- Witness for C27 on the input `a, -b`, after the call that returns the comma. -/
theorem C27_minus_after_punctuation_witness :
    ∃ t, (tokenizer_next (tokenizer_next (tokenizer_next
        (initial_state (bytes "a, -b") ⟨0, 0, 0⟩ TokenType.ERROR)).2).2).1 = some t ∧
      t.type = TokenType.MINUS :=
  (C27_minus_after_punctuation
    (tokenizer_next (initial_state (bytes "a, -b") ⟨0, 0, 0⟩ TokenType.ERROR)).2
    { type := TokenType.COMMA, content := bytes ",", offset := 1, length := 1, line := 1,
      column := 2 }
    (by decide) (by decide) (by decide) (by decide) (by decide) (by decide)).1.imp
      (fun _ h => ⟨h.1, h.2.2.2.2.1 (by decide)⟩)


theorem operand_expected_claimed (k : TokenType) :
    operand_expected k = true ↔
      (claimed_operand_expected k = true ∨ k ∈ [TokenType.UNARY_MINUS, TokenType.INCREMENT,
        TokenType.DECREMENT, TokenType.AT_SYMBOL, TokenType.QUESTION_MARK]) := by
  cases k <;> decide

/-- C10, the claim as stated fails after `@`: on the input `@-1` the bare `-` follows an
`AT_SYMBOL` token, which is not an operator or compound-assignment kind nor one of `IS`,
`AS`, `LEFT_PARENT`, `LEFT_SQUARE`, `RETURN`, `THIS`, so the claim gives `MINUS`; the call
returns `UNARY_MINUS`.  The same holds after `?`, `++`, `--` and after a `UNARY_MINUS`. -/
theorem C10_counterexample :
    (token_stream 5 (initial_state (bytes "@-1") ⟨0, 0, 0⟩ TokenType.ERROR)).1.map
        (fun t => (t.type, t.offset, t.length))
      = [(TokenType.AT_SYMBOL, 0, 1), (TokenType.UNARY_MINUS, 1, 1),
         (TokenType.DEC_NUMBER, 2, 1)] ∧
    claimed_operand_expected TokenType.AT_SYMBOL = false ∧
    (if claimed_operand_expected TokenType.AT_SYMBOL = true then TokenType.UNARY_MINUS
      else TokenType.MINUS) = TokenType.MINUS ∧
    (token_stream 5 (initial_state (bytes "?-1") ⟨0, 0, 0⟩ TokenType.ERROR)).1.map Token.type
      = [TokenType.QUESTION_MARK, TokenType.UNARY_MINUS, TokenType.DEC_NUMBER] ∧
    (token_stream 5 (initial_state (bytes "a++ -1") ⟨0, 0, 0⟩ TokenType.ERROR)).1.map Token.type
      = [TokenType.IDENTIFIER, TokenType.INCREMENT, TokenType.UNARY_MINUS,
         TokenType.DEC_NUMBER] ∧
    (token_stream 5 (initial_state (bytes "a-- -1") ⟨0, 0, 0⟩ TokenType.ERROR)).1.map Token.type
      = [TokenType.IDENTIFIER, TokenType.DECREMENT, TokenType.UNARY_MINUS,
         TokenType.DEC_NUMBER] ∧
    (token_stream 5 (initial_state (bytes "(- -1)") ⟨0, 0, 0⟩ TokenType.ERROR)).1.map Token.type
      = [TokenType.LEFT_PARENT, TokenType.UNARY_MINUS, TokenType.UNARY_MINUS,
         TokenType.DEC_NUMBER, TokenType.RIGHT_PARENT] := by
  decide

/-- C10, amended.  Unary-minus rule: when a call has returned a token `t0` and leaves the
error slot empty, and the next byte after the trivia is a bare `-` (one not followed by
`-`, `=` or `>`), the next call returns a one-byte token whose kind is `UNARY_MINUS` if
the kind of `t0` is an operator or compound-assignment kind, `UNARY_MINUS`, `INCREMENT`,
`DECREMENT`, `AT_SYMBOL`, `QUESTION_MARK`, `IS`, `AS`, `LEFT_PARENT`, `LEFT_SQUARE`,
`RETURN` or `THIS` (the enumerators from `PLUS` to `AS`, and the four kinds named last),
and `MINUS` otherwise.  This set holds every kind of the claim's set, and five kinds
more.  So `(-5)` yields `LEFT_PARENT`, `UNARY_MINUS`, `DEC_NUMBER`, `RIGHT_PARENT` and
`3 - 5` yields `DEC_NUMBER`, `MINUS`, `DEC_NUMBER`. -/
theorem C10_unary_minus_rule_amended (s : State) (t0 : Token)
    (h0 : (tokenizer_next s).1 = some t0)
    (herr : (tokenizer_next s).2.error.message = none)
    (h45 : peek (skip (tokenizer_next s).2).context = 45)
    (h1 : peek_n (skip (tokenizer_next s).2).context 1 ≠ 45)
    (h2 : peek_n (skip (tokenizer_next s).2).context 1 ≠ 61)
    (h3 : peek_n (skip (tokenizer_next s).2).context 1 ≠ 62) :
    (∃ t, (tokenizer_next (tokenizer_next s).2).1 = some t ∧ t.length = 1 ∧
      t.type = if operand_expected t0.type = true then TokenType.UNARY_MINUS
        else TokenType.MINUS) ∧
    (operand_expected t0.type = true ↔
      ((TokenType.PLUS.ord ≤ t0.type.ord ∧ t0.type.ord ≤ TokenType.AS.ord)
        ∨ t0.type = TokenType.LEFT_PARENT ∨ t0.type = TokenType.LEFT_SQUARE
        ∨ t0.type = TokenType.RETURN ∨ t0.type = TokenType.THIS)) ∧
    (∀ k : TokenType, operand_expected k = true ↔
      (claimed_operand_expected k = true ∨ k ∈ [TokenType.UNARY_MINUS, TokenType.INCREMENT,
        TokenType.DECREMENT, TokenType.AT_SYMBOL, TokenType.QUESTION_MARK])) ∧
    (∀ k ∈ [TokenType.UNARY_MINUS, TokenType.INCREMENT, TokenType.DECREMENT,
        TokenType.AT_SYMBOL, TokenType.QUESTION_MARK], claimed_operand_expected k = false) ∧
    (token_stream 5 (initial_state (bytes "(-5)") ⟨0, 0, 0⟩ TokenType.ERROR)).1.map Token.type
      = [TokenType.LEFT_PARENT, TokenType.UNARY_MINUS, TokenType.DEC_NUMBER,
         TokenType.RIGHT_PARENT] ∧
    (token_stream 5 (initial_state (bytes "3 - 5") ⟨0, 0, 0⟩ TokenType.ERROR)).1.map Token.type
      = [TokenType.DEC_NUMBER, TokenType.MINUS, TokenType.DEC_NUMBER] := by
  refine ⟨?_, (operand_expected_iff t0.type).symm, operand_expected_claimed, by decide,
    by decide, by decide⟩
  obtain ⟨t, ht, -, hlen, hty⟩ := bare_minus (tokenizer_next s).2 herr h45 h1 h2 h3
  have hprev : (tokenizer_next s).2.context.type = t0.type :=
    ((tokenizer_next_facts s).2.2.2.2 t0 h0).2.2.2.2.2.2.2.2.2.1
  rw [hprev] at hty
  exact ⟨t, ht, hlen, hty⟩

/-- Witness for C10 (amended) on the input `@ -b`: after `@` the minus is unary. -/
theorem C10_unary_minus_rule_amended_witness :
    (tokenizer_next (initial_state (bytes "@ -b") ⟨0, 0, 0⟩ TokenType.ERROR)).1
      = some { type := TokenType.AT_SYMBOL, content := bytes "@", offset := 0, length := 1,
               line := 1, column := 1 } ∧
    ∃ t, (tokenizer_next (tokenizer_next
        (initial_state (bytes "@ -b") ⟨0, 0, 0⟩ TokenType.ERROR)).2).1 = some t ∧
      t.length = 1 ∧
      t.type = if operand_expected TokenType.AT_SYMBOL = true then TokenType.UNARY_MINUS
        else TokenType.MINUS :=
  ⟨by decide,
    (C10_unary_minus_rule_amended (initial_state (bytes "@ -b") ⟨0, 0, 0⟩ TokenType.ERROR)
      { type := TokenType.AT_SYMBOL, content := bytes "@", offset := 0, length := 1,
        line := 1, column := 1 }
      (by decide) (by decide) (by decide) (by decide) (by decide) (by decide)).1⟩


theorem peek_n_getD (c : TokenizerContext) (n : Nat) :
    peek_n c n = c.content.getD (c.offset + n) 0 := by
  by_cases h : c.offset + n < c.content.length
  · exact peek_n_of_lt c n h
  · rw [peek_n_of_ge c n (by omega), List.getD_eq_default _ _ (by omega)]

theorem head?_eq_iff_headD (l : List Nat) (v : Nat) (hv : v ≠ 0) :
    l.head? = some v ↔ l.headD 0 = v := by
  cases l with
  | nil => simp; exact fun h => hv h.symm
  | cons a r => simp

/-- The hex-digit loop of `tokenize_escape`, exactly: it succeeds when `k` hexadecimal
digits follow, and it stops on the first byte that is not one. -/
theorem tokenize_escape_hex_run (k : Nat) : ∀ c : TokenizerContext,
    (tokenize_escape_hex k c).1 = decide (k ≤ run_length is_number_hex c) ∧
    (tokenize_escape_hex k c).2 = next^[min k (run_length is_number_hex c)] c := by
  induction k with
  | zero => intro c; simp [tokenize_escape_hex]
  | succ k ih =>
    intro c
    rw [tokenize_escape_hex]
    by_cases h : is_number_hex (peek c) = true
    · rw [if_pos h, (ih (next c)).1, (ih (next c)).2,
        run_length_of_true is_number_hex is_number_hex_zero c h]
      have e : min (k + 1) (run_length is_number_hex (next c) + 1)
          = min k (run_length is_number_hex (next c)) + 1 := by omega
      rw [e, Function.iterate_succ_apply]
      exact ⟨by simp, rfl⟩
    · rw [if_neg h, run_length_of_false is_number_hex c (by simpa using h)]
      simp

/-- The call `tokenize_escape` on a backslash, exactly: the cursor passes over
`escape_step` bytes, and the error slot is kept when the escape is accepted and set to the
error of that backslash when it is rejected. -/
theorem tokenize_escape_exact (s : State) (q : Nat) (hq : q = 34 ∨ q = 39) :
    tokenize_escape s q
      = (valid_escape q (s.context.content.drop (s.context.offset + 1)),
         { context := next^[escape_step q (s.context.content.drop (s.context.offset + 1))]
             s.context,
           error := if valid_escape q (s.context.content.drop (s.context.offset + 1)) = true
             then s.error
             else escape_error s.context.content s.context.offset (collect_frame s.context) }) := by
  have hval := tokenize_escape_valid s q hq
  have hres := tokenize_escape_result s q
  have hhead : (s.context.content.drop (s.context.offset + 1)).head? = some 117
      ↔ peek_n s.context 1 = 117 := by
    rw [head?_eq_iff_headD _ _ (by decide), peek_n_eq_head]
  have hg : s.context.content.getD (s.context.offset + 1) 0 = peek_n s.context 1 :=
    (peek_n_getD s.context 1).symm
  have hctx : (tokenize_escape s q).2.context
      = next^[escape_step q (s.context.content.drop (s.context.offset + 1))] s.context := by
    by_cases hu : peek_n s.context 1 = 117
    · have hrun := tokenize_escape_hex_run 4 (next (next s.context))
      have hrl : run_length is_number_hex (next (next s.context))
          = (((s.context.content.drop (s.context.offset + 1)).drop 1).takeWhile
              is_number_hex).length := by
        unfold run_length
        rw [next_content, next_content, next_offset, next_offset, drop_add_drop]
      have h1 : (tokenize_escape s q).1 = (tokenize_escape_hex 4 (next (next s.context))).1 ∧
          (tokenize_escape s q).2.context = (tokenize_escape_hex 4 (next (next s.context))).2 := by
        unfold tokenize_escape
        simp only [peek_next]
        rw [hu, if_neg (by decide), if_neg (by decide), if_pos rfl]
        split <;> simp_all
      rw [h1.2, hrun.2]
      unfold escape_step
      rw [← hval, h1.1, hrun.1, if_pos (hhead.mpr hu), if_pos (hhead.mpr hu), ← hrl]
      by_cases h4 : 4 ≤ run_length is_number_hex (next (next s.context))
      · rw [if_pos (by simpa using h4), Nat.min_eq_left h4]
        rfl
      · rw [if_neg (by simpa using h4), Nat.min_eq_right (by omega), Nat.add_comm,
          Function.iterate_add_apply]
        rfl
    · rw [hres.2.2.1 hu]
      unfold escape_step
      rw [← hval, if_neg (fun h => hu (hhead.mp h)), if_neg (fun h => hu (hhead.mp h))]
      split <;> rfl
  have herr : (tokenize_escape s q).2.error
      = if valid_escape q (s.context.content.drop (s.context.offset + 1)) = true then s.error
        else escape_error s.context.content s.context.offset (collect_frame s.context) := by
    rw [← hval]
    rcases Bool.eq_false_or_eq_true (tokenize_escape s q).1 with h | h
    · rw [if_pos h]; exact hres.1 h
    · rw [if_neg (by rw [h]; decide), hres.2.1 h]
      unfold escape_error
      rw [hg]
  refine Prod.ext hval ?_
  calc (tokenize_escape s q).2
      = { context := (tokenize_escape s q).2.context, error := (tokenize_escape s q).2.error } := rfl
    _ = _ := by rw [hctx, herr]

theorem escape_step_pos (q : Nat) (l : List Nat) : 1 ≤ escape_step q l := by
  unfold escape_step
  split_ifs <;> omega

theorem rejected_escapes_nil (k p : Nat) : rejected_escapes k p [] = [] := by
  cases k <;> rfl

theorem rejected_escapes_skip (k : Nat) : ∀ (p : Nat) (l : List Nat),
    rejected_escapes k p l = rejected_escapes 0 (p + k) (l.drop k) := by
  induction k with
  | zero => intro p l; rfl
  | succ k ih =>
    intro p l
    cases l with
    | nil => rw [List.drop_nil, rejected_escapes_nil, rejected_escapes_nil]
    | cons a r =>
      rw [rejected_escapes, ih (p + 1) r, List.drop_succ_cons]
      congr 1
      omega

/-- Every position in `rejected_escapes` is the position of a backslash that the
specification rejects. -/
theorem rejected_escapes_mem : ∀ (l : List Nat) (k p x : Nat), x ∈ rejected_escapes k p l →
    p + k ≤ x ∧ l.getD (x - p) 0 = 92 ∧ valid_escape 34 (l.drop (x - p + 1)) = false := by
  intro l
  induction l with
  | nil => intro k p x hx; rw [rejected_escapes_nil] at hx; cases hx
  | cons b r ih =>
    intro k p x hx
    have shift : ∀ y, p + 1 ≤ y → (b :: r).getD (y - p) 0 = r.getD (y - (p + 1)) 0 ∧
        (b :: r).drop (y - p + 1) = r.drop (y - (p + 1) + 1) := by
      intro y hy
      obtain ⟨d, rfl⟩ : ∃ d, y = p + 1 + d := ⟨y - (p + 1), by omega⟩
      have e1 : p + 1 + d - p = d + 1 := by omega
      have e2 : p + 1 + d - (p + 1) = d := by omega
      rw [e1, e2]
      exact ⟨rfl, rfl⟩
    cases k with
    | succ k =>
      rw [rejected_escapes] at hx
      obtain ⟨h1, h2, h3⟩ := ih k (p + 1) x hx
      obtain ⟨s1, s2⟩ := shift x (by omega)
      exact ⟨by omega, by rw [s1]; exact h2, by rw [s2]; exact h3⟩
    | zero =>
      rw [rejected_escapes] at hx
      split_ifs at hx with h34 h92 hv
      · cases hx
      · obtain ⟨h1, h2, h3⟩ := ih _ (p + 1) x hx
        obtain ⟨s1, s2⟩ := shift x (by omega)
        exact ⟨by omega, by rw [s1]; exact h2, by rw [s2]; exact h3⟩
      · rw [List.mem_cons] at hx
        rcases hx with hx | hx
        · subst hx
          refine ⟨by omega, ?_, ?_⟩
          · rw [Nat.sub_self]; exact h92
          · rw [Nat.sub_self]
            simpa using hv
        · obtain ⟨h1, h2, h3⟩ := ih _ (p + 1) x hx
          obtain ⟨s1, s2⟩ := shift x (by omega)
          exact ⟨by omega, by rw [s1]; exact h2, by rw [s2]; exact h3⟩
      · obtain ⟨h1, h2, h3⟩ := ih _ (p + 1) x hx
        obtain ⟨s1, s2⟩ := shift x (by omega)
        exact ⟨by omega, by rw [s1]; exact h2, by rw [s2]; exact h3⟩


theorem getLast?_elim_cons {α β : Type} (a : α) (l : List α) (e : β) (f : α → β) :
    ((a :: l).getLast?).elim e f = (l.getLast?).elim (f a) f := by
  cases l with
  | nil => rfl
  | cons b r =>
    rw [List.getLast?_cons_cons, List.getLast?_eq_getLast (b :: r) (by simp)]
    rfl

theorem getLast?_elim_congr {α β : Type} (l : List α) (e : β) (f g : α → β)
    (h : ∀ x ∈ l, f x = g x) : (l.getLast?).elim e f = (l.getLast?).elim e g := by
  cases hl : l.getLast? with
  | none => rfl
  | some x => exact h x (List.mem_of_getLast?_eq_some hl)

theorem rejected_escapes_quote (p : Nat) (r : List Nat) :
    rejected_escapes 0 p (34 :: r) = [] := by
  rw [rejected_escapes, if_pos rfl]

theorem rejected_escapes_backslash (p : Nat) (r : List Nat) :
    rejected_escapes 0 p (92 :: r)
      = if valid_escape 34 r = true then rejected_escapes (escape_step 34 r - 1) (p + 1) r
        else p :: rejected_escapes (escape_step 34 r - 1) (p + 1) r := by
  rw [rejected_escapes, if_neg (by decide), if_pos rfl]

theorem rejected_escapes_plain (p b : Nat) (r : List Nat) (h34 : b ≠ 34) (h92 : b ≠ 92) :
    rejected_escapes 0 p (b :: r) = rejected_escapes 0 (p + 1) r := by
  rw [rejected_escapes, if_neg h34, if_neg h92]

theorem rejected_escapes_ge (l : List Nat) (p x : Nat) (hx : x ∈ rejected_escapes 0 p l) :
    p ≤ x := (rejected_escapes_mem l 0 p x hx).1

/-- The error slot after the loop of `tokenize_string` has reached the closing quote: the
error of the last rejected backslash, and the slot as it was when none is rejected. -/
theorem tokenize_string_loop_error : ∀ (fuel : Nat) (s : State),
    (tokenize_string_loop fuel s).1 = true →
    (tokenize_string_loop fuel s).2.error
      = ((rejected_escapes 0 s.context.offset
            (s.context.content.drop s.context.offset)).getLast?).elim s.error
          (fun p => escape_error s.context.content p
            (collect_frame (next^[p - s.context.offset] s.context))) := by
  intro fuel
  induction fuel with
  | zero => intro s h; exact absurd h (by simp [tokenize_string_loop])
  | succ fuel ih =>
    intro s h
    rw [tokenize_string_loop] at h ⊢
    by_cases h34 : peek s.context = 34
    · rw [if_neg (by simpa using h34)]
      rw [drop_eq_peek_cons s.context (by rw [h34]; decide), h34, rejected_escapes_quote]
      rfl
    · rw [if_pos h34] at h ⊢
      by_cases hge : s.context.offset ≥ s.context.content_length
      · rw [if_pos hge] at h
        exact absurd h (by simp)
      · rw [if_neg hge] at h ⊢
        have hlt : s.context.offset < s.context.content.length := by
          have : s.context.content_length = s.context.content.length := rfl
          omega
        have hpk := peek_eq_getD s.context hlt
        have hdrop : s.context.content.drop s.context.offset
            = peek s.context :: s.context.content.drop (s.context.offset + 1) := by
          rw [List.drop_eq_getElem_cons hlt, hpk, List.getD_eq_getElem _ _ hlt]
        have shift : ∀ (m : Nat) (e : TokenizerError),
            ((rejected_escapes 0 (s.context.offset + m)
                (s.context.content.drop (s.context.offset + m))).getLast?).elim e
              (fun p => escape_error s.context.content p
                (collect_frame (next^[p - (s.context.offset + m)] (next^[m] s.context))))
            = ((rejected_escapes 0 (s.context.offset + m)
                (s.context.content.drop (s.context.offset + m))).getLast?).elim e
              (fun p => escape_error s.context.content p
                (collect_frame (next^[p - s.context.offset] s.context))) := by
          intro m e
          apply getLast?_elim_congr
          intro x hx
          have hxge := rejected_escapes_ge _ _ _ hx
          show escape_error _ _ (collect_frame (next^[x - (s.context.offset + m)]
            (next^[m] s.context))) = _
          rw [iterate_next_add]
          have e1 : m + (x - (s.context.offset + m)) = x - s.context.offset := by omega
          rw [e1]
        by_cases h92 : peek s.context = 92
        · rw [if_pos h92] at h ⊢
          rw [tokenize_escape_exact s 34 (Or.inl rfl)] at h ⊢
          have hih := ih _ h
          simp only [iterate_next_content, iterate_next_offset] at hih
          rw [hih, shift, hdrop, h92]
          have hstep := escape_step_pos 34 (s.context.content.drop (s.context.offset + 1))
          have hrej : rejected_escapes
                (escape_step 34 (s.context.content.drop (s.context.offset + 1)) - 1)
                (s.context.offset + 1) (s.context.content.drop (s.context.offset + 1))
              = rejected_escapes 0
                (s.context.offset
                  + escape_step 34 (s.context.content.drop (s.context.offset + 1)))
                (s.context.content.drop (s.context.offset
                  + escape_step 34 (s.context.content.drop (s.context.offset + 1)))) := by
            rw [rejected_escapes_skip, drop_add_drop]
            have e1 : s.context.offset + 1
                + (escape_step 34 (s.context.content.drop (s.context.offset + 1)) - 1)
                = s.context.offset
                  + escape_step 34 (s.context.content.drop (s.context.offset + 1)) := by omega
            rw [e1]
          rw [rejected_escapes_backslash, hrej]
          by_cases hv : valid_escape 34 (s.context.content.drop (s.context.offset + 1)) = true
          · rw [if_pos hv, if_pos hv]
          · rw [if_neg hv, if_neg hv, getLast?_elim_cons, Nat.sub_self]
            rfl
        · rw [if_neg h92] at h ⊢
          have hih := ih _ h
          simp only [next_content, next_offset] at hih
          have hs := shift 1 s.error
          rw [Function.iterate_one] at hs
          rw [hih, hs, hdrop, rejected_escapes_plain _ _ _ h34 h92]


theorem skip_error_eq (s : State) (hpk : peek (skip s).context ≠ 0) :
    (skip s).error = s.error := by
  have hsk := skip_facts s
  rcases hsk.2.2.1 with he | he
  · exact he
  · exfalso
    apply hpk
    exact peek_n_of_ge _ _ (by rw [hsk.1.1]; have := he.2.2.2.2.2.1; omega)

theorem getD_drop (S : List Nat) (a i : Nat) : (S.drop a).getD i 0 = S.getD (a + i) 0 := by
  rw [List.getD_eq_getElem?_getD, List.getD_eq_getElem?_getD, List.getElem?_drop]

/-- The first backslash of the interior of a string literal, when the specification rejects
it, is in `rejected_escapes`. -/
theorem rejected_escapes_first : ∀ (j q : Nat) (l : List Nat),
    (∀ i, i < j → l.getD i 0 ≠ 34 ∧ l.getD i 0 ≠ 92) → l.getD j 0 = 92 →
    valid_escape 34 (l.drop (j + 1)) = false → q + j ∈ rejected_escapes 0 q l := by
  intro j
  induction j with
  | zero =>
    intro q l _ h92 hv
    cases l with
    | nil => cases h92
    | cons b r =>
      have hb : b = 92 := h92
      subst hb
      rw [rejected_escapes_backslash, if_neg (by rw [show r = (92 :: r).drop (0 + 1) from rfl, hv]; decide)]
      exact List.mem_cons_self _ _
  | succ j ih =>
    intro q l hpl h92 hv
    cases l with
    | nil => cases h92
    | cons b r =>
      have h0 := hpl 0 (by omega)
      rw [rejected_escapes_plain q b r h0.1 h0.2]
      have := ih (q + 1) r (fun i hi => hpl (i + 1) (by omega)) h92 hv
      rwa [show q + (j + 1) = q + 1 + j by omega]

/-- The error slot after a string literal that is closed and returned as a token, by the
backslashes of its interior that the specification rejects. -/
theorem tokenizer_next_string_error (z : State) (t : Token) (herr : z.error.message = none)
    (h34 : peek (skip z).context = 34) (ht : (tokenizer_next z).1 = some t) :
    (rejected_escapes 0 (t.offset + 1) (z.context.content.drop (t.offset + 1)) = [] →
      (tokenizer_next z).2.error = z.error) ∧
    (∀ p, (rejected_escapes 0 (t.offset + 1)
          (z.context.content.drop (t.offset + 1))).getLast? = some p →
      t.offset < p ∧ p + 1 < t.offset + t.length ∧ z.context.content.getD p 0 = 92 ∧
      valid_escape 34 (z.context.content.drop (p + 1)) = false ∧
      (tokenizer_next z).2.error.message
        = some (if z.context.content.getD (p + 1) 0 = 117 then "invalid unicode"
                else "invalid escape sequence") ∧
      (tokenizer_next z).2.error.frame.offset = p ∧
      (PosInv z.context →
        (tokenizer_next z).2.error.frame.line = line_of z.context.content p ∧
        (tokenizer_next z).2.error.frame.column = column_of z.context.content p)) := by
  have hpk : peek (skip z).context ≠ 0 := by rw [h34]; decide
  have hnone := skip_error_none z herr hpk
  have hskerr := skip_error_eq z hpk
  have hsk := skip_facts z
  have hc : (skip z).context.content = z.context.content := hsk.1.1
  have hdis : tokenizer_dispatch (framed (skip z)) = tokenize_string (framed (skip z)) :=
    tokenizer_dispatch_string _ h34
  obtain ⟨-, ho, -, -, -, -, hto, hle, -, -, hne, hty, hoff, he⟩ :=
    (tokenizer_next_facts z).2.2.2.2 t ht
  rw [hty, hdis] at hne
  rw [hdis] at hoff he
  unfold tokenize_string at hne hoff he
  simp only [] at hne hoff he
  have hloop := tokenize_string_loop_escape ((framed (skip z)).context.content_length + 1)
    { framed (skip z) with context := next (framed (skip z)).context }
  have hnew := tokenize_string_loop_error ((framed (skip z)).context.content_length + 1)
    { framed (skip z) with context := next (framed (skip z)).context }
  generalize tokenize_string_loop ((framed (skip z)).context.content_length + 1)
    { framed (skip z) with context := next (framed (skip z)).context } = r
    at hne hoff he hloop hnew
  simp only [next_content, next_offset] at hnew
  rw [show (framed (skip z)).context.content = z.context.content from hc,
    show (framed (skip z)).context.offset = t.offset from ho.symm,
    show (framed (skip z)).error = z.error from hskerr] at hnew
  rcases Bool.eq_false_or_eq_true r.1 with hr | hr
  swap
  · rw [hr] at hne
    exact absurd rfl hne
  rw [hr] at hoff he
  simp only [if_true] at hoff he
  rw [next_offset] at hoff
  have hnew := hnew hr
  constructor
  · intro hnil
    rw [he, hnew, hnil]
    rfl
  · intro p hp
    rw [hp] at hnew
    have hmem := rejected_escapes_mem _ 0 (t.offset + 1) p (List.mem_of_getLast?_eq_some hp)
    obtain ⟨hge, hb, hv⟩ := hmem
    rw [getD_drop] at hb
    rw [drop_add_drop] at hv
    have e1 : t.offset + 1 + (p - (t.offset + 1)) = p := by omega
    have e2 : t.offset + 1 + (p - (t.offset + 1) + 1) = p + 1 := by omega
    rw [e1] at hb
    rw [e2] at hv
    have hplt : p < z.context.content.length := by
      by_contra hcon
      rw [List.getD_eq_default _ _ (by omega)] at hb
      cases hb
    have herrp : (tokenizer_next z).2.error
        = escape_error z.context.content p
            (collect_frame (next^[p - (t.offset + 1)] (next (framed (skip z)).context))) := by
      rw [he, hnew]; rfl
    have hfo : (collect_frame (next^[p - (t.offset + 1)]
        (next (framed (skip z)).context))).offset = p := by
      show (next^[p - (t.offset + 1)] (next (framed (skip z)).context)).offset = p
      rw [iterate_next_offset, next_offset]
      show (skip z).context.offset + 1 + (p - (t.offset + 1)) = p
      omega
    have hin : p + 1 < t.offset + t.length := by
      rcases hloop hr with h | ⟨c, hpc, hco, hlt2, -, -, hec⟩
      · exfalso
        have h1 : r.2.error.message = none := by rw [h]; exact hnone
        rw [hnew] at h1
        cases h1
      · have hfr : collect_frame c = collect_frame (next^[p - (t.offset + 1)]
            (next (framed (skip z)).context)) := by
          have h2 := hec.symm.trans hnew
          exact congrArg TokenizerError.frame h2
        have hco2 : c.offset = p := by
          have h3 := congrArg TokenizerFrame.offset hfr
          rw [hfo] at h3
          exact h3
        omega
    refine ⟨by omega, hin, hb, hv, by rw [herrp]; rfl, by rw [herrp]; exact hfo, ?_⟩
    intro hinv
    have hi : PosInv (next^[p - (t.offset + 1)] (next (framed (skip z)).context)) :=
      (Adv_iterate_next _ _).2.2.2
        ((Adv_next _).2.2.2 (Inv_framed _ (hsk.1.2.2.2 hinv)).1)
    unfold PosInv PosOK at hi
    have hoffp : (next^[p - (t.offset + 1)] (next (framed (skip z)).context)).offset = p := hfo
    rw [iterate_next_content, next_content,
      show (framed (skip z)).context.content = z.context.content from hc, hoffp] at hi
    rw [herrp]
    exact hi (by omega)

/-- A character literal whose first byte is a backslash: a rejected escape ends the call
without a token and with the error of that backslash, one byte after the opening quote; an
accepted escape leaves the slot empty unless the closing quote is missing. -/
theorem tokenizer_next_char_error (z : State) (herr : z.error.message = none)
    (h39 : peek (skip z).context = 39) (h92 : peek_n (skip z).context 1 = 92) :
    (valid_escape 39 (z.context.content.drop ((skip z).context.offset + 2)) = false →
      (tokenizer_next z).1 = none ∧
      (tokenizer_next z).2.error
        = { message := some (if peek_n (skip z).context 2 = 117 then "invalid unicode"
                              else "invalid escape sequence"),
            frame := { offset := (skip z).context.offset + 1, line := (skip z).context.line,
                       column := (skip z).context.column + 1 } }) ∧
    (valid_escape 39 (z.context.content.drop ((skip z).context.offset + 2)) = true →
      (tokenizer_next z).2.error.message = none ∨
      (tokenizer_next z).2.error.message = some "symbol literal is not completed") := by
  have hpk : peek (skip z).context ≠ 0 := by rw [h39]; decide
  have hnone := skip_error_none z herr hpk
  have hlt := lt_of_peek_ne_zero _ hpk
  have hc : (skip z).context.content = z.context.content := (skip_facts z).1.1
  have hdis : tokenizer_dispatch (framed (skip z)) = tokenize_char (framed (skip z)) :=
    tokenizer_dispatch_char _ h39
  have hch := tokenize_char_escape (framed (skip z)) h92
  have hval := tokenize_escape_valid
    { framed (skip z) with context := next (framed (skip z)).context } 39 (Or.inr rfl)
  have hres := tokenize_escape_result
    { framed (skip z) with context := next (framed (skip z)).context } 39
  have hdrop : (next (framed (skip z)).context).content.drop
      ((next (framed (skip z)).context).offset + 1)
        = z.context.content.drop ((skip z).context.offset + 2) := by
    rw [next_content, next_offset]
    show (skip z).context.content.drop ((skip z).context.offset + 1 + 1) = _
    rw [hc]
  have hp2 : peek_n (next (framed (skip z)).context) 1 = peek_n (skip z).context 2 :=
    peek_n_next 1 _
  have hfr : collect_frame (next (framed (skip z)).context)
      = { offset := (skip z).context.offset + 1, line := (skip z).context.line,
          column := (skip z).context.column + 1 } := by
    have h39' : peek (framed (skip z)).context = 39 := h39
    unfold collect_frame next
    simp only [h39']
    rfl
  simp only [] at hval hres
  rw [hdrop] at hval
  rw [hp2, hfr] at hres
  generalize tokenize_escape
    { context := next (framed (skip z)).context, error := (framed (skip z)).error } 39 = r
    at hch hval hres
  constructor
  · intro hv
    rw [hv] at hval
    rw [hval] at hch
    have herr2 : (tokenizer_dispatch (framed (skip z))).1 = TokenType.ERROR := by
      rw [hdis, hch]; rfl
    rw [tokenizer_next_error z hnone hlt herr2, hdis, hch]
    exact ⟨rfl, hres.2.1 hval⟩
  · intro hv
    rw [hv] at hval
    rw [hval] at hch
    have he1 : r.2.error.message = none := by
      rw [hres.1 hval]; exact hnone
    have hcl := tokenize_char_close_error r.2
    have hd2 : tokenizer_dispatch (framed (skip z)) = tokenize_char_close r.2 := by
      rw [hdis, hch]; rfl
    by_cases hk : (tokenizer_dispatch (framed (skip z))).1 = TokenType.ERROR
    · rw [tokenizer_next_error z hnone hlt hk, hd2]
      rcases hcl with h | h
      · left; rw [h]; exact he1
      · right; exact h
    · obtain ⟨t, ht⟩ := tokenizer_next_some z hnone hlt hk
      have he := ((tokenizer_next_facts z).2.2.2.2 t ht).2.2.2.2.2.2.2.2.2.2.2.2.2
      rw [he, hd2]
      rcases hcl with h | h
      · left; rw [h]; exact he1
      · right; exact h

/-- C19. Escape validation.  `tokenize_escape`, called on a backslash inside a literal
delimited by `q` (`"` or `'`), accepts exactly when the backslash is followed by `n`, `t`,
`r`, `0`, a backslash, the quote `q`, or `u` and four hexadecimal digits; when it accepts
it leaves the error slot as it was, otherwise it sets the slot to "invalid escape
sequence" ("invalid unicode" when the byte after the backslash is `u`) with the position
of the backslash.  In a character literal a rejected escape ends the call without a token
and with that error, whose position is one byte after the opening quote; an accepted one
leaves the slot empty unless the closing quote is missing.  In a string literal that is
closed and returned as a token `t`, the slot is determined by `rejected_escapes`, the
backslashes of the interior that are rejected when it is read from left to right: when
there is none the slot is left as it was, empty; otherwise the slot holds the error of the
last of them, with the message of that backslash and its offset, line and column, and that
backslash lies strictly inside the literal.  Every member of `rejected_escapes` is a
backslash of the interior that is not followed by one of the accepted forms, and the first
backslash of the interior, when it is not followed by one of them, sets the slot. -/
theorem C19_escape_validation (s : State) (q : Nat) (hq : q = 34 ∨ q = 39) :
    ((tokenize_escape s q).1 = valid_escape q (s.context.content.drop (s.context.offset + 1)) ∧
      ((tokenize_escape s q).1 = true → (tokenize_escape s q).2.error = s.error) ∧
      ((tokenize_escape s q).1 = false →
        (tokenize_escape s q).2.error
          = { message := some (if peek_n s.context 1 = 117 then "invalid unicode"
                                else "invalid escape sequence"),
              frame := collect_frame s.context })) ∧
    (∀ z : State, z.error.message = none → peek (skip z).context = 39 →
      peek_n (skip z).context 1 = 92 →
      (valid_escape 39 (z.context.content.drop ((skip z).context.offset + 2)) = false →
        (tokenizer_next z).1 = none ∧
        (tokenizer_next z).2.error
          = { message := some (if peek_n (skip z).context 2 = 117 then "invalid unicode"
                                else "invalid escape sequence"),
              frame := { offset := (skip z).context.offset + 1, line := (skip z).context.line,
                         column := (skip z).context.column + 1 } }) ∧
      (valid_escape 39 (z.context.content.drop ((skip z).context.offset + 2)) = true →
        (tokenizer_next z).2.error.message = none ∨
        (tokenizer_next z).2.error.message = some "symbol literal is not completed")) ∧
    (∀ (z : State) (t : Token), z.error.message = none → peek (skip z).context = 34 →
      (tokenizer_next z).1 = some t →
      (rejected_escapes 0 (t.offset + 1) (z.context.content.drop (t.offset + 1)) = [] →
        (tokenizer_next z).2.error = z.error) ∧
      (∀ p, (rejected_escapes 0 (t.offset + 1)
            (z.context.content.drop (t.offset + 1))).getLast? = some p →
        t.offset < p ∧ p + 1 < t.offset + t.length ∧ z.context.content.getD p 0 = 92 ∧
        valid_escape 34 (z.context.content.drop (p + 1)) = false ∧
        (tokenizer_next z).2.error.message
          = some (if z.context.content.getD (p + 1) 0 = 117 then "invalid unicode"
                  else "invalid escape sequence") ∧
        (tokenizer_next z).2.error.frame.offset = p ∧
        (PosInv z.context →
          (tokenizer_next z).2.error.frame.line = line_of z.context.content p ∧
          (tokenizer_next z).2.error.frame.column = column_of z.context.content p)) ∧
      (∀ x, x ∈ rejected_escapes 0 (t.offset + 1) (z.context.content.drop (t.offset + 1)) →
        t.offset < x ∧ z.context.content.getD x 0 = 92 ∧
        valid_escape 34 (z.context.content.drop (x + 1)) = false) ∧
      (∀ p, t.offset < p →
        (∀ i, t.offset < i → i < p →
          z.context.content.getD i 0 ≠ 34 ∧ z.context.content.getD i 0 ≠ 92) →
        z.context.content.getD p 0 = 92 →
        valid_escape 34 (z.context.content.drop (p + 1)) = false →
        p ∈ rejected_escapes 0 (t.offset + 1) (z.context.content.drop (t.offset + 1)) ∧
        (tokenizer_next z).2.error.message ≠ none)) ∧
    (tokenizer_next (initial_state (bytes "'\\q'") ⟨0, 0, 0⟩ TokenType.ERROR)).2.error
      = { message := some "invalid escape sequence", frame := ⟨1, 1, 2⟩ } ∧
    (tokenizer_next (initial_state (bytes "'\\\"'") ⟨0, 0, 0⟩ TokenType.ERROR)).2.error
      = { message := some "invalid escape sequence", frame := ⟨1, 1, 2⟩ } ∧
    (tokenizer_next (initial_state (bytes "\n \"ab\\u12\"") ⟨0, 0, 0⟩ TokenType.ERROR)).2.error
      = { message := some "invalid unicode", frame := ⟨5, 2, 5⟩ } ∧
    ((tokenizer_next (initial_state (bytes "\"\\q\"") ⟨0, 0, 0⟩ TokenType.ERROR)).1.map
        (fun t => (t.type, t.offset, t.length)) = some (TokenType.STRING_LITERAL, 0, 4) ∧
      (tokenizer_next (initial_state (bytes "\"\\q\"") ⟨0, 0, 0⟩ TokenType.ERROR)).2.error
        = { message := some "invalid escape sequence", frame := ⟨1, 1, 2⟩ }) ∧
    (rejected_escapes 0 1 ((bytes "\"\\q\\u1\\n\"").drop 1) = [1, 3] ∧
      (tokenizer_next (initial_state (bytes "\"\\q\\u1\\n\"") ⟨0, 0, 0⟩ TokenType.ERROR)).1.map
        (fun t => (t.type, t.offset, t.length)) = some (TokenType.STRING_LITERAL, 0, 9) ∧
      (tokenizer_next (initial_state (bytes "\"\\q\\u1\\n\"") ⟨0, 0, 0⟩ TokenType.ERROR)).2.error
        = { message := some "invalid unicode", frame := ⟨3, 1, 4⟩ }) ∧
    (token_stream 9 (initial_state (bytes "'\\n' '\\0' '\\'' \"\\\"\\u00e9\\\\\"") ⟨0, 0, 0⟩
        TokenType.ERROR)).1.map Token.type
      = [TokenType.CHAR_LITERAL, TokenType.CHAR_LITERAL, TokenType.CHAR_LITERAL,
         TokenType.STRING_LITERAL] ∧
    (token_stream 9 (initial_state (bytes "'\\n' '\\0' '\\'' \"\\\"\\u00e9\\\\\"") ⟨0, 0, 0⟩
        TokenType.ERROR)).2.error.message = none := by
  refine ⟨⟨tokenize_escape_valid s q hq, (tokenize_escape_result s q).1,
    (tokenize_escape_result s q).2.1⟩, fun z herr h39 h92 => tokenizer_next_char_error z herr h39 h92,
    ?_, by decide, by decide, by decide, ⟨by decide, by decide⟩,
    ⟨by decide, by decide, by decide⟩, by decide, by decide⟩
  intro z t herr h34 ht
  have hmain := tokenizer_next_string_error z t herr h34 ht
  have hmemfacts : ∀ x,
      x ∈ rejected_escapes 0 (t.offset + 1) (z.context.content.drop (t.offset + 1)) →
      t.offset < x ∧ z.context.content.getD x 0 = 92 ∧
      valid_escape 34 (z.context.content.drop (x + 1)) = false := by
    intro x hx
    obtain ⟨hge, hb, hv⟩ := rejected_escapes_mem _ 0 (t.offset + 1) x hx
    rw [getD_drop] at hb
    rw [drop_add_drop] at hv
    have e1 : t.offset + 1 + (x - (t.offset + 1)) = x := by omega
    have e2 : t.offset + 1 + (x - (t.offset + 1) + 1) = x + 1 := by omega
    rw [e1] at hb
    rw [e2] at hv
    exact ⟨by omega, hb, hv⟩
  refine ⟨hmain.1, hmain.2, hmemfacts, ?_⟩
  intro p hp hplain h92 hv
  have hmem : p ∈ rejected_escapes 0 (t.offset + 1)
      (z.context.content.drop (t.offset + 1)) := by
    have e1 : t.offset + 1 + (p - (t.offset + 1)) = p := by omega
    have := rejected_escapes_first (p - (t.offset + 1)) (t.offset + 1)
      (z.context.content.drop (t.offset + 1))
      (fun i hi => by
        rw [getD_drop]
        exact hplain (t.offset + 1 + i) (by omega) (by omega))
      (by rw [getD_drop, e1]; exact h92)
      (by
        rw [drop_add_drop]
        have e2 : t.offset + 1 + (p - (t.offset + 1) + 1) = p + 1 := by omega
        rw [e2]; exact hv)
    rwa [e1] at this
  refine ⟨hmem, ?_⟩
  have hne : rejected_escapes 0 (t.offset + 1) (z.context.content.drop (t.offset + 1)) ≠ [] :=
    List.ne_nil_of_mem hmem
  have hm := (hmain.2 _ (List.getLast?_eq_getLast _ hne)).2.2.2.2.1
  rw [hm]
  exact fun h => Option.noConfusion h

/-- Witness for C19 on a character literal with the escape `\n`. -/
theorem C19_escape_validation_witness :
    (tokenize_escape
        { context := { content := bytes "'\\n'", frame := ⟨0, 1, 1⟩, type := TokenType.ERROR,
                       offset := 1, line := 1, column := 2 },
          error := { message := none, frame := ⟨0, 0, 0⟩ } } 39).1
      = valid_escape 39 ((bytes "'\\n'").drop (1 + 1)) :=
  (C19_escape_validation
    { context := { content := bytes "'\\n'", frame := ⟨0, 1, 1⟩, type := TokenType.ERROR,
                   offset := 1, line := 1, column := 2 },
      error := { message := none, frame := ⟨0, 0, 0⟩ } } 39 (Or.inr rfl)).1.1


/-- The scanner on a string literal that holds three `\uXXXX` escapes. -/
theorem tokenize_string_unicode_triple (x : State)
    (c1 c2 c3 c4 d1 d2 d3 d4 e1 e2 e3 e4 : Nat) (rest : List Nat)
    (hd : x.context.content.drop x.context.offset
      = 34 :: 92 :: 117 :: c1 :: c2 :: c3 :: c4 :: 92 :: 117 :: d1 :: d2 :: d3 :: d4
          :: 92 :: 117 :: e1 :: e2 :: e3 :: e4 :: 34 :: rest)
    (k1 : is_number_hex c1 = true) (k2 : is_number_hex c2 = true)
    (k3 : is_number_hex c3 = true) (k4 : is_number_hex c4 = true)
    (h1 : is_number_hex d1 = true) (h2 : is_number_hex d2 = true)
    (h3 : is_number_hex d3 = true) (h4 : is_number_hex d4 = true)
    (g1 : is_number_hex e1 = true) (g2 : is_number_hex e2 = true)
    (g3 : is_number_hex e3 = true) (g4 : is_number_hex e4 = true) :
    tokenize_string x
      = (TokenType.STRING_LITERAL, { x with context := next^[20] x.context }) := by
  have hlen : 20 ≤ x.context.content.length := by
    have := congrArg List.length hd
    simp at this
    omega
  obtain ⟨f, hf⟩ : ∃ f, x.context.content_length + 1 = f + 4 :=
    ⟨x.context.content_length - 3, by unfold TokenizerContext.content_length; omega⟩
  have hd1 : (next^[1] x.context).content.drop (next^[1] x.context).offset
      = 92 :: 117 :: c1 :: c2 :: c3 :: c4 :: 92 :: 117 :: d1 :: d2 :: d3 :: d4
          :: 92 :: 117 :: e1 :: e2 :: e3 :: e4 :: 34 :: rest := by
    have := drop_iterate 1 x.context
    rw [hd] at this
    exact this
  have hd7 : (next^[7] x.context).content.drop (next^[7] x.context).offset
      = 92 :: 117 :: d1 :: d2 :: d3 :: d4 :: 92 :: 117 :: e1 :: e2 :: e3 :: e4 :: 34 :: rest := by
    have := drop_iterate 7 x.context
    rw [hd] at this
    exact this
  have hd13 : (next^[13] x.context).content.drop (next^[13] x.context).offset
      = 92 :: 117 :: e1 :: e2 :: e3 :: e4 :: 34 :: rest := by
    have := drop_iterate 13 x.context
    rw [hd] at this
    exact this
  have hesc1 := tokenize_escape_unicode { x with context := next^[1] x.context } 34 c1 c2 c3 c4
    (92 :: 117 :: d1 :: d2 :: d3 :: d4 :: 92 :: 117 :: e1 :: e2 :: e3 :: e4 :: 34 :: rest)
    hd1 k1 k2 k3 k4
  have hesc2 := tokenize_escape_unicode { x with context := next^[7] x.context } 34 d1 d2 d3 d4
    (92 :: 117 :: e1 :: e2 :: e3 :: e4 :: 34 :: rest) hd7 h1 h2 h3 h4
  have hesc3 := tokenize_escape_unicode { x with context := next^[13] x.context } 34 e1 e2 e3 e4
    (34 :: rest) hd13 g1 g2 g3 g4
  simp only [iterate_next_add, Nat.reduceAdd] at hesc1 hesc2 hesc3
  have hs1 : (tokenize_escape { x with context := next^[1] x.context } 34).2
      = { x with context := next^[7] x.context } := by rw [hesc1]
  have hs2 : (tokenize_escape { x with context := next^[7] x.context } 34).2
      = { x with context := next^[13] x.context } := by rw [hesc2]
  have hs3 : (tokenize_escape { x with context := next^[13] x.context } 34).2
      = { x with context := next^[19] x.context } := by rw [hesc3]
  have hp1 : peek (next^[1] x.context) = 92 := by
    rw [peek_iterate]
    exact peek_n_of_drop _ 1 92 (by rw [hd]; simp)
  have hp7 : peek (next^[7] x.context) = 92 := by
    rw [peek_iterate]
    exact peek_n_of_drop _ 7 92 (by rw [hd]; simp)
  have hp13 : peek (next^[13] x.context) = 92 := by
    rw [peek_iterate]
    exact peek_n_of_drop _ 13 92 (by rw [hd]; simp)
  have hp19 : peek (next^[19] x.context) = 34 := by
    rw [peek_iterate]
    exact peek_n_of_drop _ 19 34 (by rw [hd]; simp)
  have hloop : tokenize_string_loop (f + 4) { x with context := next^[1] x.context }
      = (true, { x with context := next^[19] x.context }) := by
    rw [tokenize_string_loop_on_escape (f + 3) { x with context := next^[1] x.context } hp1,
      hs1, tokenize_string_loop_on_escape (f + 2) { x with context := next^[7] x.context } hp7,
      hs2, tokenize_string_loop_on_escape (f + 1) { x with context := next^[13] x.context } hp13,
      hs3]
    exact tokenize_string_loop_on_quote f { x with context := next^[19] x.context } hp19
  exact tokenize_string_of_loop x (f + 4) 19 hf hloop

/-- The four bytes of a surrogate pair never end a text whose last three bytes encode a
low surrogate. -/
theorem utf8_pair_not_suffix (a b : Nat) (pre : List Nat) (hb : 0xDC00 ≤ b ∧ b ≤ 0xDFFF) :
    ¬ (utf8 (surrogate_pair a b) <:+ pre ++ utf8 b) := by
  have hB : utf8 b = [224 + b / 4096, 128 + b / 64 % 64, 128 + b % 64] := by
    unfold utf8
    rw [if_neg (by omega), if_neg (by omega), if_pos (by omega)]
  have hsp : 0x10000 ≤ surrogate_pair a b := by unfold surrogate_pair; omega
  have hS : utf8 (surrogate_pair a b)
      = [240 + surrogate_pair a b / 262144, 128 + surrogate_pair a b / 4096 % 64,
         128 + surrogate_pair a b / 64 % 64, 128 + surrogate_pair a b % 64] := by
    unfold utf8
    rw [if_neg (by omega), if_neg (by omega), if_neg (by omega)]
  rw [hB, hS]
  rintro ⟨t, ht⟩
  have hr := congrArg List.reverse ht
  simp only [List.reverse_append, List.reverse_cons, List.reverse_nil, List.nil_append,
    List.cons_append, List.cons.injEq] at hr
  omega

/-- The decoder on the literal that holds a high surrogate and then a surrogate pair. -/
theorem decode_triple_literal (t : Token) (g1 g2 g3 g4 a1 a2 a3 a4 b1 b2 b3 b4 : Nat)
    (hk : t.type = TokenType.STRING_LITERAL)
    (hcontent : t.content = 34 :: (unicode_escape [g1, g2, g3, g4]
      ++ unicode_escape [a1, a2, a3, a4] ++ unicode_escape [b1, b2, b3, b4]) ++ [34])
    (hg1 : is_number_hex g1 = true) (hg2 : is_number_hex g2 = true)
    (hg3 : is_number_hex g3 = true) (hg4 : is_number_hex g4 = true)
    (ha1 : is_number_hex a1 = true) (ha2 : is_number_hex a2 = true)
    (ha3 : is_number_hex a3 = true) (ha4 : is_number_hex a4 = true)
    (hb1 : is_number_hex b1 = true) (hb2 : is_number_hex b2 = true)
    (hb3 : is_number_hex b3 = true) (hb4 : is_number_hex b4 = true)
    (hfirst : 0xD800 ≤ code_point [g1, g2, g3, g4] ∧ code_point [g1, g2, g3, g4] ≤ 0xDBFF)
    (hlow : 0xDC00 ≤ code_point [b1, b2, b3, b4] ∧ code_point [b1, b2, b3, b4] ≤ 0xDFFF) :
    token_content_to_value t
      = Value.text (utf8 (combine_surrogates (code_point [g1, g2, g3, g4])
          (code_point [a1, a2, a3, a4])) ++ utf8 (code_point [b1, b2, b3, b4])) := by
  have hxa := fun d (h : is_number_hex d = true) => (is_number_hex_facts d h).1
  have halt := code_point_lt a1 a2 a3 a4 ha1 ha2 ha3 ha4
  have hval := combine_surrogates_value _ _ hfirst halt
  have hnulI : ∀ b ∈ unicode_escape [g1, g2, g3, g4] ++ unicode_escape [a1, a2, a3, a4]
      ++ unicode_escape [b1, b2, b3, b4], b ≠ 0 := by
    intro b hb
    simp only [unicode_escape, List.cons_append, List.nil_append, List.mem_cons,
      List.not_mem_nil, or_false] at hb
    rcases hb with h | h | h | h | h | h | h | h | h | h | h | h | h | h | h | h | h | h
    · rw [h]; decide
    · rw [h]; decide
    · rw [h]; exact hxa _ hg1
    · rw [h]; exact hxa _ hg2
    · rw [h]; exact hxa _ hg3
    · rw [h]; exact hxa _ hg4
    · rw [h]; decide
    · rw [h]; decide
    · rw [h]; exact hxa _ ha1
    · rw [h]; exact hxa _ ha2
    · rw [h]; exact hxa _ ha3
    · rw [h]; exact hxa _ ha4
    · rw [h]; decide
    · rw [h]; decide
    · rw [h]; exact hxa _ hb1
    · rw [h]; exact hxa _ hb2
    · rw [h]; exact hxa _ hb3
    · rw [h]; exact hxa _ hb4
  rw [decode_quoted t 34 34 _ (Or.inl hk) hcontent (by decide) (by decide) hnulI]
  generalize hI : unicode_escape [g1, g2, g3, g4] ++ unicode_escape [a1, a2, a3, a4]
      ++ unicode_escape [b1, b2, b3, b4] = I
  have hIlen : I.length = 18 := by rw [← hI]; rfl
  have hdrop0 : I.drop 0 = unicode_escape [g1, g2, g3, g4] ++ unicode_escape [a1, a2, a3, a4]
      ++ unicode_escape [b1, b2, b3, b4] := by rw [← hI]; rfl
  have hdrop12 : I.drop 12 = 92 :: 117 :: b1 :: b2 :: b3 :: b4 :: [] := by rw [← hI]; rfl
  have hs3 : sscanf_hex4 (I.drop (12 + 2)) = code_point [b1, b2, b3, b4] := by
    rw [← drop_add_drop, hdrop12]
    exact sscanf_hex4_digits b1 b2 b3 b4 _ hb1 hb2 hb3 hb4
  have hstep1 := decode_loop_pair_at I 18 0 [] (unicode_escape [b1, b2, b3, b4])
    g1 g2 g3 g4 a1 a2 a3 a4 hdrop0 hg1 hg2 hg3 hg4 ha1 ha2 ha3 ha4 hfirst
  have hstep2 := decode_loop_unicode I 17 12
    ([] ++ utf8_encode (combine_surrogates (code_point [g1, g2, g3, g4])
      (code_point [a1, a2, a3, a4])))
    (res_at_drop I 12 0 92 (by rw [hdrop12]; simp))
    (res_at_drop I 12 1 117 (by rw [hdrop12]; simp))
    (by rw [hs3]; omega)
  have hend : res_at I 18 = some 0 := by
    unfold res_at
    rw [if_neg (by omega), if_pos (by omega)]
  have hstep3 := decode_loop_end I 16 18
    ([] ++ utf8_encode (combine_surrogates (code_point [g1, g2, g3, g4])
      (code_point [a1, a2, a3, a4])) ++ utf8_encode (sscanf_hex4 (I.drop (12 + 2)))) hend
  rw [hIlen]
  rw [hstep1, hstep2, hstep3, hs3, List.nil_append,
    utf8_encode_eq _ (by rw [hval]; norm_num; omega),
    utf8_encode_eq _ (by norm_num; omega)]
  rw [cstring_eq_self]
  intro b hb
  rw [List.mem_append] at hb
  rcases hb with h | h
  · exact utf8_ne_zero _ (by rw [hval]; omega) b h
  · exact utf8_ne_zero _ (by omega) b h


/-- C22, a surrogate pair that follows the escape of a high surrogate is not
reconstructed.  In every state with an empty error slot, when the bytes after the trivia
begin with the string literal `"\uGGGG\uHHHH\uLLLL"` in which `GGGG` and `HHHH` are high
surrogates `g`, `h` in `0xD800..0xDBFF` and `LLLL` is a low surrogate `l` in
`0xDC00..0xDFFF`, the call returns the literal as one token with an empty error slot, and
`token_content_to_value` pairs `g` with `h`, which is not a low surrogate, and then reads
`\uLLLL` alone: the decoded text is the encoding of
`0x10000 + ((g - 0xD800) << 10) + (h - 0xDC00)` taken modulo `2 ^ 32` followed by the three
bytes of `l`.  The literal contains `\uHHHH\uLLLL` and ends with it, yet the decoded text
does not end with the four bytes of `0x10000 + ((h - 0xD800) << 10) + (l - 0xDC00)`, and it
is not the encoding of `g` followed by those four bytes.  On `"\uD800\uD83D\uDE00"` the
decoder returns `EF B0 BD ED B8 80` where the pair alone, `"\uD83D\uDE00"`, gives
`F0 9F 98 80`.  When the loop of the decoder does stand on the first backslash of
`\uHHHH\uLLLL`, one iteration consumes both escapes, writes the four bytes and goes on
with the byte after the second escape. -/
theorem C22_pair_after_high_surrogate_lost (s : State) (herr : s.error.message = none)
    (g1 g2 g3 g4 a1 a2 a3 a4 b1 b2 b3 b4 : Nat) (rest : List Nat)
    (hg1 : is_number_hex g1 = true) (hg2 : is_number_hex g2 = true)
    (hg3 : is_number_hex g3 = true) (hg4 : is_number_hex g4 = true)
    (ha1 : is_number_hex a1 = true) (ha2 : is_number_hex a2 = true)
    (ha3 : is_number_hex a3 = true) (ha4 : is_number_hex a4 = true)
    (hb1 : is_number_hex b1 = true) (hb2 : is_number_hex b2 = true)
    (hb3 : is_number_hex b3 = true) (hb4 : is_number_hex b4 = true)
    (hd : s.context.content.drop (skip s).context.offset
      = (34 :: (unicode_escape [g1, g2, g3, g4] ++ unicode_escape [a1, a2, a3, a4]
          ++ unicode_escape [b1, b2, b3, b4]) ++ [34]) ++ rest)
    (hfirst : 0xD800 ≤ code_point [g1, g2, g3, g4] ∧ code_point [g1, g2, g3, g4] ≤ 0xDBFF)
    (hhigh : 0xD800 ≤ code_point [a1, a2, a3, a4] ∧ code_point [a1, a2, a3, a4] ≤ 0xDBFF)
    (hlow : 0xDC00 ≤ code_point [b1, b2, b3, b4] ∧ code_point [b1, b2, b3, b4] ≤ 0xDFFF) :
    (∃ t, (tokenizer_next s).1 = some t ∧ t.type = TokenType.STRING_LITERAL ∧
      t.content
        = 34 :: (unicode_escape [g1, g2, g3, g4] ++ unicode_escape [a1, a2, a3, a4]
            ++ unicode_escape [b1, b2, b3, b4]) ++ [34] ∧
      (tokenizer_next s).2.error.message = none ∧
      token_content_to_value t
        = Value.text (utf8 (combine_surrogates (code_point [g1, g2, g3, g4])
            (code_point [a1, a2, a3, a4])) ++ utf8 (code_point [b1, b2, b3, b4])) ∧
      (∀ text, token_content_to_value t = Value.text text →
        ¬ (utf8 (surrogate_pair (code_point [a1, a2, a3, a4]) (code_point [b1, b2, b3, b4]))
            <:+ text)) ∧
      token_content_to_value t
        ≠ Value.text (utf8 (code_point [g1, g2, g3, g4])
            ++ utf8 (surrogate_pair (code_point [a1, a2, a3, a4])
                (code_point [b1, b2, b3, b4])))) ∧
    (∀ (res : List Nat) (fuel i : Nat) (builder tail : List Nat),
      res.drop i = unicode_escape [a1, a2, a3, a4] ++ unicode_escape [b1, b2, b3, b4] ++ tail →
      decode_loop res (fuel + 1) i builder
        = decode_loop res fuel (i + 12) (builder ++ utf8
            (surrogate_pair (code_point [a1, a2, a3, a4]) (code_point [b1, b2, b3, b4])))) ∧
    (token_stream 3 (initial_state (bytes "\"\\uD800\\uD83D\\uDE00\"") ⟨0, 0, 0⟩
        TokenType.ERROR)).1.map
        (fun t => (t.type, t.offset, t.length, token_content_to_value t))
      = [(TokenType.STRING_LITERAL, 0, 20, Value.text [0xEF, 0xB0, 0xBD, 0xED, 0xB8, 0x80])] ∧
    (token_stream 3 (initial_state (bytes "\"\\uD83D\\uDE00\"") ⟨0, 0, 0⟩
        TokenType.ERROR)).1.map
        (fun t => (t.type, t.offset, t.length, token_content_to_value t))
      = [(TokenType.STRING_LITERAL, 0, 14, Value.text [0xF0, 0x9F, 0x98, 0x80])] ∧
    utf8 (surrogate_pair (code_point (bytes "D83D")) (code_point (bytes "DE00")))
      = [0xF0, 0x9F, 0x98, 0x80] := by
  refine ⟨?_, ?_, by decide, by decide, by decide⟩
  · have hxa := fun d (h : is_number_hex d = true) => (is_number_hex_facts d h).1
    have hsk := skip_facts s
    have hcc : (framed (skip s)).context.content = s.context.content := hsk.1.1
    obtain ⟨t, ht, hty, hcontent, -, -, he⟩ :=
      string_token s herr
        (34 :: (unicode_escape [g1, g2, g3, g4] ++ unicode_escape [a1, a2, a3, a4]
          ++ unicode_escape [b1, b2, b3, b4]) ++ [34]) rest
        hd rfl (by
          intro b hb
          simp only [unicode_escape, List.cons_append, List.nil_append, List.mem_cons,
            List.mem_singleton, List.not_mem_nil, or_false] at hb
          rcases hb with h | h | h | h | h | h | h | h | h | h | h | h | h | h | h | h | h | h
            | h | h
          · rw [h]; decide
          · rw [h]; decide
          · rw [h]; decide
          · rw [h]; exact hxa _ hg1
          · rw [h]; exact hxa _ hg2
          · rw [h]; exact hxa _ hg3
          · rw [h]; exact hxa _ hg4
          · rw [h]; decide
          · rw [h]; decide
          · rw [h]; exact hxa _ ha1
          · rw [h]; exact hxa _ ha2
          · rw [h]; exact hxa _ ha3
          · rw [h]; exact hxa _ ha4
          · rw [h]; decide
          · rw [h]; decide
          · rw [h]; exact hxa _ hb1
          · rw [h]; exact hxa _ hb2
          · rw [h]; exact hxa _ hb3
          · rw [h]; exact hxa _ hb4
          · rw [h]; decide)
        (tokenize_string_unicode_triple (framed (skip s)) g1 g2 g3 g4 a1 a2 a3 a4 b1 b2 b3 b4
          rest (by
            rw [hcc]
            exact hd) hg1 hg2 hg3 hg4 ha1 ha2 ha3 ha4 hb1 hb2 hb3 hb4)
    have hdec := decode_triple_literal t g1 g2 g3 g4 a1 a2 a3 a4 b1 b2 b3 b4 hty hcontent
      hg1 hg2 hg3 hg4 ha1 ha2 ha3 ha4 hb1 hb2 hb3 hb4 hfirst hlow
    refine ⟨t, ht, hty, hcontent, he, hdec, ?_, ?_⟩
    · intro text htext
      rw [hdec] at htext
      rw [← Value.text.inj htext]
      exact utf8_pair_not_suffix _ _ _ hlow
    · rw [hdec]
      intro h
      apply utf8_pair_not_suffix (code_point [a1, a2, a3, a4]) (code_point [b1, b2, b3, b4])
        (utf8 (combine_surrogates (code_point [g1, g2, g3, g4]) (code_point [a1, a2, a3, a4])))
        hlow
      rw [Value.text.inj h]
      exact List.suffix_append _ _
  · intro res fuel i builder tail hdr
    obtain ⟨hcomb, hlo, hhi⟩ := combine_surrogates_pair _ _ hhigh hlow
    rw [decode_loop_pair_at res fuel i builder tail a1 a2 a3 a4 b1 b2 b3 b4 hdr ha1 ha2 ha3 ha4
      hb1 hb2 hb3 hb4 hhigh, hcomb, utf8_encode_eq _ (by norm_num; omega)]

/-- Witness for C22 on the input ` "\uD800\uD83D\uDE00";`. -/
theorem C22_pair_after_high_surrogate_lost_witness :
    ∃ t, (tokenizer_next (initial_state (bytes " \"\\uD800\\uD83D\\uDE00\";") ⟨0, 0, 0⟩
        TokenType.ERROR)).1 = some t ∧
      token_content_to_value t
        = Value.text (utf8 (combine_surrogates (code_point (bytes "D800"))
            (code_point (bytes "D83D"))) ++ utf8 (code_point (bytes "DE00"))) ∧
      ¬ (utf8 (surrogate_pair (code_point (bytes "D83D")) (code_point (bytes "DE00")))
          <:+ utf8 (combine_surrogates (code_point (bytes "D800"))
            (code_point (bytes "D83D"))) ++ utf8 (code_point (bytes "DE00"))) :=
  (C22_pair_after_high_surrogate_lost
    (initial_state (bytes " \"\\uD800\\uD83D\\uDE00\";") ⟨0, 0, 0⟩ TokenType.ERROR) (by decide)
    68 56 48 48 68 56 51 68 68 69 48 48 [59] (by decide) (by decide) (by decide) (by decide)
    (by decide) (by decide) (by decide) (by decide) (by decide) (by decide) (by decide)
    (by decide) (by decide) (by decide) (by decide) (by decide)).1.imp
      (fun _ h => ⟨h.1, h.2.2.2.2.1, h.2.2.2.2.2.1 _ h.2.2.2.2.1⟩)


/-- The loop of `tokenize_string`, left at its `return ERROR`: the end of the input was
reached and the error of the open literal is set. -/
theorem tokenize_string_loop_false : ∀ (fuel : Nat) (s : State),
    s.context.content.length - s.context.offset < fuel →
    (tokenize_string_loop fuel s).1 = false →
    (tokenize_string_loop fuel s).2.error.message = some "string literal is not completed" ∧
      s.context.content.length ≤ (tokenize_string_loop fuel s).2.context.offset := by
  intro fuel
  induction fuel with
  | zero => intro s h; omega
  | succ fuel ih =>
    intro s h hf
    rw [tokenize_string_loop] at hf ⊢
    split_ifs at hf ⊢ with h1 h2 h3
    · exact ⟨rfl, h2⟩
    · have hlt : s.context.offset < s.context.content.length := by
        unfold TokenizerContext.content_length at h2
        omega
      obtain ⟨hpres, hadv, -⟩ := tokenize_escape_facts s 34 hlt
      have := ih _ (by rw [hpres.1]; omega) hf
      rw [hpres.1] at this
      exact this
    · exact ih _ (by
        show s.context.content.length - (s.context.offset + 1) < fuel
        unfold TokenizerContext.content_length at h2
        omega) hf

/-- The loop of `tokenize_dec_part` is left on a byte that is neither a digit nor an
underscore. -/
theorem tokenize_dec_part_loop_exit : ∀ (fuel : Nat) (c : TokenizerContext) (lu hn : Bool),
    c.content.length - c.offset < fuel →
    is_number (peek (tokenize_dec_part_loop fuel c lu hn).1) = false ∧
      peek (tokenize_dec_part_loop fuel c lu hn).1 ≠ 95 := by
  intro fuel
  induction fuel with
  | zero => intro c lu hn h; omega
  | succ fuel ih =>
    intro c lu hn h
    rw [tokenize_dec_part_loop]
    split_ifs with h1 h2
    · have hlt := lt_of_peek_ne_zero c (by
        intro h0; rw [h0] at h1; exact absurd h1 (by decide))
      exact ih _ _ _ (by rw [next_content, next_offset]; omega)
    · have hlt := lt_of_peek_ne_zero c (by rw [h2]; decide)
      exact ih _ _ _ (by rw [next_content, next_offset]; omega)
    · exact ⟨by simpa using h1, h2⟩

theorem skip_single_comment_loop_exit (c : TokenizerContext) :
    ¬ (peek (skip_single_comment_loop (c.content_length + 1) c) ≠ 13 ∧
      peek (skip_single_comment_loop (c.content_length + 1) c) ≠ 10 ∧
      peek (skip_single_comment_loop (c.content_length + 1) c) ≠ 0) := by
  rw [skip_single_comment_loop_eq]
  have h := scan_while_exit line_comment_byte (by decide) (c.content_length + 1) c
    (by unfold TokenizerContext.content_length; omega)
  intro hc
  simp [line_comment_byte, hc] at h

theorem tokenize_identifier_loop_exit (c : TokenizerContext) :
    is_identifier (peek (tokenize_identifier_loop (c.content_length + 1) c)) = false := by
  rw [tokenize_identifier_loop_eq]
  exact scan_while_exit is_identifier is_identifier_zero _ _
    (by rw [next_content, next_offset]; unfold TokenizerContext.content_length; omega)


/-- C25. Termination and finiteness.  Every loop of `tokenizer_next` (the loops of `skip`,
`skip_single_comment`, `skip_multi_comment`, `tokenize_identifier`, `tokenize_dec_part` and
`tokenize_string`), started in any state and allowed `content_length + 1` iterations, is
left by its own test or by the `return` inside it, not by a lack of iterations: at the
result the test of the loop is false (`skip` stands on a byte that starts no trivia, the
line comment on CR, LF or NUL, the identifier on a byte that is no identifier byte, the
decimal part on a byte that is neither a digit nor an underscore, the block comment on
`*/` and the string on `"`), or the loop of the block comment or of the string has
returned at the end of the input with its error set.  The result is the same for every
larger number of iterations allowed, so each call terminates.  A call returns no token or
a token of length at least 1.  From every state the calls return at most
`content_length - offset` tokens and the call after the last token reports end-of-stream;
from the initial state on an input `S` that is at most `|S|` tokens, with end-of-stream
reported within `|S| + 1` calls. -/
theorem C25_finite_and_terminating (s : State) (k : Nat) (frame : TokenizerFrame)
    (lu hn : Bool) (S : List Nat) (f : TokenizerFrame) (ty : TokenType) (n : Nat) :
    ((¬ (peek_n (skip s).context 0 = 47 ∧ peek_n (skip s).context 1 = 42) ∧
        ¬ (peek_n (skip s).context 0 = 47 ∧ peek_n (skip s).context 1 = 47) ∧
        ¬ (peek (skip s).context = 32 ∨ peek (skip s).context = 9 ∨
            peek (skip s).context = 10 ∨ peek (skip s).context = 13)) ∧
      ¬ (peek (skip_single_comment_loop (s.context.content_length + 1) s.context) ≠ 13 ∧
        peek (skip_single_comment_loop (s.context.content_length + 1) s.context) ≠ 10 ∧
        peek (skip_single_comment_loop (s.context.content_length + 1) s.context) ≠ 0) ∧
      (((skip_multi_comment_loop frame (s.context.content_length + 1) s).2 = true ∧
          ¬ (peek_n (skip_multi_comment_loop frame (s.context.content_length + 1) s).1.context 0
                ≠ 42 ∨
              peek_n (skip_multi_comment_loop frame (s.context.content_length + 1) s).1.context 1
                ≠ 47)) ∨
        ((skip_multi_comment_loop frame (s.context.content_length + 1) s).2 = false ∧
          (skip_multi_comment_loop frame (s.context.content_length + 1) s).1.error
            = { message := some "unterminated comment", frame := frame } ∧
          s.context.content.length
            ≤ (skip_multi_comment_loop frame (s.context.content_length + 1) s).1.context.offset)) ∧
      is_identifier (peek (tokenize_identifier_loop (s.context.content_length + 1) s.context))
        = false ∧
      (is_number (peek (tokenize_dec_part_loop (s.context.content_length + 1)
          s.context lu hn).1) = false ∧
        peek (tokenize_dec_part_loop (s.context.content_length + 1) s.context lu hn).1 ≠ 95) ∧
      (((tokenize_string_loop (s.context.content_length + 1) s).1 = true ∧
          ¬ (peek (tokenize_string_loop (s.context.content_length + 1) s).2.context ≠ 34)) ∨
        ((tokenize_string_loop (s.context.content_length + 1) s).1 = false ∧
          (tokenize_string_loop (s.context.content_length + 1) s).2.error.message
            = some "string literal is not completed" ∧
          s.context.content.length
            ≤ (tokenize_string_loop (s.context.content_length + 1) s).2.context.offset))) ∧
    (skip_loop (s.context.content_length + 1 + k) s = skip s ∧
      skip_single_comment_loop (s.context.content_length + 1 + k) s.context
        = skip_single_comment_loop (s.context.content_length + 1) s.context ∧
      skip_multi_comment_loop frame (s.context.content_length + 1 + k) s
        = skip_multi_comment_loop frame (s.context.content_length + 1) s ∧
      tokenize_identifier_loop (s.context.content_length + 1 + k) s.context
        = tokenize_identifier_loop (s.context.content_length + 1) s.context ∧
      tokenize_dec_part_loop (s.context.content_length + 1 + k) s.context lu hn
        = tokenize_dec_part_loop (s.context.content_length + 1) s.context lu hn ∧
      tokenize_string_loop (s.context.content_length + 1 + k) s
        = tokenize_string_loop (s.context.content_length + 1) s) ∧
    ((tokenizer_next s).1 = none ∨ ∃ t, (tokenizer_next s).1 = some t ∧ 1 ≤ t.length) ∧
    (token_stream n s).1.length ≤ s.context.content.length - s.context.offset ∧
    ((token_stream (s.context.content.length + 1) s).1.length
        ≤ s.context.content.length - s.context.offset ∧
      (tokenizer_next ((fun x => (tokenizer_next x).2)^[
        (token_stream (s.context.content.length + 1) s).1.length] s)).1 = none) ∧
    ((token_stream (S.length + 1) (initial_state S f ty)).1.length ≤ S.length ∧
      (tokenizer_next ((fun x => (tokenizer_next x).2)^[
        (token_stream (S.length + 1) (initial_state S f ty)).1.length]
          (initial_state S f ty))).1 = none) := by
  have hfuel : s.context.content.length - s.context.offset < s.context.content_length + 1 := by
    unfold TokenizerContext.content_length
    omega
  have hcount : ∀ x : State,
      (token_stream (x.context.content.length + 1) x).1.length
          ≤ x.context.content.length - x.context.offset ∧
        (tokenizer_next ((fun y => (tokenizer_next y).2)^[
          (token_stream (x.context.content.length + 1) x).1.length] x)).1 = none := by
    intro x
    have hlen := token_stream_length (x.context.content.length + 1) x
    exact ⟨hlen, (token_stream_calls _ x).2 (by omega)⟩
  refine ⟨⟨skip_exit s, skip_single_comment_loop_exit s.context, ?_,
    tokenize_identifier_loop_exit s.context,
    tokenize_dec_part_loop_exit _ s.context lu hn hfuel, ?_⟩,
    ⟨skip_loop_stable s k, skip_single_comment_loop_stable s.context k,
    skip_multi_comment_loop_fuel frame k _ s hfuel, tokenize_identifier_loop_stable s.context k,
    tokenize_dec_part_loop_fuel k _ s.context lu hn hfuel,
    tokenize_string_loop_fuel k _ s hfuel⟩, ?_, token_stream_length n s, hcount s, ?_⟩
  · rcases Bool.eq_false_or_eq_true
      (skip_multi_comment_loop frame (s.context.content_length + 1) s).2 with h | h
    · have ht := skip_multi_comment_loop_true frame _ s h
      exact Or.inl ⟨h, fun hc => hc.elim (fun h0 => h0 ht.2.1) (fun h1 => h1 ht.2.2)⟩
    · exact Or.inr ⟨h, skip_multi_comment_loop_false frame _ s h hfuel⟩
  · rcases Bool.eq_false_or_eq_true
      (tokenize_string_loop (s.context.content_length + 1) s).1 with h | h
    · exact Or.inl ⟨h, fun hc => hc ((tokenize_string_loop_facts _ s).2.2.2.1 h)⟩
    · exact Or.inr ⟨h, tokenize_string_loop_false _ s hfuel h⟩
  · cases h : (tokenizer_next s).1 with
    | none => exact Or.inl rfl
    | some t =>
      obtain ⟨-, -, -, -, -, hlen, -⟩ := (tokenizer_next_facts s).2.2.2.2 t h
      exact Or.inr ⟨t, rfl, hlen⟩
  · have h := hcount (initial_state S f ty)
    exact ⟨by simpa [initial_state, tokenizer_init] using h.1, h.2⟩

end CLexer
